import Mathlib

/-!
# Frame materialization and batch compilation of the JIT
(`Jit/frame.cpp`, `Jit/pyjit.cpp`)

A shallow embedding of the lazily materialized Python frame chain, of the
resumption of JIT generators, and of the multithreaded batch compilation.
Pointers are indices into per-type object tables (`none` is the null
pointer), every function takes the machine state explicitly and returns
either an `Abort` (the run does not return) or its result together with the
new state.  The worker threads of the batch compilation take their atomic
actions in the order a schedule gives; the compile backend and the side
effects of preloading are parameters.
-/

namespace jit

/-! ## Data model -/

/-- Ways in which a run ends without returning to its caller. -/
inductive Abort
  /-- `JIT_CHECK(new_frame != nullptr, "failed allocating frame")`. -/
  | failedAllocatingFrame
  /-- `JIT_CHECK(false, "Not a JIT-compiled function!")` in `getCodeRuntime`. -/
  | notJitCompiledFunction
  /-- `JIT_DCHECK(gen->gi_jit_data != nullptr, "Not a JIT generator!")`, or
  the null dereference of `jd->code_rt` where the check is compiled out. -/
  | notJitGenerator
  /-- `JIT_CHECK(false, "Invalid pointer kind %d", kind)`: the pointer is not
  of the kind the tag announces. -/
  | invalidPointerKind
  /-- `JIT_CHECK(false, "stack walk didn't consume entire python stack")`;
  `left` is the logged list of frames that were left over. -/
  | stackWalkNotConsumed (left : List Nat)
  /-- `JIT_CHECK(gen->gi_running, "gen must be running")`. -/
  | genMustBeRunning
  /-- `JIT_CHECK(false, "failed to find frame for gen")`. -/
  | failedToFindFrameForGen
  /-- A null pointer is dereferenced. -/
  | nullDeref
  /-- A pointer that designates no object is dereferenced. -/
  | invalidPointer
  /-- The walk along `prev` revisits a shadow frame: the loop never ends. -/
  | diverges
  /-- `JIT_DCHECK(gen_footer->state == _PyJitGenState_JustStarted ||
  gen_footer->state == _PyJitGenState_Running, "Invalid JIT generator state")`. -/
  | invalidJitGeneratorState
  /-- `JIT_DCHECK(arg == Py_None, "Arg should be None when injecting an
  exception")`. -/
  | argShouldBeNone
  /-- `JIT_DCHECK(gen_footer->yieldPoint != nullptr, "Attempting to resume a
  generator with no yield point")`. -/
  | noYieldPoint
  /-- `JIT_CHECK(jit_ctx, "JIT not initialized")`. -/
  | jitNotInitialized
  /-- `JIT_CHECK(PyCode_Check(unit), "Expected function or code object")`. -/
  | expectedFunctionOrCode
  /-- `JIT_CHECK(jit_config.batch_compile_workers, "Zero workers for
  compile")`. -/
  | zeroWorkers
  /-- The strict lookup `map_get` finds no entry for its key. -/
  | mapGetMissingKey
  /-- `JIT_DCHECK(gen_footer, "Generator missing JIT data")`. -/
  | generatorMissingJitData
  /-- `JIT_CHECK(!g_threaded_compile_context.compileRunning(), "Not intended
  for using during threaded compilation")`. -/
  | notIntendedDuringThreadedCompilation
  deriving DecidableEq, Repr

/-- `jit::CodeRuntime`, as far as frame creation reads it: `GetCode()` and
`GetGlobals()`. -/
structure CodeRuntime where
  code : Nat
  globals : Nat
  deriving DecidableEq, Repr

/-- `_PyJitGenState`, the states of a JIT generator that `pyjit.cpp` names. -/
inductive _PyJitGenState
  | _PyJitGenState_JustStarted
  | _PyJitGenState_Running
  | _PyJitGenState_Completed
  deriving DecidableEq, Repr

/-- `GenDataFooter`, as far as `getCodeRuntime` and `_PyJIT_GenSend` read or
write it: the code runtime, the generator state, the current yield point
(null when there is none) and the address of the resume entry. -/
structure GenDataFooter where
  code_rt : CodeRuntime
  state : _PyJitGenState := ._PyJitGenState_Running
  yieldPoint : Option Nat := none
  resumeEntry : Nat := 0
  deriving DecidableEq, Repr

/-- The kinds `_PyShadowFrame_PtrKind` that `getCodeRuntime` distinguishes. -/
inductive _PyShadowFrame_PtrKind
  | PYSF_CODE_RT
  | PYSF_CODE_OBJ
  | PYSF_GEN
  deriving DecidableEq, Repr

/-- The pointer half of a shadow frame's tagged `data` word, decoded by its
kind: a `CodeRuntime` (read only, so held by value), a code object, or a
generator. -/
inductive ShadowPtr
  | codeRt (rt : CodeRuntime)
  | codeObj (code : Nat)
  | gen (gen : Nat)
  deriving DecidableEq, Repr

/-- Modelled from the spec: `_PyShadowFrame` is declared in
`internal/pycore_shadow_frame.h`, which is not among the sources.  It holds
the link to the caller's shadow frame and the tagged `data` word, here decoded
into the spec's `payload` with its `payloadKind` (`ptr`) and the bit
`hasMaterialized` (`hasPyFrame`).  `retAddr` is the word
`JITFrame{shadow_frame}.base[kRetAddrIdx]`, which lies at a fixed offset
behind the shadow frame in the activation's machine frame. -/
structure _PyShadowFrame where
  prev : Option Nat
  ptr : ShadowPtr
  hasPyFrame : Bool
  retAddr : Nat
  deriving DecidableEq, Repr

/-- `PyFrameObject`, the fields the materializer or `_PyJIT_GenSend` reads or
writes.  `stacktop` is the word `*(f_stacktop)`, the first empty slot of the
value stack; `f_lasti` is -1 in a frame that has not run. -/
structure PyFrameObject where
  ob_refcnt : Nat
  f_back : Option Nat
  f_code : Nat
  f_globals : Nat
  f_gen : Option Nat
  f_executing : Nat
  stacktop : Nat
  f_lasti : Int := -1
  deriving DecidableEq, Repr

/-- `PyGenObject`. -/
structure PyGenObject where
  gi_running : Bool
  gi_frame : Option Nat
  gi_jit_data : Option GenDataFooter
  deriving DecidableEq, Repr

/-- `PyThreadState`: the current frame and the top of the shadow stack. -/
structure PyThreadState where
  frame : Option Nat
  shadow_frame : Option Nat
  deriving DecidableEq, Repr

/-- The machine state: the object tables, the thread state and the address of
the shared unlink trampoline
(`NativeGeneratorFactory::pyFrameUnlinkTrampoline()`). -/
structure State where
  frames : List PyFrameObject
  gens : List PyGenObject
  shadows : List _PyShadowFrame
  tstate : PyThreadState
  pyFrameUnlinkTrampoline : Nat
  deriving DecidableEq, Repr

/-- `JITFrame`: `base` designates the machine frame that lies behind the
shadow frame of that index (`base = shadow_frame + sizeof(_PyShadowFrame)`). -/
structure JITFrame where
  base : Nat
  deriving DecidableEq, Repr

/-! ## Memory access -/

/-- Dereference of a frame pointer. -/
def State.frameAt (st : State) (p : Nat) : Except Abort PyFrameObject :=
  match st.frames[p]? with
  | some f => .ok f
  | none => .error .invalidPointer

/-- Dereference of a generator pointer. -/
def State.genAt (st : State) (p : Nat) : Except Abort PyGenObject :=
  match st.gens[p]? with
  | some g => .ok g
  | none => .error .invalidPointer

/-- Dereference of a shadow frame pointer. -/
def State.shadowAt (st : State) (p : Nat) : Except Abort _PyShadowFrame :=
  match st.shadows[p]? with
  | some s => .ok s
  | none => .error .invalidPointer

/-- Store to a frame object. -/
def State.setFrame (st : State) (p : Nat) (f : PyFrameObject) : State :=
  { st with frames := st.frames.set p f }

/-- Store to a generator object. -/
def State.setGen (st : State) (p : Nat) (g : PyGenObject) : State :=
  { st with gens := st.gens.set p g }

/-- Store to a shadow frame. -/
def State.setShadow (st : State) (p : Nat) (s : _PyShadowFrame) : State :=
  { st with shadows := st.shadows.set p s }

/-- A possibly null frame pointer that is about to be dereferenced. -/
def derefNonNull (p : Option Nat) : Except Abort Nat :=
  match p with
  | some q => .ok q
  | none => .error .nullDeref

/-- `Py_INCREF` on a frame. -/
def Py_INCREF (st : State) (p : Nat) : Except Abort State := do
  let f ← st.frameAt p
  pure (st.setFrame p { f with ob_refcnt := f.ob_refcnt + 1 })

/-- `Py_XINCREF` on a frame pointer. -/
def Py_XINCREF (st : State) (p : Option Nat) : Except Abort State :=
  match p with
  | none => pure st
  | some q => Py_INCREF st q

/-- `Py_DECREF` on a frame.  Deallocation at count zero is not modelled: the
one use, in `createPyFrame`, gives back the count `PyFrame_New` had taken. -/
def Py_DECREF (st : State) (p : Nat) : Except Abort State := do
  let f ← st.frameAt p
  pure (st.setFrame p { f with ob_refcnt := f.ob_refcnt - 1 })

/-! ## Shadow frame accessors (`internal/pycore_shadow_frame.h`) -/

/-- Modelled from the spec: `_PyShadowFrame_HasPyFrame`, of the header that
is not part of the sources, reads the `hasMaterialized` bit of the shadow
frame. -/
def _PyShadowFrame_HasPyFrame (st : State) (shadow_frame : Nat) : Except Abort Bool := do
  let s ← st.shadowAt shadow_frame
  pure s.hasPyFrame

/-- Modelled from the spec: `_PyShadowFrame_SetHasPyFrame` sets the
`hasMaterialized` bit of the shadow frame. -/
def _PyShadowFrame_SetHasPyFrame (st : State) (shadow_frame : Nat) : Except Abort State := do
  let s ← st.shadowAt shadow_frame
  pure (st.setShadow shadow_frame { s with hasPyFrame := true })

/-- Modelled from the spec: `_PyShadowFrame_GetPtrKind` reads the
`payloadKind` of the shadow frame. -/
def _PyShadowFrame_GetPtrKind (st : State) (shadow_frame : Nat) :
    Except Abort _PyShadowFrame_PtrKind := do
  let s ← st.shadowAt shadow_frame
  match s.ptr with
  | .codeRt _ => pure .PYSF_CODE_RT
  | .codeObj _ => pure .PYSF_CODE_OBJ
  | .gen _ => pure .PYSF_GEN

/-- Modelled from the spec: `_PyShadowFrame_GetPtr` reads the `payload` of
the shadow frame. -/
def _PyShadowFrame_GetPtr (st : State) (shadow_frame : Nat) : Except Abort ShadowPtr := do
  let s ← st.shadowAt shadow_frame
  pure s.ptr

/-- Modelled from the spec: `_PyShadowFrame_GetGen` reads the payload of a
shadow frame of kind `PYSF_GEN` as a generator. -/
def _PyShadowFrame_GetGen (st : State) (shadow_frame : Nat) : Except Abort Nat := do
  let s ← st.shadowAt shadow_frame
  match s.ptr with
  | .gen gen => pure gen
  | _ => throw .invalidPointer

/-! ## `JITFrame` -/

/-- `JITFrame(_PyShadowFrame* shadow_frame)`. -/
def JITFrame.ofShadowFrame (shadow_frame : Nat) : JITFrame := ⟨shadow_frame⟩

/-- `JITFrame::retAddr`. -/
def JITFrame.retAddr (jf : JITFrame) (st : State) : Except Abort Nat := do
  let s ← st.shadowAt jf.base
  pure s.retAddr

/-- `JITFrame::setRetAddr`. -/
def JITFrame.setRetAddr (jf : JITFrame) (st : State) (addr : Nat) : Except Abort State := do
  let s ← st.shadowAt jf.base
  pure (st.setShadow jf.base { s with retAddr := addr })

/-- `JITFrame::insertPyFrameUnlinkTrampoline`. -/
def JITFrame.insertPyFrameUnlinkTrampoline (jf : JITFrame) (st : State) (frame : Nat) :
    Except Abort State := do
  let trampoline := st.pyFrameUnlinkTrampoline
  let orig_retaddr ← jf.retAddr st
  let f ← st.frameAt frame
  let st := st.setFrame frame { f with stacktop := orig_retaddr }
  jf.setRetAddr st trampoline

/-- `JITFrame::removePyFrameUnlinkTrampoline`; `frame` may be null. -/
def JITFrame.removePyFrameUnlinkTrampoline (jf : JITFrame) (st : State) (frame : Option Nat) :
    Except Abort State := do
  let trampoline := st.pyFrameUnlinkTrampoline
  if (← jf.retAddr st) ≠ trampoline then
    pure st
  else
    let fp ← derefNonNull frame
    let f ← st.frameAt fp
    jf.setRetAddr st f.stacktop

/-! ## Frame creation -/

/-- `getCodeRuntime`. -/
def getCodeRuntime (st : State) (shadow_frame : Nat) : Except Abort CodeRuntime := do
  let kind ← _PyShadowFrame_GetPtrKind st shadow_frame
  let ptr ← _PyShadowFrame_GetPtr st shadow_frame
  match kind, ptr with
  | .PYSF_CODE_RT, .codeRt rt => pure rt
  | .PYSF_CODE_OBJ, _ => throw .notJitCompiledFunction
  | .PYSF_GEN, .gen gen =>
    let g ← st.genAt gen
    match g.gi_jit_data with
    | none => throw .notJitGenerator
    | some jd => pure jd.code_rt
  | _, _ => throw .invalidPointerKind

/-- Modelled from the spec: `PyFrame_New` is the host's frame allocator and
not part of the sources.  It allocates a fresh frame for the code and
globals with one reference and, as the comment in `createPyFrame` records,
links it into the thread stack: its `f_back` is a new reference to
`tstate->frame`.  Allocation always succeeds here, so the result is never
null. -/
def PyFrame_New (st : State) (code globals : Nat) : Except Abort (Option Nat × State) := do
  let back := st.tstate.frame
  let st ← Py_XINCREF st back
  let new_frame := st.frames.length
  let f : PyFrameObject :=
    { ob_refcnt := 1, f_back := back, f_code := code, f_globals := globals,
      f_gen := none, f_executing := 0, stacktop := 0 }
  pure (some new_frame, { st with frames := st.frames ++ [f] })

/-- `createPyFrame`. -/
def createPyFrame (st : State) (code_rt : CodeRuntime) : Except Abort (Nat × State) := do
  let (r, st) ← PyFrame_New st code_rt.code code_rt.globals
  match r with
  | none => throw .failedAllocatingFrame
  | some new_frame =>
    -- Py_CLEAR(new_frame->f_back)
    let f ← st.frameAt new_frame
    let st := st.setFrame new_frame { f with f_back := none }
    let st ← (match f.f_back with
      | none => pure st
      | some b => Py_DECREF st b)
    let f ← st.frameAt new_frame
    let st := st.setFrame new_frame { f with f_executing := 1 }
    pure (new_frame, st)

/-- `materializePyFrame`; `prev` may be null and so may the result. -/
def materializePyFrame (st : State) (prev : Option Nat) (shadow_frame : Nat) :
    Except Abort (Option Nat × State) := do
  if (← _PyShadowFrame_HasPyFrame st shadow_frame) then
    match prev with
    | none => pure (st.tstate.frame, st)
    | some p =>
      let pf ← st.frameAt p
      pure (pf.f_back, st)
  else
    let code_rt ← getCodeRuntime st shadow_frame
    let (frame, st) ← createPyFrame st code_rt
    let st ← (match prev with
      | some p => do
        let pf ← st.frameAt p
        let f ← st.frameAt frame
        let st := st.setFrame frame { f with f_back := pf.f_back }
        let st ← Py_INCREF st frame
        let pf ← st.frameAt p
        pure (st.setFrame p { pf with f_back := some frame })
      | none => do
        let st ← Py_XINCREF st st.tstate.frame
        let f ← st.frameAt frame
        let st := st.setFrame frame { f with f_back := st.tstate.frame }
        pure { st with tstate := { st.tstate with frame := some frame } })
    let st ← (do
      if (← _PyShadowFrame_GetPtrKind st shadow_frame) = .PYSF_GEN then
        let gen ← _PyShadowFrame_GetGen st shadow_frame
        let f ← st.frameAt frame
        let st := st.setFrame frame { f with f_gen := some gen }
        let g ← st.genAt gen
        let st := st.setGen gen { g with gi_frame := some frame }
        Py_INCREF st frame
      else
        (JITFrame.ofShadowFrame shadow_frame).insertPyFrameUnlinkTrampoline st frame)
    let st ← _PyShadowFrame_SetHasPyFrame st shadow_frame
    pure (some frame, st)

/-! ## The entry points -/

/-- `materializePyFrameForDeopt`. -/
def materializePyFrameForDeopt (st : State) (base : Nat) : Except Abort (Option Nat × State) := do
  let jf : JITFrame := ⟨base⟩
  let shadow_frame ← derefNonNull st.tstate.shadow_frame
  let (py_frame, st) ← materializePyFrame st none shadow_frame
  let st ← jf.removePyFrameUnlinkTrampoline st py_frame
  pure (py_frame, st)

/-- The `while (shadow_frame)` loop of `materializeShadowCallStack`; the
result is the final `py_frame`.  One unit of fuel is spent per test of the
loop condition. -/
def materializeShadowCallStack.walk :
    Nat → State → Option Nat → Option Nat → Option Nat → Except Abort (Option Nat × State)
  | 0, _, _, _, _ => throw .diverges
  | _ + 1, st, py_frame, _, none => pure (py_frame, st)
  | fuel + 1, st, py_frame, prev_py_frame, some shadow_frame => do
    if (← _PyShadowFrame_HasPyFrame st shadow_frame) then
      let p ← derefNonNull py_frame
      let pf ← st.frameAt p
      let s ← st.shadowAt shadow_frame
      materializeShadowCallStack.walk fuel st pf.f_back (some p) s.prev
    else
      let (r, st) ← materializePyFrame st prev_py_frame shadow_frame
      let s ← st.shadowAt shadow_frame
      materializeShadowCallStack.walk fuel st py_frame r s.prev

/-- The diagnostic loop of `materializeShadowCallStack`: the frames that are
logged, `seen` being the set of frames logged so far. -/
def materializeShadowCallStack.leftOver :
    Nat → State → List Nat → Option Nat → Except Abort (List Nat)
  | 0, _, seen, _ => pure seen.reverse
  | _ + 1, _, seen, none => pure seen.reverse
  | fuel + 1, st, seen, some left =>
    if left ∈ seen then
      pure seen.reverse
    else do
      let f ← st.frameAt left
      materializeShadowCallStack.leftOver fuel st (left :: seen) f.f_back

/-- `materializeShadowCallStack`.  A walk of more steps than there are shadow
frames has come back to one of them and goes on for ever, so the walk gets
that much fuel. -/
def materializeShadowCallStack (st : State) : Except Abort (Option Nat × State) := do
  let (py_frame, st) ←
    materializeShadowCallStack.walk (st.shadows.length + 1) st st.tstate.frame none
      st.tstate.shadow_frame
  match py_frame with
  | some left =>
    let log ← materializeShadowCallStack.leftOver (st.frames.length + 1) st [] (some left)
    throw (.stackWalkNotConsumed log)
  | none => pure (st.tstate.frame, st)

/-- The `while (shadow_frame)` loop of `materializePyFrameForGen`, with the
`JIT_CHECK` that follows it. -/
def materializePyFrameForGen.walk (gen : Nat) :
    Nat → State → Option Nat → Option Nat → Option Nat → Except Abort (Option Nat × State)
  | 0, _, _, _, _ => throw .diverges
  | _ + 1, _, _, _, none => throw .failedToFindFrameForGen
  | fuel + 1, st, py_frame, prev_py_frame, some shadow_frame => do
    if (← _PyShadowFrame_HasPyFrame st shadow_frame) then
      let p ← derefNonNull py_frame
      let pf ← st.frameAt p
      if pf.f_gen = some gen then
        pure (some p, st)
      else
        let s ← st.shadowAt shadow_frame
        materializePyFrameForGen.walk gen fuel st pf.f_back (some p) s.prev
    else if (← _PyShadowFrame_GetPtrKind st shadow_frame) = .PYSF_GEN then
      let cur_gen ← _PyShadowFrame_GetGen st shadow_frame
      if cur_gen = gen then
        materializePyFrame st prev_py_frame shadow_frame
      else
        let s ← st.shadowAt shadow_frame
        materializePyFrameForGen.walk gen fuel st py_frame prev_py_frame s.prev
    else
      let s ← st.shadowAt shadow_frame
      materializePyFrameForGen.walk gen fuel st py_frame prev_py_frame s.prev

/-- `materializePyFrameForGen`. -/
def materializePyFrameForGen (st : State) (gen : Nat) : Except Abort (Option Nat × State) := do
  let g ← st.genAt gen
  if !g.gi_running then
    throw .genMustBeRunning
  match g.gi_frame with
  | some f => pure (some f, st)
  | none =>
    materializePyFrameForGen.walk gen (st.shadows.length + 1) st st.tstate.frame none
      st.tstate.shadow_frame

/-! ## Generator resumption (`Jit/pyjit.cpp`) -/

/-- What `_PyJIT_GenSend` takes from its surroundings: the address of the
object `Py_None`, and the generated code behind a resume entry.
`resumeEntry e st gen arg finish_yield_from` is the outcome of the call
`gen_footer->resumeEntry((PyObject*)gen, arg, tstate, finish_yield_from)`
through the entry address `e` in state `st`: the result (null when the
generator finished or raised) and the state the generated code leaves. -/
structure GenEnv where
  Py_None : Nat
  resumeEntry : Nat → State → Nat → Option Nat → Int → Option Nat × State

/-- Modelled from the spec: the macro `JIT_DCHECK` is defined in `Jit/log.h`,
which is not among the sources.  A violated precondition is a failure of the
caller and no recoverable condition: the check ends the run, before anything
that follows it, with the state as it is.  This is the macro in a build with
debug checks; `JIT_DCHECK.inBuild` is the macro in either build. -/
def JIT_DCHECK (cond : Bool) (msg : Abort) (st : State) : Except (Abort × State) Unit :=
  if cond then pure () else throw (msg, st)

/-- The footer `gen->gi_jit_data` points to. -/
def State.footerAt (st : State) (gen : Nat) : Except (Abort × State) GenDataFooter :=
  match st.gens[gen]? with
  | none => throw (.invalidPointer, st)
  | some g =>
    match g.gi_jit_data with
    | none => throw (.nullDeref, st)
    | some gen_footer => pure gen_footer

/-- The write `gen_footer->state = state`. -/
def State.setFooterState (st : State) (gen : Nat) (state : _PyJitGenState) : State :=
  match st.gens[gen]? with
  | none => st
  | some g => st.setGen gen
      { g with gi_jit_data := g.gi_jit_data.map fun gen_footer => { gen_footer with state := state } }

/-- An access to a frame in a run that reports the state it aborts in. -/
def withState {α} (st : State) (x : Except Abort α) : Except (Abort × State) α :=
  match x with
  | .ok a => .ok a
  | .error e => .error (e, st)

/-- `std::numeric_limits<int>::max()`. -/
def INT_MAX : Int := 2147483647

/-- `_PyJIT_GenSend`; `tstate` is the thread state of `st`, `arg` and `f` may
be null. -/
def _PyJIT_GenSend (env : GenEnv) (st : State) (gen : Nat) (arg : Option Nat) (exc : Int)
    (f : Option Nat) (finish_yield_from : Int) : Except (Abort × State) (Option Nat × State) := do
  let gen_footer ← st.footerAt gen
  -- state should be valid and the generator should not be completed
  JIT_DCHECK
    (gen_footer.state = ._PyJitGenState_JustStarted ∨ gen_footer.state = ._PyJitGenState_Running)
    .invalidJitGeneratorState st
  let st := st.setFooterState gen ._PyJitGenState_Running
  -- JIT generators use NULL arg to indicate an exception
  let arg ← (do
    if exc ≠ 0 then
      JIT_DCHECK (arg = some env.Py_None) .argShouldBeNone st
      pure none
    else if arg = none then pure (some env.Py_None)
    else pure arg)
  let st ← (match f with
    | some fp => do
      let st := { st with tstate := { st.tstate with frame := some fp } }
      let fo ← withState st (st.frameAt fp)
      let st := st.setFrame fp { fo with f_executing := 1 }
      let st ← withState st (Py_INCREF st fp)
      let fo ← withState st (st.frameAt fp)
      pure (st.setFrame fp { fo with f_lasti := INT_MAX })
    | none => pure st)
  -- Enter generated code.
  let gen_footer ← st.footerAt gen
  JIT_DCHECK (gen_footer.yieldPoint ≠ none) .noYieldPoint st
  let (result, st) := env.resumeEntry gen_footer.resumeEntry st gen arg finish_yield_from
  if result = none ∧ ((st.gens[gen]?).bind (·.gi_jit_data)).isSome then
    -- Generator jit data (gen_footer) will be freed if the generator deopts
    pure (result, st.setFooterState gen ._PyJitGenState_Completed)
  else
    pure (result, st)

/-- A compilation unit, `BorrowedRef<>`: an object by identity.  Of a unit,
`PyFunction_Check` and `PyCode_Check` tell whether it is a function object, a
code object, or neither. -/
inductive PyUnit
  | func (f : Nat)
  | code (c : Nat)
  | object (o : Nat)
  deriving DecidableEq, Repr

/-- Modelled from the spec: the enumeration `_PyJIT_Result` is declared in
`Jit/pyjit.h`, which is not among the sources.  These are the results the
spec gives the compile backend (`Ok`, `Retry`, `CannotSpecialize`), the value
`PYJIT_NOT_INITIALIZED` that `pyjit.cpp` names as well, and one value for
every other error. -/
inductive _PyJIT_Result
  | PYJIT_RESULT_OK
  | PYJIT_RESULT_CANNOT_SPECIALIZE
  | PYJIT_RESULT_RETRY
  | PYJIT_NOT_INITIALIZED
  | PYJIT_RESULT_UNKNOWN_ERROR
  deriving DecidableEq, Repr

/-- `CodeData`: the module and the globals needed to compile a code object. -/
structure CodeData where
  module : Nat
  globals : Nat
  deriving DecidableEq, Repr

/-- Modelled from the spec: `hir::Preloader` is not among the sources.  It is
the preloaded metadata of one unit; here it records the arguments it was
constructed from: a function, or a code object with its globals and the
module that `codeFullname` forms its name with. -/
inductive Preloader
  | ofFunction (func : Nat)
  | ofCode (code globals module : Nat)
  deriving DecidableEq, Repr

/-- Modelled from the spec: `ThreadedCompileContext` is declared in
`Jit/threaded_compile.h`, which is not among the sources.  It holds the
shared queue of units that the workers pop from, the shared retry list, and
whether a batch run is in flight. -/
structure ThreadedCompileContext where
  compile_running : Bool
  work_queue : List PyUnit
  retry_list : List PyUnit
  deriving DecidableEq, Repr

/-- One call of the compile backend, as the run records it: the thread that
made it (`none` is the thread that called `multithread_compile_all`,
`some tid` the worker thread `tid`), the unit, and the result. -/
structure Attempt where
  thread : Option Nat
  unit : PyUnit
  result : _PyJIT_Result
  deriving DecidableEq, Repr

/-- The process-wide state of `pyjit.cpp` that batch compilation reads or
writes.  `jit_ctx` tells whether the pointer `jit_ctx` is non-null.  An
`std::unordered_set` is a list without duplicates and an
`std::unordered_map` a list of entries with distinct keys; their iteration
order is the order of the list.  The counters `g_compile_workers_attempted`
and `g_compile_workers_retries` are `int`s; they are natural numbers here,
which is exact as long as fewer than 2^31 attempts have been counted.
`batch_compile_workers`, `multithreaded_compile_test`, `is_enabled` and
`are_type_slots_enabled` are the fields of `jit_config`.  `compile_log`,
`preload_log` and `register_log` are ghost fields: the calls of the compile
backend, the units a preloader was constructed for, and the units that
registrations entered into the pending set, in the order they happened. -/
structure JitState where
  jit_ctx : Bool
  jit_reg_units : List PyUnit
  jit_code_data : List (Nat × CodeData)
  jit_preloaders : List (PyUnit × Preloader)
  g_threaded_compile_context : ThreadedCompileContext
  g_compile_workers_attempted : Nat
  g_compile_workers_retries : Nat
  _PyGILState_check_enabled : Int
  batch_compile_workers : Nat
  multithreaded_compile_test : Int
  is_enabled : Int
  are_type_slots_enabled : Int
  compile_log : List Attempt
  preload_log : List PyUnit
  register_log : List PyUnit
  deriving DecidableEq, Repr

/-- What one registration enters into the registries: `_PyJIT_RegisterFunction`
enters a function into `jit_reg_units`, and a nested code object into
`jit_reg_units` together with its data into `jit_code_data`. -/
inductive Registration
  | func (f : Nat)
  | code (c : Nat) (data : CodeData)
  deriving DecidableEq, Repr

/-- The collaborators of batch compilation that are not among the sources.

Modelled from the spec: the compile backend is opaque,
`compile(unit, preloadedMetadata) -> result`, and may behave differently on
every call.  `compilePreloader log thread unit preloader` is the result of
`_PyJITContext_CompilePreloader(jit_ctx, preloader)` when called for `unit`
on `thread` after the calls `log`; `compileFunction` and `compileCode` are
`_PyJITContext_CompileFunction` and `_PyJITContext_CompileCode`.

Modelled from the spec: units may be discovered during preload.
`preloadRegisters drained unit` lists the registrations that happen while
the preloader of `unit` is constructed, when `drained` are the units taken
out of the pending set so far (`unit` among them). -/
structure CompileEnv where
  compilePreloader : List Attempt → Option Nat → PyUnit → Preloader → _PyJIT_Result
  compileFunction : List Attempt → Nat → _PyJIT_Result
  compileCode : List Attempt → Nat → Nat → Nat → _PyJIT_Result
  preloadRegisters : List PyUnit → PyUnit → List Registration

/-- `std::unordered_set::emplace`. -/
def unordered_set_emplace {α} [DecidableEq α] (s : List α) (a : α) : List α :=
  if a ∈ s then s else s ++ [a]

/-- `std::unordered_map::find`; `none` is `end()`. -/
def unordered_map_find {κ β} [DecidableEq κ] : List (κ × β) → κ → Option β
  | [], _ => none
  | (k', v) :: m, k => if k' = k then some v else unordered_map_find m k

/-- `std::unordered_map::emplace`: no effect when the key has an entry. -/
def unordered_map_emplace {κ β} [DecidableEq κ] (m : List (κ × β)) (k : κ) (v : β) :
    List (κ × β) :=
  if (unordered_map_find m k).isSome then m else m ++ [(k, v)]

/-- Modelled from the spec: `map_get` is defined in `Jit/util.h`, which is
not among the sources.  It is the strict lookup: a key without entry ends the
run. -/
def map_get {κ β} [DecidableEq κ] (m : List (κ × β)) (k : κ) (js : JitState) :
    Except (Abort × JitState) β :=
  match unordered_map_find m k with
  | none => throw (.mapGetMissingKey, js)
  | some v => pure v

/-- Modelled from the spec: `ThreadedCompileContext::startCompile` takes the
units to compile as the shared queue and marks the batch run as in flight. -/
def ThreadedCompileContext.startCompile (ctx : ThreadedCompileContext)
    (work_queue : List PyUnit) : ThreadedCompileContext :=
  { ctx with compile_running := true, work_queue := work_queue }

/-- Modelled from the spec: `ThreadedCompileContext::nextUnit` pops a unit
from the shared queue; the result is null when the queue is empty. -/
def ThreadedCompileContext.nextUnit (ctx : ThreadedCompileContext) :
    Option PyUnit × ThreadedCompileContext :=
  match ctx.work_queue with
  | [] => (none, ctx)
  | unit :: work_queue => (some unit, { ctx with work_queue := work_queue })

/-- Modelled from the spec: `ThreadedCompileContext::retryUnit` pushes the
unit onto the shared retry list. -/
def ThreadedCompileContext.retryUnit (ctx : ThreadedCompileContext) (unit : PyUnit) :
    ThreadedCompileContext :=
  { ctx with retry_list := ctx.retry_list ++ [unit] }

/-- Modelled from the spec: `ThreadedCompileContext::endCompile` ends the
batch run and hands out the retry list, which it moves out of the context. -/
def ThreadedCompileContext.endCompile (ctx : ThreadedCompileContext) :
    List PyUnit × ThreadedCompileContext :=
  (ctx.retry_list, { ctx with compile_running := false, retry_list := [] })

/-- Modelled from the spec: `ThreadedCompileContext::compileRunning`. -/
def ThreadedCompileContext.compileRunning (ctx : ThreadedCompileContext) : Bool :=
  ctx.compile_running

/-- The unit a registration enters into the pending set. -/
def Registration.unit : Registration → PyUnit
  | .func f => .func f
  | .code c _ => .code c

/-- The effect of one registration on the registries. -/
def JitState.register (js : JitState) : Registration → JitState
  | .func f =>
    { js with jit_reg_units := unordered_set_emplace js.jit_reg_units (.func f),
              register_log := js.register_log ++ [.func f] }
  | .code c data =>
    { js with jit_reg_units := unordered_set_emplace js.jit_reg_units (.code c),
              jit_code_data := unordered_map_emplace js.jit_code_data c data,
              register_log := js.register_log ++ [.code c] }

/-- `compileUnit`. -/
def compileUnit (env : CompileEnv) (js : JitState) (unit : PyUnit) :
    Except (Abort × JitState) (_PyJIT_Result × JitState) :=
  match unit with
  | .func func =>
    let result := env.compileFunction js.compile_log func
    pure (result, { js with compile_log := js.compile_log ++ [⟨none, unit, result⟩] })
  | .code code => do
    let data ← map_get js.jit_code_data code js
    let result := env.compileCode js.compile_log data.module code data.globals
    pure (result, { js with compile_log := js.compile_log ++ [⟨none, unit, result⟩] })
  | .object _ => throw (.expectedFunctionOrCode, js)

/-- `compilePreloaded`, called on `thread`. -/
def compilePreloaded (env : CompileEnv) (thread : Option Nat) (js : JitState) (unit : PyUnit) :
    Except (Abort × JitState) (_PyJIT_Result × JitState) := do
  let preloader ← map_get js.jit_preloaders unit js
  let result := env.compilePreloader js.compile_log thread unit preloader
  pure (result, { js with compile_log := js.compile_log ++ [⟨thread, unit, result⟩] })

/-- Where a worker thread stands in `compile_worker_thread`, named by the
action it takes next: the call of `nextUnit` in the loop test, the increment
of `g_compile_workers_attempted`, the call of `compilePreloaded`, the block
under the lock `ThreadedCompileSerialize` that counts the retry and pushes
the unit; or the thread has left the loop. -/
inductive WorkerPc
  | nextUnit
  | countAttempt (unit : PyUnit)
  | compile (unit : PyUnit)
  | retry (unit : PyUnit)
  | finished
  deriving DecidableEq, Repr

/-- One atomic action of the worker thread `tid` in `compile_worker_thread`. -/
def compile_worker_thread.step (env : CompileEnv) (tid : Nat) (js : JitState) :
    WorkerPc → Except (Abort × JitState) (JitState × WorkerPc)
  | .nextUnit =>
    match js.g_threaded_compile_context.nextUnit with
    | (none, ctx) => pure ({ js with g_threaded_compile_context := ctx }, .finished)
    | (some unit, ctx) => pure ({ js with g_threaded_compile_context := ctx }, .countAttempt unit)
  | .countAttempt unit =>
    pure ({ js with g_compile_workers_attempted := js.g_compile_workers_attempted + 1 },
      .compile unit)
  | .compile unit => do
    let (result, js) ← compilePreloaded env (some tid) js unit
    if result = .PYJIT_RESULT_RETRY then pure (js, .retry unit) else pure (js, .nextUnit)
  | .retry unit =>
    pure ({ js with g_compile_workers_retries := js.g_compile_workers_retries + 1,
                    g_threaded_compile_context := js.g_threaded_compile_context.retryUnit unit },
      .nextUnit)
  | .finished => pure (js, .finished)

/-- The worker thread `tid` of the pool takes its next action; a thread that
does not exist takes none. -/
def stepWorker (env : CompileEnv) (tid : Nat) (s : JitState × List WorkerPc) :
    Except (Abort × JitState) (JitState × List WorkerPc) :=
  match s.2[tid]? with
  | none => pure s
  | some pc => do
    let (js, pc) ← compile_worker_thread.step env tid s.1 pc
    pure (js, s.2.set tid pc)

/-- The worker threads run interleaved: `schedule` names, action by action,
the thread that acts next. -/
def runSchedule (env : CompileEnv) :
    List Nat → JitState × List WorkerPc → Except (Abort × JitState) (JitState × List WorkerPc)
  | [], s => pure s
  | tid :: schedule, s => do
    let s ← stepWorker env tid s
    runSchedule env schedule s

/-- Whether the worker thread `tid` of the pool is still in its loop. -/
def running (s : JitState × List WorkerPc) (tid : Nat) : Bool :=
  match s.2[tid]? with
  | none => false
  | some .finished => false
  | some _ => true

/-- `worker_thread.join()`: the caller waits until the worker thread `tid`
has left its loop.  One unit of fuel is spent per action of the thread. -/
def join (env : CompileEnv) (tid : Nat) :
    Nat → JitState × List WorkerPc → Except (Abort × JitState) (JitState × List WorkerPc)
  | 0, s => if running s tid then throw (.diverges, s.1) else pure s
  | fuel + 1, s =>
    if running s tid then do
      let s ← stepWorker env tid s
      join env tid fuel s
    else
      pure s

/-- The loop `for (std::thread& worker_thread : worker_threads)
worker_thread.join()`.  A thread takes at most four actions per unit left in
the queue and four more. -/
def joinAll (env : CompileEnv) :
    List Nat → JitState × List WorkerPc → Except (Abort × JitState) (JitState × List WorkerPc)
  | [], s => pure s
  | tid :: tids, s => do
    let s ← join env tid (4 * s.1.g_threaded_compile_context.work_queue.length + 4) s
    joinAll env tids s

/-- The compile phase of `multithread_compile_all`: the worker threads are
created, run `compile_worker_thread` interleaved as `schedule` tells, and are
joined. -/
def multithread_compile_all.workers (env : CompileEnv) (schedule : List Nat) (js : JitState) :
    Except (Abort × JitState) (JitState × List WorkerPc) := do
  let worker_threads := List.replicate js.batch_compile_workers WorkerPc.nextUnit
  let s ← runSchedule env schedule (js, worker_threads)
  joinAll env (List.range js.batch_compile_workers) s

/-- Modelled from the spec: what the construction of the preloader of `unit`
does to the state.  The registrations that happen meanwhile are entered into
the registries; the ghost field `preload_log` records the construction. -/
def constructPreloader (env : CompileEnv) (drained : List PyUnit) (unit : PyUnit)
    (js : JitState) : JitState :=
  (env.preloadRegisters drained unit).foldl JitState.register
    { js with preload_log := js.preload_log ++ [unit] }

/-- The body of the loop `for (auto unit : preload_units)` of
`multithread_compile_all` after the `push_back`: the preloader of `unit` is
constructed and entered into `jit_preloaders`.  `drained` are the units taken
out of the pending set so far. -/
def multithread_compile_all.preloadUnit (env : CompileEnv) (drained : List PyUnit)
    (unit : PyUnit) (js : JitState) : Except (Abort × JitState) JitState :=
  match unit with
  | .func func =>
    let js := constructPreloader env drained unit js
    pure { js with jit_preloaders :=
      unordered_map_emplace js.jit_preloaders unit (.ofFunction func) }
  | .code code => do
    let data ← map_get js.jit_code_data code js
    let js := constructPreloader env drained unit js
    pure { js with jit_preloaders :=
      unordered_map_emplace js.jit_preloaders unit (.ofCode code data.globals data.module) }
  | .object _ => throw (.expectedFunctionOrCode, js)

/-- The loop `for (auto unit : preload_units)` of `multithread_compile_all`,
for the units `preload_units` that are left of the round; the result is the
final `compilation_units`. -/
def multithread_compile_all.preloadUnits (env : CompileEnv) :
    List PyUnit → List PyUnit → JitState → Except (Abort × JitState) (List PyUnit × JitState)
  | [], compilation_units, js => pure (compilation_units, js)
  | unit :: preload_units, compilation_units, js => do
    let compilation_units := compilation_units ++ [unit]
    let js ← multithread_compile_all.preloadUnit env (compilation_units ++ preload_units) unit js
    multithread_compile_all.preloadUnits env preload_units compilation_units js

/-- The loop `while (jit_reg_units.size() > 0)` of `multithread_compile_all`;
the result is the final `compilation_units`.  One unit of fuel is spent per
test of the loop condition. -/
def multithread_compile_all.preload (env : CompileEnv) :
    Nat → List PyUnit → JitState → Except (Abort × JitState) (List PyUnit × JitState)
  | 0, _, js => throw (.diverges, js)
  | fuel + 1, compilation_units, js =>
    if js.jit_reg_units.length > 0 then do
      let preload_units := js.jit_reg_units
      let js := { js with jit_reg_units := [] }
      let (compilation_units, js) ←
        multithread_compile_all.preloadUnits env preload_units compilation_units js
      multithread_compile_all.preload env fuel compilation_units js
    else
      pure (compilation_units, js)

/-- The loop `for (auto unit : retry_list) compilePreloaded(unit)` of
`multithread_compile_all`, on the calling thread. -/
def multithread_compile_all.drain (env : CompileEnv) :
    List PyUnit → JitState → Except (Abort × JitState) JitState
  | [], js => pure js
  | unit :: retry_list, js => do
    let (_, js) ← compilePreloaded env none js unit
    multithread_compile_all.drain env retry_list js

/-- `multithread_compile_all`, from the point where the preload loop has
ended with the units `compilation_units`. -/
def multithread_compile_all.compile (env : CompileEnv) (schedule : List Nat)
    (compilation_units : List PyUnit) (js : JitState) : Except (Abort × JitState) JitState := do
  let old_gil_check_enabled := js._PyGILState_check_enabled
  let js := { js with _PyGILState_check_enabled := 0 }
  let js := { js with g_threaded_compile_context :=
    js.g_threaded_compile_context.startCompile compilation_units }
  if js.batch_compile_workers = 0 then throw (.zeroWorkers, js)
  let (js, _) ← multithread_compile_all.workers env schedule js
  let (retry_list, ctx) := js.g_threaded_compile_context.endCompile
  let js := { js with g_threaded_compile_context := ctx }
  let js ← multithread_compile_all.drain env retry_list js
  let js := { js with _PyGILState_check_enabled := old_gil_check_enabled }
  pure { js with jit_preloaders := [] }

/-- `multithread_compile_all`; `fuel` bounds the rounds of the preload loop. -/
def multithread_compile_all (env : CompileEnv) (schedule : List Nat) (fuel : Nat)
    (js : JitState) : Except (Abort × JitState) JitState := do
  if js.jit_ctx = false then throw (.jitNotInitialized, js)
  let (compilation_units, js) ← multithread_compile_all.preload env fuel [] js
  multithread_compile_all.compile env schedule compilation_units js

/-- The arguments `disable_jit` is called with. -/
inductive PyArg
  | Py_True
  | Py_False
  | nonBool (o : Nat)
  deriving DecidableEq, Repr

/-- The result of a function of the module `cinderjit`: `None`, or null with
an exception set. -/
inductive PyResult
  | Py_None
  | NULL (exc : String)
  deriving DecidableEq, Repr

/-- `_PyJIT_Disable`. -/
def _PyJIT_Disable (js : JitState) : JitState :=
  { js with is_enabled := 0, are_type_slots_enabled := 0 }

/-- The loop `for (auto unit : units) compileUnit(unit)` of `disable_jit`. -/
def disable_jit.compileUnits (env : CompileEnv) :
    List PyUnit → JitState → Except (Abort × JitState) JitState
  | [], js => pure js
  | unit :: units, js => do
    let (_, js) ← compileUnit env js unit
    disable_jit.compileUnits env units js

/-- `disable_jit`; the time measurement is left out. -/
def disable_jit (env : CompileEnv) (schedule : List Nat) (fuel : Nat) (js : JitState)
    (args : List PyArg) : Except (Abort × JitState) (PyResult × JitState) := do
  if args.length > 1 then
    pure (.NULL "TypeError", js)
  else if args.length = 1 ∧ args.head? ≠ some .Py_True ∧ args.head? ≠ some .Py_False then
    pure (.NULL "TypeError", js)
  else
    let js ← (do
      if args.length = 0 ∨ args.head? = some .Py_True then
        -- Compile all of the pending functions/codes before shutting down
        let js ← (do
          if js.batch_compile_workers > 0 then
            multithread_compile_all env schedule fuel js
          else
            let units := js.jit_reg_units
            let js := { js with jit_reg_units := [] }
            disable_jit.compileUnits env units js)
        pure { js with jit_code_data := [] }
      else
        pure js)
    pure (.Py_None, _PyJIT_Disable js)

/-- `multithreaded_compile_test`; `_PyJITContext_ClearCache` and the time
measurement are left out. -/
def multithreaded_compile_test (env : CompileEnv) (schedule : List Nat) (fuel : Nat)
    (js : JitState) : Except (Abort × JitState) (PyResult × JitState) := do
  if js.multithreaded_compile_test = 0 then
    pure (.NULL "NotImplementedError", js)
  else
    let js := { js with g_compile_workers_attempted := 0, g_compile_workers_retries := 0 }
    let js ← multithread_compile_all env schedule fuel js
    pure (.Py_None, js)

/-- A call that the reference-visiting and teardown operations of a JIT
generator make, as the run records it. -/
inductive GenCall
  | visitRefs (yieldPoint gen visit arg : Nat)
  | releaseRefs (yieldPoint gen : Nat)
  | yieldFromValue (yieldPoint gen : Nat)
  | Py_INCREF (obj : Nat)
  | JITRT_GenJitDataFree (gen : Nat)
  deriving DecidableEq, Repr

/-- What `_PyJIT_GenVisitRefs`, `_PyJIT_GenDealloc` and
`_PyJIT_GenYieldFromValue` call: the methods of `GenYieldPoint`, which is
declared in `Jit/runtime.h`, and `JITRT_GenJitDataFree` of
`Jit/jit_rt.h`; neither is among the sources, so they are parameters.  The
first argument of a method is the yield point it is called on.
`visitRefs y st gen visit arg` is the result of
`y->visitRefs(gen, visit, arg)` with the state it leaves,
`releaseRefs y st gen` the state `y->releaseRefs(gen)` leaves,
`yieldFromValue y st gen` the borrowed reference
`y->yieldFromValue(gen_footer)` returns, and `JITRT_GenJitDataFree st gen`
the state after the JIT data of `gen` has been freed. -/
structure GenYieldPointEnv where
  visitRefs : Nat → State → Nat → Nat → Nat → Int × State
  releaseRefs : Nat → State → Nat → State
  yieldFromValue : Nat → State → Nat → Option Nat
  JITRT_GenJitDataFree : State → Nat → State

/-- `_PyJIT_GenVisitRefs`.  The last component of the result lists the calls
made, in order. -/
def _PyJIT_GenVisitRefs (env : GenYieldPointEnv) (st : State) (gen visit arg : Nat) :
    Except (Abort × State) (Int × State × List GenCall) := do
  let g ← withState st (st.genAt gen)
  JIT_DCHECK (g.gi_jit_data ≠ none) .generatorMissingJitData st
  let gen_footer ← st.footerAt gen
  if gen_footer.state ≠ ._PyJitGenState_Completed then
    match gen_footer.yieldPoint with
    | some yieldPoint =>
      let (r, st) := env.visitRefs yieldPoint st gen visit arg
      pure (r, st, [.visitRefs yieldPoint gen visit arg])
    | none => pure (0, st, [])
  else
    pure (0, st, [])

/-- `_PyJIT_GenDealloc`.  The last component of the result lists the calls
made, in order. -/
def _PyJIT_GenDealloc (env : GenYieldPointEnv) (st : State) (gen : Nat) :
    Except (Abort × State) (State × List GenCall) := do
  let g ← withState st (st.genAt gen)
  JIT_DCHECK (g.gi_jit_data ≠ none) .generatorMissingJitData st
  let gen_footer ← st.footerAt gen
  let (st, calls) :=
    if gen_footer.state ≠ ._PyJitGenState_Completed then
      match gen_footer.yieldPoint with
      | some yieldPoint => (env.releaseRefs yieldPoint st gen, [GenCall.releaseRefs yieldPoint gen])
      | none => (st, [])
    else
      (st, [])
  pure (env.JITRT_GenJitDataFree st gen, calls ++ [.JITRT_GenJitDataFree gen])

/-- `_PyJIT_GenYieldFromValue`.  The last component of the result lists the
calls made, in order; the reference count `Py_XINCREF(yf)` raises is that of
an object that is no frame, so the call is recorded and the state is left as
it is. -/
def _PyJIT_GenYieldFromValue (env : GenYieldPointEnv) (st : State) (gen : Nat) :
    Except (Abort × State) (Option Nat × State × List GenCall) := do
  let g ← withState st (st.genAt gen)
  JIT_DCHECK (g.gi_jit_data ≠ none) .generatorMissingJitData st
  let gen_footer ← st.footerAt gen
  if gen_footer.state ≠ ._PyJitGenState_Completed then
    match gen_footer.yieldPoint with
    | some yieldPoint =>
      let yf := env.yieldFromValue yieldPoint st gen
      match yf with
      | some obj => pure (yf, st, [.yieldFromValue yieldPoint gen, .Py_INCREF obj])
      | none => pure (yf, st, [.yieldFromValue yieldPoint gen])
    | none => pure (none, st, [])
  else
    pure (none, st, [])

/-! ## Registration and compilation of single functions (`Jit/pyjit.cpp`) -/

/-- `PyFunctionObject`, the fields that registration and compilation read;
`func_code` is a code object. -/
structure PyFunctionObject where
  func_code : Nat
  func_module : Nat
  func_qualname : Nat
  func_globals : Nat
  deriving DecidableEq, Repr

/-- `PyCodeObject`, the fields that registration reads.  `co_qualname` may be
null; `co_consts` is the tuple of constants, whose items are objects by
identity, of which `PyCode_Check` tells whether they are code objects. -/
structure PyCodeObject where
  co_flags : Nat
  co_qualname : Option Nat
  co_consts : List PyUnit
  deriving DecidableEq, Repr

/-- `InitStateJitConfig`, the values `pyjit.cpp` names. -/
inductive InitStateJitConfig
  | JIT_NOT_INITIALIZED
  | JIT_INITIALIZED
  | JIT_FINALIZED
  deriving DecidableEq, Repr

/-- Modelled from the spec: `JITList` is declared in `Jit/jit_list.h`, which
is not among the sources, and the matching of the allow-list is an external
collaborator.  `lookupCO code` is the result of the lookup by code object,
`lookupFO mod qualname` that of the lookup by module and qualified name. -/
structure JITList where
  lookupCO : Nat → Int
  lookupFO : Nat → Nat → Int

/-- What registration and compilation of single functions read and do not
write: the function and code objects, the pointer `g_jit_list` (null when
there is no JIT list), the fields `init_state` and
`compile_all_static_functions` of `jit_config`, the flag
`CO_STATICALLY_COMPILED` of `Include/code.h`, and the result of
`_PyJITContext_AttachCompiledCode(jit_ctx, func)`. -/
structure JitEnv where
  funcs : List PyFunctionObject
  codes : List PyCodeObject
  g_jit_list : Option JITList
  init_state : InitStateJitConfig
  compile_all_static_functions : Int
  CO_STATICALLY_COMPILED : Nat
  attachCompiledCode : Nat → _PyJIT_Result

/-- Dereference of a function pointer. -/
def JitEnv.funcAt (je : JitEnv) (p : Nat) : Except Abort PyFunctionObject :=
  match je.funcs[p]? with
  | some f => .ok f
  | none => .error .invalidPointer

/-- Dereference of a code pointer. -/
def JitEnv.codeAt (je : JitEnv) (p : Nat) : Except Abort PyCodeObject :=
  match je.codes[p]? with
  | some c => .ok c
  | none => .error .invalidPointer

/-- A read of the objects in a run that reports the state it aborts in. -/
def withJitState {α} (js : JitState) (x : Except Abort α) : Except (Abort × JitState) α :=
  match x with
  | .ok a => .ok a
  | .error e => .error (e, js)

/-- `std::unordered_set::erase` by key. -/
def unordered_set_erase {α} [DecidableEq α] (s : List α) (a : α) : List α :=
  s.filter fun x => x ≠ a

/-- `std::unordered_map::erase` by key. -/
def unordered_map_erase {κ β} [DecidableEq κ] (m : List (κ × β)) (k : κ) : List (κ × β) :=
  m.filter fun e => e.1 ≠ k

/-- Modelled from the spec: `map_get_strict` is defined in `Jit/util.h`,
which is not among the sources.  It is the strict lookup, as `map_get`: a key
without entry ends the run. -/
def map_get_strict {κ β} [DecidableEq κ] (m : List (κ × β)) (k : κ) (js : JitState) :
    Except (Abort × JitState) β :=
  map_get m k js

/-- `onJitListImpl`. -/
def onJitListImpl (je : JitEnv) (code mod qualname : Nat) : Except Abort Int := do
  let co ← je.codeAt code
  let is_static := decide (co.co_flags &&& je.CO_STATICALLY_COMPILED ≠ 0)
  match je.g_jit_list with
  | none => pure 1
  | some jit_list =>
    if is_static = true ∧ je.compile_all_static_functions ≠ 0 then
      -- There's no jit list or the function is static.
      pure 1
    else if jit_list.lookupCO code ≠ 1 then
      pure (jit_list.lookupFO mod qualname)
    else
      pure 1

/-- `_PyJIT_OnJitList`. -/
def _PyJIT_OnJitList (je : JitEnv) (func : Nat) : Except Abort Int := do
  let fo ← je.funcAt func
  onJitListImpl je fo.func_code fo.func_module fo.func_qualname

/-- `_PyJIT_IsEnabled`. -/
def _PyJIT_IsEnabled (je : JitEnv) (js : JitState) : Bool :=
  decide (je.init_state = .JIT_INITIALIZED ∧ js.is_enabled ≠ 0)

/-- `jit::isPreloaded`. -/
def isPreloaded (js : JitState) (func : Nat) : Bool :=
  (unordered_map_find js.jit_preloaders (.func func)).isSome

/-- `jit::getPreloader`. -/
def getPreloader (je : JitEnv) (js : JitState) (func : Nat) :
    Except (Abort × JitState) Preloader :=
  match unordered_map_find js.jit_preloaders (.func func) with
  | some preloader => pure preloader
  | none => do
    let fo ← withJitState js (je.funcAt func)
    map_get_strict js.jit_preloaders (.code fo.func_code) js

/-- `_PyJIT_CompileFunction`, called on `thread`; the time measurement is
left out.  The call of the compile backend is recorded in `compile_log`. -/
def _PyJIT_CompileFunction (env : CompileEnv) (je : JitEnv) (thread : Option Nat)
    (js : JitState) (func : Nat) : Except (Abort × JitState) (_PyJIT_Result × JitState) := do
  if js.jit_ctx = false then
    pure (.PYJIT_NOT_INITIALIZED, js)
  else if js.g_threaded_compile_context.compileRunning then
    -- we were called recursively (by emitInvokeFunction);
    -- find preloader in global map and compile it.
    let fo ← withJitState js (je.funcAt func)
    match unordered_map_find js.jit_preloaders (.code fo.func_code) with
    | none => pure (.PYJIT_RESULT_CANNOT_SPECIALIZE, js)
    | some preloader =>
      let result := env.compilePreloader js.compile_log thread (.code fo.func_code) preloader
      pure (result,
        { js with compile_log := js.compile_log ++ [⟨thread, .code fo.func_code, result⟩] })
  else if (← withJitState js (_PyJIT_OnJitList je func)) = 0 then
    pure (.PYJIT_RESULT_CANNOT_SPECIALIZE, js)
  else
    let js := { js with jit_reg_units := unordered_set_erase js.jit_reg_units (.func func) }
    let result := env.compileFunction js.compile_log func
    pure (result, { js with compile_log := js.compile_log ++ [⟨thread, .func func, result⟩] })

/-- The local variables of `findNestedCodes`: the queue `consts_tuples` of
tuples of constants, by value, the set `visited` and the vector `result`. -/
structure findNestedCodes.Locals where
  consts_tuples : List (List PyUnit)
  visited : List Nat
  result : List Nat
  deriving DecidableEq, Repr

/-- The loop `for (size_t i = 0, size = PyTuple_GET_SIZE(consts); i < size;
++i)` of `findNestedCodes`, for the items that are left of the tuple. -/
def findNestedCodes.scan (je : JitEnv) (module : Nat) :
    List PyUnit → findNestedCodes.Locals → Except Abort findNestedCodes.Locals
  | [], s => pure s
  | .code code :: consts, s =>
    if code ∈ s.visited then
      findNestedCodes.scan je module consts s
    else do
      let s := { s with visited := s.visited ++ [code] }
      let co ← je.codeAt code
      match co.co_qualname with
      | none => findNestedCodes.scan je module consts s
      | some co_qualname =>
        if (← onJitListImpl je code module co_qualname) = 0 then
          findNestedCodes.scan je module consts s
        else
          findNestedCodes.scan je module consts
            { s with result := s.result ++ [code],
                     consts_tuples := s.consts_tuples ++ [co.co_consts] }
  | _ :: consts, s => findNestedCodes.scan je module consts s

/-- The loop `while (!consts_tuples.empty())` of `findNestedCodes`.  One unit
of fuel is spent per test of the loop condition. -/
def findNestedCodes.loop (je : JitEnv) (module : Nat) :
    Nat → findNestedCodes.Locals → Except Abort (List Nat)
  | 0, _ => throw .diverges
  | fuel + 1, s =>
    match s.consts_tuples with
    | [] => pure s.result
    | consts :: consts_tuples => do
      let s ← findNestedCodes.scan je module consts { s with consts_tuples := consts_tuples }
      findNestedCodes.loop je module fuel s

/-- `findNestedCodes`.  Every turn of the loop but the first takes the tuple
of a code object that has been entered into `result`, and no code object is
entered twice, so the loop gets one unit of fuel per code object and two
more. -/
def findNestedCodes (je : JitEnv) (module : Nat) (root_consts : List PyUnit) :
    Except Abort (List Nat) :=
  findNestedCodes.loop je module (je.codes.length + 2) ⟨[root_consts], [], []⟩

/-- `_PyJIT_RegisterFunction`. -/
def _PyJIT_RegisterFunction (je : JitEnv) (js : JitState) (func : Nat) :
    Except (Abort × JitState) (Int × JitState) := do
  -- Attempt to attach already-compiled code even if the JIT is disabled
  if js.jit_ctx = true ∧ je.attachCompiledCode func = .PYJIT_RESULT_OK then
    pure (1, js)
  else if _PyJIT_IsEnabled je js = false then
    pure (0, js)
  else if js.g_threaded_compile_context.compileRunning then
    throw (.notIntendedDuringThreadedCompilation, js)
  else
    let on_list ← withJitState js (_PyJIT_OnJitList je func)
    let (result, js) : Int × JitState :=
      if on_list ≠ 0 then (1, js.register (.func func)) else (0, js)
    match je.g_jit_list with
    | none => pure (result, js)
    | some _ =>
      let fo ← withJitState js (je.funcAt func)
      let module := fo.func_module
      let globals := fo.func_globals
      let co ← withJitState js (je.codeAt fo.func_code)
      let codes ← withJitState js (findNestedCodes je module co.co_consts)
      pure (result,
        codes.foldl (fun js code => js.register (.code code ⟨module, globals⟩)) js)

/-- `_PyJIT_FuncDestroyed`; `_PyJITContext_FuncDestroyed` works on the
context and on none of the registries. -/
def _PyJIT_FuncDestroyed (je : JitEnv) (js : JitState) (func : Nat) : JitState :=
  if _PyJIT_IsEnabled je js then
    { js with jit_reg_units := unordered_set_erase js.jit_reg_units (.func func) }
  else
    js

/-- `_PyJIT_CodeDestroyed`. -/
def _PyJIT_CodeDestroyed (je : JitEnv) (js : JitState) (code : Nat) : JitState :=
  if _PyJIT_IsEnabled je js then
    { js with jit_reg_units := unordered_set_erase js.jit_reg_units (.code code),
              jit_code_data := unordered_map_erase js.jit_code_data code }
  else
    js

/-! ## Runtime statistics (`Jit/pyjit.cpp`) -/

/-- `class CAPIError : public std::exception {}`. -/
inductive CAPIError
  | mk
  deriving DecidableEq, Repr

/-- The interned strings that are the keys of a deopt event. -/
inductive InternedString
  | s_str_normal
  | s_str_int
  | s_str_func_qualname
  | s_str_filename
  | s_str_lineno
  | s_str_reason
  | s_str_description
  | s_str_count
  | s_str_guilty_type
  deriving DecidableEq, Repr

/-- A call of the C-API with its arguments; an object is designated by its
address. -/
inductive CAPICall
  | PyList_New (size : Int)
  | PyDict_New
  | PyLong_FromLong (v : Int)
  | PyLong_FromSize_t (v : Nat)
  | PyUnicode_FromString (u : String)
  | PyUnicode_InternFromString (u : String)
  | PyCode_Addr2Line (code : Nat) (addrq : Int)
  | PyDict_SetItem (p : Nat) (key : InternedString) (item : Nat)
  | PyDict_SetItemString (p : Nat) (key : String) (item : Nat)
  | PyList_Append (list item : Nat)
  deriving DecidableEq, Repr

/-- One pair of `runtime->deoptStats()` with its metadata, as far as
`make_deopt_stats` reads them; `DeoptStat` and `DeoptMetadata` are declared in
headers that are not among the sources.  `reason` is
`deoptReasonName(meta.reason)`, `types_empty` is `stat.types.empty()`, and
`types` lists `stat.types.counts[i]` and `stat.types.types[i]->tp_name` for
the indices `i` below `stat.types.size` up to the first null type. -/
structure DeoptStatEntry where
  code : Nat
  co_qualname : Nat
  co_filename : Nat
  co_lnotab : Option Nat
  next_instr_offset : Int
  reason : String
  descr : String
  count : Nat
  types_empty : Bool
  types : List (Nat × String)
  other : Nat
  deriving DecidableEq, Repr

/-- What the functions of the runtime statistics read or write: the deopt
stats of the runtime and, as a ghost field, the calls of the C-API made so
far. -/
structure StatsState where
  calls : List CAPICall
  deoptStats : List DeoptStatEntry
  deriving DecidableEq, Repr

/-- The C-API of the host, which is not among the sources: `object calls c`
and `status calls c` are what the call `c` returns after the calls `calls`,
when it returns an object (null is `none`) and when it returns an `int`. -/
structure CAPI where
  object : List CAPICall → CAPICall → Option Nat
  status : List CAPICall → CAPICall → Int

/-- A run that calls the C-API and may throw `CAPIError`: from the state it
starts in to what it returns or throws and the state it ends in. -/
def CAPIM (α : Type) : Type := StatsState → Except CAPIError α × StatsState

instance : Monad CAPIM where
  pure a := fun s => (.ok a, s)
  bind x f := fun s =>
    match x s with
    | (.ok a, s) => f a s
    | (.error e, s) => (.error e, s)

/-- `throw CAPIError()`. -/
def throwCAPIError {α : Type} : CAPIM α := fun s => (.error .mk, s)

/-- A call of the C-API that returns an object. -/
def CAPI.callObject (api : CAPI) (c : CAPICall) : CAPIM (Option Nat) :=
  fun s => (.ok (api.object s.calls c), { s with calls := s.calls ++ [c] })

/-- A call of the C-API that returns an `int`. -/
def CAPI.callStatus (api : CAPI) (c : CAPICall) : CAPIM Int :=
  fun s => (.ok (api.status s.calls c), { s with calls := s.calls ++ [c] })

/-- `PyObject* check(PyObject* obj)`. -/
def check (obj : Option Nat) : CAPIM Nat :=
  match obj with
  | none => throwCAPIError
  | some obj => pure obj

/-- `int check(int ret)`. -/
def check_int (ret : Int) : CAPIM Int :=
  if ret < 0 then throwCAPIError else pure ret

/-- The helper `append_event` of `make_deopt_stats`.  The argument of the
last but one `check` is the truth value of the comparison
`PyDict_SetItem(normals, s_str_guilty_type, type_str) < 0`, converted to
`int`. -/
def make_deopt_stats.append_event (api : CAPI)
    (stats func_qualname co_filename lineno reason description : Nat)
    (count_raw : Nat) (type : String) : CAPIM Unit := do
  let event ← check (← api.callObject .PyDict_New)
  let normals ← check (← api.callObject .PyDict_New)
  let ints ← check (← api.callObject .PyDict_New)
  let _ ← check_int (← api.callStatus (.PyDict_SetItem event .s_str_normal normals))
  let _ ← check_int (← api.callStatus (.PyDict_SetItem event .s_str_int ints))
  let _ ← check_int
    (← api.callStatus (.PyDict_SetItem normals .s_str_func_qualname func_qualname))
  let _ ← check_int (← api.callStatus (.PyDict_SetItem normals .s_str_filename co_filename))
  let _ ← check_int (← api.callStatus (.PyDict_SetItem ints .s_str_lineno lineno))
  let _ ← check_int (← api.callStatus (.PyDict_SetItem normals .s_str_reason reason))
  let _ ← check_int
    (← api.callStatus (.PyDict_SetItem normals .s_str_description description))
  let count ← check (← api.callObject (.PyLong_FromSize_t count_raw))
  let _ ← check_int (← api.callStatus (.PyDict_SetItem ints .s_str_count count))
  let type_str ← check (← api.callObject (.PyUnicode_InternFromString type))
  let _ ← check_int
    (if (← api.callStatus (.PyDict_SetItem normals .s_str_guilty_type type_str)) < 0 then 1
     else 0)
  let _ ← check_int (← api.callStatus (.PyList_Append stats event))
  pure ()

/-- The loop over the types of a type profile in `make_deopt_stats`. -/
def make_deopt_stats.append_types (api : CAPI)
    (stats func_qualname co_filename lineno reason description : Nat) :
    List (Nat × String) → CAPIM Unit
  | [] => pure ()
  | (count, tp_name) :: types => do
    make_deopt_stats.append_event api stats func_qualname co_filename lineno reason
      description count tp_name
    make_deopt_stats.append_types api stats func_qualname co_filename lineno reason
      description types

/-- The body of the loop `for (auto& pair : runtime->deoptStats())` of
`make_deopt_stats`. -/
def make_deopt_stats.pair (api : CAPI) (stats : Nat) (e : DeoptStatEntry) : CAPIM Unit := do
  let lineno_raw ← (match e.co_lnotab with
    | some _ => api.callStatus (.PyCode_Addr2Line e.code e.next_instr_offset)
    | none => pure (-1))
  let lineno ← check (← api.callObject (.PyLong_FromLong lineno_raw))
  let reason ← check (← api.callObject (.PyUnicode_FromString e.reason))
  let description ← check (← api.callObject (.PyUnicode_FromString e.descr))
  -- For deopts with type profiles, add a copy of the dict with counts for
  -- each type, including "other".
  if e.types_empty = false then
    make_deopt_stats.append_types api stats e.co_qualname e.co_filename lineno reason
      description e.types
    if e.other > 0 then
      make_deopt_stats.append_event api stats e.co_qualname e.co_filename lineno reason
        description e.other "<other>"
    else
      pure ()
  else
    make_deopt_stats.append_event api stats e.co_qualname e.co_filename lineno reason
      description e.count "<none>"

/-- The loop `for (auto& pair : runtime->deoptStats())` of
`make_deopt_stats`. -/
def make_deopt_stats.pairs (api : CAPI) (stats : Nat) : List DeoptStatEntry → CAPIM Unit
  | [] => pure ()
  | e :: deoptStats => do
    make_deopt_stats.pair api stats e
    make_deopt_stats.pairs api stats deoptStats

/-- `runtime->deoptStats()`. -/
def deoptStats : CAPIM (List DeoptStatEntry) := fun s => (.ok s.deoptStats, s)

/-- `runtime->clearDeoptStats()`. -/
def clearDeoptStats : CAPIM Unit := fun s => (.ok (), { s with deoptStats := [] })

/-- `make_deopt_stats`; the reference counts of the objects it creates are
left out. -/
def make_deopt_stats (api : CAPI) : CAPIM Nat := do
  let stats ← check (← api.callObject (.PyList_New 0))
  make_deopt_stats.pairs api stats (← deoptStats)
  clearDeoptStats
  pure stats

/-- `get_and_clear_runtime_stats`; the result is null when an error is
reported. -/
def get_and_clear_runtime_stats (api : CAPI) (s : StatsState) : Option Nat × StatsState :=
  match api.callObject .PyDict_New s with
  | (.ok (some stats), s) =>
    -- try
    match (do
        let deopt_stats ← make_deopt_stats api
        let _ ← check_int (← api.callStatus (.PyDict_SetItemString stats "deopt" deopt_stats))
        pure ()) s with
    | (.ok _, s) => (some stats, s)
    -- catch (const CAPIError&)
    | (.error _, s) => (none, s)
  | (_, s) => (none, s)

/-! ## Specification vocabulary -/

/-- The cells reached from `p` by following `next` up to null are exactly
`ids`; `next i = none` when `i` designates no object. -/
def LinkedList (next : Nat → Option (Option Nat)) : Option Nat → List Nat → Prop
  | p, [] => p = none
  | p, i :: rest => p = some i ∧ ∃ q, next i = some q ∧ LinkedList next q rest

/-- The `f_back` link of frame `i`, when `i` designates a frame. -/
def State.fBack (st : State) (i : Nat) : Option (Option Nat) := (st.frames[i]?).map (·.f_back)

/-- The `f_gen` field of frame `i`, when `i` designates a frame. -/
def State.fGen (st : State) (i : Nat) : Option (Option Nat) := (st.frames[i]?).map (·.f_gen)

/-- The `prev` link of shadow frame `i`, when `i` designates one. -/
def State.sPrev (st : State) (i : Nat) : Option (Option Nat) := (st.shadows[i]?).map (·.prev)

/-- The has-PyFrame bit of shadow frame `i` (false when `i` designates none). -/
def State.hasPyFrame (st : State) (i : Nat) : Bool :=
  match st.shadows[i]? with
  | some s => s.hasPyFrame
  | none => false

/-- The generator a shadow frame's pointer designates, for kind `PYSF_GEN`. -/
def ShadowPtr.gen? : ShadowPtr → Option Nat
  | .gen g => some g
  | _ => none

/-- The generator that is the payload of shadow frame `i`, if it has one. -/
def State.genOf (st : State) (i : Nat) : Option Nat := (st.shadows[i]?).bind (·.ptr.gen?)

/-- The frame chain: walking `f_back` from `tstate->frame` visits exactly
`fs`, innermost first, and ends at null. -/
def FrameChain (st : State) (fs : List Nat) : Prop := LinkedList st.fBack st.tstate.frame fs

/-- The shadow stack: walking `prev` from `tstate->shadow_frame` visits
exactly `ids`, innermost first, and ends at null. -/
def ShadowStack (st : State) (ids : List Nat) : Prop :=
  LinkedList st.sPrev st.tstate.shadow_frame ids

/-- The fields of a frame that say whose frame it is; links and reference
count are left out. -/
def PyFrameObject.body (f : PyFrameObject) : Nat × Nat × Option Nat × Nat × Nat :=
  (f.f_code, f.f_globals, f.f_gen, f.f_executing, f.stacktop)

/-- What a call of `materializePyFrame` that creates a frame for the shadow
frame `sf` (with contents `s` and code runtime `rt`) leaves behind. -/
structure Created (st : State) (prev : Option Nat) (sf : Nat) (s : _PyShadowFrame)
    (rt : CodeRuntime) (st' : State) : Prop where
  frames_length : st'.frames.length = st.frames.length + 1
  fBack_new : st'.fBack st.frames.length = prev.elim (some st.tstate.frame) st.fBack
  fBack_prev : ∀ P, prev = some P → st'.fBack P = some (some st.frames.length)
  fBack_old : ∀ i, i ≠ st.frames.length → prev ≠ some i → st'.fBack i = st.fBack i
  body_old : ∀ i, i ≠ st.frames.length →
    (st'.frames[i]?).map PyFrameObject.body = (st.frames[i]?).map PyFrameObject.body
  new_frame : ∃ f, st'.frames[st.frames.length]? = some f ∧ f.f_code = rt.code ∧
    f.f_globals = rt.globals ∧ f.f_gen = s.ptr.gen? ∧ f.f_executing = 1 ∧
    (s.ptr.gen? = none → f.stacktop = s.retAddr)
  frame : st'.tstate.frame = prev.elim (some st.frames.length) (fun _ => st.tstate.frame)
  shadow_frame : st'.tstate.shadow_frame = st.tstate.shadow_frame
  shadows : st'.shadows = st.shadows.set sf
    { s with hasPyFrame := true,
             retAddr := if s.ptr.gen?.isSome then s.retAddr else st.pyFrameUnlinkTrampoline }
  gens : ∀ g, st'.gens[g]? =
    if s.ptr = .gen g then (st.gens[g]?).map (fun o => { o with gi_frame := some st.frames.length })
    else st.gens[g]?
  trampoline : st'.pyFrameUnlinkTrampoline = st.pyFrameUnlinkTrampoline

/-- The frames of the shadow frames `ids` once the walk of
`materializeShadowCallStack` has passed them: a flagged shadow frame takes
the next frame of the old chain, an unflagged one the next fresh frame. -/
def weave (flag : Nat → Bool) : List Nat → List Nat → Nat → List Nat
  | [], _, _ => []
  | i :: ids, old, n =>
    if flag i then
      match old with
      | f :: old' => f :: weave flag ids old' n
      | [] => []
    else n :: weave flag ids old (n + 1)

/-- Frame `f` of `st'` is new with respect to `st` and was created for the
shadow frame `i`: it has the code and globals of the code runtime of `i` and,
for a generator, names the generator. -/
def CreatedFor (st st' : State) (i f : Nat) : Prop :=
  st.frames.length ≤ f ∧
    ∃ rt o, getCodeRuntime st i = .ok rt ∧ st'.frames[f]? = some o ∧ o.f_code = rt.code ∧
      o.f_globals = rt.globals ∧ o.f_gen = st.genOf i

/-- What the walk of `materializeShadowCallStack` over the shadow frames
`ids` leaves behind. -/
structure Walked (st : State) (ids : List Nat) (st' : State) : Prop where
  frames_length : st'.frames.length =
    st.frames.length + (ids.filter (fun i => !st.hasPyFrame i)).length
  flagged : ∀ i ∈ ids, st'.hasPyFrame i = true
  shadows_other : ∀ i, i ∉ ids → st'.shadows[i]? = st.shadows[i]?
  sPrev : ∀ i, st'.sPrev i = st.sPrev i
  shadow_frame : st'.tstate.shadow_frame = st.tstate.shadow_frame
  body_old : ∀ j, j < st.frames.length →
    (st'.frames[j]?).map PyFrameObject.body = (st.frames[j]?).map PyFrameObject.body
  codeRuntime : ∀ i, getCodeRuntime st' i = getCodeRuntime st i
  genOf : ∀ i, st'.genOf i = st.genOf i

/-- The chain/shadow order invariant: the shadow stack is `ids`, the frame
chain from `tstate->frame` is `fs`, and `fs` has one frame per shadow frame
flagged as materialized; the frame of the k-th flagged shadow frame is the
k-th frame of the chain. -/
def ChainMatchesShadows (st : State) (ids fs : List Nat) : Prop :=
  ShadowStack st ids ∧ FrameChain st fs ∧ fs.length = (ids.filter st.hasPyFrame).length

/-- The original return address of the activation on top of the shadow stack,
as the trampoline protocol keeps it: the word in the return-address slot of
shadow frame `sf`, unless the shadow frame is flagged as materialized and the
unlink trampoline sits in the slot, in which case it is the word stashed in
`*(f_stacktop)` of the activation's frame, which for the top activation is
`tstate->frame`. -/
def origRetAddr (st : State) (sf : Nat) : Option Nat :=
  (st.shadows[sf]?).bind fun s =>
    if s.hasPyFrame = true ∧ s.retAddr = st.pyFrameUnlinkTrampoline then
      st.tstate.frame.bind fun F => (st.frames[F]?).map (·.stacktop)
    else some s.retAddr

/-- The JIT state of generator `gen`, when it has JIT data. -/
def State.genState (st : State) (gen : Nat) : Option _PyJitGenState :=
  ((st.gens[gen]?).bind (·.gi_jit_data)).map (·.state)

/-- Whether the attempt returned `PYJIT_RESULT_RETRY`. -/
def Attempt.isRetry (a : Attempt) : Bool := decide (a.result = .PYJIT_RESULT_RETRY)

/-- The unit a worker has popped and not yet handed to the compile backend. -/
def WorkerPc.inflight : WorkerPc → List PyUnit
  | .countAttempt unit => [unit]
  | .compile unit => [unit]
  | _ => []

/-- The unit whose attempt returned Retry on a worker that has not yet pushed
it onto the retry list. -/
def WorkerPc.pendingRetry : WorkerPc → List PyUnit
  | .retry unit => [unit]
  | _ => []

/-- The attempts `attempts`, made after the attempts `log`, are calls of
`compilePreloaded` with the preloaders `preloaders`: each has a preloader for
its unit and the result the backend gives at that point; they are made on
worker threads (`worker = true`) or on the calling thread. -/
def LogFollows (env : CompileEnv) (preloaders : List (PyUnit × Preloader)) (worker : Bool) :
    List Attempt → List Attempt → Prop
  | _, [] => True
  | log, a :: attempts =>
    (a.thread.isSome = worker ∧ ∃ p, unordered_map_find preloaders a.unit = some p ∧
      a.result = env.compilePreloader log a.thread a.unit p) ∧
    LogFollows env preloaders worker (log ++ [a]) attempts

/-- The state `js₀` after the worker threads have made progress: the queue is
`q`, the retry list `r`, the counters `a` and `n`, and the attempts `W` have
been made. -/
def JitState.scheduled (js₀ : JitState) (q r : List PyUnit) (a n : Nat) (W : List Attempt) :
    JitState :=
  { js₀ with
    g_threaded_compile_context :=
      { js₀.g_threaded_compile_context with work_queue := q, retry_list := r },
    g_compile_workers_attempted := a,
    g_compile_workers_retries := n,
    compile_log := js₀.compile_log ++ W }

/-- The invariant of the compile phase, relating the state of the pool to the
state `js₀` the phase started in. -/
def CompileInv (env : CompileEnv) (js₀ : JitState) (s : JitState × List WorkerPc) : Prop :=
  ∃ (q r : List PyUnit) (a n : Nat) (W : List Attempt),
    s.1 = js₀.scheduled q r a n W ∧
    (q ++ (s.2.flatMap WorkerPc.inflight ++ W.map (·.unit))).Perm
      js₀.g_threaded_compile_context.work_queue ∧
    (r ++ s.2.flatMap WorkerPc.pendingRetry).Perm
      (js₀.g_threaded_compile_context.retry_list ++ (W.filter Attempt.isRetry).map (·.unit)) ∧
    n + js₀.g_threaded_compile_context.retry_list.length =
      js₀.g_compile_workers_retries + r.length ∧
    (WorkerPc.finished ∈ s.2 → q = []) ∧
    LogFollows env js₀.jit_preloaders true js₀.compile_log W

/-- The number of actions a worker takes at most until it is back at the loop
test, plus one; zero when it has left the loop. -/
def WorkerPc.rank : WorkerPc → Nat
  | .nextUnit => 1
  | .retry _ => 2
  | .compile _ => 3
  | .countAttempt _ => 4
  | .finished => 0

/-- The state `multithread_compile_all` returns in, when the state after the
preload loop was `js`: the counters are `a` and `n` and the attempts `L` have
been made. -/
def JitState.compiled (js : JitState) (a n : Nat) (L : List Attempt) : JitState :=
  { js with
    g_threaded_compile_context :=
      { compile_running := false, work_queue := [],
        retry_list := [] },
    g_compile_workers_attempted := a,
    g_compile_workers_retries := n,
    compile_log := js.compile_log ++ L,
    jit_preloaders := [] }

/-- The state in which the worker threads of `multithread_compile_all` are
created, when the preload loop has ended in `js` with `compilation_units`. -/
def JitState.started (js : JitState) (compilation_units : List PyUnit) : JitState :=
  { js with
    _PyGILState_check_enabled := 0,
    g_threaded_compile_context :=
      js.g_threaded_compile_context.startCompile compilation_units }

/-- The state without its registries and their ghost logs: what the preload
loop does not touch. -/
def JitState.nonRegistry (js : JitState) : JitState :=
  { js with jit_reg_units := [], jit_code_data := [], jit_preloaders := [], preload_log := [],
            register_log := [] }

/-- Whether `unit` can be preloaded in `js`: it is a function, or a code
object that has an entry in `jit_code_data`. -/
def Preloadable (js : JitState) : PyUnit → Prop
  | .func _ => True
  | .code c => c ∈ js.jit_code_data.map Prod.fst
  | .object _ => False

/-- The invariant of the preload loop for an environment that registers no
unit that has been drained: `cu` are the units preloaded so far, `rest` the
units left of the round. -/
structure PreInv (U pending₀ : List PyUnit) (js₀ : JitState) (cu rest : List PyUnit)
    (js : JitState) : Prop where
  nodup : ((cu ++ rest) ++ js.jit_reg_units).Nodup
  keys : js.jit_preloaders.map Prod.fst = cu
  plog : js.preload_log = js₀.preload_log ++ cu
  data : ∀ u ∈ rest ++ js.jit_reg_units, Preloadable js u
  known : ∃ R, js.register_log = js₀.register_log ++ R ∧
    ∀ v ∈ pending₀ ++ R, v ∈ (cu ++ rest) ++ js.jit_reg_units
  univ : ∀ v ∈ (cu ++ rest) ++ js.jit_reg_units, v ∈ U

/-- Whether the attempt ended with the unit compiled: status Done. -/
def Attempt.isDone (a : Attempt) : Bool := decide (a.result = .PYJIT_RESULT_OK)

/-- Whether the attempt ended with the unit declined: status Declined. -/
def Attempt.isDeclined (a : Attempt) : Bool :=
  decide (a.result = .PYJIT_RESULT_CANNOT_SPECIALIZE)

/-- The outcome of a run, returned or aborted, is in a state in which
`_PyGILState_check_enabled` is `g`. -/
def EndsWithGil (g : Int) {α} (f : α → JitState) : Except (Abort × JitState) α → Prop
  | .ok a => (f a)._PyGILState_check_enabled = g
  | .error e => e.2._PyGILState_check_enabled = g

/-- The reference count of frame `i`, when it designates a frame. -/
def State.refcnt (st : State) (i : Nat) : Option Nat := (st.frames[i]?).map (·.ob_refcnt)

/-- The reference counts a call of `materializePyFrame` that creates a frame
for the shadow frame with contents `s` leaves behind: the new frame has one
reference, one more with a predecessor and one more for a generator; the
count of the old top frame has risen by one when there is no predecessor, and
no other count has changed. -/
def RefcntsAfterCreate (st : State) (prev : Option Nat) (s : _PyShadowFrame) (st' : State) :
    Prop :=
  st'.refcnt st.frames.length =
    some (1 + (if prev.isSome then 1 else 0) + (if s.ptr.gen?.isSome then 1 else 0)) ∧
  ∀ i, i ≠ st.frames.length →
    st'.refcnt i =
      (st.refcnt i).map fun n => if prev = none ∧ st.tstate.frame = some i then n + 1 else n

/-- The registry invariant: every code object in the pending set has an
entry in `jit_code_data`. -/
def RegistryInv (js : JitState) : Prop :=
  ∀ c, PyUnit.code c ∈ js.jit_reg_units → (unordered_map_find js.jit_code_data c).isSome

/-- The outcome of a run, returned or aborted, is in a state whose pending set
and `jit_code_data` are those of `js₀`. -/
def KeepsRegistries (js₀ : JitState) {α} (f : α → JitState) :
    Except (Abort × JitState) α → Prop
  | .ok a => (f a).jit_reg_units = js₀.jit_reg_units ∧ (f a).jit_code_data = js₀.jit_code_data
  | .error e => e.2.jit_reg_units = js₀.jit_reg_units ∧ e.2.jit_code_data = js₀.jit_code_data

/-- Whether code object `code` is eligible for module `module`: it has a
qualified name and `onJitListImpl` does not return 0 for it. -/
def eligible (je : JitEnv) (module code : Nat) : Bool :=
  match je.codes[code]? with
  | none => false
  | some co =>
    match co.co_qualname with
    | none => false
    | some co_qualname =>
      match onJitListImpl je code module co_qualname with
      | .ok r => decide (r ≠ 0)
      | .error _ => false

/-- The tuple of constants of code object `code`. -/
def JitEnv.consts (je : JitEnv) (code : Nat) : List PyUnit :=
  ((je.codes[code]?).map (·.co_consts)).getD []

/-- Whether a constant, when it is a code object, designates one. -/
def validConst (je : JitEnv) : PyUnit → Bool
  | .code c => decide (c < je.codes.length)
  | _ => true

/-- Every code object among the constants of the tuple `root_consts` and of
the code objects designates a code object: the graph of constants is
finite. -/
def ValidConsts (je : JitEnv) (root_consts : List PyUnit) : Prop :=
  (∀ item ∈ root_consts, validConst je item = true) ∧
  ∀ co ∈ je.codes, ∀ item ∈ co.co_consts, validConst je item = true

/-- `Nested je root_consts code`: the code object is reached from the tuple
`root_consts` by descending into the constants of nested code objects. -/
inductive Nested (je : JitEnv) (root_consts : List PyUnit) : Nat → Prop
  | root {c : Nat} : PyUnit.code c ∈ root_consts → Nested je root_consts c
  | step {p c : Nat} : Nested je root_consts p → PyUnit.code c ∈ je.consts p →
      Nested je root_consts c

/-- `ReachIn je module root_consts k code`: the code object is eligible and
is reached from the tuple `root_consts` in `k` steps that pass through
eligible code objects only. -/
inductive ReachIn (je : JitEnv) (module : Nat) (root_consts : List PyUnit) : Nat → Nat → Prop
  | root {c : Nat} : PyUnit.code c ∈ root_consts → eligible je module c = true →
      ReachIn je module root_consts 1 c
  | step {k p c : Nat} : ReachIn je module root_consts k p → PyUnit.code c ∈ je.consts p →
      eligible je module c = true → ReachIn je module root_consts (k + 1) c

/-- The depth of a code object: the least number of steps it is reached
in. -/
def MinDepth (je : JitEnv) (module : Nat) (root_consts : List PyUnit) (code k : Nat) : Prop :=
  ReachIn je module root_consts k code ∧ ∀ j, ReachIn je module root_consts j code → k ≤ j

/-- The order of discovery: the code objects among `items` that satisfy `p`
and are not in `seen`, each once, in the order of their first occurrence. -/
def discover (p : Nat → Bool) : List PyUnit → List Nat → List Nat
  | [], _ => []
  | .code c :: items, seen =>
    if c ∈ seen ∨ p c = false then discover p items seen
    else c :: discover p items (seen ++ [c])
  | _ :: items, seen => discover p items seen

/-- The invariant of the loop of `findNestedCodes` after its first turn:
`done` are the code objects whose tuples have been taken from the queue,
`todo` those whose tuples are in the queue. -/
structure NestedInv (je : JitEnv) (module : Nat) (root_consts : List PyUnit)
    (done todo visited : List Nat) : Prop where
  visited : ∀ c, c ∈ done ++ todo ↔ c ∈ visited ∧ eligible je module c = true
  order : done ++ todo =
    discover (eligible je module) (root_consts ++ done.flatMap je.consts) []
  reach : ∀ c ∈ done ++ todo, ∃ k, ReachIn je module root_consts k c
  sorted : (done ++ todo).Pairwise fun a b =>
    ∀ ka kb, MinDepth je module root_consts a ka → MinDepth je module root_consts b kb → ka ≤ kb

/-- Whether the call returns an object and not an `int`. -/
def CAPICall.returnsObject : CAPICall → Bool
  | .PyList_New _ => true
  | .PyDict_New => true
  | .PyLong_FromLong _ => true
  | .PyLong_FromSize_t _ => true
  | .PyUnicode_FromString _ => true
  | .PyUnicode_InternFromString _ => true
  | _ => false

/-- Whether the call is a line lookup `PyCode_Addr2Line`, which returns a
line number and no status. -/
def CAPICall.isLineLookup : CAPICall → Bool
  | .PyCode_Addr2Line _ _ => true
  | _ => false

/-- Whether the call is the insertion of the entry `guilty_type` of a deopt
event. -/
def CAPICall.isGuiltyTypeInsertion : CAPICall → Bool
  | .PyDict_SetItem _ .s_str_guilty_type _ => true
  | _ => false

/-- The call `c`, made after the calls `calls`, fails: it returns null, or a
negative `int`. -/
def CAPI.fails (api : CAPI) (calls : List CAPICall) (c : CAPICall) : Prop :=
  (c.returnsObject = true ∧ api.object calls c = none) ∨
  (c.returnsObject = false ∧ api.status calls c < 0)

/-- No call among `calls` has failed, line lookups and insertions of
`guilty_type` apart. -/
def CheckedCalls (api : CAPI) (calls : List CAPICall) : Prop :=
  ∀ pre c post, calls = pre ++ c :: post → api.fails pre c →
    c.isLineLookup = true ∨ c.isGuiltyTypeInsertion = true

/-- The last call among `calls` has failed, it is neither a line lookup nor
an insertion of `guilty_type`, and no call before it has failed, those
apart. -/
def FailedLast (api : CAPI) (calls : List CAPICall) : Prop :=
  ∃ pre c, calls = pre ++ [c] ∧ api.fails pre c ∧ c.isLineLookup = false ∧
    c.isGuiltyTypeInsertion = false ∧ CheckedCalls api pre

/-- A run that starts in a state that satisfies `P` returns in a state that
satisfies `Q`, or throws in a state that satisfies `E`. -/
def CAPIM.Sat {α : Type} (P : StatsState → Prop) (x : CAPIM α)
    (Q : α → StatsState → Prop) (E : StatsState → Prop) : Prop :=
  ∀ s, P s →
    match x s with
    | (.ok a, s') => Q a s'
    | (.error _, s') => E s'

/-! ## Example states -/

/-- A three-deep stack: a compiled function, below it a running generator
whose frame (frame 0) is already materialized, below it a compiled function. -/
def exampleStack3 : State :=
  { frames := [{ ob_refcnt := 2, f_back := none, f_code := 11, f_globals := 21,
                 f_gen := some 0, f_executing := 1, stacktop := 0 }],
    gens := [{ gi_running := true, gi_frame := some 0, gi_jit_data := some { code_rt := ⟨11, 21⟩ } }],
    shadows := [{ prev := some 1, ptr := .codeRt ⟨10, 20⟩, hasPyFrame := false, retAddr := 100 },
                { prev := some 2, ptr := .gen 0, hasPyFrame := true, retAddr := 101 },
                { prev := none, ptr := .codeRt ⟨12, 22⟩, hasPyFrame := false, retAddr := 102 }],
    tstate := { frame := some 0, shadow_frame := some 0 },
    pyFrameUnlinkTrampoline := 7777 }

/-- A one-deep stack whose only shadow frame is of kind `PYSF_CODE_OBJ` and
not flagged as materialized; there is no frame. -/
def interpStack1 : State :=
  { frames := [],
    gens := [],
    shadows := [{ prev := none, ptr := .codeObj 30, hasPyFrame := false, retAddr := 100 }],
    tstate := { frame := none, shadow_frame := some 0 },
    pyFrameUnlinkTrampoline := 7777 }

/-- A two-deep stack: a compiled function with its frame (frame 0), and below
it a shadow frame of kind `PYSF_CODE_OBJ` that is not flagged. -/
def interpStack2 : State :=
  { frames := [{ ob_refcnt := 1, f_back := none, f_code := 10, f_globals := 20,
                 f_gen := none, f_executing := 1, stacktop := 100 }],
    gens := [],
    shadows := [{ prev := some 1, ptr := .codeRt ⟨10, 20⟩, hasPyFrame := true, retAddr := 7777 },
                { prev := none, ptr := .codeObj 30, hasPyFrame := false, retAddr := 101 }],
    tstate := { frame := some 0, shadow_frame := some 0 },
    pyFrameUnlinkTrampoline := 7777 }

/-- A one-deep stack with a flagged shadow frame and a frame chain of two
frames: one frame more than flagged shadow frames. -/
def danglingStack : State :=
  { frames := [{ ob_refcnt := 1, f_back := some 1, f_code := 10, f_globals := 20,
                 f_gen := none, f_executing := 1, stacktop := 100 },
               { ob_refcnt := 1, f_back := none, f_code := 13, f_globals := 23,
                 f_gen := none, f_executing := 1, stacktop := 0 }],
    gens := [],
    shadows := [{ prev := none, ptr := .codeRt ⟨10, 20⟩, hasPyFrame := true, retAddr := 7777 }],
    tstate := { frame := some 0, shadow_frame := some 0 },
    pyFrameUnlinkTrampoline := 7777 }

/-- A three-deep stack: a compiled function with its frame (frame 0), below
it a running generator (generator 0) that has no frame yet, below it a
compiled function without a frame. -/
def genStack : State :=
  { frames := [{ ob_refcnt := 1, f_back := none, f_code := 10, f_globals := 20,
                 f_gen := none, f_executing := 1, stacktop := 100 }],
    gens := [{ gi_running := true, gi_frame := none, gi_jit_data := some { code_rt := ⟨11, 21⟩ } }],
    shadows := [{ prev := some 1, ptr := .codeRt ⟨10, 20⟩, hasPyFrame := true, retAddr := 7777 },
                { prev := some 2, ptr := .gen 0, hasPyFrame := false, retAddr := 101 },
                { prev := none, ptr := .codeRt ⟨12, 22⟩, hasPyFrame := false, retAddr := 102 }],
    tstate := { frame := some 0, shadow_frame := some 0 },
    pyFrameUnlinkTrampoline := 7777 }

/-- A suspended generator (generator 0, not running) whose frame (frame 0)
has been materialized; nothing is on the stack. -/
def suspendedGenState : State :=
  { frames := [{ ob_refcnt := 1, f_back := none, f_code := 11, f_globals := 21,
                 f_gen := some 0, f_executing := 0, stacktop := 0 }],
    gens := [{ gi_running := false, gi_frame := some 0, gi_jit_data := some { code_rt := ⟨11, 21⟩ } }],
    shadows := [],
    tstate := { frame := none, shadow_frame := none },
    pyFrameUnlinkTrampoline := 7777 }

/-- A finished generator (generator 0): its JIT state is Completed; it has a
frame (frame 0) that is not executing. -/
def completedGenState : State :=
  { frames := [{ ob_refcnt := 1, f_back := none, f_code := 11, f_globals := 21,
                 f_gen := some 0, f_executing := 0, stacktop := 0 }],
    gens := [{ gi_running := false, gi_frame := some 0,
               gi_jit_data := some { code_rt := ⟨11, 21⟩, state := ._PyJitGenState_Completed,
                                     yieldPoint := some 500, resumeEntry := 900 } }],
    shadows := [],
    tstate := { frame := none, shadow_frame := none },
    pyFrameUnlinkTrampoline := 7777 }

/-- A state outside a batch run with three pending units: two functions and a
code object that has its entry in `jit_code_data`; two workers are
configured. -/
def pendingState : JitState :=
  { jit_ctx := true,
    jit_reg_units := [.func 1, .code 2, .func 3],
    jit_code_data := [(2, ⟨50, 60⟩)],
    jit_preloaders := [],
    g_threaded_compile_context := ⟨false, [], []⟩,
    g_compile_workers_attempted := 0,
    g_compile_workers_retries := 0,
    _PyGILState_check_enabled := 1,
    batch_compile_workers := 2,
    multithreaded_compile_test := 1,
    is_enabled := 1,
    are_type_slots_enabled := 1,
    compile_log := [],
    preload_log := [],
    register_log := [] }

/-- The state `pendingState` after the preload loop. -/
def preloadedState : JitState :=
  { pendingState with
    jit_reg_units := [],
    jit_preloaders := [(.func 1, .ofFunction 1), (.code 2, .ofCode 2 60 50),
                       (.func 3, .ofFunction 3)],
    preload_log := [.func 1, .code 2, .func 3] }

/-- An environment in which nothing is registered during preload; the
backend answers Retry when a worker compiles function 1, declines code
object 2, and compiles every other unit. -/
def exampleEnv : CompileEnv :=
  { compilePreloader := fun _ thread unit _ =>
      if unit = .func 1 ∧ thread.isSome then .PYJIT_RESULT_RETRY
      else if unit = .code 2 then .PYJIT_RESULT_CANNOT_SPECIALIZE
      else .PYJIT_RESULT_OK,
    compileFunction := fun _ _ => .PYJIT_RESULT_OK,
    compileCode := fun _ _ _ _ => .PYJIT_RESULT_OK,
    preloadRegisters := fun _ _ => [] }

/-- An environment whose backend answers Retry to every call. -/
def retryEnv : CompileEnv :=
  { compilePreloader := fun _ _ _ _ => .PYJIT_RESULT_RETRY,
    compileFunction := fun _ _ => .PYJIT_RESULT_OK,
    compileCode := fun _ _ _ _ => .PYJIT_RESULT_OK,
    preloadRegisters := fun _ _ => [] }

/-- An environment in which the construction of the preloader of function 3
registers a function whose nested code object is code object 2. -/
def reregisterEnv : CompileEnv :=
  { compilePreloader := fun _ _ _ _ => .PYJIT_RESULT_OK,
    compileFunction := fun _ _ => .PYJIT_RESULT_OK,
    compileCode := fun _ _ _ _ => .PYJIT_RESULT_OK,
    preloadRegisters := fun _ unit => if unit = .func 3 then [.code 2 ⟨50, 60⟩] else [] }

/-- An environment whose backend answers Retry to the first attempt at a unit
of `flaky` and Ok to every other attempt; nothing is registered during
preload. -/
def flakyEnv (flaky : List PyUnit) : CompileEnv :=
  { compilePreloader := fun log _ unit _ =>
      if unit ∈ flaky ∧ ∀ a ∈ log, a.unit ≠ unit then .PYJIT_RESULT_RETRY
      else .PYJIT_RESULT_OK,
    compileFunction := fun _ _ => .PYJIT_RESULT_OK,
    compileCode := fun _ _ _ _ => .PYJIT_RESULT_OK,
    preloadRegisters := fun _ _ => [] }

/-- A state with `U` pending functions and `W` workers. -/
def manyPending (U W : Nat) : JitState :=
  { pendingState with
    jit_reg_units := (List.range U).map PyUnit.func,
    jit_code_data := [],
    batch_compile_workers := W }

/-- The state `manyPending U W` after the preload loop. -/
def manyPreloaded (U W : Nat) : JitState :=
  { manyPending U W with
    jit_reg_units := [],
    jit_preloaders := (List.range U).map fun i => (PyUnit.func i, Preloader.ofFunction i),
    preload_log := (List.range U).map PyUnit.func }

/-- An environment in which the construction of the preloader of function 1
registers function 4, unless function 4 has been taken out of the pending set
already. -/
def discoverEnv : CompileEnv :=
  { compilePreloader := fun _ _ _ _ => .PYJIT_RESULT_OK,
    compileFunction := fun _ _ => .PYJIT_RESULT_OK,
    compileCode := fun _ _ _ _ => .PYJIT_RESULT_OK,
    preloadRegisters := fun drained unit =>
      if unit = .func 1 ∧ PyUnit.func 4 ∉ drained then [.func 4] else [] }

/-- A state like `pendingState` in which no worker is configured. -/
def zeroWorkersState : JitState := { pendingState with batch_compile_workers := 0 }

/-- A generator (generator 0) that has not run yet: its JIT state is
JustStarted, its yield point is the initial one, and it has no frame. -/
def justStartedGenState : State :=
  { frames := [],
    gens := [{ gi_running := false, gi_frame := none,
               gi_jit_data := some { code_rt := ⟨11, 21⟩, state := ._PyJitGenState_JustStarted,
                                     yieldPoint := some 500, resumeEntry := 900 } }],
    shadows := [],
    tstate := { frame := none, shadow_frame := none },
    pyFrameUnlinkTrampoline := 7777 }

/-- Generated code that finishes at once, with the JIT data left in place. -/
def finishingEnv : GenEnv :=
  { Py_None := 7, resumeEntry := fun _ st _ _ _ => (none, st) }

/-- Methods of a yield point whose calls can be told from the result:
`visitRefs` returns 1, `releaseRefs` sets the frame pointer of the thread to
99, the value yielded from is the object 5, and `JITRT_GenJitDataFree` sets
the JIT data of the generator to null. -/
def tracingYieldPointEnv : GenYieldPointEnv :=
  { visitRefs := fun _ st _ _ _ => (1, st),
    releaseRefs := fun _ st _ => { st with tstate := { st.tstate with frame := some 99 } },
    yieldFromValue := fun _ _ _ => some 5,
    JITRT_GenJitDataFree := fun st gen =>
      match st.gens[gen]? with
      | some g => st.setGen gen { g with gi_jit_data := none }
      | none => st }

/-- Four functions and their code objects, with a JIT list that holds code
object 2 and the qualified name 73: function 0 (code object 2) and function
3 (code object 3, name 73) are on the list, functions 1 and 2 are not.  Code
object 2 is nested in code object 0. -/
def exampleJitEnv : JitEnv :=
  { funcs := [⟨2, 50, 72, 60⟩, ⟨1, 50, 71, 60⟩, ⟨0, 50, 70, 60⟩, ⟨3, 50, 73, 60⟩],
    codes := [⟨0, some 70, [.object 100, .code 2]⟩, ⟨0, some 71, []⟩, ⟨0, some 72, []⟩,
              ⟨0, some 73, []⟩],
    g_jit_list := some { lookupCO := fun c => if c = 2 then 1 else 0,
                         lookupFO := fun _ q => if q = 73 then 1 else 0 },
    init_state := .JIT_INITIALIZED,
    compile_all_static_functions := 0,
    CO_STATICALLY_COMPILED := 67108864,
    attachCompiledCode := fun _ => .PYJIT_RESULT_CANNOT_SPECIALIZE }

/-- The state `preloadedState` while the batch run is in flight. -/
def inFlightState : JitState := preloadedState.started [.func 1, .code 2, .func 3]

/-- Eight code objects of module 50.  The root tuple is that of code object
0: it holds code objects 1 and 2; code object 3 is nested in both, code object
1 again in code object 2, code object 4 in code object 3, code object 5 in
code object 4, and code object 7 in code object 6.  Code object 4 has no
qualified name and code object 6 is not on the JIT list; every other code
object is eligible. -/
def nestedJitEnv : JitEnv :=
  { funcs := [⟨0, 50, 70, 60⟩],
    codes := [⟨0, some 70, [.code 1, .object 9, .code 2]⟩,
              ⟨0, some 71, [.code 3]⟩,
              ⟨0, some 72, [.code 3, .code 1, .code 6]⟩,
              ⟨0, some 73, [.code 4]⟩,
              ⟨0, none, [.code 5]⟩,
              ⟨0, some 75, []⟩,
              ⟨0, some 76, [.code 7]⟩,
              ⟨0, some 77, []⟩],
    g_jit_list := some { lookupCO := fun c => if c = 6 then 0 else 1,
                         lookupFO := fun _ _ => 0 },
    init_state := .JIT_INITIALIZED,
    compile_all_static_functions := 0,
    CO_STATICALLY_COMPILED := 67108864,
    attachCompiledCode := fun _ => .PYJIT_RESULT_CANNOT_SPECIALIZE }

/-- A C-API in which every call succeeds: a call that returns an object
returns a new address, a line lookup returns line 7, and every other call
returns 0. -/
def workingCAPI : CAPI :=
  { object := fun calls _ => some (1000 + calls.length),
    status := fun _ c =>
      match c with
      | .PyCode_Addr2Line _ _ => 7
      | _ => 0 }

/-- A C-API like `workingCAPI` in which the insertion of the entry
`guilty_type` fails: `PyDict_SetItem` returns -1 for that key. -/
def guiltyTypeFailsCAPI : CAPI :=
  { object := fun calls _ => some (1000 + calls.length),
    status := fun _ c =>
      match c with
      | .PyCode_Addr2Line _ _ => 7
      | .PyDict_SetItem _ .s_str_guilty_type _ => -1
      | _ => 0 }

/-- A C-API like `workingCAPI` in which the insertion of the entry `count`
fails. -/
def countFailsCAPI : CAPI :=
  { object := fun calls _ => some (1000 + calls.length),
    status := fun _ c =>
      match c with
      | .PyCode_Addr2Line _ _ => 7
      | .PyDict_SetItem _ .s_str_count _ => -1
      | _ => 0 }

/-- The deopt stats of a runtime with one deopt, without a type profile. -/
def exampleDeoptStats : List DeoptStatEntry :=
  [{ code := 1, co_qualname := 72, co_filename := 80, co_lnotab := some 81,
     next_instr_offset := 4, reason := "GuardFailure", descr := "GuardType", count := 3,
     types_empty := true, types := [], other := 0 }]

/-! ## Lemmas on the embedding -/

theorem ok_bind {ε α β} (a : α) (f : α → Except ε β) : (Except.ok a >>= f) = f a := rfl

theorem err_bind {ε α β} (e : ε) (f : α → Except ε β) :
    (Except.error e >>= f) = Except.error e := rfl

theorem lt_of_getElem?_eq_some {α} {l : List α} {i : Nat} {a : α} (h : l[i]? = some a) :
    i < l.length := by
  rcases Nat.lt_or_ge i l.length with h' | h'
  · exact h'
  · rw [List.getElem?_eq_none h'] at h; cases h

theorem LinkedList.head_eq {next : Nat → Option (Option Nat)} :
    ∀ {p : Option Nat} {ids : List Nat}, LinkedList next p ids → p = ids.head?
  | _, [], h => h
  | _, _ :: _, h => h.1

theorem LinkedList.congr {next next' : Nat → Option (Option Nat)} :
    ∀ {ids : List Nat} {p : Option Nat}, (∀ i ∈ ids, next' i = next i) →
      LinkedList next p ids → LinkedList next' p ids
  | [], _, _, h => h
  | i :: rest, _, hn, h => by
    obtain ⟨hp, q, hq, hrest⟩ := h
    refine ⟨hp, q, ?_, LinkedList.congr (fun j hj => hn j (List.mem_cons_of_mem _ hj)) hrest⟩
    rw [hn i (List.mem_cons_self _ _)]; exact hq

theorem LinkedList.det {next : Nat → Option (Option Nat)} :
    ∀ {l₁ l₂ : List Nat} {p : Option Nat}, LinkedList next p l₁ → LinkedList next p l₂ → l₁ = l₂
  | [], [], _, _, _ => rfl
  | [], _ :: _, _, h₁, h₂ => by
    have h1 : _ = none := h₁
    rw [h1] at h₂; cases h₂.1
  | _ :: _, [], _, h₁, h₂ => by
    have h2 : _ = none := h₂
    rw [h2] at h₁; cases h₁.1
  | i :: r₁, j :: r₂, _, h₁, h₂ => by
    obtain ⟨hp₁, q₁, hq₁, hr₁⟩ := h₁
    obtain ⟨hp₂, q₂, hq₂, hr₂⟩ := h₂
    rw [hp₁] at hp₂
    cases hp₂
    rw [hq₁] at hq₂
    cases hq₂
    rw [LinkedList.det hr₁ hr₂]

theorem LinkedList.valid {next : Nat → Option (Option Nat)} :
    ∀ {ids : List Nat} {p : Option Nat}, LinkedList next p ids → ∀ i ∈ ids, ∃ q, next i = some q
  | [], _, _, _, hi => by cases hi
  | j :: rest, _, h, i, hi => by
    obtain ⟨_, q, hq, hrest⟩ := h
    rcases List.mem_cons.mp hi with rfl | hi'
    · exact ⟨q, hq⟩
    · exact LinkedList.valid hrest i hi'

theorem LinkedList.suffix {next : Nat → Option (Option Nat)} :
    ∀ {a b : List Nat} {p : Option Nat}, LinkedList next p (a ++ b) → LinkedList next b.head? b
  | [], b, p, h => by
    have hp := LinkedList.head_eq h
    simp only [List.nil_append] at hp h
    exact hp ▸ h
  | _ :: a, _, _, h => by
    obtain ⟨_, q, _, hrest⟩ := h
    exact LinkedList.suffix (a := a) hrest

theorem LinkedList.next_eq {next : Nat → Option (Option Nat)} {a b : List Nat} {x : Nat}
    {p : Option Nat} (h : LinkedList next p (a ++ x :: b)) : next x = some b.head? := by
  obtain ⟨_, q, hq, hrest⟩ := LinkedList.suffix h
  rw [hq, LinkedList.head_eq hrest]

theorem LinkedList.nodup {next : Nat → Option (Option Nat)} :
    ∀ {ids : List Nat} {p : Option Nat}, LinkedList next p ids → ids.Nodup
  | [], _, _ => List.nodup_nil
  | i :: rest, _, h => by
    obtain ⟨hp, q, hq, hrest⟩ := h
    refine List.nodup_cons.mpr ⟨?_, LinkedList.nodup hrest⟩
    intro hmem
    obtain ⟨a, b, hab⟩ := List.append_of_mem hmem
    rw [hab] at hrest
    obtain ⟨_, q', hq', hb⟩ := LinkedList.suffix hrest
    rw [hq] at hq'
    cases hq'
    have := LinkedList.det hrest hb
    have hlen := congrArg List.length this
    simp at hlen
    omega

/-- Linking a new cell `F` behind the last cell of `pre` (or at the head
when `pre` is empty) inserts it between `pre` and `post`. -/
theorem LinkedList.insert {next next' : Nat → Option (Option Nat)} {F : Nat} {post : List Nat}
    (hF : next F = none) :
    ∀ {pre : List Nat} {p : Option Nat}, LinkedList next p (pre ++ post) →
      (∀ i, i ≠ F → some i ≠ pre.getLast? → next' i = next i) →
      (∀ P, pre.getLast? = some P → next' P = some (some F)) →
      next' F = some post.head? →
      LinkedList next' (if pre = [] then some F else p) (pre ++ F :: post)
  | [], p, h, hsame, _, hnew => by
    have hp := LinkedList.head_eq h
    refine ⟨by simp, post.head?, hnew, ?_⟩
    refine LinkedList.congr (fun i hi => hsame i ?_ (by simp)) (hp ▸ h)
    rintro rfl
    obtain ⟨q, hq⟩ := LinkedList.valid h i (by simpa using hi)
    rw [hF] at hq; cases hq
  | [P], p, h, hsame, hlast, hnew => by
    have hnd := LinkedList.nodup h
    have hv := LinkedList.valid h
    obtain ⟨hp, q, hq, hrest⟩ := h
    have hqp := LinkedList.head_eq hrest
    refine ⟨by simpa using hp, some F, hlast P (by simp), by simp, post.head?, hnew, ?_⟩
    refine LinkedList.congr (fun i hi => hsame i ?_ ?_) (hqp ▸ hrest)
    · rintro rfl
      obtain ⟨q, hq⟩ := hv i (by simp [hi])
      rw [hF] at hq; cases hq
    · simp only [List.getLast?_singleton, ne_eq, Option.some.injEq]
      rintro rfl
      simp at hnd
      exact hnd.1 hi
  | x :: y :: pre, p, h, hsame, hlast, hnew => by
    have hnd := LinkedList.nodup h
    have hv := LinkedList.valid h
    obtain ⟨hp, q, hq, hrest⟩ := h
    have hlast' : (x :: y :: pre).getLast? = (y :: pre).getLast? := by simp [List.getLast?_cons_cons]
    have ih := LinkedList.insert hF (show LinkedList next q ((y :: pre) ++ post) from hrest)
      (fun i h1 h2 => hsame i h1 (hlast' ▸ h2)) (fun P hP => hlast P (hlast' ▸ hP)) hnew
    simp only [reduceCtorEq, ↓reduceIte] at ih
    refine ⟨by simpa using hp, q, ?_, ih⟩
    rw [hsame x ?_ ?_]
    · exact hq
    · rintro rfl
      obtain ⟨q, hq⟩ := hv x (by simp)
      rw [hF] at hq; cases hq
    · rw [hlast']
      intro hx
      have : x ∈ y :: pre := List.mem_of_getLast?_eq_some hx.symm
      simp at hnd
      simp at this
      tauto


theorem getCodeRuntime_ok {st : State} {sf : Nat} {rt : CodeRuntime}
    (h : getCodeRuntime st sf = .ok rt) :
    ∃ s, st.shadows[sf]? = some s ∧
      (s.ptr = .codeRt rt ∨
       ∃ g o jd, s.ptr = .gen g ∧ st.gens[g]? = some o ∧ o.gi_jit_data = some jd ∧
         jd.code_rt = rt) := by
  unfold getCodeRuntime _PyShadowFrame_GetPtrKind _PyShadowFrame_GetPtr State.shadowAt at h
  cases hs : st.shadows[sf]? with
  | none => simp [hs, err_bind] at h
  | some s =>
    refine ⟨s, rfl, ?_⟩
    cases hp : s.ptr with
    | codeRt rt' =>
      simp [hs, hp, ok_bind, pure, Except.pure] at h
      exact Or.inl (by rw [h])
    | codeObj c => simp [hs, hp, ok_bind, pure, Except.pure, throw, throwThe, MonadExceptOf.throw] at h
    | gen g =>
      right
      unfold State.genAt at h
      cases hg : st.gens[g]? with
      | none => simp [hs, hp, hg, ok_bind, err_bind, pure, Except.pure] at h
      | some o =>
        cases hjd : o.gi_jit_data with
        | none => simp [hs, hp, hg, hjd, ok_bind, pure, Except.pure, throw, throwThe, MonadExceptOf.throw] at h
        | some jd =>
          simp [hs, hp, hg, hjd, ok_bind, pure, Except.pure] at h
          exact ⟨g, o, jd, rfl, hg, hjd, h⟩


theorem set_eq_self_of_getElem? {α} {l : List α} {i : Nat} {a : α} (h : l[i]? = some a) :
    l.set i a = l := by
  apply List.ext_getElem?
  intro j
  rw [List.getElem?_set]
  split
  · next hij => subst hij; simp [lt_of_getElem?_eq_some h, h]
  · rfl

theorem createPyFrame_eq {st : State} (rt : CodeRuntime)
    (htop : ∀ t, st.tstate.frame = some t → t < st.frames.length) :
    createPyFrame st rt = .ok (st.frames.length,
      { st with frames := st.frames ++
          [{ ob_refcnt := 1, f_back := none, f_code := rt.code, f_globals := rt.globals,
             f_gen := none, f_executing := 1, stacktop := 0 }] }) := by
  cases htf : st.tstate.frame with
  | none =>
    simp [createPyFrame, PyFrame_New, htf, Py_XINCREF, State.frameAt, State.setFrame,
      ok_bind, pure, Except.pure, List.getElem?_append]
  | some t =>
    have ht := htop t htf
    have hget : st.frames[t]? = some st.frames[t] := List.getElem?_eq_getElem ht
    simp [createPyFrame, PyFrame_New, htf, Py_XINCREF, Py_INCREF, Py_DECREF, State.frameAt,
      State.setFrame, ok_bind, pure, Except.pure, List.getElem?_append, List.getElem?_set, ht,
      hget, ht.ne, ht.ne', List.set_append]
    exact set_eq_self_of_getElem? hget

theorem materializePyFrame_create_top_none {st : State} {sf : Nat}
    {s : _PyShadowFrame} {rt : CodeRuntime} 
    (hs : st.shadows[sf]? = some s) (hflag : s.hasPyFrame = false)
    (hrt : getCodeRuntime st sf = .ok rt)
    (htf : st.tstate.frame = none)
    (htop : ∀ t, st.tstate.frame = some t → t < st.frames.length) :
    ∃ st', materializePyFrame st none sf = .ok (some st.frames.length, st') ∧
      Created st none sf s rt st' := by
  obtain ⟨s', hs', hptr⟩ := getCodeRuntime_ok hrt
  rw [hs] at hs'
  cases hs'
  have hsf := lt_of_getElem?_eq_some hs
  have hcreate := createPyFrame_eq rt htop
  have t : Nat := 0
  rcases hptr with hp | ⟨g, o, jd, hp, hg, hjd, hjrt⟩
  · simp [materializePyFrame, _PyShadowFrame_HasPyFrame, State.shadowAt, hs, hflag,
      hrt, _PyShadowFrame_GetPtrKind, _PyShadowFrame_GetPtr, hp, hcreate,
      htf, Py_XINCREF, State.frameAt, State.setFrame, Py_INCREF, Py_DECREF,
      ok_bind, pure, Except.pure, List.getElem?_append, List.getElem?_set,
      JITFrame.insertPyFrameUnlinkTrampoline, JITFrame.retAddr, JITFrame.ofShadowFrame,
      JITFrame.setRetAddr, State.setShadow, _PyShadowFrame_SetHasPyFrame, hsf,
      _PyShadowFrame_GetGen, State.genAt, State.setGen]
    clear hcreate hrt
    constructor
    case fBack_old =>
      intro i
      intros
      by_cases h : i < st.frames.length
      · by_cases hti : t = i
        · subst hti
          simp_all [State.fBack, PyFrameObject.body, List.getElem?_append, List.getElem?_set]
        · simp_all [State.fBack, PyFrameObject.body, List.getElem?_append, List.getElem?_set]
      · have : st.frames.length < i := by omega
        simp [State.fBack, PyFrameObject.body, List.getElem?_append, List.getElem?_set, h,
          List.getElem?_eq_none (Nat.le_of_lt this)]
        omega
    case body_old =>
      intro i
      intros
      by_cases h : i < st.frames.length
      · by_cases hti : t = i
        · subst hti
          simp_all [State.fBack, PyFrameObject.body, List.getElem?_append, List.getElem?_set]
        · simp_all [State.fBack, PyFrameObject.body, List.getElem?_append, List.getElem?_set]
      · have : st.frames.length < i := by omega
        simp [State.fBack, PyFrameObject.body, List.getElem?_append, List.getElem?_set, h,
          List.getElem?_eq_none (Nat.le_of_lt this)]
        omega
    all_goals simp [State.fBack, PyFrameObject.body, hp, htf, ShadowPtr.gen?, List.getElem?_append,
      List.getElem?_set]
  · have hgl := lt_of_getElem?_eq_some hg
    simp [materializePyFrame, _PyShadowFrame_HasPyFrame, State.shadowAt, hs, hflag,
      hrt, _PyShadowFrame_GetPtrKind, _PyShadowFrame_GetPtr, hp, hcreate,
      htf, Py_XINCREF, State.frameAt, State.setFrame, Py_INCREF, Py_DECREF,
      ok_bind, pure, Except.pure, List.getElem?_append, List.getElem?_set,
      JITFrame.insertPyFrameUnlinkTrampoline, JITFrame.retAddr, JITFrame.ofShadowFrame,
      JITFrame.setRetAddr, State.setShadow, _PyShadowFrame_SetHasPyFrame, hsf,
      _PyShadowFrame_GetGen, State.genAt, State.setGen, hg, hjd, hgl]
    clear hcreate hrt
    constructor
    case fBack_old =>
      intro i
      intros
      by_cases h : i < st.frames.length
      · by_cases hti : t = i
        · subst hti
          simp_all [State.fBack, PyFrameObject.body, List.getElem?_append, List.getElem?_set]
        · simp_all [State.fBack, PyFrameObject.body, List.getElem?_append, List.getElem?_set]
      · have : st.frames.length < i := by omega
        simp [State.fBack, PyFrameObject.body, List.getElem?_append, List.getElem?_set, h,
          List.getElem?_eq_none (Nat.le_of_lt this)]
        omega
    case body_old =>
      intro i
      intros
      by_cases h : i < st.frames.length
      · by_cases hti : t = i
        · subst hti
          simp_all [State.fBack, PyFrameObject.body, List.getElem?_append, List.getElem?_set]
        · simp_all [State.fBack, PyFrameObject.body, List.getElem?_append, List.getElem?_set]
      · have : st.frames.length < i := by omega
        simp [State.fBack, PyFrameObject.body, List.getElem?_append, List.getElem?_set, h,
          List.getElem?_eq_none (Nat.le_of_lt this)]
        omega
    case gens =>
      intro g'
      by_cases hgg : g = g'
      · subst hgg
        simp [hp, hg, hjd, hgl]
      · simp [hp, hgg]
    all_goals simp [State.fBack, PyFrameObject.body, hp, htf, ShadowPtr.gen?, List.getElem?_append,
      List.getElem?_set, hg, hjd, hgl]

theorem materializePyFrame_create_top_some {st : State} {sf : Nat}
    {s : _PyShadowFrame} {rt : CodeRuntime} {t : Nat}
    (hs : st.shadows[sf]? = some s) (hflag : s.hasPyFrame = false)
    (hrt : getCodeRuntime st sf = .ok rt)
    (htf : st.tstate.frame = some t)
    (htop : ∀ t, st.tstate.frame = some t → t < st.frames.length) :
    ∃ st', materializePyFrame st none sf = .ok (some st.frames.length, st') ∧
      Created st none sf s rt st' := by
  obtain ⟨s', hs', hptr⟩ := getCodeRuntime_ok hrt
  rw [hs] at hs'
  cases hs'
  have hsf := lt_of_getElem?_eq_some hs
  have hcreate := createPyFrame_eq rt htop
  have ht := htop t htf
  have hget : st.frames[t]? = some st.frames[t] := List.getElem?_eq_getElem ht
  rcases hptr with hp | ⟨g, o, jd, hp, hg, hjd, hjrt⟩
  · simp [materializePyFrame, _PyShadowFrame_HasPyFrame, State.shadowAt, hs, hflag,
      hrt, _PyShadowFrame_GetPtrKind, _PyShadowFrame_GetPtr, hp, hcreate,
      htf, Py_XINCREF, State.frameAt, State.setFrame, Py_INCREF, Py_DECREF,
      ok_bind, pure, Except.pure, List.getElem?_append, List.getElem?_set,
      JITFrame.insertPyFrameUnlinkTrampoline, JITFrame.retAddr, JITFrame.ofShadowFrame,
      JITFrame.setRetAddr, State.setShadow, _PyShadowFrame_SetHasPyFrame, hsf,
      _PyShadowFrame_GetGen, State.genAt, State.setGen, ht, hget, ht.ne, ht.ne']
    clear hcreate hrt
    constructor
    case fBack_old =>
      intro i
      intros
      by_cases h : i < st.frames.length
      · by_cases hti : t = i
        · subst hti
          simp_all [State.fBack, PyFrameObject.body, List.getElem?_append, List.getElem?_set]
        · simp_all [State.fBack, PyFrameObject.body, List.getElem?_append, List.getElem?_set]
      · have : st.frames.length < i := by omega
        simp [State.fBack, PyFrameObject.body, List.getElem?_append, List.getElem?_set, h,
          List.getElem?_eq_none (Nat.le_of_lt this)]
        omega
    case body_old =>
      intro i
      intros
      by_cases h : i < st.frames.length
      · by_cases hti : t = i
        · subst hti
          simp_all [State.fBack, PyFrameObject.body, List.getElem?_append, List.getElem?_set]
        · simp_all [State.fBack, PyFrameObject.body, List.getElem?_append, List.getElem?_set]
      · have : st.frames.length < i := by omega
        simp [State.fBack, PyFrameObject.body, List.getElem?_append, List.getElem?_set, h,
          List.getElem?_eq_none (Nat.le_of_lt this)]
        omega
    all_goals simp [State.fBack, PyFrameObject.body, hp, htf, ShadowPtr.gen?, List.getElem?_append,
      List.getElem?_set, ht, hget, ht.ne, ht.ne']
  · have hgl := lt_of_getElem?_eq_some hg
    simp [materializePyFrame, _PyShadowFrame_HasPyFrame, State.shadowAt, hs, hflag,
      hrt, _PyShadowFrame_GetPtrKind, _PyShadowFrame_GetPtr, hp, hcreate,
      htf, Py_XINCREF, State.frameAt, State.setFrame, Py_INCREF, Py_DECREF,
      ok_bind, pure, Except.pure, List.getElem?_append, List.getElem?_set,
      JITFrame.insertPyFrameUnlinkTrampoline, JITFrame.retAddr, JITFrame.ofShadowFrame,
      JITFrame.setRetAddr, State.setShadow, _PyShadowFrame_SetHasPyFrame, hsf,
      _PyShadowFrame_GetGen, State.genAt, State.setGen, hg, hjd, hgl, ht, hget, ht.ne, ht.ne']
    clear hcreate hrt
    constructor
    case fBack_old =>
      intro i
      intros
      by_cases h : i < st.frames.length
      · by_cases hti : t = i
        · subst hti
          simp_all [State.fBack, PyFrameObject.body, List.getElem?_append, List.getElem?_set]
        · simp_all [State.fBack, PyFrameObject.body, List.getElem?_append, List.getElem?_set]
      · have : st.frames.length < i := by omega
        simp [State.fBack, PyFrameObject.body, List.getElem?_append, List.getElem?_set, h,
          List.getElem?_eq_none (Nat.le_of_lt this)]
        omega
    case body_old =>
      intro i
      intros
      by_cases h : i < st.frames.length
      · by_cases hti : t = i
        · subst hti
          simp_all [State.fBack, PyFrameObject.body, List.getElem?_append, List.getElem?_set]
        · simp_all [State.fBack, PyFrameObject.body, List.getElem?_append, List.getElem?_set]
      · have : st.frames.length < i := by omega
        simp [State.fBack, PyFrameObject.body, List.getElem?_append, List.getElem?_set, h,
          List.getElem?_eq_none (Nat.le_of_lt this)]
        omega
    case gens =>
      intro g'
      by_cases hgg : g = g'
      · subst hgg
        simp [hp, hg, hjd, hgl]
      · simp [hp, hgg]
    all_goals simp [State.fBack, PyFrameObject.body, hp, htf, ShadowPtr.gen?, List.getElem?_append,
      List.getElem?_set, hg, hjd, hgl, ht, hget, ht.ne, ht.ne']

theorem materializePyFrame_create_prev {st : State} {sf : Nat}
    {s : _PyShadowFrame} {rt : CodeRuntime} {t : Nat}
    (hs : st.shadows[sf]? = some s) (hflag : s.hasPyFrame = false)
    (hrt : getCodeRuntime st sf = .ok rt)
    (ht : t < st.frames.length)
    (htop : ∀ t, st.tstate.frame = some t → t < st.frames.length) :
    ∃ st', materializePyFrame st (some t) sf = .ok (some st.frames.length, st') ∧
      Created st (some t) sf s rt st' := by
  obtain ⟨s', hs', hptr⟩ := getCodeRuntime_ok hrt
  rw [hs] at hs'
  cases hs'
  have hsf := lt_of_getElem?_eq_some hs
  have hcreate := createPyFrame_eq rt htop
  have hget : st.frames[t]? = some st.frames[t] := List.getElem?_eq_getElem ht
  have htf : True := trivial
  rcases hptr with hp | ⟨g, o, jd, hp, hg, hjd, hjrt⟩
  · simp [materializePyFrame, _PyShadowFrame_HasPyFrame, State.shadowAt, hs, hflag,
      hrt, _PyShadowFrame_GetPtrKind, _PyShadowFrame_GetPtr, hp, hcreate,
      htf, Py_XINCREF, State.frameAt, State.setFrame, Py_INCREF, Py_DECREF,
      ok_bind, pure, Except.pure, List.getElem?_append, List.getElem?_set,
      JITFrame.insertPyFrameUnlinkTrampoline, JITFrame.retAddr, JITFrame.ofShadowFrame,
      JITFrame.setRetAddr, State.setShadow, _PyShadowFrame_SetHasPyFrame, hsf,
      _PyShadowFrame_GetGen, State.genAt, State.setGen, ht, hget, ht.ne, ht.ne']
    clear hcreate hrt
    constructor
    case fBack_old =>
      intro i
      intros
      by_cases h : i < st.frames.length
      · by_cases hti : t = i
        · subst hti
          simp_all [State.fBack, PyFrameObject.body, List.getElem?_append, List.getElem?_set]
        · simp_all [State.fBack, PyFrameObject.body, List.getElem?_append, List.getElem?_set]
      · have : st.frames.length < i := by omega
        simp [State.fBack, PyFrameObject.body, List.getElem?_append, List.getElem?_set, h,
          List.getElem?_eq_none (Nat.le_of_lt this)]
        omega
    case body_old =>
      intro i
      intros
      by_cases h : i < st.frames.length
      · by_cases hti : t = i
        · subst hti
          simp_all [State.fBack, PyFrameObject.body, List.getElem?_append, List.getElem?_set]
        · simp_all [State.fBack, PyFrameObject.body, List.getElem?_append, List.getElem?_set]
      · have : st.frames.length < i := by omega
        simp [State.fBack, PyFrameObject.body, List.getElem?_append, List.getElem?_set, h,
          List.getElem?_eq_none (Nat.le_of_lt this)]
        omega
    all_goals simp [State.fBack, PyFrameObject.body, hp, htf, ShadowPtr.gen?, List.getElem?_append,
      List.getElem?_set, ht, hget, ht.ne, ht.ne']
  · have hgl := lt_of_getElem?_eq_some hg
    simp [materializePyFrame, _PyShadowFrame_HasPyFrame, State.shadowAt, hs, hflag,
      hrt, _PyShadowFrame_GetPtrKind, _PyShadowFrame_GetPtr, hp, hcreate,
      htf, Py_XINCREF, State.frameAt, State.setFrame, Py_INCREF, Py_DECREF,
      ok_bind, pure, Except.pure, List.getElem?_append, List.getElem?_set,
      JITFrame.insertPyFrameUnlinkTrampoline, JITFrame.retAddr, JITFrame.ofShadowFrame,
      JITFrame.setRetAddr, State.setShadow, _PyShadowFrame_SetHasPyFrame, hsf,
      _PyShadowFrame_GetGen, State.genAt, State.setGen, hg, hjd, hgl, ht, hget, ht.ne, ht.ne']
    clear hcreate hrt
    constructor
    case fBack_old =>
      intro i
      intros
      by_cases h : i < st.frames.length
      · by_cases hti : t = i
        · subst hti
          simp_all [State.fBack, PyFrameObject.body, List.getElem?_append, List.getElem?_set]
        · simp_all [State.fBack, PyFrameObject.body, List.getElem?_append, List.getElem?_set]
      · have : st.frames.length < i := by omega
        simp [State.fBack, PyFrameObject.body, List.getElem?_append, List.getElem?_set, h,
          List.getElem?_eq_none (Nat.le_of_lt this)]
        omega
    case body_old =>
      intro i
      intros
      by_cases h : i < st.frames.length
      · by_cases hti : t = i
        · subst hti
          simp_all [State.fBack, PyFrameObject.body, List.getElem?_append, List.getElem?_set]
        · simp_all [State.fBack, PyFrameObject.body, List.getElem?_append, List.getElem?_set]
      · have : st.frames.length < i := by omega
        simp [State.fBack, PyFrameObject.body, List.getElem?_append, List.getElem?_set, h,
          List.getElem?_eq_none (Nat.le_of_lt this)]
        omega
    case gens =>
      intro g'
      by_cases hgg : g = g'
      · subst hgg
        simp [hp, hg, hjd, hgl]
      · simp [hp, hgg]
    all_goals simp [State.fBack, PyFrameObject.body, hp, htf, ShadowPtr.gen?, List.getElem?_append,
      List.getElem?_set, hg, hjd, hgl, ht, hget, ht.ne, ht.ne']


theorem materializePyFrame_create {st : State} {prev : Option Nat} {sf : Nat}
    {s : _PyShadowFrame} {rt : CodeRuntime}
    (hs : st.shadows[sf]? = some s) (hflag : s.hasPyFrame = false)
    (hrt : getCodeRuntime st sf = .ok rt)
    (hprev : ∀ P, prev = some P → P < st.frames.length)
    (htop : ∀ t, st.tstate.frame = some t → t < st.frames.length) :
    ∃ st', materializePyFrame st prev sf = .ok (some st.frames.length, st') ∧
      Created st prev sf s rt st' := by
  cases prev with
  | none =>
    cases htf : st.tstate.frame with
    | none => exact materializePyFrame_create_top_none hs hflag hrt htf htop
    | some t => exact materializePyFrame_create_top_some hs hflag hrt htf htop
  | some t => exact materializePyFrame_create_prev hs hflag hrt (hprev t rfl) htop


theorem Created.sPrev {st prev sf s rt st'} (h : Created st prev sf s rt st')
    (hs : st.shadows[sf]? = some s) (i : Nat) : st'.sPrev i = st.sPrev i := by
  unfold State.sPrev
  rw [h.shadows, List.getElem?_set]
  split
  · next hi => subst hi; simp [hs, lt_of_getElem?_eq_some hs]
  · rfl

theorem Created.shadows_other {st prev sf s rt st'} (h : Created st prev sf s rt st')
    (i : Nat) (hi : i ≠ sf) : st'.shadows[i]? = st.shadows[i]? := by
  rw [h.shadows, List.getElem?_set]
  simp [Ne.symm hi]

theorem Created.hasPyFrame_self {st prev sf s rt st'} (h : Created st prev sf s rt st')
    (hs : st.shadows[sf]? = some s) : st'.hasPyFrame sf = true := by
  unfold State.hasPyFrame
  rw [h.shadows, List.getElem?_set]
  simp [lt_of_getElem?_eq_some hs]

theorem Created.hasPyFrame_other {st prev sf s rt st'} (h : Created st prev sf s rt st')
    (i : Nat) (hi : i ≠ sf) : st'.hasPyFrame i = st.hasPyFrame i := by
  unfold State.hasPyFrame
  rw [h.shadows_other i hi]

theorem Created.genOf {st prev sf s rt st'} (h : Created st prev sf s rt st')
    (hs : st.shadows[sf]? = some s) (i : Nat) : st'.genOf i = st.genOf i := by
  unfold State.genOf
  rw [h.shadows, List.getElem?_set]
  split
  · next hi => subst hi; simp [hs, lt_of_getElem?_eq_some hs]
  · rfl

theorem Created.codeRuntime {st prev sf s rt st'} (h : Created st prev sf s rt st')
    (hs : st.shadows[sf]? = some s) (i : Nat) : getCodeRuntime st' i = getCodeRuntime st i := by
  have hptr : (st'.shadows[i]?).map (·.ptr) = (st.shadows[i]?).map (·.ptr) := by
    rw [h.shadows, List.getElem?_set]
    split
    · next hi => subst hi; simp [hs, lt_of_getElem?_eq_some hs]
    · rfl
  unfold getCodeRuntime _PyShadowFrame_GetPtrKind _PyShadowFrame_GetPtr State.shadowAt
  cases h1 : st'.shadows[i]? with
  | none =>
    cases h2 : st.shadows[i]? with
    | none => rfl
    | some s2 => simp [h1, h2] at hptr
  | some s1 =>
    cases h2 : st.shadows[i]? with
    | none => simp [h1, h2] at hptr
    | some s2 =>
      simp only [h1, h2, Option.map_some', Option.some.injEq] at hptr
      simp only [ok_bind, hptr]
      cases hp : s2.ptr with
      | codeRt rt' => rfl
      | codeObj c => rfl
      | gen g =>
        simp only [pure, Except.pure, ok_bind, State.genAt]
        rw [h.gens g]
        by_cases hsg : s.ptr = .gen g
        · simp only [hsg, if_true]
          cases st.gens[g]? with
          | none => rfl
          | some o => rfl
        · simp only [hsg, if_false]


theorem lt_frames_of_linked {st : State} {p : Option Nat} {l : List Nat}
    (h : LinkedList st.fBack p l) : ∀ i ∈ l, i < st.frames.length := by
  intro i hi
  obtain ⟨q, hq⟩ := LinkedList.valid h i hi
  unfold State.fBack at hq
  cases hf : st.frames[i]? with
  | none => simp [hf] at hq
  | some f => exact lt_of_getElem?_eq_some hf

theorem fBack_length (st : State) : st.fBack st.frames.length = none := by
  simp [State.fBack]

theorem Created.chain {st prev sf s rt st'} (h : Created st prev sf s rt st')
    {pre post : List Nat} (hch : LinkedList st.fBack st.tstate.frame (pre ++ post))
    (hprev : prev = pre.getLast?) :
    LinkedList st'.fBack st'.tstate.frame (pre ++ st.frames.length :: post) := by
  have hins : LinkedList st'.fBack (if pre = [] then some st.frames.length else st.tstate.frame)
      (pre ++ st.frames.length :: post) := LinkedList.insert (fBack_length st) hch
    (fun i hi hne => h.fBack_old i hi (by rw [hprev]; exact fun e => hne e.symm))
    (fun P hP => h.fBack_prev P (by rw [hprev, hP]))
    (by
      rw [h.fBack_new]
      cases hp : prev with
      | none =>
        rw [hp] at hprev
        have hnil : pre = [] := List.getLast?_eq_none_iff.mp hprev.symm
        subst hnil
        simp only [List.nil_append] at hch
        simp only [LinkedList.head_eq hch, Option.elim]
      | some P =>
        rw [hp] at hprev
        obtain ⟨a, ha⟩ := List.getLast?_eq_some_iff.mp hprev.symm
        subst ha
        simp only [List.append_assoc, List.singleton_append] at hch
        simpa only [Option.elim] using LinkedList.next_eq hch)
  rw [h.frame]
  cases hp : prev with
  | none =>
    rw [hp] at hprev
    have hnil : pre = [] := List.getLast?_eq_none_iff.mp hprev.symm
    subst hnil
    simpa using hins
  | some P =>
    rw [hp] at hprev
    have hne : pre ≠ [] := by
      rintro rfl
      simp at hprev
    simpa [hne] using hins

theorem weave_congr {flag flag' : Nat → Bool} :
    ∀ (ids old : List Nat) (n : Nat), (∀ i ∈ ids, flag' i = flag i) →
      weave flag' ids old n = weave flag ids old n
  | [], _, _, _ => rfl
  | i :: ids, old, n, h => by
    have hi := h i (List.mem_cons_self _ _)
    have ht : ∀ j ∈ ids, flag' j = flag j := fun j hj => h j (List.mem_cons_of_mem _ hj)
    unfold weave
    rw [hi]
    cases old with
    | nil => simp only [weave_congr ids [] (n + 1) ht]
    | cons f old' =>
      simp only [weave_congr ids old' n ht, weave_congr ids (f :: old') (n + 1) ht]


theorem Walked.refl (st : State) : Walked st [] st where
  frames_length := by simp
  flagged := by simp
  shadows_other := fun _ _ => rfl
  sPrev := fun _ => rfl
  shadow_frame := rfl
  body_old := fun _ _ => rfl
  codeRuntime := fun _ => rfl
  genOf := fun _ => rfl

theorem hasPyFrame_eq {st : State} {i : Nat} {s : _PyShadowFrame} (hs : st.shadows[i]? = some s) :
    st.hasPyFrame i = s.hasPyFrame := by
  simp [State.hasPyFrame, hs]

theorem walk_spec :
    ∀ (ids : List Nat) (st : State) (pre post : List Nat) (sfp : Option Nat) (fuel : Nat),
      ids.length < fuel →
      LinkedList st.sPrev sfp ids →
      LinkedList st.fBack st.tstate.frame (pre ++ post) →
      (∀ i ∈ ids, st.hasPyFrame i = false → ∃ rt, getCodeRuntime st i = .ok rt) →
      ((ids.filter st.hasPyFrame).length ≤ post.length →
        ∃ st', materializeShadowCallStack.walk fuel st post.head? pre.getLast? sfp =
            .ok ((post.drop (ids.filter st.hasPyFrame).length).head?, st') ∧
          LinkedList st'.fBack st'.tstate.frame
            (pre ++ weave st.hasPyFrame ids post st.frames.length ++
              post.drop (ids.filter st.hasPyFrame).length) ∧
          Walked st ids st' ∧
          (∀ p ∈ ids.zip (weave st.hasPyFrame ids post st.frames.length),
            st.hasPyFrame p.1 = false → CreatedFor st st' p.1 p.2)) ∧
      (post.length < (ids.filter st.hasPyFrame).length →
        materializeShadowCallStack.walk fuel st post.head? pre.getLast? sfp = .error .nullDeref)
  | [], st, pre, post, sfp, fuel, hfuel, hsh, hch, _ => by
    have hs : sfp = none := hsh
    subst hs
    obtain ⟨f, rfl⟩ : ∃ f, fuel = f + 1 := ⟨fuel - 1, by simp at hfuel; omega⟩
    refine ⟨fun _ => ⟨st, ?_, ?_, Walked.refl st, ?_⟩, fun h => ?_⟩
    · simp [materializeShadowCallStack.walk, pure, Except.pure]
    · simpa [weave] using hch
    · intro p hp
      simp at hp
    · simp at h
  | i :: r, st, pre, post, sfp, fuel, hfuel, hsh, hch, hjit => by
    have hnd := LinkedList.nodup hsh
    obtain ⟨hsfp, q, hq, hr⟩ := hsh
    subst hsfp
    obtain ⟨f, rfl⟩ : ∃ f, fuel = f + 1 := ⟨fuel - 1, by simp at hfuel; omega⟩
    have hfuel' : r.length < f := by simp at hfuel; omega
    have hir : i ∉ r := (List.nodup_cons.mp hnd).1
    cases hs : st.shadows[i]? with
    | none => simp [State.sPrev, hs] at hq
    | some s =>
      have hsq : s.prev = q := by simpa [State.sPrev, hs] using hq
      cases hflag : s.hasPyFrame with
      | true =>
        have hfi : st.hasPyFrame i = true := by rw [hasPyFrame_eq hs, hflag]
        have hfilter : (i :: r).filter st.hasPyFrame = i :: r.filter st.hasPyFrame := by
          simp [List.filter_cons, hfi]
        cases post with
        | nil =>
          refine ⟨fun h => ?_, fun _ => ?_⟩
          · simp [hfilter] at h
          · simp [materializeShadowCallStack.walk, _PyShadowFrame_HasPyFrame, State.shadowAt, hs,
              hflag, ok_bind, err_bind, pure, Except.pure, derefNonNull]
        | cons x post' =>
          have hx : x < st.frames.length := lt_frames_of_linked hch x (by simp)
          have hxb : st.fBack x = some post'.head? := LinkedList.next_eq hch
          have hxf : st.frames[x]? = some st.frames[x] := List.getElem?_eq_getElem hx
          have hxb' : st.frames[x].f_back = post'.head? := by
            simpa [State.fBack, hxf] using hxb
          have hstep : materializeShadowCallStack.walk (f + 1) st (x :: post').head? pre.getLast?
              (some i) = materializeShadowCallStack.walk f st post'.head? (pre ++ [x]).getLast? q := by
            simp [materializeShadowCallStack.walk, _PyShadowFrame_HasPyFrame, State.shadowAt, hs,
              hflag, ok_bind, pure, Except.pure, derefNonNull, State.frameAt, hxf, hxb', hsq]
          have hch' : LinkedList st.fBack st.tstate.frame ((pre ++ [x]) ++ post') := by
            simpa using hch
          obtain ⟨ih1, ih2⟩ := walk_spec r st (pre ++ [x]) post' q f hfuel' hr hch'
            (fun j hj => hjit j (List.mem_cons_of_mem _ hj))
          rw [hstep]
          refine ⟨fun h => ?_, fun h => ih2 (by simpa [hfilter] using h)⟩
          obtain ⟨st', hw, hc, hW, hN⟩ := ih1 (by simpa [hfilter] using h)
          have hweave : weave st.hasPyFrame (i :: r) (x :: post') st.frames.length =
              x :: weave st.hasPyFrame r post' st.frames.length := by
            simp [weave, hfi]
          refine ⟨st', ?_, ?_, ?_, ?_⟩
          · rw [hw, hfilter]; rfl
          · rw [hweave, hfilter]
            simpa using hc
          · exact
              { frames_length := by
                  rw [hW.frames_length]
                  simp [List.filter_cons, hfi]
                flagged := by
                  intro j hj
                  rcases List.mem_cons.mp hj with rfl | hj'
                  · unfold State.hasPyFrame
                    rw [hW.shadows_other _ hir, hs]
                    exact hflag
                  · exact hW.flagged j hj'
                shadows_other := fun j hj =>
                  hW.shadows_other j (fun hjr => hj (List.mem_cons_of_mem _ hjr))
                sPrev := hW.sPrev
                shadow_frame := hW.shadow_frame
                body_old := hW.body_old
                codeRuntime := hW.codeRuntime
                genOf := hW.genOf }
          · intro p hp hpf
            rw [hweave, List.zip_cons_cons] at hp
            rcases List.mem_cons.mp hp with rfl | hp'
            · simp [hfi] at hpf
            · exact hN p hp' hpf
      | false =>
        have hfi : st.hasPyFrame i = false := by rw [hasPyFrame_eq hs, hflag]
        have hfilter : (i :: r).filter st.hasPyFrame = r.filter st.hasPyFrame := by
          simp [List.filter_cons, hfi]
        obtain ⟨rt, hrt⟩ := hjit i (List.mem_cons_self _ _) hfi
        have hvalid := lt_frames_of_linked hch
        have hprev : ∀ P, pre.getLast? = some P → P < st.frames.length := fun P hP =>
          hvalid P (List.mem_append_left _ (List.mem_of_getLast?_eq_some hP))
        have htop : ∀ t, st.tstate.frame = some t → t < st.frames.length := by
          intro t ht
          have hh := LinkedList.head_eq hch
          rw [ht] at hh
          exact hvalid t (List.mem_of_mem_head? (by rw [← hh]; rfl))
        obtain ⟨st1, hm, hC⟩ := materializePyFrame_create hs hflag hrt hprev htop
        have hq1 : st1.sPrev i = some q := by rw [hC.sPrev hs, hq]
        have hstep : materializeShadowCallStack.walk (f + 1) st post.head? pre.getLast? (some i) =
            materializeShadowCallStack.walk f st1 post.head?
              (pre ++ [st.frames.length]).getLast? q := by
          cases hs1 : st1.shadows[i]? with
          | none => simp [State.sPrev, hs1] at hq1
          | some s1 =>
            have hsq1 : s1.prev = q := by simpa [State.sPrev, hs1] using hq1
            simp [materializeShadowCallStack.walk, _PyShadowFrame_HasPyFrame, State.shadowAt, hs,
              hflag, ok_bind, pure, Except.pure, hm, hs1, hsq1]
        have hr1 : LinkedList st1.sPrev q r := LinkedList.congr (fun j _ => hC.sPrev hs j) hr
        have hch1 : LinkedList st1.fBack st1.tstate.frame ((pre ++ [st.frames.length]) ++ post) := by
          simpa using hC.chain hch rfl
        have hflags : ∀ j ∈ r, st1.hasPyFrame j = st.hasPyFrame j := fun j hj =>
          hC.hasPyFrame_other j (fun e => hir (e ▸ hj))
        have hfilt1 : r.filter st1.hasPyFrame = r.filter st.hasPyFrame :=
          List.filter_congr hflags
        have hweave : weave st.hasPyFrame (i :: r) post st.frames.length =
            st.frames.length :: weave st1.hasPyFrame r post st1.frames.length := by
          rw [weave_congr r post _ hflags, hC.frames_length]
          simp [weave, hfi]
        obtain ⟨ih1, ih2⟩ := walk_spec r st1 (pre ++ [st.frames.length]) post q f hfuel' hr1 hch1
          (fun j hj hf => by
            rw [hflags j hj] at hf
            obtain ⟨rt', hrt'⟩ := hjit j (List.mem_cons_of_mem _ hj) hf
            exact ⟨rt', by rw [hC.codeRuntime hs, hrt']⟩)
        rw [hstep, hfilter]
        rw [hfilt1] at ih1 ih2
        refine ⟨fun h => ?_, fun h => ih2 h⟩
        obtain ⟨st', hw, hc, hW, hN⟩ := ih1 h
        refine ⟨st', hw, ?_, ?_, ?_⟩
        · rw [hweave]
          simpa using hc
        · exact
            { frames_length := by
                rw [hW.frames_length, hC.frames_length]
                have : r.filter (fun j => !st1.hasPyFrame j) = r.filter (fun j => !st.hasPyFrame j) :=
                  List.filter_congr (fun j hj => by rw [hflags j hj])
                rw [this]
                simp [List.filter_cons, hfi]
                omega
              flagged := by
                intro j hj
                rcases List.mem_cons.mp hj with rfl | hj'
                · unfold State.hasPyFrame
                  rw [hW.shadows_other _ hir]
                  exact hC.hasPyFrame_self hs
                · exact hW.flagged j hj'
              shadows_other := fun j hj => by
                rw [hW.shadows_other j (fun hjr => hj (List.mem_cons_of_mem _ hjr))]
                exact hC.shadows_other j (fun e => hj (e ▸ List.mem_cons_self _ _))
              sPrev := fun j => by rw [hW.sPrev, hC.sPrev hs]
              shadow_frame := by rw [hW.shadow_frame, hC.shadow_frame]
              body_old := fun j hj => by
                rw [hW.body_old j (by rw [hC.frames_length]; omega), hC.body_old j (by omega)]
              codeRuntime := fun j => by rw [hW.codeRuntime, hC.codeRuntime hs]
              genOf := fun j => by rw [hW.genOf, hC.genOf hs] }
        · intro p hp hpf
          rw [hweave, List.zip_cons_cons] at hp
          rcases List.mem_cons.mp hp with rfl | hp'
          · refine ⟨Nat.le_refl _, rt, ?_⟩
            obtain ⟨f1, hf1, hcode, hglob, hgen, _, _⟩ := hC.new_frame
            have hb := hW.body_old st.frames.length (by rw [hC.frames_length]; omega)
            rw [hf1] at hb
            cases ho : st'.frames[st.frames.length]? with
            | none => simp [ho] at hb
            | some o =>
              simp only [ho, Option.map_some', Option.some.injEq, PyFrameObject.body,
                Prod.mk.injEq] at hb
              refine ⟨o, hrt, rfl, by rw [hb.1, hcode], by rw [hb.2.1, hglob], ?_⟩
              rw [hb.2.2.1, hgen]
              simp [State.genOf, hs]
          · have hp1 : p.1 ∈ r := (List.of_mem_zip (a := p.1) (b := p.2) hp').1
            obtain ⟨hle, rt', o, h1, h2, h3, h4, h5⟩ := hN p hp' (by rw [hflags _ hp1]; exact hpf)
            refine ⟨by rw [hC.frames_length] at hle; omega, rt', o, ?_, h2, h3, h4, ?_⟩
            · rw [← hC.codeRuntime hs]; exact h1
            · rw [h5, hC.genOf hs]

theorem weave_length {flag : Nat → Bool} :
    ∀ (ids old : List Nat) (n : Nat), (ids.filter flag).length ≤ old.length →
      (weave flag ids old n).length = ids.length
  | [], _, _, _ => rfl
  | i :: ids, old, n, h => by
    unfold weave
    cases hf : flag i with
    | true =>
      cases old with
      | nil => simp [List.filter_cons, hf] at h
      | cons f old' =>
        simp only [if_true, List.length_cons]
        rw [weave_length ids old' n (by simpa [List.filter_cons, hf] using h)]
    | false =>
      simp only [Bool.false_eq_true, if_false, List.length_cons]
      rw [weave_length ids old (n + 1) (by simpa [List.filter_cons, hf] using h)]

theorem weave_old_pairs {flag : Nat → Bool} :
    ∀ (ids old : List Nat) (n : Nat) (p : Nat × Nat),
      p ∈ (ids.filter flag).zip old → p ∈ ids.zip (weave flag ids old n)
  | [], _, _, _, h => by simp at h
  | i :: ids, old, n, p, h => by
    unfold weave
    cases hf : flag i with
    | true =>
      cases old with
      | nil => simp at h
      | cons f old' =>
        simp only [List.filter_cons, hf, if_true, List.zip_cons_cons, List.mem_cons] at h ⊢
        rcases h with h | h
        · exact Or.inl h
        · exact Or.inr (weave_old_pairs ids old' n p h)
    | false =>
      simp only [List.filter_cons, hf, Bool.false_eq_true, if_false, List.zip_cons_cons,
        List.mem_cons] at h ⊢
      exact Or.inr (weave_old_pairs ids old (n + 1) p h)

theorem weave_flagged_pairs {flag : Nat → Bool} :
    ∀ (ids old : List Nat) (n : Nat) (p : Nat × Nat),
      p ∈ ids.zip (weave flag ids old n) → flag p.1 = true → p ∈ (ids.filter flag).zip old
  | [], _, _, _, h, _ => by simp at h
  | i :: ids, old, n, p, h, hp => by
    unfold weave at h
    cases hf : flag i with
    | true =>
      cases old with
      | nil => simp [hf] at h
      | cons f old' =>
        simp only [List.filter_cons, hf, if_true, List.zip_cons_cons, List.mem_cons] at h ⊢
        rcases h with h | h
        · exact Or.inl h
        · exact Or.inr (weave_flagged_pairs ids old' n p h hp)
    | false =>
      simp only [List.filter_cons, hf, Bool.false_eq_true, if_false, List.zip_cons_cons,
        List.mem_cons] at h ⊢
      rcases h with h | h
      · subst h
        simp [hf] at hp
      · exact weave_flagged_pairs ids old (n + 1) p h hp

theorem weave_sublist {flag : Nat → Bool} :
    ∀ (ids old : List Nat) (n : Nat), (ids.filter flag).length = old.length →
      old.Sublist (weave flag ids old n)
  | [], old, _, h => by
    have : old = [] := List.eq_nil_of_length_eq_zero (by simpa using h.symm)
    subst this
    exact List.Sublist.refl _
  | i :: ids, old, n, h => by
    unfold weave
    cases hf : flag i with
    | true =>
      cases old with
      | nil => simp [List.filter_cons, hf] at h
      | cons f old' =>
        simp only [if_true]
        exact (weave_sublist ids old' n (by simpa [List.filter_cons, hf] using h)).cons₂ f
    | false =>
      simp only [Bool.false_eq_true, if_false]
      exact (weave_sublist ids old (n + 1) (by simpa [List.filter_cons, hf] using h)).cons _

theorem length_le_of_linked {st : State} {p : Option Nat} {ids : List Nat}
    (h : LinkedList st.sPrev p ids) : ids.length ≤ st.shadows.length := by
  have hnd := LinkedList.nodup h
  have hsub : ids.toFinset ⊆ Finset.range st.shadows.length := by
    intro i hi
    obtain ⟨q, hq⟩ := LinkedList.valid h i (List.mem_toFinset.mp hi)
    unfold State.sPrev at hq
    cases hs : st.shadows[i]? with
    | none => simp [hs] at hq
    | some s => exact Finset.mem_range.mpr (lt_of_getElem?_eq_some hs)
  have := Finset.card_le_card hsub
  rwa [List.toFinset_card_of_nodup hnd, Finset.card_range] at this

theorem leftOver_ok {st : State} :
    ∀ (fuel : Nat) (l seen : List Nat) (p : Option Nat), LinkedList st.fBack p l →
      ∃ log, materializeShadowCallStack.leftOver fuel st seen p = .ok log
  | 0, _, seen, _, _ => ⟨seen.reverse, rfl⟩
  | fuel + 1, [], seen, p, h => by
    have hp : p = none := h
    subst hp
    exact ⟨seen.reverse, rfl⟩
  | fuel + 1, x :: l, seen, p, h => by
    obtain ⟨hp, q, hq, hl⟩ := h
    subst hp
    unfold materializeShadowCallStack.leftOver
    by_cases hx : x ∈ seen
    · exact ⟨seen.reverse, by simp [hx, pure, Except.pure]⟩
    · cases hf : st.frames[x]? with
      | none => simp [State.fBack, hf] at hq
      | some fo =>
        have hfo : fo.f_back = q := by simpa [State.fBack, hf] using hq
        obtain ⟨log, hlog⟩ := leftOver_ok fuel l (x :: seen) q hl
        exact ⟨log, by simp [hx, State.frameAt, hf, ok_bind, hfo, hlog]⟩


theorem materializeShadowCallStack_spec {st : State} {ids fs : List Nat}
    (hstack : ShadowStack st ids) (hchain : FrameChain st fs)
    (hjit : ∀ i ∈ ids, st.hasPyFrame i = false → ∃ rt, getCodeRuntime st i = .ok rt) :
    (fs.length = (ids.filter st.hasPyFrame).length →
      ∃ st', materializeShadowCallStack st = .ok (st'.tstate.frame, st') ∧
        FrameChain st' (weave st.hasPyFrame ids fs st.frames.length) ∧
        Walked st ids st' ∧
        (∀ p ∈ ids.zip (weave st.hasPyFrame ids fs st.frames.length),
          st.hasPyFrame p.1 = false → CreatedFor st st' p.1 p.2)) ∧
    ((ids.filter st.hasPyFrame).length < fs.length →
      ∃ log, materializeShadowCallStack st = .error (.stackWalkNotConsumed log)) ∧
    (fs.length < (ids.filter st.hasPyFrame).length →
      materializeShadowCallStack st = .error .nullDeref) := by
  have hfuel : ids.length < st.shadows.length + 1 := Nat.lt_succ_of_le (length_le_of_linked hstack)
  obtain ⟨h1, h2⟩ := walk_spec ids st [] fs st.tstate.shadow_frame (st.shadows.length + 1) hfuel
    hstack (by simpa using hchain) hjit
  have hhead : fs.head? = st.tstate.frame := (LinkedList.head_eq hchain).symm
  simp only [List.getLast?_nil, hhead, List.nil_append] at h1 h2
  refine ⟨fun hlen => ?_, fun hlt => ?_, fun hlt => ?_⟩
  · obtain ⟨st', hw, hc, hW, hN⟩ := h1 (Nat.le_of_eq hlen.symm)
    rw [← hlen, List.drop_length] at hw hc
    simp only [List.head?_nil, List.append_nil] at hw hc
    refine ⟨st', ?_, hc, hW, hN⟩
    simp [materializeShadowCallStack, hw, ok_bind, pure, Except.pure]
  · obtain ⟨st', hw, hc, _, _⟩ := h1 (Nat.le_of_lt hlt)
    have hsuf := LinkedList.suffix hc
    obtain ⟨x, rest, hx⟩ : ∃ x rest, fs.drop (ids.filter st.hasPyFrame).length = x :: rest := by
      cases hd : fs.drop (ids.filter st.hasPyFrame).length with
      | nil =>
        have := congrArg List.length hd
        simp at this
        omega
      | cons x rest => exact ⟨x, rest, rfl⟩
    rw [hx] at hw hsuf
    obtain ⟨log, hlog⟩ := leftOver_ok (st'.frames.length + 1) (x :: rest) [] (some x) hsuf
    refine ⟨log, ?_⟩
    simp [materializeShadowCallStack, hw, ok_bind, err_bind, hlog, throw, throwThe,
      MonadExceptOf.throw]
  · simp [materializeShadowCallStack, h2 hlt, err_bind]

theorem materializePyFrame_flagged {st : State} {prev : Option Nat} {sf : Nat}
    {s : _PyShadowFrame} (hs : st.shadows[sf]? = some s) (hflag : s.hasPyFrame = true) :
    materializePyFrame st prev sf =
      match prev with
      | none => .ok (st.tstate.frame, st)
      | some p => (st.frameAt p) >>= fun pf => .ok (pf.f_back, st) := by
  cases prev <;>
    simp [materializePyFrame, _PyShadowFrame_HasPyFrame, State.shadowAt, hs, hflag, ok_bind,
      pure, Except.pure]

theorem materializePyFrame_unflagged_error {st : State} {prev : Option Nat} {sf : Nat}
    {s : _PyShadowFrame} {e : Abort} (hs : st.shadows[sf]? = some s)
    (hflag : s.hasPyFrame = false) (hrt : getCodeRuntime st sf = .error e) :
    materializePyFrame st prev sf = .error e := by
  simp [materializePyFrame, _PyShadowFrame_HasPyFrame, State.shadowAt, hs, hflag, ok_bind,
    err_bind, pure, Except.pure, hrt]

theorem materializePyFrame_ok_inv {st st' : State} {prev r : Option Nat} {sf : Nat}
    {s : _PyShadowFrame} (hs : st.shadows[sf]? = some s) (hflag : s.hasPyFrame = false)
    (h : materializePyFrame st prev sf = .ok (r, st')) :
    (∃ rt, getCodeRuntime st sf = .ok rt) ∧
      ∀ t, st.tstate.frame = some t → t < st.frames.length := by
  cases hrt : getCodeRuntime st sf with
  | error e => rw [materializePyFrame_unflagged_error hs hflag hrt] at h; cases h
  | ok rt =>
    refine ⟨⟨rt, rfl⟩, ?_⟩
    intro t ht
    by_contra hlt
    have hnone : st.frames[t]? = none := List.getElem?_eq_none (Nat.le_of_not_lt hlt)
    simp [materializePyFrame, _PyShadowFrame_HasPyFrame, State.shadowAt, hs, hflag, ok_bind,
      err_bind, pure, Except.pure, hrt, createPyFrame, PyFrame_New, Py_XINCREF, Py_INCREF, ht,
      State.frameAt, hnone] at h

theorem shadowAt_of_materializePyFrame_ok {st st' : State} {prev r : Option Nat} {sf : Nat}
    (h : materializePyFrame st prev sf = .ok (r, st')) : ∃ s, st.shadows[sf]? = some s := by
  cases hs : st.shadows[sf]? with
  | some s => exact ⟨s, rfl⟩
  | none =>
    simp [materializePyFrame, _PyShadowFrame_HasPyFrame, State.shadowAt, hs, err_bind] at h


theorem materializePyFrame_prev_large {st st' : State} {r : Option Nat} {P sf : Nat}
    {s : _PyShadowFrame} (hs : st.shadows[sf]? = some s) (hflag : s.hasPyFrame = false)
    (hP : st.frames.length < P) : materializePyFrame st (some P) sf ≠ .ok (r, st') := by
  intro h
  obtain ⟨⟨rt, hrt⟩, htop⟩ := materializePyFrame_ok_inv hs hflag h
  have hnone : ∀ x : PyFrameObject, (st.frames ++ [x])[P]? = none := fun x =>
    List.getElem?_eq_none (by simp; omega)
  simp [materializePyFrame, _PyShadowFrame_HasPyFrame, State.shadowAt, hs, hflag, ok_bind,
    err_bind, pure, Except.pure, hrt, createPyFrame_eq rt htop, State.frameAt, hnone] at h

theorem materializePyFrame_prev_fresh {st st' : State} {r : Option Nat} {sf : Nat}
    {s : _PyShadowFrame} (hs : st.shadows[sf]? = some s) (hflag : s.hasPyFrame = false)
    (h : materializePyFrame st (some st.frames.length) sf = .ok (r, st')) :
    materializePyFrame st' (some st.frames.length) sf = .ok (r, st') := by
  obtain ⟨⟨rt, hrt⟩, htop⟩ := materializePyFrame_ok_inv hs hflag h
  obtain ⟨s', hs', hptr⟩ := getCodeRuntime_ok hrt
  rw [hs] at hs'
  cases hs'
  have hsf := lt_of_getElem?_eq_some hs
  have hcreate := createPyFrame_eq rt htop
  rcases hptr with hp | ⟨g, o, jd, hp, hg, hjd, hjrt⟩
  · simp [materializePyFrame, _PyShadowFrame_HasPyFrame, State.shadowAt, hs, hflag,
      hrt, _PyShadowFrame_GetPtrKind, _PyShadowFrame_GetPtr, hp, hcreate,
      Py_XINCREF, State.frameAt, State.setFrame, Py_INCREF, Py_DECREF,
      ok_bind, pure, Except.pure, List.getElem?_append, List.getElem?_set,
      JITFrame.insertPyFrameUnlinkTrampoline, JITFrame.retAddr, JITFrame.ofShadowFrame,
      JITFrame.setRetAddr, State.setShadow, _PyShadowFrame_SetHasPyFrame, hsf,
      _PyShadowFrame_GetGen, State.genAt, State.setGen] at h
    obtain ⟨hr, hst⟩ := h
    subst hr hst
    simp [materializePyFrame, _PyShadowFrame_HasPyFrame, State.shadowAt, hsf,
      State.frameAt, ok_bind, pure, Except.pure, List.getElem?_append, List.getElem?_set]
  · have hgl := lt_of_getElem?_eq_some hg
    simp [materializePyFrame, _PyShadowFrame_HasPyFrame, State.shadowAt, hs, hflag,
      hrt, _PyShadowFrame_GetPtrKind, _PyShadowFrame_GetPtr, hp, hcreate,
      Py_XINCREF, State.frameAt, State.setFrame, Py_INCREF, Py_DECREF,
      ok_bind, pure, Except.pure, List.getElem?_append, List.getElem?_set,
      JITFrame.insertPyFrameUnlinkTrampoline, JITFrame.retAddr, JITFrame.ofShadowFrame,
      JITFrame.setRetAddr, State.setShadow, _PyShadowFrame_SetHasPyFrame, hsf,
      _PyShadowFrame_GetGen, State.genAt, State.setGen, hg, hjd, hgl] at h
    obtain ⟨hr, hst⟩ := h
    subst hr hst
    simp [materializePyFrame, _PyShadowFrame_HasPyFrame, State.shadowAt, hsf,
      State.frameAt, ok_bind, pure, Except.pure, List.getElem?_append, List.getElem?_set]

theorem genOf_eq {st : State} {i : Nat} {s : _PyShadowFrame} (hs : st.shadows[i]? = some s) :
    st.genOf i = s.ptr.gen? := by
  simp [State.genOf, hs]

theorem forGen_walk_flagged {gen fuel : Nat} {st : State} {py prev : Option Nat} {i : Nat}
    {s : _PyShadowFrame} (hs : st.shadows[i]? = some s) (hflag : s.hasPyFrame = true) :
    materializePyFrameForGen.walk gen (fuel + 1) st py prev (some i) =
      match py with
      | none => .error .nullDeref
      | some x =>
        match st.frames[x]? with
        | none => .error .invalidPointer
        | some fo =>
          if fo.f_gen = some gen then .ok (some x, st)
          else materializePyFrameForGen.walk gen fuel st fo.f_back (some x) s.prev := by
  cases py with
  | none =>
    simp [materializePyFrameForGen.walk, _PyShadowFrame_HasPyFrame, State.shadowAt, hs, hflag,
      ok_bind, err_bind, pure, Except.pure, derefNonNull]
  | some x =>
    cases hf : st.frames[x]? with
    | none =>
      simp [materializePyFrameForGen.walk, _PyShadowFrame_HasPyFrame, State.shadowAt, hs, hflag,
        ok_bind, err_bind, pure, Except.pure, derefNonNull, State.frameAt, hf]
    | some fo =>
      by_cases hg : fo.f_gen = some gen <;>
      simp [materializePyFrameForGen.walk, _PyShadowFrame_HasPyFrame, State.shadowAt, hs, hflag,
        ok_bind, err_bind, pure, Except.pure, derefNonNull, State.frameAt, hf, hg]

theorem forGen_walk_unflagged {gen fuel : Nat} {st : State} {py prev : Option Nat} {i : Nat}
    {s : _PyShadowFrame} (hs : st.shadows[i]? = some s) (hflag : s.hasPyFrame = false) :
    materializePyFrameForGen.walk gen (fuel + 1) st py prev (some i) =
      if s.ptr.gen? = some gen then materializePyFrame st prev i
      else materializePyFrameForGen.walk gen fuel st py prev s.prev := by
  cases hp : s.ptr with
  | codeRt rt =>
    simp [materializePyFrameForGen.walk, _PyShadowFrame_HasPyFrame, State.shadowAt, hs, hflag,
      ok_bind, pure, Except.pure, _PyShadowFrame_GetPtrKind, hp, ShadowPtr.gen?]
  | codeObj c =>
    simp [materializePyFrameForGen.walk, _PyShadowFrame_HasPyFrame, State.shadowAt, hs, hflag,
      ok_bind, pure, Except.pure, _PyShadowFrame_GetPtrKind, hp, ShadowPtr.gen?]
  | gen g =>
    by_cases hg : g = gen <;>
    simp [materializePyFrameForGen.walk, _PyShadowFrame_HasPyFrame, State.shadowAt, hs, hflag,
      ok_bind, pure, Except.pure, _PyShadowFrame_GetPtrKind, hp, ShadowPtr.gen?,
      _PyShadowFrame_GetGen, hg]


theorem forGen_walk_spec (gen : Nat) :
    ∀ (ids : List Nat) (st : State) (pre post : List Nat) (sfp : Option Nat) (fuel : Nat),
      ids.length < fuel →
      LinkedList st.sPrev sfp ids →
      LinkedList st.fBack st.tstate.frame (pre ++ post) →
      (ids.filter st.hasPyFrame).length ≤ post.length →
      (materializePyFrameForGen.walk gen fuel st post.head? pre.getLast? sfp =
          .error .failedToFindFrameForGen ∧
        (∀ i ∈ ids, st.hasPyFrame i = false → st.genOf i ≠ some gen) ∧
        (∀ x ∈ post.take (ids.filter st.hasPyFrame).length, st.fGen x ≠ some (some gen))) ∨
      (∃ x, materializePyFrameForGen.walk gen fuel st post.head? pre.getLast? sfp =
          .ok (some x, st) ∧
        x ∈ post.take (ids.filter st.hasPyFrame).length ∧ st.fGen x = some (some gen)) ∨
      (∃ above j below, ids = above ++ j :: below ∧ st.hasPyFrame j = false ∧
        st.genOf j = some gen ∧
        (∀ i ∈ above, st.hasPyFrame i = false → st.genOf i ≠ some gen) ∧
        (∀ x ∈ post.take (above.filter st.hasPyFrame).length, st.fGen x ≠ some (some gen)) ∧
        materializePyFrameForGen.walk gen fuel st post.head? pre.getLast? sfp =
          materializePyFrame st (pre ++ post.take (above.filter st.hasPyFrame).length).getLast? j)
  | [], st, pre, post, sfp, fuel, hfuel, hsh, _, _ => by
    have hs : sfp = none := hsh
    subst hs
    obtain ⟨f, rfl⟩ : ∃ f, fuel = f + 1 := ⟨fuel - 1, by simp at hfuel; omega⟩
    exact Or.inl ⟨rfl, by simp, by simp⟩
  | i :: r, st, pre, post, sfp, fuel, hfuel, hsh, hch, hlen => by
    obtain ⟨hsfp, q, hq, hr⟩ := hsh
    subst hsfp
    obtain ⟨f, rfl⟩ : ∃ f, fuel = f + 1 := ⟨fuel - 1, by simp at hfuel; omega⟩
    have hfuel' : r.length < f := by simp at hfuel; omega
    cases hs : st.shadows[i]? with
    | none => simp [State.sPrev, hs] at hq
    | some s =>
      have hsq : s.prev = q := by simpa [State.sPrev, hs] using hq
      cases hflag : s.hasPyFrame with
      | true =>
        have hfi : st.hasPyFrame i = true := by rw [hasPyFrame_eq hs, hflag]
        have hfilter : (i :: r).filter st.hasPyFrame = i :: r.filter st.hasPyFrame := by
          simp [List.filter_cons, hfi]
        cases post with
        | nil => simp [hfilter] at hlen
        | cons x post' =>
          have hx : x < st.frames.length := lt_frames_of_linked hch x (by simp)
          have hxb : st.fBack x = some post'.head? := LinkedList.next_eq hch
          have hxf : st.frames[x]? = some st.frames[x] := List.getElem?_eq_getElem hx
          have hxb' : st.frames[x].f_back = post'.head? := by
            simpa [State.fBack, hxf] using hxb
          have hstep := @forGen_walk_flagged gen f st (x :: post').head? pre.getLast? i s hs hflag
          simp only [List.head?_cons, hxf, hxb', hsq] at hstep ⊢
          rw [hstep, hfilter]
          by_cases hg : st.frames[x].f_gen = some gen
          · refine Or.inr (Or.inl ⟨x, by simp [hg], by simp, ?_⟩)
            simp [State.fGen, hxf, hg]
          · have hxg : st.fGen x ≠ some (some gen) := by simpa [State.fGen, hxf] using hg
            have hch' : LinkedList st.fBack st.tstate.frame ((pre ++ [x]) ++ post') := by
              simpa using hch
            have hlen' : (r.filter st.hasPyFrame).length ≤ post'.length := by
              simpa [hfilter] using hlen
            have hlast : (pre ++ [x]).getLast? = some x := by simp
            simp only [hg, if_false]
            rcases forGen_walk_spec gen r st (pre ++ [x]) post' q f hfuel' hr hch' hlen' with
              ⟨hw, h1, h2⟩ | ⟨y, hw, h1, h2⟩ | ⟨above, j, below, hids, h1, h2, h3, h4, hw⟩
            · refine Or.inl ⟨by rw [← hlast]; exact hw, ?_, ?_⟩
              · intro j hj hjf
                rcases List.mem_cons.mp hj with rfl | hj'
                · simp [hfi] at hjf
                · exact h1 j hj' hjf
              · intro y hy
                simp only [List.length_cons, List.take_succ_cons, List.mem_cons] at hy
                rcases hy with rfl | hy
                · exact hxg
                · exact h2 y hy
            · refine Or.inr (Or.inl ⟨y, by rw [← hlast]; exact hw, ?_, h2⟩)
              simp only [List.length_cons, List.take_succ_cons, List.mem_cons]
              exact Or.inr h1
            · refine Or.inr (Or.inr ⟨i :: above, j, below, by simp [hids], h1, h2, ?_, ?_, ?_⟩)
              · intro j' hj hjf
                rcases List.mem_cons.mp hj with rfl | hj'
                · simp [hfi] at hjf
                · exact h3 j' hj' hjf
              · intro y hy
                simp only [List.filter_cons, hfi, if_true, List.length_cons, List.take_succ_cons,
                  List.mem_cons] at hy
                rcases hy with rfl | hy
                · exact hxg
                · exact h4 y hy
              · rw [← hlast, hw]
                simp [List.filter_cons, hfi]
      | false =>
        have hfi : st.hasPyFrame i = false := by rw [hasPyFrame_eq hs, hflag]
        have hfilter : (i :: r).filter st.hasPyFrame = r.filter st.hasPyFrame := by
          simp [List.filter_cons, hfi]
        rw [forGen_walk_unflagged hs hflag, hfilter]
        by_cases hg : s.ptr.gen? = some gen
        · refine Or.inr (Or.inr ⟨[], i, r, rfl, hfi, by rw [genOf_eq hs, hg], by simp, by simp, ?_⟩)
          simp [hg]
        · have hig : st.genOf i ≠ some gen := by rw [genOf_eq hs]; exact hg
          simp only [hg, if_false, hsq]
          rcases forGen_walk_spec gen r st pre post q f hfuel' hr hch (by simpa [hfilter] using hlen)
            with ⟨hw, h1, h2⟩ | ⟨y, hw, h1, h2⟩ | ⟨above, j, below, hids, h1, h2, h3, h4, hw⟩
          · refine Or.inl ⟨hw, ?_, h2⟩
            intro j hj hjf
            rcases List.mem_cons.mp hj with rfl | hj'
            · exact hig
            · exact h1 j hj' hjf
          · exact Or.inr (Or.inl ⟨y, hw, h1, h2⟩)
          · refine Or.inr (Or.inr ⟨i :: above, j, below, by simp [hids], h1, h2, ?_, ?_, ?_⟩)
            · intro j' hj hjf
              rcases List.mem_cons.mp hj with rfl | hj'
              · exact hig
              · exact h3 j' hj' hjf
            · simpa [List.filter_cons, hfi] using h4
            · rw [hw]
              simp [List.filter_cons, hfi]

theorem forGen_unfold {st : State} {gen : Nat} {g : PyGenObject} (hg : st.gens[gen]? = some g)
    (hrun : g.gi_running = true) (hnof : g.gi_frame = none) :
    materializePyFrameForGen st gen =
      materializePyFrameForGen.walk gen (st.shadows.length + 1) st st.tstate.frame none
        st.tstate.shadow_frame := by
  simp [materializePyFrameForGen, State.genAt, hg, ok_bind, hrun, hnof]

theorem getCodeRuntime_gen {st : State} {j gen : Nat} {s : _PyShadowFrame} {g : PyGenObject}
    (hs : st.shadows[j]? = some s) (hp : s.ptr.gen? = some gen) (hg : st.gens[gen]? = some g)
    (hjit : g.gi_jit_data.isSome) : ∃ rt, getCodeRuntime st j = .ok rt := by
  cases hptr : s.ptr with
  | codeRt rt => simp [hptr, ShadowPtr.gen?] at hp
  | codeObj c => simp [hptr, ShadowPtr.gen?] at hp
  | gen g' =>
    have : g' = gen := by simpa [hptr, ShadowPtr.gen?] using hp
    subst this
    cases hjd : g.gi_jit_data with
    | none => simp [hjd] at hjit
    | some jd =>
      exact ⟨jd.code_rt, by
        simp [getCodeRuntime, _PyShadowFrame_GetPtrKind, _PyShadowFrame_GetPtr, State.shadowAt, hs,
          hptr, ok_bind, pure, Except.pure, State.genAt, hg, hjd]⟩

theorem split_unique {α} {a a' b b' : List α} {k j : α} (h : a ++ k :: b = a' ++ j :: b')
    (hk : k ∉ a') (hj : j ∉ a) : a = a' ∧ k = j ∧ b = b' := by
  rcases List.append_eq_append_iff.mp h with ⟨c, hc1, hc2⟩ | ⟨c, hc1, hc2⟩
  · cases c with
    | nil =>
      simp only [List.nil_append, List.cons.injEq] at hc2
      simp only [List.append_nil] at hc1
      exact ⟨hc1.symm, hc2.1, hc2.2⟩
    | cons x c' =>
      simp only [List.cons_append, List.cons.injEq] at hc2
      exact absurd (by rw [hc1, hc2.1]; simp) hk
  · cases c with
    | nil =>
      simp only [List.nil_append, List.cons.injEq] at hc2
      simp only [List.append_nil] at hc1
      exact ⟨hc1, hc2.1.symm, hc2.2.symm⟩
    | cons x c' =>
      simp only [List.cons_append, List.cons.injEq] at hc2
      exact absurd (by rw [hc1, hc2.1]; simp) hj


theorem top_lt_frames {st : State} {fs : List Nat} (hchain : FrameChain st fs) :
    ∀ t, st.tstate.frame = some t → t < st.frames.length := by
  intro t ht
  have hh := LinkedList.head_eq hchain
  rw [ht] at hh
  exact lt_frames_of_linked hchain t (List.mem_of_mem_head? (by rw [← hh]; rfl))

theorem forGen_spec {st : State} {gen : Nat} {g : PyGenObject} {ids fs : List Nat}
    (hg : st.gens[gen]? = some g) (hrun : g.gi_running = true) (hnof : g.gi_frame = none)
    (hstack : ShadowStack st ids) (hchain : FrameChain st fs)
    (hlen : (ids.filter st.hasPyFrame).length ≤ fs.length) :
    (materializePyFrameForGen st gen = .error .failedToFindFrameForGen ∧
      (∀ i ∈ ids, st.hasPyFrame i = false → st.genOf i ≠ some gen) ∧
      (∀ x ∈ fs.take (ids.filter st.hasPyFrame).length, st.fGen x ≠ some (some gen))) ∨
    (∃ x, materializePyFrameForGen st gen = .ok (some x, st) ∧
      x ∈ fs.take (ids.filter st.hasPyFrame).length ∧ st.fGen x = some (some gen)) ∨
    (∃ above j below s, ids = above ++ j :: below ∧ st.shadows[j]? = some s ∧
      s.hasPyFrame = false ∧ s.ptr.gen? = some gen ∧
      (∀ i ∈ above, st.hasPyFrame i = false → st.genOf i ≠ some gen) ∧
      (∀ x ∈ fs.take (above.filter st.hasPyFrame).length, st.fGen x ≠ some (some gen)) ∧
      materializePyFrameForGen st gen =
        materializePyFrame st (fs.take (above.filter st.hasPyFrame).length).getLast? j ∧
      (∀ P, (fs.take (above.filter st.hasPyFrame).length).getLast? = some P →
        P < st.frames.length)) := by
  have hfuel : ids.length < st.shadows.length + 1 := Nat.lt_succ_of_le (length_le_of_linked hstack)
  have hhead : fs.head? = st.tstate.frame := (LinkedList.head_eq hchain).symm
  have hspec := forGen_walk_spec gen ids st [] fs st.tstate.shadow_frame (st.shadows.length + 1)
    hfuel hstack (by simpa using hchain) hlen
  simp only [List.getLast?_nil, hhead, List.nil_append] at hspec
  rw [← forGen_unfold hg hrun hnof] at hspec
  rcases hspec with h | h | ⟨above, j, below, hids, h1, h2, h3, h4, hw⟩
  · exact Or.inl h
  · exact Or.inr (Or.inl h)
  · refine Or.inr (Or.inr ?_)
    have hj : j ∈ ids := by rw [hids]; simp
    obtain ⟨q, hq⟩ := LinkedList.valid hstack j hj
    cases hs : st.shadows[j]? with
    | none => simp [State.sPrev, hs] at hq
    | some s =>
      refine ⟨above, j, below, s, hids, hs, ?_, ?_, h3, h4, hw, ?_⟩
      · rw [← hasPyFrame_eq hs]; exact h1
      · rw [← genOf_eq hs]; exact h2
      · intro P hP
        exact lt_frames_of_linked hchain P (List.mem_of_mem_take (List.mem_of_getLast?_eq_some hP))

theorem removePyFrameUnlinkTrampoline_ok {jf : JITFrame} {st st' : State} {py : Option Nat}
    (h : jf.removePyFrameUnlinkTrampoline st py = .ok st') :
    st'.frames = st.frames ∧ st'.tstate = st.tstate ∧ (∀ i, st'.sPrev i = st.sPrev i) ∧
      ∀ i, st'.hasPyFrame i = st.hasPyFrame i := by
  unfold JITFrame.removePyFrameUnlinkTrampoline JITFrame.retAddr JITFrame.setRetAddr
    State.shadowAt at h
  cases hs : st.shadows[jf.base]? with
  | none => simp [hs, err_bind] at h
  | some s =>
    have hb := lt_of_getElem?_eq_some hs
    by_cases hra : s.retAddr = st.pyFrameUnlinkTrampoline
    · cases py with
      | none => simp [hs, ok_bind, pure, Except.pure, hra, derefNonNull, err_bind] at h
      | some p =>
        cases hf : st.frames[p]? with
        | none =>
          simp [hs, ok_bind, pure, Except.pure, hra, derefNonNull, err_bind, State.frameAt, hf] at h
        | some fo =>
          simp [hs, ok_bind, pure, Except.pure, hra, derefNonNull, State.frameAt, hf,
            State.setShadow] at h
          subst h
          refine ⟨rfl, rfl, ?_, ?_⟩
          · intro i
            by_cases hi : jf.base = i
            · subst hi; simp [State.sPrev, hs, hb]
            · simp [State.sPrev, List.getElem?_set, hi]
          · intro i
            by_cases hi : jf.base = i
            · subst hi; simp [State.hasPyFrame, hs, hb]
            · simp [State.hasPyFrame, List.getElem?_set, hi]
    · simp [hs, ok_bind, pure, Except.pure, hra] at h
      subst h
      exact ⟨rfl, rfl, fun _ => rfl, fun _ => rfl⟩

theorem zip_insert_mem {A B C D : List Nat} {j n : Nat} (hlen : A.length = C.length)
    {p : Nat × Nat} (hp : p ∈ (A ++ B).zip (C ++ D)) : p ∈ (A ++ j :: B).zip (C ++ n :: D) := by
  rw [List.zip_append hlen] at hp ⊢
  rcases List.mem_append.mp hp with h | h
  · exact List.mem_append_left _ h
  · exact List.mem_append_right _ (by simp [h])

/-- The chain/shadow order invariant after a frame has been created for the
shadow frame `j` behind the frames of the flagged shadow frames above it. -/
theorem created_keeps_order {st st' : State} {above below fs : List Nat} {j : Nat}
    {s : _PyShadowFrame} {rt : CodeRuntime}
    (hstack : ShadowStack st (above ++ j :: below)) (hchain : FrameChain st fs)
    (hlen : fs.length = ((above ++ j :: below).filter st.hasPyFrame).length)
    (hs : st.shadows[j]? = some s) (hflag : s.hasPyFrame = false)
    (hC : Created st (fs.take (above.filter st.hasPyFrame).length).getLast? j s rt st') :
    ShadowStack st' (above ++ j :: below) ∧
      FrameChain st' (fs.take (above.filter st.hasPyFrame).length ++
        st.frames.length :: fs.drop (above.filter st.hasPyFrame).length) ∧
      (fs.take (above.filter st.hasPyFrame).length ++
        st.frames.length :: fs.drop (above.filter st.hasPyFrame).length).length =
          ((above ++ j :: below).filter st'.hasPyFrame).length ∧
      ∀ p ∈ ((above ++ j :: below).filter st.hasPyFrame).zip fs,
        p ∈ ((above ++ j :: below).filter st'.hasPyFrame).zip
          (fs.take (above.filter st.hasPyFrame).length ++
            st.frames.length :: fs.drop (above.filter st.hasPyFrame).length) := by
  have hnd := LinkedList.nodup hstack
  have hja : j ∉ above := fun h => by
    have := List.nodup_append.mp hnd
    exact this.2.2 h (List.mem_cons_self _ _)
  have hjb : j ∉ below := fun h => by
    have := (List.nodup_append.mp hnd).2.1
    exact (List.nodup_cons.mp this).1 h
  have hjf : st.hasPyFrame j = false := by rw [hasPyFrame_eq hs]; exact hflag
  have hfa : above.filter st'.hasPyFrame = above.filter st.hasPyFrame :=
    List.filter_congr (fun i hi => hC.hasPyFrame_other i (fun e => hja (e ▸ hi)))
  have hfb : below.filter st'.hasPyFrame = below.filter st.hasPyFrame :=
    List.filter_congr (fun i hi => hC.hasPyFrame_other i (fun e => hjb (e ▸ hi)))
  have hold : (above ++ j :: below).filter st.hasPyFrame =
      above.filter st.hasPyFrame ++ below.filter st.hasPyFrame := by
    simp [List.filter_append, List.filter_cons, hjf]
  have hnew : (above ++ j :: below).filter st'.hasPyFrame =
      above.filter st.hasPyFrame ++ j :: below.filter st.hasPyFrame := by
    simp [List.filter_append, List.filter_cons, hC.hasPyFrame_self hs, hfa, hfb]
  have hka : (above.filter st.hasPyFrame).length ≤ fs.length := by
    rw [hlen, hold]; simp
  refine ⟨?_, ?_, ?_, ?_⟩
  · unfold ShadowStack
    rw [hC.shadow_frame]
    exact LinkedList.congr (fun i _ => hC.sPrev hs i) hstack
  · exact hC.chain (by rw [List.take_append_drop]; exact hchain) rfl
  · rw [hnew]
    rw [hold] at hlen
    simp only [List.length_append, List.length_cons, List.length_take, List.length_drop] at hlen ⊢
    omega
  · intro p hp
    rw [hnew]
    rw [hold, ← List.take_append_drop (above.filter st.hasPyFrame).length fs] at hp
    refine zip_insert_mem ?_ ?_
    · simp [hka]
    · simpa using hp


theorem order_transfer {st₁ st' : State} {ids fs : List Nat}
    (hf : st'.frames = st₁.frames) (ht : st'.tstate = st₁.tstate)
    (hp : ∀ i, st'.sPrev i = st₁.sPrev i) (hh : ∀ i, st'.hasPyFrame i = st₁.hasPyFrame i)
    (h : ChainMatchesShadows st₁ ids fs) :
    ChainMatchesShadows st' ids fs ∧
      ids.filter st'.hasPyFrame = ids.filter st₁.hasPyFrame := by
  have hfilter : ids.filter st'.hasPyFrame = ids.filter st₁.hasPyFrame :=
    List.filter_congr (fun i _ => hh i)
  obtain ⟨h1, h2, h3⟩ := h
  refine ⟨⟨?_, ?_, by rw [hfilter]; exact h3⟩, hfilter⟩
  · unfold ShadowStack
    rw [ht]
    exact LinkedList.congr (fun i _ => hp i) h1
  · unfold FrameChain
    rw [ht]
    exact LinkedList.congr (fun i _ => by simp [State.fBack, hf]) h2

/-- The scenario of a three-deep call chain with a generator materialized
mid-chain: the full materialization of `exampleStack3` returns the new top
frame 1, and the chain is frame 1, the generator's old frame 0, frame 2. -/
theorem exampleStack3_materialized :
    ∃ st', materializeShadowCallStack exampleStack3 = .ok (some 1, st') ∧
      FrameChain st' [1, 0, 2] ∧ st'.frames.length = 3 :=
  ⟨_, rfl, ⟨rfl, _, rfl, rfl, _, rfl, rfl, _, rfl, rfl⟩, rfl⟩

theorem LogFollows_append (env : CompileEnv) (pl : List (PyUnit × Preloader)) (w : Bool) :
    ∀ (W W' log : List Attempt),
      LogFollows env pl w log (W ++ W') ↔
        LogFollows env pl w log W ∧ LogFollows env pl w (log ++ W) W'
  | [], W', log => by simp [LogFollows]
  | a :: W, W', log => by
    simp [LogFollows, LogFollows_append env pl w W W' (log ++ [a]), and_assoc]

theorem set_split {α} : ∀ {l : List α} {i : Nat} {a : α} (b : α), l[i]? = some a →
    ∃ pre post, l = pre ++ a :: post ∧ l.set i b = pre ++ b :: post
  | [], i, a, b, h => by simp at h
  | x :: l, 0, a, b, h => by
    simp at h
    exact ⟨[], l, by simp [h], by simp⟩
  | x :: l, i + 1, a, b, h => by
    simp at h
    obtain ⟨pre, post, h1, h2⟩ := set_split b h
    exact ⟨x :: pre, post, by simp [h1], by simp [h2]⟩

theorem stepWorker_inv (env : CompileEnv) (js₀ : JitState)
    (hpre : ∀ u ∈ js₀.g_threaded_compile_context.work_queue,
      (unordered_map_find js₀.jit_preloaders u).isSome)
    (tid : Nat) (s : JitState × List WorkerPc) (h : CompileInv env js₀ s) :
    ∃ s', stepWorker env tid s = .ok s' ∧ CompileInv env js₀ s' ∧
      s'.2.length = s.2.length ∧ (∀ j, j ≠ tid → s'.2[j]? = s.2[j]?) ∧
      (∀ pc, s.2[tid]? = some pc → pc = .finished → s' = s) ∧
      (∀ pc, s.2[tid]? = some pc → pc ≠ .finished →
        ∃ pc', s'.2[tid]? = some pc' ∧
          4 * s'.1.g_threaded_compile_context.work_queue.length + pc'.rank <
            4 * s.1.g_threaded_compile_context.work_queue.length + pc.rank) := by
  obtain ⟨js, pcs⟩ := s
  obtain ⟨q, r, a, n, W, hjs, hunits, hretry, hn, hfin, hlog⟩ := h
  simp only at hjs hunits hretry hfin
  subst hjs
  cases hpc : pcs[tid]? with
  | none =>
    refine ⟨_, by simp [stepWorker, hpc, pure, Except.pure], ⟨q, r, a, n, W, rfl, hunits, hretry,
      hn, hfin, hlog⟩, rfl, fun _ _ => rfl, ?_, ?_⟩ <;> simp [hpc]
  | some pc =>
    have htid : tid < pcs.length := lt_of_getElem?_eq_some hpc
    have hother : ∀ pc' j, j ≠ tid → (pcs.set tid pc')[j]? = pcs[j]? := by
      intro pc' j hj
      simp [List.getElem?_set, Ne.symm hj]
    have hself : ∀ pc', (pcs.set tid pc')[tid]? = some pc' := by
      intro pc'
      simp [List.getElem?_set, htid]
    cases pc with
    | finished =>
      have hset : pcs.set tid .finished = pcs := set_eq_self_of_getElem? hpc
      refine ⟨(js₀.scheduled q r a n W, pcs), ?_, ⟨q, r, a, n, W, rfl, hunits, hretry, hn, hfin,
        hlog⟩, rfl, fun _ _ => rfl, fun _ _ _ => rfl, ?_⟩
      · simp [stepWorker, hpc, compile_worker_thread.step, ok_bind, pure, Except.pure, hset]
      · intro pc h1 h2
        simp [hpc] at h1
        exact absurd h1.symm h2
    | nextUnit =>
      cases q with
      | nil =>
        obtain ⟨pre, post, hl, hl'⟩ := set_split (WorkerPc.finished) hpc
        refine ⟨(js₀.scheduled [] r a n W, pcs.set tid .finished), ?_, ⟨[], r, a, n, W, rfl, ?_,
          ?_, hn, fun _ => rfl, hlog⟩, by simp, hother _, ?_, ?_⟩
        · simp [stepWorker, hpc, compile_worker_thread.step, ok_bind, pure, Except.pure,
            ThreadedCompileContext.nextUnit, JitState.scheduled]
        · rw [hl] at hunits
          simpa [hl', WorkerPc.inflight] using hunits
        · rw [hl] at hretry
          simpa [hl', WorkerPc.pendingRetry] using hretry
        · intro pc h1 h2
          simp [hpc] at h1
          subst h1
          cases h2
        · intro pc h1 _
          simp [hpc] at h1
          subst h1
          exact ⟨_, hself _, by simp [JitState.scheduled, WorkerPc.rank]⟩
      | cons u q' =>
        obtain ⟨pre, post, hl, hl'⟩ := set_split (WorkerPc.countAttempt u) hpc
        refine ⟨(js₀.scheduled q' r a n W, pcs.set tid (.countAttempt u)), ?_,
          ⟨q', r, a, n, W, rfl, ?_, ?_, hn, ?_, hlog⟩, by simp, hother _, ?_, ?_⟩
        · simp [stepWorker, hpc, compile_worker_thread.step, ok_bind, pure, Except.pure,
            ThreadedCompileContext.nextUnit, JitState.scheduled]
        · rw [hl] at hunits
          refine List.Perm.trans ?_ hunits
          rw [List.perm_iff_count]
          intro x
          simp [hl', WorkerPc.inflight, List.count_cons]
          omega
        · rw [hl] at hretry
          simpa [hl', WorkerPc.pendingRetry] using hretry
        · intro hmem
          have : WorkerPc.finished ∈ pcs := by
            rcases List.mem_or_eq_of_mem_set hmem with h | h
            · exact h
            · cases h
          cases hfin this
        · intro pc h1 h2
          simp [hpc] at h1
          subst h1
          cases h2
        · intro pc h1 _
          simp [hpc] at h1
          subst h1
          refine ⟨_, hself _, ?_⟩
          simp [JitState.scheduled, WorkerPc.rank]
          omega
    | countAttempt u =>
      obtain ⟨pre, post, hl, hl'⟩ := set_split (WorkerPc.compile u) hpc
      refine ⟨(js₀.scheduled q r (a + 1) n W, pcs.set tid (.compile u)), ?_,
        ⟨q, r, a + 1, n, W, rfl, ?_, ?_, hn, ?_, hlog⟩, by simp, hother _, ?_, ?_⟩
      · simp [stepWorker, hpc, compile_worker_thread.step, ok_bind, pure, Except.pure,
          JitState.scheduled]
      · rw [hl] at hunits
        simpa [hl', WorkerPc.inflight] using hunits
      · rw [hl] at hretry
        simpa [hl', WorkerPc.pendingRetry] using hretry
      · intro hmem
        apply hfin
        rcases List.mem_or_eq_of_mem_set hmem with h | h
        · exact h
        · cases h
      · intro pc h1 h2
        simp [hpc] at h1
        subst h1
        cases h2
      · intro pc h1 _
        simp [hpc] at h1
        subst h1
        exact ⟨_, hself _, by simp [JitState.scheduled, WorkerPc.rank]⟩
    | compile u =>
      have hu : u ∈ js₀.g_threaded_compile_context.work_queue := by
        apply hunits.subset
        have : u ∈ pcs.flatMap WorkerPc.inflight :=
          List.mem_flatMap.mpr ⟨.compile u, List.mem_iff_getElem?.mpr ⟨tid, hpc⟩,
            by simp [WorkerPc.inflight]⟩
        simp [this]
      obtain ⟨p, hp⟩ := Option.isSome_iff_exists.mp (hpre u hu)
      by_cases hres : env.compilePreloader (js₀.compile_log ++ W) (some tid) u p =
          .PYJIT_RESULT_RETRY
      · obtain ⟨pre, post, hl, hl'⟩ := set_split (WorkerPc.retry u) hpc
        refine ⟨(js₀.scheduled q r a n (W ++ [⟨some tid, u, .PYJIT_RESULT_RETRY⟩]),
          pcs.set tid (.retry u)), ?_,
          ⟨q, r, a, n, W ++ [⟨some tid, u, .PYJIT_RESULT_RETRY⟩], rfl, ?_, ?_, hn, ?_, ?_⟩,
          by simp, hother _, ?_, ?_⟩
        · simp [stepWorker, hpc, compile_worker_thread.step, ok_bind, pure, Except.pure,
            JitState.scheduled, compilePreloaded, map_get, hp, hres, List.append_assoc]
        · rw [hl] at hunits
          refine List.Perm.trans ?_ hunits
          rw [List.perm_iff_count]
          intro x
          simp [hl', WorkerPc.inflight, List.count_cons]
          omega
        · rw [hl] at hretry
          have := hretry
          rw [List.perm_iff_count] at this ⊢
          intro x
          have hx := this x
          simp [hl', WorkerPc.pendingRetry, List.count_cons, List.filter_append,
            Attempt.isRetry] at hx ⊢
          omega
        · intro hmem
          apply hfin
          rcases List.mem_or_eq_of_mem_set hmem with h | h
          · exact h
          · cases h
        · rw [LogFollows_append]
          exact ⟨hlog, ⟨rfl, p, hp, hres.symm⟩, trivial⟩
        · intro pc h1 h2
          simp [hpc] at h1
          subst h1
          cases h2
        · intro pc h1 _
          simp [hpc] at h1
          subst h1
          exact ⟨_, hself _, by simp [JitState.scheduled, WorkerPc.rank]⟩
      · obtain ⟨pre, post, hl, hl'⟩ := set_split (WorkerPc.nextUnit) hpc
        refine ⟨(js₀.scheduled q r a n (W ++ [⟨some tid, u,
            env.compilePreloader (js₀.compile_log ++ W) (some tid) u p⟩]),
          pcs.set tid .nextUnit), ?_,
          ⟨q, r, a, n, W ++ [⟨some tid, u,
            env.compilePreloader (js₀.compile_log ++ W) (some tid) u p⟩], rfl, ?_, ?_, hn, ?_,
            ?_⟩,
          by simp, hother _, ?_, ?_⟩
        · simp [stepWorker, hpc, compile_worker_thread.step, ok_bind, pure, Except.pure,
            JitState.scheduled, compilePreloaded, map_get, hp, hres, List.append_assoc]
        · rw [hl] at hunits
          refine List.Perm.trans ?_ hunits
          rw [List.perm_iff_count]
          intro x
          simp [hl', WorkerPc.inflight, List.count_cons]
          omega
        · rw [hl] at hretry
          have := hretry
          rw [List.perm_iff_count] at this ⊢
          intro x
          have hx := this x
          simp [hl', WorkerPc.pendingRetry, List.count_cons, List.filter_append,
            Attempt.isRetry, hres] at hx ⊢
          omega
        · intro hmem
          apply hfin
          rcases List.mem_or_eq_of_mem_set hmem with h | h
          · exact h
          · cases h
        · rw [LogFollows_append]
          exact ⟨hlog, ⟨rfl, p, hp, rfl⟩, trivial⟩
        · intro pc h1 h2
          simp [hpc] at h1
          subst h1
          cases h2
        · intro pc h1 _
          simp [hpc] at h1
          subst h1
          exact ⟨_, hself _, by simp [JitState.scheduled, WorkerPc.rank]⟩
    | retry u =>
      obtain ⟨pre, post, hl, hl'⟩ := set_split (WorkerPc.nextUnit) hpc
      refine ⟨(js₀.scheduled q (r ++ [u]) a (n + 1) W, pcs.set tid .nextUnit), ?_,
        ⟨q, r ++ [u], a, n + 1, W, rfl, ?_, ?_, ?_, ?_, hlog⟩, by simp, hother _, ?_, ?_⟩
      · simp [stepWorker, hpc, compile_worker_thread.step, ok_bind, pure, Except.pure,
          JitState.scheduled, ThreadedCompileContext.retryUnit]
      · rw [hl] at hunits
        simpa [hl', WorkerPc.inflight] using hunits
      · rw [hl] at hretry
        refine List.Perm.trans ?_ hretry
        rw [List.perm_iff_count]
        intro x
        simp [hl', WorkerPc.pendingRetry, List.count_cons]
        omega
      · simp; omega
      · intro hmem
        apply hfin
        rcases List.mem_or_eq_of_mem_set hmem with h | h
        · exact h
        · cases h
      · intro pc h1 h2
        simp [hpc] at h1
        subst h1
        cases h2
      · intro pc h1 _
        simp [hpc] at h1
        subst h1
        exact ⟨_, hself _, by simp [JitState.scheduled, WorkerPc.rank]⟩

theorem runSchedule_inv (env : CompileEnv) (js₀ : JitState)
    (hpre : ∀ u ∈ js₀.g_threaded_compile_context.work_queue,
      (unordered_map_find js₀.jit_preloaders u).isSome) :
    ∀ (schedule : List Nat) (s : JitState × List WorkerPc), CompileInv env js₀ s →
      ∃ s', runSchedule env schedule s = .ok s' ∧ CompileInv env js₀ s' ∧
        s'.2.length = s.2.length
  | [], s, h => ⟨s, rfl, h, rfl⟩
  | tid :: schedule, s, h => by
    obtain ⟨s₁, h1, hinv, hlen, -⟩ := stepWorker_inv env js₀ hpre tid s h
    obtain ⟨s₂, h2, hinv₂, hlen₂⟩ := runSchedule_inv env js₀ hpre schedule s₁ hinv
    exact ⟨s₂, by simp [runSchedule, h1, ok_bind, h2], hinv₂, by rw [hlen₂, hlen]⟩

theorem join_spec (env : CompileEnv) (js₀ : JitState)
    (hpre : ∀ u ∈ js₀.g_threaded_compile_context.work_queue,
      (unordered_map_find js₀.jit_preloaders u).isSome) (tid : Nat) :
    ∀ (fuel : Nat) (s : JitState × List WorkerPc), CompileInv env js₀ s →
      (∀ pc, s.2[tid]? = some pc →
        4 * s.1.g_threaded_compile_context.work_queue.length + pc.rank ≤ fuel) →
      ∃ s', join env tid fuel s = .ok s' ∧ CompileInv env js₀ s' ∧
        s'.2.length = s.2.length ∧ (∀ j, j ≠ tid → s'.2[j]? = s.2[j]?) ∧
        (tid < s.2.length → s'.2[tid]? = some .finished) := by
  intro fuel
  induction fuel with
  | zero =>
    intro s h hfuel
    cases hpc : s.2[tid]? with
    | none =>
      refine ⟨s, by simp [join, running, hpc, pure, Except.pure], h, rfl, fun _ _ => rfl, ?_⟩
      intro hlt
      rw [List.getElem?_eq_none_iff] at hpc
      omega
    | some pc =>
      have := hfuel pc hpc
      have hpc0 : pc = .finished := by
        cases pc <;> simp [WorkerPc.rank] at this ⊢
      subst hpc0
      exact ⟨s, by simp [join, running, hpc, pure, Except.pure], h, rfl, fun _ _ => rfl,
        fun _ => hpc⟩
  | succ fuel ih =>
    intro s h hfuel
    cases hpc : s.2[tid]? with
    | none =>
      refine ⟨s, by simp [join, running, hpc, pure, Except.pure], h, rfl, fun _ _ => rfl, ?_⟩
      intro hlt
      rw [List.getElem?_eq_none_iff] at hpc
      omega
    | some pc =>
      by_cases hpc0 : pc = .finished
      · subst hpc0
        exact ⟨s, by simp [join, running, hpc, pure, Except.pure], h, rfl, fun _ _ => rfl,
          fun _ => hpc⟩
      · obtain ⟨s₁, h1, hinv, hlen, hoth, -, hdec⟩ := stepWorker_inv env js₀ hpre tid s h
        obtain ⟨pc', hpc', hlt⟩ := hdec pc hpc hpc0
        have hfuel' : ∀ pc, s₁.2[tid]? = some pc →
            4 * s₁.1.g_threaded_compile_context.work_queue.length + pc.rank ≤ fuel := by
          intro pc₁ hpc₁
          rw [hpc'] at hpc₁
          cases hpc₁
          have := hfuel pc hpc
          omega
        obtain ⟨s₂, h2, hinv₂, hlen₂, hoth₂, hfin₂⟩ := ih s₁ hinv hfuel'
        refine ⟨s₂, ?_, hinv₂, by rw [hlen₂, hlen], fun j hj => by rw [hoth₂ j hj, hoth j hj],
          fun hlt => hfin₂ (by rw [hlen]; exact hlt)⟩
        cases pc <;> simp [join, running, hpc, h1, ok_bind, h2] at hpc0 ⊢

theorem rank_le_four (pc : WorkerPc) : pc.rank ≤ 4 := by
  cases pc <;> simp [WorkerPc.rank]

theorem joinAll_spec (env : CompileEnv) (js₀ : JitState)
    (hpre : ∀ u ∈ js₀.g_threaded_compile_context.work_queue,
      (unordered_map_find js₀.jit_preloaders u).isSome) :
    ∀ (tids : List Nat) (s : JitState × List WorkerPc), CompileInv env js₀ s →
      ∃ s', joinAll env tids s = .ok s' ∧ CompileInv env js₀ s' ∧
        s'.2.length = s.2.length ∧
        (∀ j : Nat, s.2[j]? = some WorkerPc.finished → s'.2[j]? = some WorkerPc.finished) ∧
        (∀ j ∈ tids, j < s.2.length → s'.2[j]? = some .finished)
  | [], s, h => ⟨s, rfl, h, rfl, fun _ hj => hj, fun _ hj => by cases hj⟩
  | tid :: tids, s, h => by
    obtain ⟨s₁, h1, hinv, hlen, hoth, hfin⟩ := join_spec env js₀ hpre tid
      (4 * s.1.g_threaded_compile_context.work_queue.length + 4) s h
      (fun pc _ => by have := rank_le_four pc; omega)
    obtain ⟨s₂, h2, hinv₂, hlen₂, hkeep₂, hfin₂⟩ := joinAll_spec env js₀ hpre tids s₁ hinv
    have hkeep₁ : ∀ j : Nat, s.2[j]? = some WorkerPc.finished →
        s₁.2[j]? = some WorkerPc.finished := by
      intro j hj
      by_cases hjt : j = tid
      · subst hjt
        exact hfin (lt_of_getElem?_eq_some hj)
      · rw [hoth j hjt]; exact hj
    refine ⟨s₂, by simp [joinAll, h1, ok_bind, h2], hinv₂, by rw [hlen₂, hlen],
      fun j hj => hkeep₂ j (hkeep₁ j hj), ?_⟩
    intro j hj hlt
    rcases List.mem_cons.mp hj with rfl | hj
    · exact hkeep₂ _ (hfin hlt)
    · exact hfin₂ j hj (by rw [hlen]; exact hlt)

theorem scheduled_self (js₀ : JitState) :
    js₀.scheduled js₀.g_threaded_compile_context.work_queue
      js₀.g_threaded_compile_context.retry_list js₀.g_compile_workers_attempted
      js₀.g_compile_workers_retries [] = js₀ := by
  simp [JitState.scheduled]

theorem flatMap_eq_nil_of_forall {α β} (f : α → List β) (a : α) (hf : f a = []) :
    ∀ l : List α, (∀ x ∈ l, x = a) → l.flatMap f = []
  | [], _ => rfl
  | x :: l, h => by
    have hx : x = a := h x (List.mem_cons_self _ _)
    have := flatMap_eq_nil_of_forall f a hf l (fun y hy => h y (List.mem_cons_of_mem _ hy))
    simp [List.flatMap_cons, hx, hf, this]

/-- What the compile phase leaves behind. -/
theorem workers_spec (env : CompileEnv) (schedule : List Nat) (js₀ : JitState)
    (hW : 0 < js₀.batch_compile_workers)
    (hpre : ∀ u ∈ js₀.g_threaded_compile_context.work_queue,
      (unordered_map_find js₀.jit_preloaders u).isSome) :
    ∃ (r : List PyUnit) (a n : Nat) (W : List Attempt) (pcs : List WorkerPc),
      multithread_compile_all.workers env schedule js₀ = .ok (js₀.scheduled [] r a n W, pcs) ∧
      pcs = List.replicate js₀.batch_compile_workers WorkerPc.finished ∧
      (W.map (·.unit)).Perm js₀.g_threaded_compile_context.work_queue ∧
      r.Perm (js₀.g_threaded_compile_context.retry_list ++
        (W.filter Attempt.isRetry).map (·.unit)) ∧
      n = js₀.g_compile_workers_retries + (W.filter Attempt.isRetry).length ∧
      LogFollows env js₀.jit_preloaders true js₀.compile_log W := by
  have h0 : CompileInv env js₀
      (js₀, List.replicate js₀.batch_compile_workers WorkerPc.nextUnit) := by
    refine ⟨js₀.g_threaded_compile_context.work_queue,
      js₀.g_threaded_compile_context.retry_list, js₀.g_compile_workers_attempted,
      js₀.g_compile_workers_retries, [], (scheduled_self js₀).symm, ?_, ?_, rfl, ?_, trivial⟩
    · rw [flatMap_eq_nil_of_forall WorkerPc.inflight .nextUnit rfl _
        (fun x hx => List.eq_of_mem_replicate hx)]
      simp
    · rw [flatMap_eq_nil_of_forall WorkerPc.pendingRetry .nextUnit rfl _
        (fun x hx => List.eq_of_mem_replicate hx)]
      simp
    · intro hmem
      cases List.eq_of_mem_replicate hmem
  obtain ⟨s₁, h1, hinv₁, hlen₁⟩ := runSchedule_inv env js₀ hpre schedule _ h0
  obtain ⟨s₂, h2, hinv₂, hlen₂, -, hfin₂⟩ :=
    joinAll_spec env js₀ hpre (List.range js₀.batch_compile_workers) s₁ hinv₁
  obtain ⟨js₂, pcs₂⟩ := s₂
  have hlen : pcs₂.length = js₀.batch_compile_workers := by
    simp at hlen₂ hlen₁
    rw [hlen₂, hlen₁]
  have hall : ∀ pc ∈ pcs₂, pc = WorkerPc.finished := by
    intro pc hpc
    obtain ⟨j, hj⟩ := List.mem_iff_getElem?.mp hpc
    have hjlt : j < pcs₂.length := lt_of_getElem?_eq_some hj
    have := hfin₂ j (List.mem_range.mpr (by omega)) (by simp at hlen₂; omega)
    simp only at this
    rw [hj] at this
    cases this
    rfl
  obtain ⟨q, r, a, n, W, hjs, hunits, hretry, hn, hfin, hlog⟩ := hinv₂
  simp only at hjs hunits hretry hfin
  have hq : q = [] := by
    apply hfin
    have h0lt : 0 < pcs₂.length := by omega
    have := hall _ (List.getElem_mem h0lt)
    rw [← this]
    exact List.getElem_mem h0lt
  subst hq
  rw [flatMap_eq_nil_of_forall WorkerPc.inflight .finished rfl _ hall] at hunits
  rw [flatMap_eq_nil_of_forall WorkerPc.pendingRetry .finished rfl _ hall] at hretry
  simp at hunits hretry
  refine ⟨r, a, n, W, pcs₂, ?_, ?_, hunits, hretry, ?_, hlog⟩
  · simp [multithread_compile_all.workers, h1, ok_bind, h2, hjs]
  · rw [← hlen]
    exact List.eq_replicate_of_mem hall
  · have := hretry.length_eq
    simp at this
    omega

theorem drain_spec (env : CompileEnv) :
    ∀ (l : List PyUnit) (js : JitState),
      (∀ u ∈ l, (unordered_map_find js.jit_preloaders u).isSome) →
      ∃ D, multithread_compile_all.drain env l js =
          .ok { js with compile_log := js.compile_log ++ D } ∧
        D.map (·.unit) = l ∧ LogFollows env js.jit_preloaders false js.compile_log D
  | [], js, _ => ⟨[], by simp [multithread_compile_all.drain, pure, Except.pure], rfl, trivial⟩
  | u :: l, js, h => by
    obtain ⟨p, hp⟩ := Option.isSome_iff_exists.mp (h u (List.mem_cons_self _ _))
    obtain ⟨D, hD, hmap, hlog⟩ := drain_spec env l
      { js with compile_log := js.compile_log ++ [⟨none, u, env.compilePreloader js.compile_log
        none u p⟩] }
      (fun v hv => h v (List.mem_cons_of_mem _ hv))
    refine ⟨⟨none, u, env.compilePreloader js.compile_log none u p⟩ :: D, ?_, by simp [hmap],
      ⟨⟨rfl, p, hp, rfl⟩, hlog⟩⟩
    simp [multithread_compile_all.drain, compilePreloaded, map_get, hp, ok_bind, pure,
      Except.pure, hD]

/-- What `multithread_compile_all` does once the preload loop has ended. -/
theorem compile_spec (env : CompileEnv) (schedule : List Nat) (units : List PyUnit)
    (js : JitState) (hW : 0 < js.batch_compile_workers)
    (hr : js.g_threaded_compile_context.retry_list = [])
    (hpre : ∀ u ∈ units, (unordered_map_find js.jit_preloaders u).isSome) :
    ∃ (r : List PyUnit) (a n : Nat) (W D : List Attempt),
      multithread_compile_all.workers env schedule (js.started units) =
        .ok ((js.started units).scheduled [] r a n W,
          List.replicate js.batch_compile_workers WorkerPc.finished) ∧
      multithread_compile_all.compile env schedule units js = .ok (js.compiled a n (W ++ D)) ∧
      (W.map (·.unit)).Perm units ∧
      r.Perm ((W.filter Attempt.isRetry).map (·.unit)) ∧
      n = js.g_compile_workers_retries + (W.filter Attempt.isRetry).length ∧
      D.map (·.unit) = r ∧
      LogFollows env js.jit_preloaders true js.compile_log W ∧
      LogFollows env js.jit_preloaders false (js.compile_log ++ W) D := by
  obtain ⟨r, a, n, W, pcs, hw, hpcs, hunits, hretry, hn, hlog⟩ :=
    workers_spec env schedule (js.started units) hW hpre
  have hretry' : r.Perm ((W.filter Attempt.isRetry).map (·.unit)) := by
    simpa [JitState.started, ThreadedCompileContext.startCompile, hr] using hretry
  obtain ⟨D, hD, hmap, hlogD⟩ := drain_spec env r
    { (js.started units).scheduled [] r a n W with
      g_threaded_compile_context :=
        ((js.started units).scheduled [] r a n W).g_threaded_compile_context.endCompile.2 }
    (by
      intro u hu
      apply hpre
      apply hunits.subset
      have hmem := hretry'.subset hu
      simp only [List.mem_map, List.mem_filter] at hmem ⊢
      obtain ⟨x, ⟨hx, -⟩, hxu⟩ := hmem
      exact ⟨x, hx, hxu⟩)
  subst hpcs
  refine ⟨r, a, n, W, D, hw, ?_, hunits, hretry', hn, hmap, hlog, hlogD⟩
  have hW' : js.batch_compile_workers ≠ 0 := by omega
  have hw' : multithread_compile_all.workers env schedule
      { js with _PyGILState_check_enabled := 0,
                g_threaded_compile_context :=
                  js.g_threaded_compile_context.startCompile units } = _ := hw
  simp only [multithread_compile_all.compile, hW', if_false, ok_bind, hw']
  simp only [JitState.scheduled, JitState.started, ThreadedCompileContext.endCompile,
    ThreadedCompileContext.startCompile] at hD ⊢
  simp only [bind, Except.bind, pure, Except.pure, hD]
  simp [JitState.compiled, List.append_assoc]

theorem mem_unordered_set_emplace {α} [DecidableEq α] {s : List α} {a x : α} :
    x ∈ unordered_set_emplace s a ↔ x ∈ s ∨ x = a := by
  unfold unordered_set_emplace
  split
  · constructor
    · exact Or.inl
    · rintro (h | rfl)
      · exact h
      · assumption
  · simp

theorem nodup_unordered_set_emplace {α} [DecidableEq α] {s : List α} {a : α} (h : s.Nodup) :
    (unordered_set_emplace s a).Nodup := by
  unfold unordered_set_emplace
  split
  · exact h
  · rename_i hn
    rw [List.nodup_append]
    exact ⟨h, List.nodup_singleton a, by
      intro x hx hx'
      simp at hx'
      subst hx'
      exact hn hx⟩

theorem unordered_map_find_isSome {κ β} [DecidableEq κ] :
    ∀ {m : List (κ × β)} {k : κ}, (unordered_map_find m k).isSome ↔ k ∈ m.map Prod.fst
  | [], k => by simp [unordered_map_find]
  | (k', v) :: m, k => by
    unfold unordered_map_find
    by_cases h : k' = k
    · simp [h]
    · simp [h, unordered_map_find_isSome (m := m), Ne.symm h]

theorem unordered_map_find_append {κ β} [DecidableEq κ] :
    ∀ {m m' : List (κ × β)} {k : κ}, (unordered_map_find m k).isSome →
      unordered_map_find (m ++ m') k = unordered_map_find m k
  | [], m', k, h => by simp [unordered_map_find] at h
  | (k', v) :: m, m', k, h => by
    unfold unordered_map_find at h
    simp only [List.cons_append]
    unfold unordered_map_find
    by_cases hk : k' = k
    · simp [hk]
    · simp only [hk, if_false] at h ⊢
      exact unordered_map_find_append h

theorem keys_unordered_map_emplace {κ β} [DecidableEq κ] (m : List (κ × β)) (k : κ) (v : β) :
    (unordered_map_emplace m k v).map Prod.fst =
      if k ∈ m.map Prod.fst then m.map Prod.fst else m.map Prod.fst ++ [k] := by
  unfold unordered_map_emplace
  by_cases h : k ∈ m.map Prod.fst
  · have h' := unordered_map_find_isSome.mpr h
    rw [if_pos h', if_pos h]
  · have h' : ¬ (unordered_map_find m k).isSome = true := fun h' =>
      h (unordered_map_find_isSome.mp h')
    rw [if_neg h', if_neg h]
    simp

theorem mem_keys_unordered_map_emplace {κ β} [DecidableEq κ] {m : List (κ × β)} {k x : κ}
    {v : β} : x ∈ (unordered_map_emplace m k v).map Prod.fst ↔ x ∈ m.map Prod.fst ∨ x = k := by
  rw [keys_unordered_map_emplace]
  split
  · constructor
    · exact Or.inl
    · rintro (h | rfl)
      · exact h
      · assumption
  · simp

/-- What the registrations `regs` leave behind. -/
theorem register_foldl (regs : List Registration) :
    ∀ js : JitState,
      (regs.foldl JitState.register js).nonRegistry = js.nonRegistry ∧
      (regs.foldl JitState.register js).jit_preloaders = js.jit_preloaders ∧
      (regs.foldl JitState.register js).preload_log = js.preload_log ∧
      (regs.foldl JitState.register js).register_log =
        js.register_log ++ regs.map Registration.unit ∧
      (js.jit_reg_units.Nodup → (regs.foldl JitState.register js).jit_reg_units.Nodup) ∧
      (∀ v, v ∈ (regs.foldl JitState.register js).jit_reg_units ↔
        v ∈ js.jit_reg_units ∨ v ∈ regs.map Registration.unit) ∧
      (∀ c, c ∈ (regs.foldl JitState.register js).jit_code_data.map Prod.fst ↔
        c ∈ js.jit_code_data.map Prod.fst ∨ PyUnit.code c ∈ regs.map Registration.unit) := by
  induction regs with
  | nil => intro js; simp
  | cons reg regs ih =>
    intro js
    obtain ⟨h1, h2, h3, h4, h5, h6, h7⟩ := ih (js.register reg)
    simp only [List.foldl_cons]
    cases reg with
    | func f =>
      refine ⟨by rw [h1]; rfl, by rw [h2]; rfl, by rw [h3]; rfl, ?_, ?_, ?_, ?_⟩
      · rw [h4]; simp [JitState.register, Registration.unit]
      · intro hn
        exact h5 (nodup_unordered_set_emplace hn)
      · intro v
        rw [h6]
        simp [JitState.register, Registration.unit, mem_unordered_set_emplace, or_assoc]
      · intro c
        rw [h7]
        simp [JitState.register, Registration.unit]
    | code c data =>
      refine ⟨by rw [h1]; rfl, by rw [h2]; rfl, by rw [h3]; rfl, ?_, ?_, ?_, ?_⟩
      · rw [h4]; simp [JitState.register, Registration.unit]
      · intro hn
        exact h5 (nodup_unordered_set_emplace hn)
      · intro v
        rw [h6]
        simp [JitState.register, Registration.unit, mem_unordered_set_emplace, or_assoc]
      · intro c'
        rw [h7]
        simp only [JitState.register, mem_keys_unordered_map_emplace, Registration.unit,
          List.map_cons, List.mem_cons, PyUnit.code.injEq]
        tauto

theorem preloadUnit_eq (env : CompileEnv) (drained : List PyUnit) (u : PyUnit) (js : JitState) :
    (Preloadable js u → ∃ P, multithread_compile_all.preloadUnit env drained u js =
      .ok { constructPreloader env drained u js with
            jit_preloaders :=
              unordered_map_emplace (constructPreloader env drained u js).jit_preloaders u P }) ∧
    (∀ js', multithread_compile_all.preloadUnit env drained u js = .ok js' → Preloadable js u) := by
  cases u with
  | func f =>
    exact ⟨fun _ => ⟨_, rfl⟩, fun _ _ => trivial⟩
  | code c =>
    constructor
    · intro h
      obtain ⟨d, hd⟩ := Option.isSome_iff_exists.mp (unordered_map_find_isSome.mpr h)
      exact ⟨.ofCode c d.globals d.module, by
        simp [multithread_compile_all.preloadUnit, map_get, hd, ok_bind, pure, Except.pure]⟩
    · intro js' h
      cases hd : unordered_map_find js.jit_code_data c with
      | none =>
        simp [multithread_compile_all.preloadUnit, map_get, hd, err_bind, throw, throwThe,
          MonadExceptOf.throw] at h
      | some d =>
        exact unordered_map_find_isSome.mp (by simp [hd])
  | object o =>
    constructor
    · intro h; cases h
    · intro js' h
      simp [multithread_compile_all.preloadUnit, throw, throwThe, MonadExceptOf.throw] at h

/-- What a preload of `u` that returns leaves behind. -/
theorem preloadUnit_ok {env : CompileEnv} {drained : List PyUnit} {u : PyUnit}
    {js js' : JitState}
    (h : multithread_compile_all.preloadUnit env drained u js = .ok js') :
    Preloadable js u ∧
    js'.nonRegistry = js.nonRegistry ∧
    js'.jit_preloaders.map Prod.fst =
      (if u ∈ js.jit_preloaders.map Prod.fst then js.jit_preloaders.map Prod.fst
       else js.jit_preloaders.map Prod.fst ++ [u]) ∧
    js'.preload_log = js.preload_log ++ [u] ∧
    js'.register_log =
      js.register_log ++ (env.preloadRegisters drained u).map Registration.unit ∧
    (js.jit_reg_units.Nodup → js'.jit_reg_units.Nodup) ∧
    (∀ v, v ∈ js'.jit_reg_units ↔
      v ∈ js.jit_reg_units ∨ v ∈ (env.preloadRegisters drained u).map Registration.unit) ∧
    (∀ c, c ∈ js'.jit_code_data.map Prod.fst ↔
      c ∈ js.jit_code_data.map Prod.fst ∨
        PyUnit.code c ∈ (env.preloadRegisters drained u).map Registration.unit) := by
  have hpre := (preloadUnit_eq env drained u js).2 js' h
  obtain ⟨P, hP⟩ := (preloadUnit_eq env drained u js).1 hpre
  rw [hP] at h
  cases h
  obtain ⟨h1, h2, h3, h4, h5, h6, h7⟩ := register_foldl (env.preloadRegisters drained u)
    { js with preload_log := js.preload_log ++ [u] }
  refine ⟨hpre, ?_, ?_, ?_, ?_, ?_, ?_, ?_⟩
  · exact h1
  · rw [keys_unordered_map_emplace]
    simp only [constructPreloader, h2]
  · exact h3
  · exact h4
  · exact h5
  · exact h6
  · exact h7

/-- An invariant of the preload loop holds when the loop has ended. -/
theorem preload_induction (env : CompileEnv) (P : List PyUnit → JitState → Prop)
    (hunit : ∀ drained u cu js js', P cu js →
      multithread_compile_all.preloadUnit env drained u js = .ok js' → P (cu ++ [u]) js')
    (hclear : ∀ cu js, P cu js → P cu { js with jit_reg_units := [] }) :
    ∀ (fuel : Nat) (cu : List PyUnit) (js : JitState) (units : List PyUnit) (js' : JitState),
      P cu js → multithread_compile_all.preload env fuel cu js = .ok (units, js') →
      P units js' ∧ js'.jit_reg_units = [] := by
  have hinner : ∀ (rest cu : List PyUnit) (js : JitState) (units : List PyUnit)
      (js' : JitState), P cu js →
      multithread_compile_all.preloadUnits env rest cu js = .ok (units, js') → P units js' := by
    intro rest
    induction rest with
    | nil =>
      intro cu js units js' hP h
      simp [multithread_compile_all.preloadUnits, pure, Except.pure] at h
      obtain ⟨rfl, rfl⟩ := h
      exact hP
    | cons u rest ih =>
      intro cu js units js' hP h
      simp only [multithread_compile_all.preloadUnits] at h
      cases h1 : multithread_compile_all.preloadUnit env (cu ++ [u] ++ rest) u js with
      | error e => rw [h1] at h; simp [err_bind] at h
      | ok js₁ =>
        rw [h1] at h
        simp only [ok_bind] at h
        exact ih _ _ _ _ (hunit _ _ _ _ _ hP h1) h
  intro fuel
  induction fuel with
  | zero =>
    intro cu js units js' _ h
    simp [multithread_compile_all.preload, throw, throwThe, MonadExceptOf.throw] at h
  | succ fuel ih =>
    intro cu js units js' hP h
    simp only [multithread_compile_all.preload] at h
    by_cases hlen : js.jit_reg_units.length > 0
    · simp only [hlen, if_true] at h
      cases h1 : multithread_compile_all.preloadUnits env js.jit_reg_units cu
          { js with jit_reg_units := [] } with
      | error e => rw [h1] at h; simp [err_bind] at h
      | ok r =>
        obtain ⟨cu₁, js₁⟩ := r
        rw [h1] at h
        simp only [ok_bind] at h
        exact ih _ _ _ _ (hinner _ _ _ _ _ (hclear _ _ hP) h1) h
    · simp only [hlen, if_false, pure, Except.pure] at h
      simp only [Except.ok.injEq, Prod.mk.injEq] at h
      obtain ⟨rfl, rfl⟩ := h
      refine ⟨hP, ?_⟩
      simpa using hlen

/-- When the preload loop has ended, the pending set is empty, every unit of
`compilation_units` has a preloader, and nothing but the registries has
changed. -/
theorem preload_ok {env : CompileEnv} {fuel : Nat} {js js' : JitState} {units : List PyUnit}
    (h : multithread_compile_all.preload env fuel [] js = .ok (units, js')) :
    js'.jit_reg_units = [] ∧
    (∀ u ∈ units, (unordered_map_find js'.jit_preloaders u).isSome) ∧
    js'.nonRegistry = js.nonRegistry ∧
    js'.preload_log = js.preload_log ++ units := by
  have := preload_induction env
    (fun cu s => (∀ u ∈ cu, u ∈ s.jit_preloaders.map Prod.fst) ∧
      s.nonRegistry = js.nonRegistry ∧ s.preload_log = js.preload_log ++ cu)
    (by
      intro drained u cu s s' ⟨hk, hf, hl⟩ hs
      obtain ⟨-, h1, h2, h3, -⟩ := preloadUnit_ok hs
      refine ⟨?_, by rw [h1, hf], by rw [h3, hl, List.append_assoc]⟩
      intro v hv
      rw [h2]
      rcases List.mem_append.mp hv with hv | hv
      · have := hk v hv
        split
        · exact this
        · exact List.mem_append_left _ this
      · simp at hv
        subst hv
        split
        · assumption
        · simp)
    (fun cu s h => h)
    fuel [] js units js' ⟨by simp, rfl, by simp⟩ h
  obtain ⟨⟨hk, hf, hl⟩, hreg⟩ := this
  exact ⟨hreg, fun u hu => unordered_map_find_isSome.mpr (hk u hu), hf, hl⟩

theorem Preloadable.mono {js js' : JitState} {u : PyUnit}
    (h : ∀ c, c ∈ js.jit_code_data.map Prod.fst → c ∈ js'.jit_code_data.map Prod.fst)
    (hu : Preloadable js u) : Preloadable js' u := by
  cases u with
  | func f => trivial
  | code c => exact h c hu
  | object o => cases hu

theorem Registration.unit_preloadable {js : JitState} {reg : Registration}
    (h : ∀ c, PyUnit.code c = reg.unit → c ∈ js.jit_code_data.map Prod.fst) :
    Preloadable js reg.unit := by
  cases reg with
  | func f => trivial
  | code c d => exact h c rfl

theorem preloadUnit_inv {env : CompileEnv} {U pending₀ : List PyUnit} {js₀ : JitState}
    (hfresh : ∀ drained u, ∀ reg ∈ env.preloadRegisters drained u, reg.unit ∉ drained)
    (huniv : ∀ drained u, ∀ reg ∈ env.preloadRegisters drained u, reg.unit ∈ U)
    {cu rest : List PyUnit} {u : PyUnit} {js : JitState}
    (h : PreInv U pending₀ js₀ cu (u :: rest) js) :
    ∃ js', multithread_compile_all.preloadUnit env (cu ++ [u] ++ rest) u js = .ok js' ∧
      PreInv U pending₀ js₀ (cu ++ [u]) rest js' := by
  have hpre : Preloadable js u := h.data u (by simp)
  obtain ⟨js', hP⟩ : ∃ js', multithread_compile_all.preloadUnit env (cu ++ [u] ++ rest) u js =
      .ok js' := by
    obtain ⟨P, hP⟩ := (preloadUnit_eq env (cu ++ [u] ++ rest) u js).1 hpre
    exact ⟨_, hP⟩
  refine ⟨js', hP, ?_⟩
  obtain ⟨-, -, h2, h3, h4, h5, h6, h7⟩ := preloadUnit_ok hP
  have hD : ((cu ++ u :: rest) ++ js.jit_reg_units).Nodup := h.nodup
  rw [List.nodup_append] at hD
  obtain ⟨hD1, hD2, hD3⟩ := hD
  have hu : u ∉ cu := by
    intro hmem
    have := (List.nodup_append.mp hD1).2.2
    exact this hmem (List.mem_cons_self _ _)
  have hmemD : ∀ v, v ∈ (cu ++ [u]) ++ rest ↔ v ∈ cu ++ u :: rest := by
    intro v; simp
  refine ⟨?_, ?_, ?_, ?_, ?_, ?_⟩
  · rw [show (cu ++ [u]) ++ rest = cu ++ u :: rest by simp, List.nodup_append]
    refine ⟨hD1, h5 hD2, ?_⟩
    intro x hx hx'
    rcases (h6 x).mp hx' with hx' | hx'
    · exact hD3 hx hx'
    · obtain ⟨reg, hreg, rfl⟩ := List.mem_map.mp hx'
      exact hfresh _ _ reg hreg ((hmemD _).mpr hx)
  · rw [h2, h.keys, if_neg hu]
  · rw [h3, h.plog, List.append_assoc]
  · intro v hv
    rcases List.mem_append.mp hv with hv | hv
    · exact (h.data v (by simp [hv])).mono (fun c hc => (h7 c).mpr (Or.inl hc))
    · rcases (h6 v).mp hv with hv | hv
      · exact (h.data v (by simp [hv])).mono (fun c hc => (h7 c).mpr (Or.inl hc))
      · obtain ⟨reg, hreg, rfl⟩ := List.mem_map.mp hv
        apply Registration.unit_preloadable
        intro c hc
        exact (h7 c).mpr (Or.inr (List.mem_map.mpr ⟨reg, hreg, hc.symm⟩))
  · obtain ⟨R, hR, hk⟩ := h.known
    refine ⟨R ++ (env.preloadRegisters (cu ++ [u] ++ rest) u).map Registration.unit, ?_, ?_⟩
    · rw [h4, hR, List.append_assoc]
    · intro v hv
      rw [← List.append_assoc] at hv
      rcases List.mem_append.mp hv with hv | hv
      · have := hk v hv
        rcases List.mem_append.mp this with hd | hr
        · exact List.mem_append_left _ ((hmemD v).mpr hd)
        · exact List.mem_append_right _ ((h6 v).mpr (Or.inl hr))
      · exact List.mem_append_right _ ((h6 v).mpr (Or.inr hv))
  · intro v hv
    rcases List.mem_append.mp hv with hd | hr
    · exact h.univ v (List.mem_append_left _ ((hmemD v).mp hd))
    · rcases (h6 v).mp hr with hr | hr
      · exact h.univ v (List.mem_append_right _ hr)
      · obtain ⟨reg, hreg, rfl⟩ := List.mem_map.mp hr
        exact huniv _ _ reg hreg

theorem preloadUnits_inv {env : CompileEnv} {U pending₀ : List PyUnit} {js₀ : JitState}
    (hfresh : ∀ drained u, ∀ reg ∈ env.preloadRegisters drained u, reg.unit ∉ drained)
    (huniv : ∀ drained u, ∀ reg ∈ env.preloadRegisters drained u, reg.unit ∈ U) :
    ∀ (rest cu : List PyUnit) (js : JitState), PreInv U pending₀ js₀ cu rest js →
      ∃ js', multithread_compile_all.preloadUnits env rest cu js = .ok (cu ++ rest, js') ∧
        PreInv U pending₀ js₀ (cu ++ rest) [] js'
  | [], cu, js, h => ⟨js, by simp [multithread_compile_all.preloadUnits, pure, Except.pure],
      by simpa using h⟩
  | u :: rest, cu, js, h => by
    obtain ⟨js₁, h1, hinv⟩ := preloadUnit_inv hfresh huniv h
    obtain ⟨js₂, h2, hinv₂⟩ := preloadUnits_inv hfresh huniv rest (cu ++ [u]) js₁ hinv
    refine ⟨js₂, ?_, by simpa using hinv₂⟩
    simp only [multithread_compile_all.preloadUnits, h1, ok_bind]
    simpa using h2

theorem PreInv.length_le {U pending₀ : List PyUnit} {js₀ : JitState} {cu rest : List PyUnit}
    {js : JitState} (h : PreInv U pending₀ js₀ cu rest js) :
    cu.length + rest.length + js.jit_reg_units.length ≤ U.length := by
  have := (List.Nodup.subperm h.nodup (fun v hv => h.univ v hv)).length_le
  simpa [Nat.add_assoc] using this

/-- The preload loop ends, with its invariant, when the environment registers
only units of the finite list `U` and no unit that has been drained. -/
theorem preload_inv {env : CompileEnv} {U pending₀ : List PyUnit} {js₀ : JitState}
    (hfresh : ∀ drained u, ∀ reg ∈ env.preloadRegisters drained u, reg.unit ∉ drained)
    (huniv : ∀ drained u, ∀ reg ∈ env.preloadRegisters drained u, reg.unit ∈ U) :
    ∀ (fuel : Nat) (cu : List PyUnit) (js : JitState), PreInv U pending₀ js₀ cu [] js →
      U.length < cu.length + fuel →
      ∃ units js', multithread_compile_all.preload env fuel cu js = .ok (units, js') ∧
        PreInv U pending₀ js₀ units [] js' ∧ js'.jit_reg_units = [] := by
  intro fuel
  induction fuel with
  | zero =>
    intro cu js h hlt
    have := h.length_le
    omega
  | succ fuel ih =>
    intro cu js h hlt
    by_cases hlen : js.jit_reg_units.length > 0
    · have hround : PreInv U pending₀ js₀ cu js.jit_reg_units { js with jit_reg_units := [] } :=
        ⟨by simpa using h.nodup, h.keys, h.plog, by simpa using h.data,
          by simpa using h.known, by simpa using h.univ⟩
      obtain ⟨js₁, h1, hinv⟩ := preloadUnits_inv hfresh huniv _ _ _ hround
      obtain ⟨units, js₂, h2, hinv₂, hreg⟩ := ih (cu ++ js.jit_reg_units) js₁ hinv
        (by simp; omega)
      exact ⟨units, js₂, by simp [multithread_compile_all.preload, hlen, h1, ok_bind, h2],
        hinv₂, hreg⟩
    · have hnil : js.jit_reg_units = [] := by simpa using hlen
      exact ⟨cu, js, by simp [multithread_compile_all.preload, hnil, pure, Except.pure], h, hnil⟩

theorem LogFollows.mem {env : CompileEnv} {pl : List (PyUnit × Preloader)} {w : Bool} :
    ∀ {L log : List Attempt}, LogFollows env pl w log L →
      ∀ pre a post, L = pre ++ a :: post →
        a.thread.isSome = w ∧ ∃ p, unordered_map_find pl a.unit = some p ∧
          a.result = env.compilePreloader (log ++ pre) a.thread a.unit p := by
  intro L log h pre a post hL
  subst hL
  rw [LogFollows_append] at h
  exact h.2.1

theorem LogFollows.of_mem {env : CompileEnv} {pl : List (PyUnit × Preloader)} {w : Bool}
    {L log : List Attempt} (h : LogFollows env pl w log L) {a : Attempt} (ha : a ∈ L) :
    ∃ pre post, L = pre ++ a :: post ∧ a.thread.isSome = w ∧
      ∃ p, unordered_map_find pl a.unit = some p ∧
        a.result = env.compilePreloader (log ++ pre) a.thread a.unit p := by
  obtain ⟨pre, post, hL⟩ := List.append_of_mem ha
  exact ⟨pre, post, hL, h.mem pre a post hL⟩

theorem exists_first {α} (p : α → Prop) [DecidablePred p] :
    ∀ (l : List α), (∃ a ∈ l, p a) →
      ∃ pre a post, l = pre ++ a :: post ∧ p a ∧ ∀ b ∈ pre, ¬ p b
  | [], h => by obtain ⟨a, ha, _⟩ := h; cases ha
  | x :: l, h => by
    by_cases hx : p x
    · exact ⟨[], x, l, rfl, hx, fun _ hb => by cases hb⟩
    · obtain ⟨pre, a, post, hl, ha, hpre⟩ := exists_first p l (by
        obtain ⟨a, ha, hpa⟩ := h
        rcases List.mem_cons.mp ha with rfl | ha
        · exact absurd hpa hx
        · exact ⟨a, ha, hpa⟩)
      refine ⟨x :: pre, a, post, by simp [hl], ha, ?_⟩
      intro b hb
      rcases List.mem_cons.mp hb with rfl | hb
      · exact hx
      · exact hpre b hb

theorem nonRegistry_fields {js' js : JitState} (h : js'.nonRegistry = js.nonRegistry) :
    js'.jit_ctx = js.jit_ctx ∧
    js'.g_threaded_compile_context = js.g_threaded_compile_context ∧
    js'.g_compile_workers_attempted = js.g_compile_workers_attempted ∧
    js'.g_compile_workers_retries = js.g_compile_workers_retries ∧
    js'._PyGILState_check_enabled = js._PyGILState_check_enabled ∧
    js'.batch_compile_workers = js.batch_compile_workers ∧
    js'.multithreaded_compile_test = js.multithreaded_compile_test ∧
    js'.is_enabled = js.is_enabled ∧
    js'.are_type_slots_enabled = js.are_type_slots_enabled ∧
    js'.compile_log = js.compile_log := by
  have h1 := congrArg JitState.jit_ctx h
  have h2 := congrArg JitState.g_threaded_compile_context h
  have h3 := congrArg JitState.g_compile_workers_attempted h
  have h4 := congrArg JitState.g_compile_workers_retries h
  have h5 := congrArg JitState._PyGILState_check_enabled h
  have h6 := congrArg JitState.batch_compile_workers h
  have h7 := congrArg JitState.multithreaded_compile_test h
  have h8 := congrArg JitState.is_enabled h
  have h9 := congrArg JitState.are_type_slots_enabled h
  have h10 := congrArg JitState.compile_log h
  exact ⟨h1, h2, h3, h4, h5, h6, h7, h8, h9, h10⟩

/-- What a run of `multithread_compile_all` does whose preload loop ends with
the units `units` in state `jsP`. -/
theorem multithread_compile_all_spec (env : CompileEnv) (schedule : List Nat) (fuel : Nat)
    (js jsP : JitState) (units : List PyUnit)
    (hctx : js.jit_ctx = true)
    (hp : multithread_compile_all.preload env fuel [] js = .ok (units, jsP))
    (hW : 0 < js.batch_compile_workers)
    (hr : js.g_threaded_compile_context.retry_list = []) :
    ∃ (r : List PyUnit) (a n : Nat) (W D : List Attempt),
      multithread_compile_all.workers env schedule (jsP.started units) =
        .ok ((jsP.started units).scheduled [] r a n W,
          List.replicate js.batch_compile_workers WorkerPc.finished) ∧
      multithread_compile_all env schedule fuel js = .ok (jsP.compiled a n (W ++ D)) ∧
      (W.map (·.unit)).Perm units ∧
      r.Perm ((W.filter Attempt.isRetry).map (·.unit)) ∧
      n = js.g_compile_workers_retries + (W.filter Attempt.isRetry).length ∧
      D.map (·.unit) = r ∧
      LogFollows env jsP.jit_preloaders true js.compile_log W ∧
      LogFollows env jsP.jit_preloaders false (js.compile_log ++ W) D ∧
      jsP.jit_reg_units = [] ∧ jsP.nonRegistry = js.nonRegistry := by
  obtain ⟨hreg, hkeys, hframe, -⟩ := preload_ok hp
  obtain ⟨-, hctx', -, hretries, -, hworkers, -, -, -, hlog⟩ := nonRegistry_fields hframe
  obtain ⟨r, a, n, W, D, h1, h2, h3, h4, h5, h6, h7, h8⟩ :=
    compile_spec env schedule units jsP (by rw [hworkers]; exact hW) (by rw [hctx', hr]) hkeys
  rw [hworkers] at h1
  rw [hretries] at h5
  rw [hlog] at h7 h8
  refine ⟨r, a, n, W, D, h1, ?_, h3, h4, h5, h6, h7, h8, hreg, hframe⟩
  simp [multithread_compile_all, hctx, hp, ok_bind, h2]

theorem filter_isRetry_eq_not_final {W : List Attempt}
    (h : ∀ a ∈ W, a.result = .PYJIT_RESULT_OK ∨ a.result = .PYJIT_RESULT_RETRY ∨
      a.result = .PYJIT_RESULT_CANNOT_SPECIALIZE) :
    W.filter Attempt.isRetry = W.filter (fun a => !(a.isDone || a.isDeclined)) := by
  apply List.filter_congr
  intro a ha
  rcases h a ha with h | h | h <;> simp [Attempt.isRetry, Attempt.isDone, Attempt.isDeclined, h]

theorem filter_final_eq_self {D : List Attempt}
    (h : ∀ a ∈ D, a.result = .PYJIT_RESULT_OK ∨ a.result = .PYJIT_RESULT_CANNOT_SPECIALIZE) :
    D.filter (fun a => a.isDone || a.isDeclined) = D := by
  rw [List.filter_eq_self]
  intro a ha
  rcases h a ha with h | h <;> simp [Attempt.isDone, Attempt.isDeclined, h]

theorem length_filter_done_add_declined (L : List Attempt) :
    (L.filter Attempt.isDone).length + (L.filter Attempt.isDeclined).length =
      (L.filter (fun a => a.isDone || a.isDeclined)).length := by
  induction L with
  | nil => rfl
  | cons a L ih =>
    have hex : ¬ (a.isDone = true ∧ a.isDeclined = true) := by
      simp only [Attempt.isDone, Attempt.isDeclined, decide_eq_true_eq]
      rintro ⟨h1, h2⟩
      rw [h1] at h2
      cases h2
    simp only [List.filter_cons]
    cases h1 : a.isDone <;> cases h2 : a.isDeclined <;> simp [h1, h2] at hex ⊢ <;> omega

theorem filter_isRetry_eq_not_done {W : List Attempt}
    (h : ∀ a ∈ W, a.result = .PYJIT_RESULT_OK ∨ a.result = .PYJIT_RESULT_RETRY) :
    W.filter Attempt.isRetry = W.filter (fun a => !a.isDone) := by
  apply List.filter_congr
  intro a ha
  rcases h a ha with h | h <;> simp [Attempt.isRetry, Attempt.isDone, h]

set_option maxRecDepth 100000 in
theorem manyPending_preload :
    multithread_compile_all.preload (flakyEnv ((List.range 10).map PyUnit.func)) 2 []
      (manyPending 100 4) = .ok ((List.range 100).map PyUnit.func, manyPreloaded 100 4) := by
  rfl

theorem flakyEnv_backend (flaky : List PyUnit) (log : List Attempt) (thread : Option Nat)
    (u : PyUnit) (p : Preloader) :
    (flakyEnv flaky).compilePreloader log thread u p = .PYJIT_RESULT_OK ∨
    ((flakyEnv flaky).compilePreloader log thread u p = .PYJIT_RESULT_RETRY ∧
      ∀ a ∈ log, a.unit = u → a.result ≠ .PYJIT_RESULT_RETRY) := by
  simp only [flakyEnv]
  split
  · rename_i h
    exact Or.inr ⟨rfl, fun a ha hau => absurd hau (h.2 a ha)⟩
  · exact Or.inl rfl

theorem flakyEnv_first (flaky : List PyUnit) (u : PyUnit) (hu : u ∈ flaky)
    (log : List Attempt) (thread : Option Nat) (p : Preloader) (h : ∀ a ∈ log, a.unit ≠ u) :
    (flakyEnv flaky).compilePreloader log thread u p = .PYJIT_RESULT_RETRY := by
  simp only [flakyEnv]
  rw [if_pos ⟨hu, h⟩]

theorem EndsWithGil.bind {g : Int} {α β} {f : α → JitState} {f' : β → JitState}
    {x : Except (Abort × JitState) α} {k : α → Except (Abort × JitState) β}
    (hx : EndsWithGil g f x) (hk : ∀ a, (f a)._PyGILState_check_enabled = g →
      EndsWithGil g f' (k a)) : EndsWithGil g f' (x >>= k) := by
  cases x with
  | error e => exact hx
  | ok a => exact hk a hx

theorem compilePreloaded_gil (env : CompileEnv) (thread : Option Nat) (js : JitState)
    (u : PyUnit) :
    EndsWithGil js._PyGILState_check_enabled (·.2) (compilePreloaded env thread js u) := by
  unfold compilePreloaded map_get
  cases unordered_map_find js.jit_preloaders u <;> rfl

theorem stepWorker_gil (env : CompileEnv) (tid : Nat) (s : JitState × List WorkerPc) :
    EndsWithGil s.1._PyGILState_check_enabled (·.1) (stepWorker env tid s) := by
  unfold stepWorker
  cases hpc : s.2[tid]? with
  | none => rfl
  | some pc =>
    simp only
    refine @EndsWithGil.bind _ (JitState × WorkerPc) (JitState × List WorkerPc)
      (fun a => a.1) (fun a => a.1) _ _ ?_ ?_
    swap
    · intro a ha
      obtain ⟨j, pc'⟩ := a
      exact ha
    cases pc with
    | nextUnit =>
      simp only [compile_worker_thread.step, ThreadedCompileContext.nextUnit]
      cases s.1.g_threaded_compile_context.work_queue <;> rfl
    | countAttempt u => rfl
    | compile u =>
      simp only [compile_worker_thread.step]
      refine EndsWithGil.bind (compilePreloaded_gil env (some tid) s.1 u) ?_
      intro a ha
      obtain ⟨res, j⟩ := a
      simp only
      split <;> exact ha
    | retry u => rfl
    | finished => rfl

theorem runSchedule_gil (env : CompileEnv) :
    ∀ (schedule : List Nat) (s : JitState × List WorkerPc),
      EndsWithGil s.1._PyGILState_check_enabled (·.1) (runSchedule env schedule s)
  | [], _ => rfl
  | tid :: schedule, s => by
    simp only [runSchedule]
    refine EndsWithGil.bind (stepWorker_gil env tid s) ?_
    intro a ha
    rw [← ha]
    exact runSchedule_gil env schedule a

theorem join_gil (env : CompileEnv) (tid : Nat) :
    ∀ (fuel : Nat) (s : JitState × List WorkerPc),
      EndsWithGil s.1._PyGILState_check_enabled (·.1) (join env tid fuel s)
  | 0, s => by
    simp only [join]
    split <;> rfl
  | fuel + 1, s => by
    simp only [join]
    split
    · refine EndsWithGil.bind (stepWorker_gil env tid s) ?_
      intro a ha
      rw [← ha]
      exact join_gil env tid fuel a
    · rfl

theorem joinAll_gil (env : CompileEnv) :
    ∀ (tids : List Nat) (s : JitState × List WorkerPc),
      EndsWithGil s.1._PyGILState_check_enabled (·.1) (joinAll env tids s)
  | [], _ => rfl
  | tid :: tids, s => by
    simp only [joinAll]
    refine EndsWithGil.bind (join_gil env tid _ s) ?_
    intro a ha
    rw [← ha]
    exact joinAll_gil env tids a

theorem drain_gil (env : CompileEnv) :
    ∀ (l : List PyUnit) (js : JitState),
      EndsWithGil js._PyGILState_check_enabled id (multithread_compile_all.drain env l js)
  | [], _ => rfl
  | u :: l, js => by
    simp only [multithread_compile_all.drain]
    refine EndsWithGil.bind (compilePreloaded_gil env none js u) ?_
    intro a ha
    rw [← ha]
    exact drain_gil env l a.2

/-- Every way out of `multithread_compile_all` after the preload loop but the
return leaves `_PyGILState_check_enabled` at 0. -/
theorem compile_abort_gil (env : CompileEnv) (schedule : List Nat) (units : List PyUnit)
    (js : JitState) (e : Abort) (js' : JitState)
    (h : multithread_compile_all.compile env schedule units js = .error (e, js')) :
    js'._PyGILState_check_enabled = 0 := by
  simp only [multithread_compile_all.compile] at h
  by_cases hW : js.batch_compile_workers = 0
  · simp only [hW, if_true, throw, throwThe, MonadExceptOf.throw] at h
    have h' := congrArg (fun x => match x with
      | Except.error (_, j) => j._PyGILState_check_enabled
      | Except.ok _ => 0) h
    simp only [bind, Except.bind] at h'
    exact h'.symm
  · simp only [hW, if_false] at h
    have hw := EndsWithGil.bind (runSchedule_gil env schedule
        ({ js with _PyGILState_check_enabled := 0,
                   g_threaded_compile_context :=
                     js.g_threaded_compile_context.startCompile units },
          List.replicate js.batch_compile_workers WorkerPc.nextUnit))
      (fun a ha => by
        have := joinAll_gil env (List.range js.batch_compile_workers) a
        rw [ha] at this
        exact this)
    cases hwk : multithread_compile_all.workers env schedule
        { js with _PyGILState_check_enabled := 0,
                  g_threaded_compile_context :=
                    js.g_threaded_compile_context.startCompile units } with
    | error e₁ =>
      rw [hwk] at h
      simp only [multithread_compile_all.workers] at hwk
      rw [hwk] at hw
      simp only [bind, Except.bind] at h
      cases h
      exact hw
    | ok s₁ =>
      rw [hwk] at h
      simp only [multithread_compile_all.workers] at hwk
      rw [hwk] at hw
      have hd := drain_gil env s₁.1.g_threaded_compile_context.endCompile.1
        { s₁.1 with g_threaded_compile_context :=
          s₁.1.g_threaded_compile_context.endCompile.2 }
      simp only [ok_bind] at h
      cases hdr : multithread_compile_all.drain env
          s₁.1.g_threaded_compile_context.endCompile.1
          { s₁.1 with g_threaded_compile_context :=
            s₁.1.g_threaded_compile_context.endCompile.2 } with
      | error e₂ =>
        rw [hdr] at h hd
        simp only [bind, Except.bind] at h
        cases h
        exact hd.trans hw
      | ok j₂ =>
        rw [hdr] at h
        simp [bind, Except.bind, pure, Except.pure] at h

theorem ite_ok {ε α} (c : Prop) [Decidable c] (a b : α) :
    (if c then (Except.ok a : Except ε α) else Except.ok b) = Except.ok (if c then a else b) := by
  split <;> rfl

theorem frameAt_setFooterState (st : State) (gen : Nat) (state : _PyJitGenState) :
    (st.setFooterState gen state).frames = st.frames := by
  unfold State.setFooterState
  split <;> rfl

/-- What `_PyJIT_GenSend` does on a generator that is not Completed and has
a yield point, called so that no check fails. -/
theorem _PyJIT_GenSend_enters (env : GenEnv) (st : State) (gen : Nat) (g : PyGenObject)
    (footer : GenDataFooter) (arg : Option Nat) (exc : Int) (f : Option Nat)
    (finish_yield_from : Int)
    (hg : st.gens[gen]? = some g) (hjd : g.gi_jit_data = some footer)
    (hstate : footer.state ≠ ._PyJitGenState_Completed) (hyp : footer.yieldPoint ≠ none)
    (hexc : exc ≠ 0 → arg = some env.Py_None)
    (hf : ∀ fp, f = some fp → fp < st.frames.length) :
    ∃ st₁ : State, st₁.gens = (st.setFooterState gen ._PyJitGenState_Running).gens ∧
      _PyJIT_GenSend env st gen arg exc f finish_yield_from =
        .ok (
          let out := env.resumeEntry footer.resumeEntry st₁ gen
            (if exc = 0 then (if arg = none then some env.Py_None else arg) else none)
            finish_yield_from
          if out.1 = none ∧ ((out.2.gens[gen]?).bind (·.gi_jit_data)).isSome then
            (out.1, out.2.setFooterState gen ._PyJitGenState_Completed)
          else out) := by
  have hlt := lt_of_getElem?_eq_some hg
  have hst : footer.state = ._PyJitGenState_JustStarted ∨
      footer.state = ._PyJitGenState_Running := by
    cases h : footer.state <;> simp_all
  have hcheck : (decide (footer.state = ._PyJitGenState_JustStarted ∨
      footer.state = ._PyJitGenState_Running)) = true := by simpa using hst
  have hgens : (st.setFooterState gen ._PyJitGenState_Running).gens[gen]? =
      some { g with gi_jit_data := some { footer with state := ._PyJitGenState_Running } } := by
    simp [State.setFooterState, hg, State.setGen, hlt, hjd]
  have hframes := frameAt_setFooterState st gen ._PyJitGenState_Running
  unfold _PyJIT_GenSend
  simp only [State.footerAt, hg, hjd, pure, Except.pure, ok_bind, JIT_DCHECK, hcheck, if_true]
  have harg : (do
      if exc ≠ 0 then
        (if (decide (arg = some env.Py_None)) = true then Except.ok ()
          else throw (Abort.argShouldBeNone, st.setFooterState gen ._PyJitGenState_Running))
        Except.ok none
      else if arg = none then Except.ok (some env.Py_None)
      else Except.ok arg : Except (Abort × State) (Option Nat)) =
      .ok (if exc = 0 then (if arg = none then some env.Py_None else arg) else none) := by
    by_cases he : exc = 0
    · subst he
      simp only [ne_eq, not_true_eq_false, if_false, if_true]
      split <;> rfl
    · have ha := hexc he
      subst ha
      simp only [ne_eq, he, not_false_eq_true, if_true, decide_True, if_false]
      rfl
  rw [harg, ok_bind]
  cases f with
  | none =>
    refine ⟨_, rfl, ?_⟩
    simp only [ok_bind, hgens, hyp, ne_eq, not_false_eq_true, decide_True, if_true]
    rw [ite_ok]
  | some fp =>
    have hfp := hf fp rfl
    obtain ⟨fo, hfo⟩ : ∃ fo, st.frames[fp]? = some fo := ⟨_, List.getElem?_eq_getElem hfp⟩
    simp only [State.frameAt, hframes, hfo, withState, ok_bind, Py_INCREF, State.setFrame,
      List.getElem?_set_self hfp, pure, Except.pure,
      List.length_set, List.getElem?_set_self (show fp < (st.frames.set fp _).length by
        simpa using hfp), hgens, hyp, ne_eq, not_false_eq_true, decide_True, if_true]
    rw [ite_ok]
    refine ⟨_, ?_, rfl⟩
    rfl

theorem genState_setFooterState {st : State} {gen : Nat} (state : _PyJitGenState)
    (h : (st.gens[gen]?).bind (·.gi_jit_data) ≠ none) :
    (st.setFooterState gen state).genState gen = some state := by
  cases hg : st.gens[gen]? with
  | none => simp [hg] at h
  | some g =>
    have hlt := lt_of_getElem?_eq_some hg
    cases hjd : g.gi_jit_data with
    | none => simp [hg, hjd] at h
    | some footer =>
      simp [State.setFooterState, hg, State.genState, State.setGen, hlt, hjd]

theorem materializePyFrame_refcnt_top_none {st : State} {sf : Nat}
    {s : _PyShadowFrame} {rt : CodeRuntime}
    (hs : st.shadows[sf]? = some s) (hflag : s.hasPyFrame = false)
    (hrt : getCodeRuntime st sf = .ok rt)
    (htf : st.tstate.frame = none)
    (htop : ∀ t, st.tstate.frame = some t → t < st.frames.length) :
    ∃ st', materializePyFrame st none sf = .ok (some st.frames.length, st') ∧
      RefcntsAfterCreate st none s st' := by
  obtain ⟨s', hs', hptr⟩ := getCodeRuntime_ok hrt
  rw [hs] at hs'
  cases hs'
  have hsf := lt_of_getElem?_eq_some hs
  have hcreate := createPyFrame_eq rt htop
  rcases hptr with hp | ⟨g, o, jd, hp, hg, hjd, hjrt⟩
  · simp [materializePyFrame, _PyShadowFrame_HasPyFrame, State.shadowAt, hs, hflag,
      hrt, _PyShadowFrame_GetPtrKind, _PyShadowFrame_GetPtr, hp, hcreate,
      htf, Py_XINCREF, State.frameAt, State.setFrame, Py_INCREF, Py_DECREF,
      ok_bind, pure, Except.pure, List.getElem?_append, List.getElem?_set,
      JITFrame.insertPyFrameUnlinkTrampoline, JITFrame.retAddr, JITFrame.ofShadowFrame,
      JITFrame.setRetAddr, State.setShadow, _PyShadowFrame_SetHasPyFrame, hsf,
      _PyShadowFrame_GetGen, State.genAt, State.setGen]
    clear hcreate hrt
    constructor
    · simp [State.refcnt, hp, ShadowPtr.gen?, List.getElem?_append, List.getElem?_set]
    · intro i hi
      by_cases h : i < st.frames.length
      · simp [State.refcnt, htf, List.getElem?_append, List.getElem?_set, h, hi, Ne.symm hi]
      · have : st.frames.length < i := by omega
        simp [State.refcnt, htf, List.getElem?_append, List.getElem?_set, h,
          List.getElem?_eq_none (Nat.le_of_lt this), Ne.symm hi]
        omega
  · have hgl := lt_of_getElem?_eq_some hg
    simp [materializePyFrame, _PyShadowFrame_HasPyFrame, State.shadowAt, hs, hflag,
      hrt, _PyShadowFrame_GetPtrKind, _PyShadowFrame_GetPtr, hp, hcreate,
      htf, Py_XINCREF, State.frameAt, State.setFrame, Py_INCREF, Py_DECREF,
      ok_bind, pure, Except.pure, List.getElem?_append, List.getElem?_set,
      JITFrame.insertPyFrameUnlinkTrampoline, JITFrame.retAddr, JITFrame.ofShadowFrame,
      JITFrame.setRetAddr, State.setShadow, _PyShadowFrame_SetHasPyFrame, hsf,
      _PyShadowFrame_GetGen, State.genAt, State.setGen, hg, hjd, hgl]
    clear hcreate hrt
    constructor
    · simp [State.refcnt, hp, ShadowPtr.gen?, List.getElem?_append, List.getElem?_set]
    · intro i hi
      by_cases h : i < st.frames.length
      · simp [State.refcnt, htf, List.getElem?_append, List.getElem?_set, h, hi, Ne.symm hi]
      · have : st.frames.length < i := by omega
        simp [State.refcnt, htf, List.getElem?_append, List.getElem?_set, h,
          List.getElem?_eq_none (Nat.le_of_lt this), Ne.symm hi]
        omega

theorem materializePyFrame_refcnt_top_some {st : State} {sf : Nat}
    {s : _PyShadowFrame} {rt : CodeRuntime} {t : Nat}
    (hs : st.shadows[sf]? = some s) (hflag : s.hasPyFrame = false)
    (hrt : getCodeRuntime st sf = .ok rt)
    (htf : st.tstate.frame = some t)
    (htop : ∀ t, st.tstate.frame = some t → t < st.frames.length) :
    ∃ st', materializePyFrame st none sf = .ok (some st.frames.length, st') ∧
      RefcntsAfterCreate st none s st' := by
  obtain ⟨s', hs', hptr⟩ := getCodeRuntime_ok hrt
  rw [hs] at hs'
  cases hs'
  have hsf := lt_of_getElem?_eq_some hs
  have hcreate := createPyFrame_eq rt htop
  have ht := htop t htf
  have hget : st.frames[t]? = some st.frames[t] := List.getElem?_eq_getElem ht
  rcases hptr with hp | ⟨g, o, jd, hp, hg, hjd, hjrt⟩
  · simp [materializePyFrame, _PyShadowFrame_HasPyFrame, State.shadowAt, hs, hflag,
      hrt, _PyShadowFrame_GetPtrKind, _PyShadowFrame_GetPtr, hp, hcreate,
      htf, Py_XINCREF, State.frameAt, State.setFrame, Py_INCREF, Py_DECREF,
      ok_bind, pure, Except.pure, List.getElem?_append, List.getElem?_set,
      JITFrame.insertPyFrameUnlinkTrampoline, JITFrame.retAddr, JITFrame.ofShadowFrame,
      JITFrame.setRetAddr, State.setShadow, _PyShadowFrame_SetHasPyFrame, hsf,
      _PyShadowFrame_GetGen, State.genAt, State.setGen, ht, hget, ht.ne, ht.ne']
    clear hcreate hrt
    constructor
    · simp [State.refcnt, hp, ShadowPtr.gen?, List.getElem?_append, List.getElem?_set, ht, hget, ht.ne, ht.ne']
    · intro i hi
      by_cases h : i < st.frames.length
      · by_cases hti : t = i
        · subst hti
          simp [State.refcnt, htf, List.getElem?_append, List.getElem?_set, h, hi, Ne.symm hi, ht, hget, ht.ne, ht.ne']
        · simp [State.refcnt, htf, List.getElem?_append, List.getElem?_set, h, hi, Ne.symm hi,
            hti, Ne.symm hti, ht, hget, ht.ne, ht.ne']
      · have : st.frames.length < i := by omega
        simp [State.refcnt, htf, List.getElem?_append, List.getElem?_set, h,
          List.getElem?_eq_none (Nat.le_of_lt this), Ne.symm hi, ht, hget, ht.ne, ht.ne']
        omega
  · have hgl := lt_of_getElem?_eq_some hg
    simp [materializePyFrame, _PyShadowFrame_HasPyFrame, State.shadowAt, hs, hflag,
      hrt, _PyShadowFrame_GetPtrKind, _PyShadowFrame_GetPtr, hp, hcreate,
      htf, Py_XINCREF, State.frameAt, State.setFrame, Py_INCREF, Py_DECREF,
      ok_bind, pure, Except.pure, List.getElem?_append, List.getElem?_set,
      JITFrame.insertPyFrameUnlinkTrampoline, JITFrame.retAddr, JITFrame.ofShadowFrame,
      JITFrame.setRetAddr, State.setShadow, _PyShadowFrame_SetHasPyFrame, hsf,
      _PyShadowFrame_GetGen, State.genAt, State.setGen, hg, hjd, hgl, ht, hget, ht.ne, ht.ne']
    clear hcreate hrt
    constructor
    · simp [State.refcnt, hp, ShadowPtr.gen?, List.getElem?_append, List.getElem?_set, ht, hget, ht.ne, ht.ne']
    · intro i hi
      by_cases h : i < st.frames.length
      · by_cases hti : t = i
        · subst hti
          simp [State.refcnt, htf, List.getElem?_append, List.getElem?_set, h, hi, Ne.symm hi, ht, hget, ht.ne, ht.ne']
        · simp [State.refcnt, htf, List.getElem?_append, List.getElem?_set, h, hi, Ne.symm hi,
            hti, Ne.symm hti, ht, hget, ht.ne, ht.ne']
      · have : st.frames.length < i := by omega
        simp [State.refcnt, htf, List.getElem?_append, List.getElem?_set, h,
          List.getElem?_eq_none (Nat.le_of_lt this), Ne.symm hi, ht, hget, ht.ne, ht.ne']
        omega

theorem materializePyFrame_refcnt_prev {st : State} {sf : Nat}
    {s : _PyShadowFrame} {rt : CodeRuntime} {t : Nat}
    (hs : st.shadows[sf]? = some s) (hflag : s.hasPyFrame = false)
    (hrt : getCodeRuntime st sf = .ok rt)
    (ht : t < st.frames.length)
    (htop : ∀ t, st.tstate.frame = some t → t < st.frames.length) :
    ∃ st', materializePyFrame st (some t) sf = .ok (some st.frames.length, st') ∧
      RefcntsAfterCreate st (some t) s st' := by
  obtain ⟨s', hs', hptr⟩ := getCodeRuntime_ok hrt
  rw [hs] at hs'
  cases hs'
  have hsf := lt_of_getElem?_eq_some hs
  have hcreate := createPyFrame_eq rt htop
  have hget : st.frames[t]? = some st.frames[t] := List.getElem?_eq_getElem ht
  have htf : True := trivial
  rcases hptr with hp | ⟨g, o, jd, hp, hg, hjd, hjrt⟩
  · simp [materializePyFrame, _PyShadowFrame_HasPyFrame, State.shadowAt, hs, hflag,
      hrt, _PyShadowFrame_GetPtrKind, _PyShadowFrame_GetPtr, hp, hcreate,
      htf, Py_XINCREF, State.frameAt, State.setFrame, Py_INCREF, Py_DECREF,
      ok_bind, pure, Except.pure, List.getElem?_append, List.getElem?_set,
      JITFrame.insertPyFrameUnlinkTrampoline, JITFrame.retAddr, JITFrame.ofShadowFrame,
      JITFrame.setRetAddr, State.setShadow, _PyShadowFrame_SetHasPyFrame, hsf,
      _PyShadowFrame_GetGen, State.genAt, State.setGen, ht, hget, ht.ne, ht.ne']
    clear hcreate hrt
    constructor
    · simp [State.refcnt, hp, ShadowPtr.gen?, List.getElem?_append, List.getElem?_set, ht, hget, ht.ne, ht.ne']
    · intro i hi
      by_cases h : i < st.frames.length
      · by_cases hti : t = i
        · subst hti
          simp [State.refcnt, htf, List.getElem?_append, List.getElem?_set, h, hi, Ne.symm hi, ht, hget, ht.ne, ht.ne']
        · simp [State.refcnt, htf, List.getElem?_append, List.getElem?_set, h, hi, Ne.symm hi,
            hti, Ne.symm hti, ht, hget, ht.ne, ht.ne']
      · have : st.frames.length < i := by omega
        simp [State.refcnt, htf, List.getElem?_append, List.getElem?_set, h,
          List.getElem?_eq_none (Nat.le_of_lt this), Ne.symm hi, ht, hget, ht.ne, ht.ne']
        omega
  · have hgl := lt_of_getElem?_eq_some hg
    simp [materializePyFrame, _PyShadowFrame_HasPyFrame, State.shadowAt, hs, hflag,
      hrt, _PyShadowFrame_GetPtrKind, _PyShadowFrame_GetPtr, hp, hcreate,
      htf, Py_XINCREF, State.frameAt, State.setFrame, Py_INCREF, Py_DECREF,
      ok_bind, pure, Except.pure, List.getElem?_append, List.getElem?_set,
      JITFrame.insertPyFrameUnlinkTrampoline, JITFrame.retAddr, JITFrame.ofShadowFrame,
      JITFrame.setRetAddr, State.setShadow, _PyShadowFrame_SetHasPyFrame, hsf,
      _PyShadowFrame_GetGen, State.genAt, State.setGen, hg, hjd, hgl, ht, hget, ht.ne, ht.ne']
    clear hcreate hrt
    constructor
    · simp [State.refcnt, hp, ShadowPtr.gen?, List.getElem?_append, List.getElem?_set, ht, hget, ht.ne, ht.ne']
    · intro i hi
      by_cases h : i < st.frames.length
      · by_cases hti : t = i
        · subst hti
          simp [State.refcnt, htf, List.getElem?_append, List.getElem?_set, h, hi, Ne.symm hi, ht, hget, ht.ne, ht.ne']
        · simp [State.refcnt, htf, List.getElem?_append, List.getElem?_set, h, hi, Ne.symm hi,
            hti, Ne.symm hti, ht, hget, ht.ne, ht.ne']
      · have : st.frames.length < i := by omega
        simp [State.refcnt, htf, List.getElem?_append, List.getElem?_set, h,
          List.getElem?_eq_none (Nat.le_of_lt this), Ne.symm hi, ht, hget, ht.ne, ht.ne']
        omega

theorem materializePyFrame_refcnt {st : State} {prev : Option Nat} {sf : Nat}
    {s : _PyShadowFrame} {rt : CodeRuntime}
    (hs : st.shadows[sf]? = some s) (hflag : s.hasPyFrame = false)
    (hrt : getCodeRuntime st sf = .ok rt)
    (hprev : ∀ P, prev = some P → P < st.frames.length)
    (htop : ∀ t, st.tstate.frame = some t → t < st.frames.length) :
    ∃ st', materializePyFrame st prev sf = .ok (some st.frames.length, st') ∧
      RefcntsAfterCreate st prev s st' := by
  cases prev with
  | none =>
    cases htf : st.tstate.frame with
    | none => exact materializePyFrame_refcnt_top_none hs hflag hrt htf htop
    | some t => exact materializePyFrame_refcnt_top_some hs hflag hrt htf htop
  | some t => exact materializePyFrame_refcnt_prev hs hflag hrt (hprev t rfl) htop

theorem mem_unordered_set_erase {α} [DecidableEq α] {s : List α} {a x : α} :
    x ∈ unordered_set_erase s a ↔ x ∈ s ∧ x ≠ a := by
  simp [unordered_set_erase]

theorem unordered_map_find_erase {κ β} [DecidableEq κ] :
    ∀ {m : List (κ × β)} {k x : κ}, x ≠ k →
      unordered_map_find (unordered_map_erase m k) x = unordered_map_find m x
  | [], k, x, _ => rfl
  | (k', v) :: m, k, x, h => by
    unfold unordered_map_erase
    by_cases hk : k' = k
    · subst hk
      have hx : ¬ k' = x := fun e => h e.symm
      simp only [List.filter_cons, ne_eq, not_true_eq_false, decide_False, Bool.false_eq_true,
        if_false, unordered_map_find, hx]
      exact unordered_map_find_erase h
    · simp only [List.filter_cons, ne_eq, hk, not_false_eq_true, decide_True, if_true,
        unordered_map_find]
      split
      · rfl
      · exact unordered_map_find_erase h

theorem RegistryInv.register {js : JitState} (h : RegistryInv js) (reg : Registration) :
    RegistryInv (js.register reg) := by
  intro c hc
  cases reg with
  | func f =>
    simp only [JitState.register, mem_unordered_set_emplace] at hc ⊢
    rcases hc with hc | hc
    · exact h c hc
    · cases hc
  | code c' data =>
    simp only [JitState.register, mem_unordered_set_emplace] at hc ⊢
    rw [unordered_map_find_isSome, mem_keys_unordered_map_emplace]
    rcases hc with hc | hc
    · exact Or.inl (unordered_map_find_isSome.mp (h c hc))
    · cases hc
      exact Or.inr rfl

theorem RegistryInv.foldl_register {α} (f : α → Registration) (l : List α) :
    ∀ {js : JitState}, RegistryInv js →
      RegistryInv (l.foldl (fun js a => js.register (f a)) js) := by
  induction l with
  | nil => intro js h; exact h
  | cons a l ih =>
    intro js h
    exact ih (h.register (f a))

theorem RegistryInv.of_eq {js js' : JitState} (h : RegistryInv js)
    (h1 : js'.jit_reg_units = js.jit_reg_units) (h2 : js'.jit_code_data = js.jit_code_data) :
    RegistryInv js' := by
  intro c hc
  rw [h1] at hc
  rw [h2]
  exact h c hc

theorem RegistryInv.of_nil {js : JitState} (h : js.jit_reg_units = []) : RegistryInv js := by
  intro c hc
  rw [h] at hc
  cases hc

theorem KeepsRegistries.bind_keeps {js₀ : JitState} {α β} {f : α → JitState} {f' : β → JitState}
    {x : Except (Abort × JitState) α} {k : α → Except (Abort × JitState) β}
    (hx : KeepsRegistries js₀ f x)
    (hk : ∀ a, (f a).jit_reg_units = js₀.jit_reg_units ∧
      (f a).jit_code_data = js₀.jit_code_data → KeepsRegistries js₀ f' (k a)) :
    KeepsRegistries js₀ f' (x >>= k) := by
  cases x with
  | error e => exact hx
  | ok a => exact hk a hx

theorem KeepsRegistries.trans {js₀ js₁ : JitState} {α} {f : α → JitState}
    {x : Except (Abort × JitState) α}
    (h : js₁.jit_reg_units = js₀.jit_reg_units ∧ js₁.jit_code_data = js₀.jit_code_data)
    (hx : KeepsRegistries js₁ f x) : KeepsRegistries js₀ f x := by
  cases x with
  | error e => exact ⟨hx.1.trans h.1, hx.2.trans h.2⟩
  | ok a => exact ⟨hx.1.trans h.1, hx.2.trans h.2⟩

theorem compilePreloaded_keeps (env : CompileEnv) (thread : Option Nat) (js : JitState)
    (u : PyUnit) : KeepsRegistries js (·.2) (compilePreloaded env thread js u) := by
  unfold compilePreloaded map_get
  cases unordered_map_find js.jit_preloaders u <;> exact ⟨rfl, rfl⟩

theorem compileUnit_keeps (env : CompileEnv) (js : JitState) (u : PyUnit) :
    KeepsRegistries js (·.2) (compileUnit env js u) := by
  cases u with
  | func f => exact ⟨rfl, rfl⟩
  | code c =>
    simp only [compileUnit, map_get]
    cases unordered_map_find js.jit_code_data c <;> exact ⟨rfl, rfl⟩
  | object o => exact ⟨rfl, rfl⟩

theorem stepWorker_keeps (env : CompileEnv) (tid : Nat) (s : JitState × List WorkerPc) :
    KeepsRegistries s.1 (·.1) (stepWorker env tid s) := by
  unfold stepWorker
  cases hpc : s.2[tid]? with
  | none => exact ⟨rfl, rfl⟩
  | some pc =>
    simp only
    refine @KeepsRegistries.bind_keeps _ (JitState × WorkerPc) (JitState × List WorkerPc)
      (fun a => a.1) (fun a => a.1) _ _ ?_ ?_
    swap
    · intro a ha
      obtain ⟨j, pc'⟩ := a
      exact ha
    cases pc with
    | nextUnit =>
      simp only [compile_worker_thread.step, ThreadedCompileContext.nextUnit]
      cases s.1.g_threaded_compile_context.work_queue <;> exact ⟨rfl, rfl⟩
    | countAttempt u => exact ⟨rfl, rfl⟩
    | compile u =>
      simp only [compile_worker_thread.step]
      refine KeepsRegistries.bind_keeps (compilePreloaded_keeps env (some tid) s.1 u) ?_
      intro a ha
      obtain ⟨res, j⟩ := a
      simp only
      split <;> exact ha
    | retry u => exact ⟨rfl, rfl⟩
    | finished => exact ⟨rfl, rfl⟩

theorem runSchedule_keeps (env : CompileEnv) :
    ∀ (schedule : List Nat) (s : JitState × List WorkerPc),
      KeepsRegistries s.1 (·.1) (runSchedule env schedule s)
  | [], _ => ⟨rfl, rfl⟩
  | tid :: schedule, s => by
    simp only [runSchedule]
    refine KeepsRegistries.bind_keeps (stepWorker_keeps env tid s) ?_
    intro a ha
    exact KeepsRegistries.trans ha (runSchedule_keeps env schedule a)

theorem join_keeps (env : CompileEnv) (tid : Nat) :
    ∀ (fuel : Nat) (s : JitState × List WorkerPc),
      KeepsRegistries s.1 (·.1) (join env tid fuel s)
  | 0, s => by
    simp only [join]
    split <;> exact ⟨rfl, rfl⟩
  | fuel + 1, s => by
    simp only [join]
    split
    · refine KeepsRegistries.bind_keeps (stepWorker_keeps env tid s) ?_
      intro a ha
      exact KeepsRegistries.trans ha (join_keeps env tid fuel a)
    · exact ⟨rfl, rfl⟩

theorem joinAll_keeps (env : CompileEnv) :
    ∀ (tids : List Nat) (s : JitState × List WorkerPc),
      KeepsRegistries s.1 (·.1) (joinAll env tids s)
  | [], _ => ⟨rfl, rfl⟩
  | tid :: tids, s => by
    simp only [joinAll]
    refine KeepsRegistries.bind_keeps (join_keeps env tid _ s) ?_
    intro a ha
    exact KeepsRegistries.trans ha (joinAll_keeps env tids a)

theorem drain_keeps (env : CompileEnv) :
    ∀ (l : List PyUnit) (js : JitState),
      KeepsRegistries js id (multithread_compile_all.drain env l js)
  | [], _ => ⟨rfl, rfl⟩
  | u :: l, js => by
    simp only [multithread_compile_all.drain]
    refine KeepsRegistries.bind_keeps (compilePreloaded_keeps env none js u) ?_
    intro a ha
    exact KeepsRegistries.trans ha (drain_keeps env l a.2)

theorem compileUnits_keeps (env : CompileEnv) :
    ∀ (l : List PyUnit) (js : JitState),
      KeepsRegistries js id (disable_jit.compileUnits env l js)
  | [], _ => ⟨rfl, rfl⟩
  | u :: l, js => by
    simp only [disable_jit.compileUnits]
    refine KeepsRegistries.bind_keeps (compileUnit_keeps env js u) ?_
    intro a ha
    exact KeepsRegistries.trans ha (compileUnits_keeps env l a.2)

/-- The compile phase of `multithread_compile_all` leaves the pending set and
`jit_code_data` as they are. -/
theorem compile_keeps (env : CompileEnv) (schedule : List Nat) (units : List PyUnit)
    (js : JitState) :
    KeepsRegistries js id (multithread_compile_all.compile env schedule units js) := by
  simp only [multithread_compile_all.compile]
  by_cases hW : js.batch_compile_workers = 0
  · simp only [hW, if_true]
    exact ⟨rfl, rfl⟩
  · simp only [hW, if_false]
    refine KeepsRegistries.bind_keeps (f := fun _ => js) ⟨rfl, rfl⟩ ?_
    intro _ _
    refine @KeepsRegistries.bind_keeps js (JitState × List WorkerPc) JitState (fun a => a.1) id _ _
      ?_ ?_
    · simp only [multithread_compile_all.workers]
      refine @KeepsRegistries.bind_keeps js (JitState × List WorkerPc) (JitState × List WorkerPc)
        (fun a => a.1) (fun a => a.1) _ _ ?_ ?_
      · exact @KeepsRegistries.trans js { js with
            _PyGILState_check_enabled := 0,
            g_threaded_compile_context :=
              js.g_threaded_compile_context.startCompile units } _ _ _ ⟨rfl, rfl⟩
          (runSchedule_keeps env schedule _)
      · intro a ha
        exact KeepsRegistries.trans ha (joinAll_keeps env _ a)
    · intro a ha
      obtain ⟨j, pcs⟩ := a
      simp only
      refine @KeepsRegistries.bind_keeps js JitState JitState id id _ _ ?_ ?_
      · exact @KeepsRegistries.trans js { j with
            g_threaded_compile_context := j.g_threaded_compile_context.endCompile.2 } _ _ _ ha
          (drain_keeps env _ _)
      · intro j' hj'
        exact hj'

/-- What `_PyJIT_OnJitList` returns for a valid function. -/
theorem _PyJIT_OnJitList_eq {je : JitEnv} {func : Nat} {fo : PyFunctionObject}
    {co : PyCodeObject} (hfo : je.funcs[func]? = some fo)
    (hco : je.codes[fo.func_code]? = some co) :
    _PyJIT_OnJitList je func = .ok
      (match je.g_jit_list with
        | none => 1
        | some jit_list =>
          if co.co_flags &&& je.CO_STATICALLY_COMPILED ≠ 0 ∧
              je.compile_all_static_functions ≠ 0 then 1
          else if jit_list.lookupCO fo.func_code ≠ 1 then
            jit_list.lookupFO fo.func_module fo.func_qualname
          else 1) := by
  simp only [_PyJIT_OnJitList, JitEnv.funcAt, hfo, ok_bind, onJitListImpl, JitEnv.codeAt, hco]
  cases je.g_jit_list with
  | none => rfl
  | some jit_list =>
    simp only [decide_eq_true_eq, pure, Except.pure]
    split
    · rfl
    · split <;> rfl

/-- The units of the preload round that are left, and the pending units, have
their entries in `jit_code_data` when they are code objects. -/
theorem preloadUnit_data {env : CompileEnv} {drained rest : List PyUnit} {u : PyUnit}
    {js : JitState}
    (hD : ∀ c, PyUnit.code c ∈ (u :: rest) ++ js.jit_reg_units →
      c ∈ js.jit_code_data.map Prod.fst) :
    (∀ js'', multithread_compile_all.preloadUnit env drained u js ≠
      .error (.mapGetMissingKey, js'')) ∧
    (∀ js', multithread_compile_all.preloadUnit env drained u js = .ok js' →
      ∀ c, PyUnit.code c ∈ rest ++ js'.jit_reg_units → c ∈ js'.jit_code_data.map Prod.fst) := by
  constructor
  · intro js'' h
    cases u with
    | func f => simp [multithread_compile_all.preloadUnit, pure, Except.pure] at h
    | code c =>
      have hc := hD c (by simp)
      obtain ⟨d, hd⟩ := Option.isSome_iff_exists.mp (unordered_map_find_isSome.mpr hc)
      simp [multithread_compile_all.preloadUnit, map_get, hd, ok_bind, pure, Except.pure] at h
    | object o =>
      simp [multithread_compile_all.preloadUnit, throw, throwThe, MonadExceptOf.throw] at h
  · intro js' h c hc
    obtain ⟨-, -, -, -, -, -, h6, h7⟩ := preloadUnit_ok h
    rw [h7]
    rcases List.mem_append.mp hc with hc | hc
    · exact Or.inl (hD c (by simp [hc]))
    · rcases (h6 _).mp hc with hc | hc
      · exact Or.inl (hD c (by simp [hc]))
      · exact Or.inr hc

theorem preloadUnits_data (env : CompileEnv) :
    ∀ (rest cu : List PyUnit) (js : JitState),
      (∀ c, PyUnit.code c ∈ rest ++ js.jit_reg_units → c ∈ js.jit_code_data.map Prod.fst) →
      (∀ js'', multithread_compile_all.preloadUnits env rest cu js ≠
        .error (.mapGetMissingKey, js'')) ∧
      (∀ cu' js', multithread_compile_all.preloadUnits env rest cu js = .ok (cu', js') →
        ∀ c, PyUnit.code c ∈ js'.jit_reg_units → c ∈ js'.jit_code_data.map Prod.fst)
  | [], cu, js, hD => by
    constructor
    · intro js'' h
      simp [multithread_compile_all.preloadUnits, pure, Except.pure] at h
    · intro cu' js' h c hc
      simp only [multithread_compile_all.preloadUnits, pure, Except.pure, Except.ok.injEq,
        Prod.mk.injEq] at h
      obtain ⟨-, rfl⟩ := h
      exact hD c (by simpa using hc)
  | u :: rest, cu, js, hD => by
    obtain ⟨h1, h2⟩ := @preloadUnit_data env (cu ++ [u] ++ rest) rest u js hD
    simp only [multithread_compile_all.preloadUnits]
    cases hu : multithread_compile_all.preloadUnit env (cu ++ [u] ++ rest) u js with
    | error e =>
      constructor
      · intro js'' h
        simp only [err_bind, Except.error.injEq] at h
        subst h
        exact h1 _ hu
      · intro cu' js' h
        simp [err_bind] at h
    | ok js₁ =>
      simp only [ok_bind]
      exact preloadUnits_data env rest (cu ++ [u]) js₁ (h2 js₁ hu)

/-- Under the registry invariant no strict lookup of the preload loop
fails, and the loop ends with the invariant. -/
theorem preload_data (env : CompileEnv) :
    ∀ (fuel : Nat) (cu : List PyUnit) (js : JitState), RegistryInv js →
      (∀ js'', multithread_compile_all.preload env fuel cu js ≠
        .error (.mapGetMissingKey, js'')) ∧
      (∀ cu' js', multithread_compile_all.preload env fuel cu js = .ok (cu', js') →
        js'.jit_reg_units = [])
  | 0, cu, js, _ => by
    constructor
    · intro js'' h
      simp [multithread_compile_all.preload, throw, throwThe, MonadExceptOf.throw] at h
    · intro cu' js' h
      simp [multithread_compile_all.preload, throw, throwThe, MonadExceptOf.throw] at h
  | fuel + 1, cu, js, hinv => by
    simp only [multithread_compile_all.preload]
    by_cases hlen : js.jit_reg_units.length > 0
    · simp only [hlen, if_true]
      obtain ⟨h1, h2⟩ := preloadUnits_data env js.jit_reg_units cu { js with jit_reg_units := [] }
        (by
          intro c hc
          simp only [List.append_nil] at hc
          exact unordered_map_find_isSome.mp (hinv c hc))
      cases hu : multithread_compile_all.preloadUnits env js.jit_reg_units cu
          { js with jit_reg_units := [] } with
      | error e =>
        constructor
        · intro js'' h
          simp only [err_bind, Except.error.injEq] at h
          subst h
          exact h1 _ hu
        · intro cu' js' h
          simp [err_bind] at h
      | ok r =>
        obtain ⟨cu₁, js₁⟩ := r
        simp only [ok_bind]
        exact preload_data env fuel cu₁ js₁ (fun c hc =>
          unordered_map_find_isSome.mpr (h2 cu₁ js₁ hu c hc))
    · simp only [hlen, if_false, pure, Except.pure]
      constructor
      · intro js'' h
        cases h
      · intro cu' js' h
        simp only [Except.ok.injEq, Prod.mk.injEq] at h
        obtain ⟨-, rfl⟩ := h
        simpa using hlen

/-- Under the registry invariant no strict lookup of the loop of
`disable_jit` fails. -/
theorem compileUnits_data (env : CompileEnv) :
    ∀ (units : List PyUnit) (js : JitState),
      (∀ c, PyUnit.code c ∈ units → (unordered_map_find js.jit_code_data c).isSome) →
      ∀ js'', disable_jit.compileUnits env units js ≠ .error (.mapGetMissingKey, js'')
  | [], js, _ => by
    intro js'' h
    simp [disable_jit.compileUnits, pure, Except.pure] at h
  | u :: units, js, hD => by
    intro js'' h
    simp only [disable_jit.compileUnits] at h
    have hk := compileUnit_keeps env js u
    cases hu : compileUnit env js u with
    | error e =>
      rw [hu] at h
      simp only [err_bind, Except.error.injEq] at h
      subst h
      cases u with
      | func f => simp [compileUnit, pure, Except.pure] at hu
      | code c =>
        obtain ⟨d, hd⟩ := Option.isSome_iff_exists.mp (hD c (by simp))
        simp [compileUnit, map_get, hd, ok_bind, pure, Except.pure] at hu
      | object o => simp [compileUnit, throw, throwThe, MonadExceptOf.throw] at hu
    | ok r =>
      rw [hu] at h hk
      simp only [ok_bind] at h
      refine compileUnits_data env units r.2 ?_ js'' h
      intro c hc
      rw [hk.2]
      exact hD c (by simp [hc])

theorem discover_mem {p : Nat → Bool} {c : Nat} :
    ∀ {items : List PyUnit} {seen : List Nat}, c ∈ discover p items seen →
      p c = true ∧ PyUnit.code c ∈ items ∧ c ∉ seen
  | [], _, h => by simp [discover] at h
  | .code c' :: items, seen, h => by
    simp only [discover] at h
    split at h
    · obtain ⟨h1, h2, h3⟩ := discover_mem h
      exact ⟨h1, List.mem_cons_of_mem _ h2, h3⟩
    · rename_i hc
      push_neg at hc
      rcases List.mem_cons.mp h with h | h
      · subst h
        exact ⟨by simpa using hc.2, List.mem_cons_self _ _, hc.1⟩
      · obtain ⟨h1, h2, h3⟩ := discover_mem h
        exact ⟨h1, List.mem_cons_of_mem _ h2, fun h' => h3 (List.mem_append_left _ h')⟩
  | .func f :: items, seen, h => by
    simp only [discover] at h
    obtain ⟨h1, h2, h3⟩ := discover_mem h
    exact ⟨h1, List.mem_cons_of_mem _ h2, h3⟩
  | .object o :: items, seen, h => by
    simp only [discover] at h
    obtain ⟨h1, h2, h3⟩ := discover_mem h
    exact ⟨h1, List.mem_cons_of_mem _ h2, h3⟩

theorem discover_nodup {p : Nat → Bool} :
    ∀ (items : List PyUnit) (seen : List Nat), (discover p items seen).Nodup
  | [], _ => by simp [discover]
  | .code c' :: items, seen => by
    simp only [discover]
    split
    · exact discover_nodup items seen
    · refine List.nodup_cons.mpr ⟨?_, discover_nodup items _⟩
      intro h
      exact (discover_mem h).2.2 (by simp)
  | .func f :: items, seen => by
    simp only [discover]
    exact discover_nodup items seen
  | .object o :: items, seen => by
    simp only [discover]
    exact discover_nodup items seen

theorem discover_complete {p : Nat → Bool} {c : Nat} :
    ∀ {items : List PyUnit} {seen : List Nat}, PyUnit.code c ∈ items → p c = true →
      c ∈ seen ∨ c ∈ discover p items seen
  | [], _, h, _ => by cases h
  | .code c' :: items, seen, h, hp => by
    simp only [discover]
    by_cases hcc : c = c'
    · subst hcc
      by_cases hs : c ∈ seen
      · exact Or.inl hs
      · right
        simp [hs, hp]
    · have h' : PyUnit.code c ∈ items := by
        rcases List.mem_cons.mp h with h | h
        · cases h
          exact absurd rfl hcc
        · exact h
      split
      · exact discover_complete h' hp
      · rcases @discover_complete p c items (seen ++ [c']) h' hp with h1 | h1
        · rcases List.mem_append.mp h1 with h1 | h1
          · exact Or.inl h1
          · simp at h1
            exact absurd h1 hcc
        · exact Or.inr (List.mem_cons_of_mem _ h1)
  | .func f :: items, seen, h, hp => by
    simp only [discover]
    rcases List.mem_cons.mp h with h | h
    · cases h
    · exact discover_complete h hp
  | .object o :: items, seen, h, hp => by
    simp only [discover]
    rcases List.mem_cons.mp h with h | h
    · cases h
    · exact discover_complete h hp

theorem discover_append {p : Nat → Bool} :
    ∀ (a b : List PyUnit) (seen : List Nat),
      discover p (a ++ b) seen =
        discover p a seen ++ discover p b (seen ++ discover p a seen)
  | [], b, seen => by simp [discover]
  | .code c' :: a, b, seen => by
    simp only [List.cons_append, discover]
    split
    · exact discover_append a b seen
    · have h := discover_append (p := p) a b (seen ++ [c'])
      simp only [List.append_eq, List.append_assoc, List.singleton_append] at h ⊢
      rw [h]
      rfl
  | .func f :: a, b, seen => by
    simp only [List.cons_append, discover]
    exact discover_append a b seen
  | .object o :: a, b, seen => by
    simp only [List.cons_append, discover]
    exact discover_append a b seen

theorem onJitListImpl_ok {je : JitEnv} {c : Nat} {co : PyCodeObject} (mod qualname : Nat)
    (h : je.codes[c]? = some co) : ∃ r, onJitListImpl je c mod qualname = .ok r := by
  simp only [onJitListImpl, JitEnv.codeAt, h, ok_bind]
  cases je.g_jit_list with
  | none => exact ⟨_, rfl⟩
  | some l =>
    simp only
    split
    · exact ⟨_, rfl⟩
    · split <;> exact ⟨_, rfl⟩

theorem consts_eq {je : JitEnv} {c : Nat} {co : PyCodeObject} (h : je.codes[c]? = some co) :
    je.consts c = co.co_consts := by
  simp [JitEnv.consts, h]

theorem ValidConsts.consts {je : JitEnv} {root : List PyUnit} (h : ValidConsts je root)
    (p c : Nat) (hc : PyUnit.code c ∈ je.consts p) : c < je.codes.length := by
  unfold JitEnv.consts at hc
  cases hp : je.codes[p]? with
  | none => simp [hp] at hc
  | some co =>
    simp only [hp, Option.map_some', Option.getD_some] at hc
    have := h.2 co (List.mem_iff_getElem?.mpr ⟨p, hp⟩) _ hc
    simpa [validConst] using this

theorem ValidConsts.root {je : JitEnv} {root : List PyUnit} (h : ValidConsts je root)
    (c : Nat) (hc : PyUnit.code c ∈ root) : c < je.codes.length := by
  have := h.1 _ hc
  simpa [validConst] using this

/-- The loop over the items of one tuple enters the newly discovered
eligible code objects, in the order of their first occurrence, into `result`
and their tuples into the queue. -/
theorem scan_spec (je : JitEnv) (module : Nat) :
    ∀ (items : List PyUnit) (s : findNestedCodes.Locals),
      (∀ c, PyUnit.code c ∈ items → c < je.codes.length) →
      (∀ c, c ∈ s.result ↔ c ∈ s.visited ∧ eligible je module c = true) →
      ∃ v', findNestedCodes.scan je module items s =
          .ok ⟨s.consts_tuples ++ (discover (eligible je module) items s.result).map je.consts,
            v', s.result ++ discover (eligible je module) items s.result⟩ ∧
        ∀ c, c ∈ s.result ++ discover (eligible je module) items s.result ↔
          c ∈ v' ∧ eligible je module c = true
  | [], s, _, hvr => by
    refine ⟨s.visited, ?_, ?_⟩
    · simp [findNestedCodes.scan, discover, pure, Except.pure]
    · simpa [discover] using hvr
  | .code c :: items, s, hvalid, hvr => by
    have hitems : ∀ c, PyUnit.code c ∈ items → c < je.codes.length :=
      fun c' h => hvalid c' (List.mem_cons_of_mem _ h)
    simp only [findNestedCodes.scan, discover]
    by_cases hv : c ∈ s.visited
    · have hskip : c ∈ s.result ∨ eligible je module c = false := by
        by_cases he : eligible je module c = true
        · exact Or.inl ((hvr c).mpr ⟨hv, he⟩)
        · exact Or.inr (by simpa using he)
      simp only [hv, if_true, hskip]
      exact scan_spec je module items s hitems hvr
    · have hnr : c ∉ s.result := fun h => hv ((hvr c).mp h).1
      have hlt := hvalid c (List.mem_cons_self _ _)
      obtain ⟨co, hco⟩ : ∃ co, je.codes[c]? = some co := ⟨_, List.getElem?_eq_getElem hlt⟩
      simp only [hv, if_false, JitEnv.codeAt, hco, ok_bind]
      cases hq : co.co_qualname with
      | none =>
        have he : eligible je module c = false := by simp [eligible, hco, hq]
        simp only [he, or_true, if_true]
        obtain ⟨v', h1, h2⟩ := scan_spec je module items
          { s with visited := s.visited ++ [c] } hitems (by
            intro c'
            simp only [List.mem_append, List.mem_singleton]
            constructor
            · intro h
              exact ⟨Or.inl ((hvr c').mp h).1, ((hvr c').mp h).2⟩
            · rintro ⟨h | h, h'⟩
              · exact (hvr c').mpr ⟨h, h'⟩
              · subst h
                rw [he] at h'
                cases h')
        exact ⟨v', h1, h2⟩
      | some qualname =>
        obtain ⟨r, hr⟩ := onJitListImpl_ok module qualname hco
        simp only [hr, ok_bind]
        by_cases hr0 : r = 0
        · have he : eligible je module c = false := by simp [eligible, hco, hq, hr, hr0]
          simp only [hr0, if_true, he, or_true]
          obtain ⟨v', h1, h2⟩ := scan_spec je module items
            { s with visited := s.visited ++ [c] } hitems (by
              intro c'
              simp only [List.mem_append, List.mem_singleton]
              constructor
              · intro h
                exact ⟨Or.inl ((hvr c').mp h).1, ((hvr c').mp h).2⟩
              · rintro ⟨h | h, h'⟩
                · exact (hvr c').mpr ⟨h, h'⟩
                · subst h
                  rw [he] at h'
                  cases h')
          exact ⟨v', h1, h2⟩
        · have he : eligible je module c = true := by simp [eligible, hco, hq, hr, hr0]
          have hno : ¬ (c ∈ s.result ∨ eligible je module c = false) := by
            simp [hnr, he]
          simp only [hr0, if_false, hno]
          obtain ⟨v', h1, h2⟩ := scan_spec je module items
            { consts_tuples := s.consts_tuples ++ [co.co_consts],
              visited := s.visited ++ [c],
              result := s.result ++ [c] } hitems (by
              intro c'
              simp only [List.mem_append, List.mem_singleton]
              constructor
              · rintro (h | h)
                · exact ⟨Or.inl ((hvr c').mp h).1, ((hvr c').mp h).2⟩
                · subst h
                  exact ⟨Or.inr rfl, he⟩
              · rintro ⟨h | h, h'⟩
                · exact Or.inl ((hvr c').mpr ⟨h, h'⟩)
                · exact Or.inr h)
          refine ⟨v', ?_, ?_⟩
          · rw [h1]
            simp [consts_eq hco, List.append_assoc]
          · intro c'
            rw [← h2 c']
            simp [List.append_assoc]
  | .func f :: items, s, hvalid, hvr => by
    simp only [findNestedCodes.scan, discover]
    exact scan_spec je module items s (fun c' h => hvalid c' (List.mem_cons_of_mem _ h)) hvr
  | .object o :: items, s, hvalid, hvr => by
    simp only [findNestedCodes.scan, discover]
    exact scan_spec je module items s (fun c' h => hvalid c' (List.mem_cons_of_mem _ h)) hvr

theorem ReachIn.pos {je : JitEnv} {module : Nat} {root : List PyUnit} {k c : Nat}
    (h : ReachIn je module root k c) : 1 ≤ k := by
  cases h <;> omega

theorem ReachIn.eligible {je : JitEnv} {module : Nat} {root : List PyUnit} {k c : Nat}
    (h : ReachIn je module root k c) : eligible je module c = true := by
  cases h <;> assumption

theorem ReachIn.nested {je : JitEnv} {module : Nat} {root : List PyUnit} {k c : Nat}
    (h : ReachIn je module root k c) : Nested je root c := by
  induction h with
  | root hc _ => exact .root hc
  | step _ hc _ ih => exact .step ih hc

theorem exists_minDepth {je : JitEnv} {module : Nat} {root : List PyUnit} {c : Nat} :
    ∀ k, ReachIn je module root k c → ∃ k₀, MinDepth je module root c k₀ ∧ k₀ ≤ k := by
  intro k
  induction k using Nat.strong_induction_on with
  | _ k ih =>
    intro h
    by_cases hex : ∃ j, j < k ∧ ReachIn je module root j c
    · obtain ⟨j, hj, hr⟩ := hex
      obtain ⟨k₀, h1, h2⟩ := ih j hj hr
      exact ⟨k₀, h1, by omega⟩
    · push_neg at hex
      refine ⟨k, ⟨h, fun j hj => ?_⟩, le_refl _⟩
      by_contra hlt
      exact hex j (by omega) hj

theorem MinDepth.unique {je : JitEnv} {module : Nat} {root : List PyUnit} {c k k' : Nat}
    (h : MinDepth je module root c k) (h' : MinDepth je module root c k') : k = k' :=
  le_antisymm (h.2 _ h'.1) (h'.2 _ h.1)

theorem eligible_lt {je : JitEnv} {module c : Nat} (h : eligible je module c = true) :
    c < je.codes.length := by
  unfold eligible at h
  cases hc : je.codes[c]? with
  | none => simp [hc] at h
  | some co => exact lt_of_getElem?_eq_some hc

theorem NestedInv.parent {je : JitEnv} {module : Nat} {done todo v : List Nat}
    {root_consts : List PyUnit} (hI : NestedInv je module root_consts done todo v) {c : Nat}
    (hc : c ∈ done ++ todo) :
    eligible je module c = true ∧
      (PyUnit.code c ∈ root_consts ∨ ∃ p ∈ done, PyUnit.code c ∈ je.consts p) := by
  rw [hI.order] at hc
  obtain ⟨h1, h2, -⟩ := discover_mem hc
  refine ⟨h1, ?_⟩
  rcases List.mem_append.mp h2 with h2 | h2
  · exact Or.inl h2
  · obtain ⟨p, hp, hpc⟩ := List.mem_flatMap.mp h2
    exact Or.inr ⟨p, hp, hpc⟩

theorem NestedInv.closed {je : JitEnv} {module : Nat} {done todo v : List Nat}
    {root_consts : List PyUnit} (hI : NestedInv je module root_consts done todo v) {c : Nat}
    (he : eligible je module c = true)
    (hc : PyUnit.code c ∈ root_consts ∨ ∃ p ∈ done, PyUnit.code c ∈ je.consts p) :
    c ∈ done ++ todo := by
  rw [hI.order]
  have hmem : PyUnit.code c ∈ root_consts ++ done.flatMap je.consts := by
    rcases hc with hc | ⟨p, hp, hpc⟩
    · exact List.mem_append_left _ hc
    · exact List.mem_append_right _ (List.mem_flatMap.mpr ⟨p, hp, hpc⟩)
  rcases discover_complete hmem he with h | h
  · exact absurd h (List.not_mem_nil _)
  · exact h

theorem NestedInv.result_length_le {je : JitEnv} {module : Nat} {done todo v : List Nat}
    {root_consts : List PyUnit} (hI : NestedInv je module root_consts done todo v) :
    (done ++ todo).length ≤ je.codes.length := by
  have hnd : (done ++ todo).Nodup := by
    rw [hI.order]
    exact discover_nodup _ _
  have hsub : ∀ c ∈ done ++ todo, c ∈ List.range je.codes.length := by
    intro c hc
    exact List.mem_range.mpr (eligible_lt (hI.parent hc).1)
  have := (List.Nodup.subperm hnd hsub).length_le
  simpa using this

/-- What is reached in at most as many steps as the code object at the head
of the queue has been entered into `result`. -/
theorem NestedInv.below {je : JitEnv} {module : Nat} {done todo v : List Nat} {h kh : Nat}
    {root_consts : List PyUnit} (hI : NestedInv je module root_consts done (h :: todo) v)
    (hh : MinDepth je module root_consts h kh) :
    ∀ j q, ReachIn je module root_consts j q → j ≤ kh → q ∈ done ++ h :: todo := by
  intro j q hr
  induction hr with
  | root hc he => exact fun _ => hI.closed he (Or.inl hc)
  | @step k p c hr' hc he ih =>
    intro hj
    have hp := ih (by omega)
    obtain ⟨kp, hkp, hle⟩ := exists_minDepth k hr'
    have hpd : p ∈ done := by
      rcases List.mem_append.mp hp with hp | hp
      · exact hp
      · exfalso
        have hs := (List.pairwise_append.mp hI.sorted).2.1
        rcases List.mem_cons.mp hp with hp | hp
        · subst hp
          have := hkp.unique hh
          omega
        · have := (List.pairwise_cons.mp hs).1 p hp kh kp hh hkp
          omega
    exact hI.closed he (Or.inr ⟨p, hpd, hc⟩)

theorem NestedInv.step {je : JitEnv} {module : Nat} {done todo v v' : List Nat} {h : Nat}
    {root_consts : List PyUnit} (hI : NestedInv je module root_consts done (h :: todo) v)
    (hv' : ∀ c, c ∈ (done ++ h :: todo) ++
        discover (eligible je module) (je.consts h) (done ++ h :: todo) ↔
      c ∈ v' ∧ eligible je module c = true) :
    NestedInv je module root_consts (done ++ [h])
      (todo ++ discover (eligible je module) (je.consts h) (done ++ h :: todo)) v' := by
  have hassoc : done ++ [h] ++
      (todo ++ discover (eligible je module) (je.consts h) (done ++ h :: todo)) =
      (done ++ h :: todo) ++
        discover (eligible je module) (je.consts h) (done ++ h :: todo) := by
    simp [List.append_assoc]
  have hhR : h ∈ done ++ h :: todo := by simp
  obtain ⟨kh₀, hrh⟩ := hI.reach h hhR
  obtain ⟨kh, hkh, -⟩ := exists_minDepth kh₀ hrh
  -- every code object found so far is at most one step deeper than `h`
  have hA : ∀ c ∈ done ++ h :: todo, ∀ kc, MinDepth je module root_consts c kc →
      kc ≤ kh + 1 := by
    intro c hc kc hkc
    obtain ⟨he, hpar⟩ := hI.parent hc
    rcases hpar with hroot | ⟨p, hp, hpc⟩
    · have := hkc.2 1 (.root hroot he)
      omega
    · obtain ⟨kp₀, hrp⟩ := hI.reach p (List.mem_append_left _ hp)
      obtain ⟨kp, hkp, -⟩ := exists_minDepth kp₀ hrp
      have h1 := hkc.2 (kp + 1) (.step hkp.1 hpc he)
      have h2 := (List.pairwise_append.mp hI.sorted).2.2 p hp h (List.mem_cons_self _ _)
        kp kh hkp hkh
      omega
  -- every new code object is exactly one step deeper than `h`
  have hB : ∀ n ∈ discover (eligible je module) (je.consts h) (done ++ h :: todo),
      MinDepth je module root_consts n (kh + 1) := by
    intro n hn
    obtain ⟨he, hc, hnew⟩ := discover_mem hn
    refine ⟨.step hkh.1 hc he, ?_⟩
    intro j hj
    by_contra hlt
    exact hnew (hI.below hkh j n hj (by omega))
  constructor
  · intro c
    rw [hassoc]
    exact hv' c
  · rw [hassoc, List.flatMap_append, ← List.append_assoc, discover_append, ← hI.order]
    simp
  · intro c hc
    rw [hassoc] at hc
    rcases List.mem_append.mp hc with hc | hc
    · exact hI.reach c hc
    · exact ⟨_, (hB c hc).1⟩
  · rw [hassoc, List.pairwise_append]
    refine ⟨hI.sorted, ?_, ?_⟩
    · refine List.Pairwise.imp_of_mem ?_ (List.pairwise_of_forall (R := fun _ _ => True)
        (fun _ _ => trivial))
      intro a b ha hb _ ka kb hka hkb
      have h1 := hka.unique (hB a ha)
      have h2 := hkb.unique (hB b hb)
      omega
    · intro a ha b hb ka kb hka hkb
      have h1 := hA a ha ka hka
      have h2 := hkb.unique (hB b hb)
      omega

theorem loop_succ (je : JitEnv) (module fuel : Nat) (s : findNestedCodes.Locals) :
    findNestedCodes.loop je module (fuel + 1) s =
      (match s.consts_tuples with
      | [] => pure s.result
      | consts :: consts_tuples => do
        let s ← findNestedCodes.scan je module consts { s with consts_tuples := consts_tuples }
        findNestedCodes.loop je module fuel s) := rfl

/-- The loop of `findNestedCodes` ends, with the invariant. -/
theorem loop_spec (je : JitEnv) (module : Nat) (root_consts : List PyUnit)
    (hvalid : ValidConsts je root_consts) :
    ∀ (fuel : Nat) (done todo v : List Nat), NestedInv je module root_consts done todo v →
      je.codes.length + 1 ≤ fuel + done.length →
      ∃ result v',
        findNestedCodes.loop je module fuel ⟨todo.map je.consts, v, done ++ todo⟩ =
          .ok result ∧
        NestedInv je module root_consts result [] v'
  | 0, done, todo, v, hI, hfuel => by
    exfalso
    have h1 := hI.result_length_le
    simp only [List.length_append] at h1
    omega
  | fuel + 1, done, [], v, hI, _ => by
    refine ⟨done, v, ?_, hI⟩
    rw [loop_succ]
    simp [pure, Except.pure]
  | fuel + 1, done, h :: todo, v, hI, hfuel => by
    obtain ⟨v', hscan, hv'⟩ := scan_spec je module (je.consts h)
      ⟨todo.map je.consts, v, done ++ h :: todo⟩ (hvalid.consts h) hI.visited
    have hI' := hI.step hv'
    obtain ⟨result, v'', hloop, hfin⟩ := loop_spec je module root_consts hvalid fuel
      (done ++ [h]) _ v' hI' (by simp only [List.length_append, List.length_singleton]; omega)
    refine ⟨result, v'', ?_, hfin⟩
    rw [loop_succ]
    simp only [List.map_cons, hscan, ok_bind]
    rw [← hloop]
    simp [List.append_assoc]

/-- `findNestedCodes` returns, with the invariant of its loop. -/
theorem findNestedCodes_spec (je : JitEnv) (module : Nat) (root_consts : List PyUnit)
    (hvalid : ValidConsts je root_consts) :
    ∃ result v', findNestedCodes je module root_consts = .ok result ∧
      NestedInv je module root_consts result [] v' := by
  obtain ⟨v', hscan, hv'⟩ := scan_spec je module root_consts ⟨[], [], []⟩ hvalid.root
    (by simp)
  have hI : NestedInv je module root_consts []
      (discover (eligible je module) root_consts []) v' := by
    constructor
    · simpa using hv'
    · simp
    · intro c hc
      simp only [List.nil_append] at hc
      obtain ⟨he, hr, -⟩ := discover_mem hc
      exact ⟨1, .root hr he⟩
    · simp only [List.nil_append]
      refine List.Pairwise.imp_of_mem ?_ (List.pairwise_of_forall (R := fun _ _ => True)
        (fun _ _ => trivial))
      intro a b ha hb _ ka kb hka hkb
      obtain ⟨he, hr, -⟩ := discover_mem ha
      have h1 := hka.2 1 (.root hr he)
      have h2 := hkb.1.pos
      omega
  obtain ⟨result, v'', hloop, hfin⟩ := loop_spec je module root_consts hvalid
    (je.codes.length + 1) [] _ v' hI (by simp)
  refine ⟨result, v'', ?_, hfin⟩
  rw [findNestedCodes, loop_succ]
  simp only [hscan, ok_bind]
  simpa using hloop

theorem nestedJitEnv_valid : ValidConsts nestedJitEnv [.code 1, .object 9, .code 2] := by
  unfold ValidConsts
  decide

theorem CheckedCalls.nil (api : CAPI) : CheckedCalls api [] := by
  intro pre c post h
  simp at h

theorem CheckedCalls.snoc {api : CAPI} {calls : List CAPICall} {c : CAPICall}
    (h : CheckedCalls api calls)
    (hc : api.fails calls c → c.isLineLookup = true ∨ c.isGuiltyTypeInsertion = true) :
    CheckedCalls api (calls ++ [c]) := by
  intro pre c' post heq hf
  rcases List.eq_nil_or_concat post with hp | ⟨post', d, hp⟩
  · subst hp
    have := List.append_inj' heq (by simp)
    obtain ⟨h1, h2⟩ := this
    simp only [List.cons.injEq, and_true] at h2
    subst h1 h2
    exact hc hf
  · subst hp
    have heq' : calls ++ [c] = (pre ++ c' :: post') ++ [d] := by
      rw [heq]
      simp
    have := List.append_inj' heq' (by simp)
    exact h pre c' post' this.1 hf

theorem CAPIM.bind_apply {α β : Type} (x : CAPIM α) (f : α → CAPIM β) (s : StatsState) :
    (x >>= f) s =
      (match x s with
      | (.ok a, s) => f a s
      | (.error e, s) => (.error e, s)) := rfl

theorem check_int_neg {r : Int} (h : r < 0) (s : StatsState) :
    check_int r s = (.error .mk, s) := by
  simp [check_int, h, throwCAPIError]

theorem check_int_nonneg {r : Int} (h : ¬ r < 0) (s : StatsState) :
    check_int r s = (.ok r, s) := by
  simp [check_int, h, Pure.pure]

theorem CAPIM.Sat.bind_sat {α β : Type} {P : StatsState → Prop} {x : CAPIM α}
    {Q : α → StatsState → Prop} {E : StatsState → Prop} {f : α → CAPIM β}
    {R : β → StatsState → Prop}
    (hx : CAPIM.Sat P x Q E) (hf : ∀ a, CAPIM.Sat (Q a) (f a) R E) :
    CAPIM.Sat P (x >>= f) R E := by
  intro s hs
  have h1 := hx s hs
  show match (match x s with
    | (.ok a, s) => f a s
    | (.error e, s) => (.error e, s)) with
    | (.ok a, s') => R a s'
    | (.error _, s') => E s'
  rcases hxs : x s with ⟨r, s₁⟩
  rw [hxs] at h1
  cases r with
  | error e => exact h1
  | ok a => exact hf a s₁ h1

theorem CAPIM.Sat.pure {α : Type} {P : StatsState → Prop} {a : α}
    {Q : α → StatsState → Prop} {E : StatsState → Prop} (h : ∀ s, P s → Q a s) :
    CAPIM.Sat P (Pure.pure a : CAPIM α) Q E := by
  intro s hs
  exact h s hs

/-- A call that returns an object, with its `check`. -/
theorem CAPIM.Sat.callObject {β : Type} {api : CAPI} {c : CAPICall} {k : Nat → CAPIM β}
    {Q : β → StatsState → Prop}
    (hc : c.returnsObject = true) (hl : c.isLineLookup = false)
    (hg : c.isGuiltyTypeInsertion = false)
    (hk : ∀ o, CAPIM.Sat (fun s => CheckedCalls api s.calls) (k o) Q
      (fun s => FailedLast api s.calls)) :
    CAPIM.Sat (fun s => CheckedCalls api s.calls)
      (api.callObject c >>= fun x => check x >>= k) Q (fun s => FailedLast api s.calls) := by
  intro s hs
  show match (match api.callObject c s with
    | (.ok a, s) => (check a >>= k) s
    | (.error e, s) => (.error e, s)) with
    | (.ok a, s') => Q a s'
    | (.error _, s') => FailedLast api s'.calls
  simp only [CAPI.callObject]
  cases ho : api.object s.calls c with
  | none =>
    exact ⟨s.calls, c, rfl, Or.inl ⟨hc, ho⟩, hl, hg, hs⟩
  | some o =>
    exact hk o _ (hs.snoc (by
      rintro (⟨-, h⟩ | ⟨h, -⟩)
      · rw [ho] at h
        cases h
      · rw [hc] at h
        cases h))

/-- A call that returns an `int`, with its `check`. -/
theorem CAPIM.Sat.callStatus {β : Type} {api : CAPI} {c : CAPICall} {k : Int → CAPIM β}
    {Q : β → StatsState → Prop}
    (hc : c.returnsObject = false) (hl : c.isLineLookup = false)
    (hg : c.isGuiltyTypeInsertion = false)
    (hk : ∀ r, CAPIM.Sat (fun s => CheckedCalls api s.calls) (k r) Q
      (fun s => FailedLast api s.calls)) :
    CAPIM.Sat (fun s => CheckedCalls api s.calls)
      (api.callStatus c >>= fun x => check_int x >>= k) Q
      (fun s => FailedLast api s.calls) := by
  intro s hs
  show match (match api.callStatus c s with
    | (.ok a, s) => (check_int a >>= k) s
    | (.error e, s) => (.error e, s)) with
    | (.ok a, s') => Q a s'
    | (.error _, s') => FailedLast api s'.calls
  simp only [CAPI.callStatus]
  by_cases hr : api.status s.calls c < 0
  · have : (check_int (api.status s.calls c) >>= k) { s with calls := s.calls ++ [c] } =
        (.error .mk, { s with calls := s.calls ++ [c] }) := by
      rw [CAPIM.bind_apply, check_int_neg hr]
    rw [this]
    exact ⟨s.calls, c, rfl, Or.inr ⟨hc, hr⟩, hl, hg, hs⟩
  · have : (check_int (api.status s.calls c) >>= k) { s with calls := s.calls ++ [c] } =
        k (api.status s.calls c) { s with calls := s.calls ++ [c] } := by
      rw [CAPIM.bind_apply, check_int_nonneg hr]
    rw [this]
    exact hk _ _ (hs.snoc (by
      rintro (⟨h, -⟩ | ⟨-, h⟩)
      · rw [hc] at h
        cases h
      · exact absurd h hr))

/-- A call whose result is not passed to `check`. -/
theorem CAPIM.Sat.callUnchecked {β : Type} {api : CAPI} {c : CAPICall} {k : Int → CAPIM β}
    {Q : β → StatsState → Prop}
    (hc : c.isLineLookup = true ∨ c.isGuiltyTypeInsertion = true)
    (hk : ∀ r, CAPIM.Sat (fun s => CheckedCalls api s.calls) (k r) Q
      (fun s => FailedLast api s.calls)) :
    CAPIM.Sat (fun s => CheckedCalls api s.calls) (api.callStatus c >>= k) Q
      (fun s => FailedLast api s.calls) := by
  intro s hs
  exact hk _ _ (hs.snoc (fun _ => hc))

/-- The `check` of a truth value never throws. -/
theorem CAPIM.Sat.checkTruth {β : Type} {P : StatsState → Prop} {r : Int} {k : Int → CAPIM β}
    {Q : β → StatsState → Prop} {E : StatsState → Prop}
    (hk : ∀ r, CAPIM.Sat P (k r) Q E) :
    CAPIM.Sat P (check_int (if r < 0 then 1 else 0) >>= k) Q E := by
  intro s hs
  have : (check_int (if r < 0 then 1 else 0) >>= k) s = k (if r < 0 then 1 else 0) s := by
    have hnn : ¬ ((if r < 0 then (1 : Int) else 0) < 0) := by
      split <;> omega
    rw [CAPIM.bind_apply, check_int_nonneg hnn]
  rw [this]
  exact hk _ s hs

theorem append_event_sat (api : CAPI)
    (stats func_qualname co_filename lineno reason description count_raw : Nat)
    (type : String) :
    CAPIM.Sat (fun s => CheckedCalls api s.calls)
      (make_deopt_stats.append_event api stats func_qualname co_filename lineno reason
        description count_raw type)
      (fun _ s => CheckedCalls api s.calls) (fun s => FailedLast api s.calls) := by
  unfold make_deopt_stats.append_event
  refine CAPIM.Sat.callObject rfl rfl rfl fun event => ?_
  refine CAPIM.Sat.callObject rfl rfl rfl fun normals => ?_
  refine CAPIM.Sat.callObject rfl rfl rfl fun ints => ?_
  refine CAPIM.Sat.callStatus rfl rfl rfl fun _ => ?_
  refine CAPIM.Sat.callStatus rfl rfl rfl fun _ => ?_
  refine CAPIM.Sat.callStatus rfl rfl rfl fun _ => ?_
  refine CAPIM.Sat.callStatus rfl rfl rfl fun _ => ?_
  refine CAPIM.Sat.callStatus rfl rfl rfl fun _ => ?_
  refine CAPIM.Sat.callStatus rfl rfl rfl fun _ => ?_
  refine CAPIM.Sat.callStatus rfl rfl rfl fun _ => ?_
  refine CAPIM.Sat.callObject rfl rfl rfl fun count => ?_
  refine CAPIM.Sat.callStatus rfl rfl rfl fun _ => ?_
  refine CAPIM.Sat.callObject rfl rfl rfl fun type_str => ?_
  refine CAPIM.Sat.callUnchecked (Or.inr rfl) fun r => ?_
  refine CAPIM.Sat.checkTruth fun _ => ?_
  refine CAPIM.Sat.callStatus rfl rfl rfl fun _ => ?_
  exact CAPIM.Sat.pure fun s hs => hs

theorem CAPIM.Sat.pure_bind {α β : Type} {P : StatsState → Prop} {a : α} {k : α → CAPIM β}
    {Q : β → StatsState → Prop} {E : StatsState → Prop} (hk : CAPIM.Sat P (k a) Q E) :
    CAPIM.Sat P ((Pure.pure a : CAPIM α) >>= k) Q E := hk

theorem append_types_sat (api : CAPI)
    (stats func_qualname co_filename lineno reason description : Nat) :
    ∀ types : List (Nat × String),
      CAPIM.Sat (fun s => CheckedCalls api s.calls)
        (make_deopt_stats.append_types api stats func_qualname co_filename lineno reason
          description types)
        (fun _ s => CheckedCalls api s.calls) (fun s => FailedLast api s.calls)
  | [] => CAPIM.Sat.pure fun s hs => hs
  | (count, tp_name) :: types => by
    unfold make_deopt_stats.append_types
    exact CAPIM.Sat.bind_sat (append_event_sat api _ _ _ _ _ _ _ _)
      (fun _ => append_types_sat api _ _ _ _ _ _ types)

theorem pair_sat (api : CAPI) (stats : Nat) (e : DeoptStatEntry) :
    CAPIM.Sat (fun s => CheckedCalls api s.calls) (make_deopt_stats.pair api stats e)
      (fun _ s => CheckedCalls api s.calls) (fun s => FailedLast api s.calls) := by
  unfold make_deopt_stats.pair
  have hrest : ∀ lineno_raw : Int,
      CAPIM.Sat (fun s => CheckedCalls api s.calls)
        (do
          let lineno ← check (← api.callObject (.PyLong_FromLong lineno_raw))
          let reason ← check (← api.callObject (.PyUnicode_FromString e.reason))
          let description ← check (← api.callObject (.PyUnicode_FromString e.descr))
          if e.types_empty = false then
            make_deopt_stats.append_types api stats e.co_qualname e.co_filename lineno reason
              description e.types
            if e.other > 0 then
              make_deopt_stats.append_event api stats e.co_qualname e.co_filename lineno reason
                description e.other "<other>"
            else
              pure ()
          else
            make_deopt_stats.append_event api stats e.co_qualname e.co_filename lineno reason
              description e.count "<none>")
        (fun _ s => CheckedCalls api s.calls) (fun s => FailedLast api s.calls) := by
    intro lineno_raw
    refine CAPIM.Sat.callObject rfl rfl rfl fun lineno => ?_
    refine CAPIM.Sat.callObject rfl rfl rfl fun reason => ?_
    refine CAPIM.Sat.callObject rfl rfl rfl fun description => ?_
    split
    · refine CAPIM.Sat.bind_sat (append_types_sat api _ _ _ _ _ _ e.types) fun _ => ?_
      split
      · exact append_event_sat api _ _ _ _ _ _ _ _
      · exact CAPIM.Sat.pure fun s hs => hs
    · exact append_event_sat api _ _ _ _ _ _ _ _
  cases e.co_lnotab with
  | none => exact CAPIM.Sat.pure_bind (hrest _)
  | some l => exact CAPIM.Sat.callUnchecked (Or.inl rfl) hrest

theorem pairs_sat (api : CAPI) (stats : Nat) :
    ∀ deoptStats : List DeoptStatEntry,
      CAPIM.Sat (fun s => CheckedCalls api s.calls)
        (make_deopt_stats.pairs api stats deoptStats)
        (fun _ s => CheckedCalls api s.calls) (fun s => FailedLast api s.calls)
  | [] => CAPIM.Sat.pure fun s hs => hs
  | e :: deoptStats => by
    unfold make_deopt_stats.pairs
    exact CAPIM.Sat.bind_sat (pair_sat api stats e) (fun _ => pairs_sat api stats deoptStats)

theorem make_deopt_stats_sat (api : CAPI) :
    CAPIM.Sat (fun s => CheckedCalls api s.calls) (make_deopt_stats api)
      (fun _ s => CheckedCalls api s.calls ∧ s.deoptStats = [])
      (fun s => FailedLast api s.calls) := by
  unfold make_deopt_stats
  refine CAPIM.Sat.callObject rfl rfl rfl fun stats => ?_
  refine CAPIM.Sat.bind_sat (Q := fun _ s => CheckedCalls api s.calls) (fun s hs => hs) fun ds => ?_
  refine CAPIM.Sat.bind_sat (pairs_sat api stats ds) fun _ => ?_
  refine CAPIM.Sat.bind_sat (Q := fun _ s => CheckedCalls api s.calls ∧ s.deoptStats = [])
    (fun s hs => ⟨hs, rfl⟩) fun _ => ?_
  exact CAPIM.Sat.pure fun s hs => hs

/-- What `get_and_clear_runtime_stats` returns, by the calls it has made. -/
theorem get_and_clear_runtime_stats_sat (api : CAPI) (s : StatsState)
    (hs : CheckedCalls api s.calls) :
    match get_and_clear_runtime_stats api s with
    | (some _, s') => CheckedCalls api s'.calls ∧ s'.deoptStats = []
    | (none, s') => FailedLast api s'.calls := by
  unfold get_and_clear_runtime_stats
  simp only [CAPI.callObject]
  cases ho : api.object s.calls .PyDict_New with
  | none => exact ⟨s.calls, _, rfl, Or.inl ⟨rfl, ho⟩, rfl, rfl, hs⟩
  | some stats =>
    simp only
    have hsat : CAPIM.Sat (fun s => CheckedCalls api s.calls)
        (do
          let deopt_stats ← make_deopt_stats api
          let _ ← check_int
            (← api.callStatus (.PyDict_SetItemString stats "deopt" deopt_stats))
          pure ())
        (fun _ s => CheckedCalls api s.calls ∧ s.deoptStats = [])
        (fun s => FailedLast api s.calls) := by
      refine CAPIM.Sat.bind_sat (make_deopt_stats_sat api) fun deopt_stats => ?_
      intro s₁ hs₁
      rw [CAPIM.bind_apply]
      simp only [CAPI.callStatus]
      by_cases hr : api.status s₁.calls (.PyDict_SetItemString stats "deopt" deopt_stats) < 0
      · rw [CAPIM.bind_apply, check_int_neg hr]
        exact ⟨s₁.calls, _, rfl, Or.inr ⟨rfl, hr⟩, rfl, rfl, hs₁.1⟩
      · rw [CAPIM.bind_apply, check_int_nonneg hr]
        refine ⟨hs₁.1.snoc ?_, hs₁.2⟩
        rintro (⟨h, -⟩ | ⟨-, h⟩)
        · cases h
        · exact absurd h hr
    have h := hsat { s with calls := s.calls ++ [.PyDict_New] } (hs.snoc (by
      rintro (⟨-, h⟩ | ⟨h, -⟩)
      · rw [ho] at h
        cases h
      · cases h))
    revert h
    generalize (do
        let deopt_stats ← make_deopt_stats api
        let _ ← check_int
          (← api.callStatus (.PyDict_SetItemString stats "deopt" deopt_stats))
        pure () : CAPIM Unit) { s with calls := s.calls ++ [.PyDict_New] } = out
    obtain ⟨r, s'⟩ := out
    cases r with
    | error e => exact fun h => h
    | ok a => exact fun h => h

/-- C1 (amended): for a shadow stack `ids` of depth d in which every shadow
frame not flagged as materialized has a code runtime, and whose pre-existing
frame chain `fs` has exactly one frame per flagged shadow frame, in stack
order, `materializeShadowCallStack` returns and ends with a frame chain `fs'`
from `tstate->frame` of length exactly d.  The frame at the depth of a shadow
frame that was flagged is the frame it had before, the frame at the depth of
any other shadow frame is a new frame created for it; every shadow frame is
flagged, and the result is the topmost frame (null when d = 0). -/
theorem materializeShadowCallStack_full_chain (st : State) (ids fs : List Nat)
    (hstack : ShadowStack st ids) (hchain : FrameChain st fs)
    (hlen : fs.length = (ids.filter st.hasPyFrame).length)
    (hjit : ∀ i ∈ ids, st.hasPyFrame i = false → ∃ rt, getCodeRuntime st i = .ok rt) :
    ∃ st' fs', materializeShadowCallStack st = .ok (fs'.head?, st') ∧
      FrameChain st' fs' ∧ fs'.length = ids.length ∧
      ShadowStack st' ids ∧ (∀ i ∈ ids, st'.hasPyFrame i = true) ∧
      (∀ p ∈ ids.zip fs',
        if st.hasPyFrame p.1 then p ∈ (ids.filter st.hasPyFrame).zip fs
        else CreatedFor st st' p.1 p.2) := by
  obtain ⟨st', hres, hc, hW, hN⟩ := (materializeShadowCallStack_spec hstack hchain hjit).1 hlen
  refine ⟨st', weave st.hasPyFrame ids fs st.frames.length, ?_, hc, ?_, ?_, hW.flagged, ?_⟩
  · rw [hres, LinkedList.head_eq hc]
  · exact weave_length ids fs _ (Nat.le_of_eq hlen.symm)
  · unfold ShadowStack
    rw [hW.shadow_frame]
    exact LinkedList.congr (fun i _ => hW.sPrev i) hstack
  · intro p hp
    cases hf : st.hasPyFrame p.1 with
    | true => simpa using weave_flagged_pairs ids fs _ p hp hf
    | false => simpa using hN p hp hf

/-- The hypotheses of C1 (amended) hold at `exampleStack3`, the three-deep stack
with a materialized generator in the middle. -/
theorem materializeShadowCallStack_full_chain_witness :
    ShadowStack exampleStack3 [0, 1, 2] ∧ FrameChain exampleStack3 [0] ∧
    ∃ st' fs', materializeShadowCallStack exampleStack3 = .ok (fs'.head?, st') ∧
      FrameChain st' fs' ∧ fs'.length = [0, 1, 2].length ∧
      ShadowStack st' [0, 1, 2] ∧ (∀ i ∈ [0, 1, 2], st'.hasPyFrame i = true) ∧
      (∀ p ∈ [0, 1, 2].zip fs',
        if exampleStack3.hasPyFrame p.1 then
          p ∈ ([0, 1, 2].filter exampleStack3.hasPyFrame).zip [0]
        else CreatedFor exampleStack3 st' p.1 p.2) :=
  ⟨⟨rfl, _, rfl, rfl, _, rfl, rfl, _, rfl, rfl⟩, ⟨rfl, _, rfl, rfl⟩,
    materializeShadowCallStack_full_chain exampleStack3 [0, 1, 2] [0]
      ⟨rfl, _, rfl, rfl, _, rfl, rfl, _, rfl, rfl⟩ ⟨rfl, _, rfl, rfl⟩ rfl
      (fun i hi _ => by
        simp only [List.mem_cons, List.mem_singleton, List.not_mem_nil, or_false] at hi
        rcases hi with rfl | rfl | rfl <;> exact ⟨_, rfl⟩)⟩

/-- C1 (as stated) fails: the one-deep shadow stack `interpStack1` has no
flagged shadow frame and an empty frame chain, so its chain is exactly the
frames of its flagged shadow frames, yet `materializeShadowCallStack` does not
end with a chain of length 1: it aborts in `getCodeRuntime` with
"Not a JIT-compiled function!". -/
theorem materializeShadowCallStack_interp_aborts :
    ShadowStack interpStack1 [0] ∧ FrameChain interpStack1 [] ∧
    ([] : List Nat).length = ([0].filter interpStack1.hasPyFrame).length ∧
    materializeShadowCallStack interpStack1 = .error .notJitCompiledFunction :=
  ⟨⟨rfl, _, rfl, rfl⟩, rfl, rfl, rfl⟩

/-! ### C2 -/

/-- C2: if `materializePyFrame` returns for a thread state, a predecessor
frame (or null) and a shadow frame, then a second call with the same
arguments, made in the state the first call left, returns the identical frame
and leaves that state as it is: nothing is allocated and no link, flag,
generator field or return-address slot changes. -/
theorem materializePyFrame_idempotent (st st₁ : State) (prev r : Option Nat) (sf : Nat)
    (h : materializePyFrame st prev sf = .ok (r, st₁)) :
    materializePyFrame st₁ prev sf = .ok (r, st₁) := by
  obtain ⟨s, hs⟩ := shadowAt_of_materializePyFrame_ok h
  cases hflag : s.hasPyFrame with
  | true =>
    rw [materializePyFrame_flagged hs hflag] at h
    cases prev with
    | none =>
      cases h
      rw [materializePyFrame_flagged hs hflag]
    | some p =>
      cases hf : st.frameAt p with
      | error e => simp [hf, err_bind] at h
      | ok pf =>
        simp only [hf, ok_bind, Except.ok.injEq, Prod.mk.injEq] at h
        obtain ⟨hr, hst⟩ := h
        subst hr hst
        rw [materializePyFrame_flagged hs hflag]
        simp only [hf, ok_bind]
  | false =>
    obtain ⟨⟨rt, hrt⟩, htop⟩ := materializePyFrame_ok_inv hs hflag h
    cases prev with
    | none =>
      obtain ⟨st', hm, hC⟩ := materializePyFrame_create hs hflag hrt
        (fun Q (hQ : (none : Option Nat) = some Q) => by cases hQ) htop
      rw [hm] at h
      simp only [Except.ok.injEq, Prod.mk.injEq] at h
      obtain ⟨hr, hst⟩ := h
      subst hr hst
      obtain ⟨s1, hs1, hflag1⟩ : ∃ s1, st'.shadows[sf]? = some s1 ∧ s1.hasPyFrame = true := by
        rw [hC.shadows, List.getElem?_set]
        simp [lt_of_getElem?_eq_some hs]
      rw [materializePyFrame_flagged hs1 hflag1]
      simp [hC.frame]
    | some P =>
      rcases Nat.lt_trichotomy P st.frames.length with hlt | heq | hgt
      · obtain ⟨st', hm, hC⟩ := materializePyFrame_create hs hflag hrt
          (fun Q (hQ : some P = some Q) => by cases hQ; exact hlt) htop
        rw [hm] at h
        simp only [Except.ok.injEq, Prod.mk.injEq] at h
        obtain ⟨hr, hst⟩ := h
        subst hr hst
        obtain ⟨s1, hs1, hflag1⟩ : ∃ s1, st'.shadows[sf]? = some s1 ∧ s1.hasPyFrame = true := by
          rw [hC.shadows, List.getElem?_set]
          simp [lt_of_getElem?_eq_some hs]
        rw [materializePyFrame_flagged hs1 hflag1]
        have hb := hC.fBack_prev P rfl
        unfold State.fBack at hb
        cases hf : st'.frames[P]? with
        | none => simp [hf] at hb
        | some pf =>
          simp only [hf, Option.map_some', Option.some.injEq] at hb
          simp [State.frameAt, hf, ok_bind, hb]
      · subst heq
        exact materializePyFrame_prev_fresh hs hflag h
      · exact absurd h (materializePyFrame_prev_large hs hflag hgt)

/-- The first call of C2 returns at `exampleStack3` for its top shadow frame,
which it materializes; the second call gives the same frame and state. -/
theorem materializePyFrame_idempotent_witness :
    ∃ r st₁, materializePyFrame exampleStack3 none 0 = .ok (r, st₁) ∧
      materializePyFrame st₁ none 0 = .ok (r, st₁) :=
  ⟨_, _, rfl, materializePyFrame_idempotent exampleStack3 _ none _ 0 rfl⟩

/-! ### C3 -/

/-- C3 (amended): for a shadow frame `sf` not yet flagged as materialized
whose payload has a code runtime, `materializePyFrame` allocates one new frame
`F` and links it.  With a predecessor `P`, afterwards `P.f_back = F`,
`F.f_back` is the old `P.f_back` and `tstate->frame` is as before; with no
predecessor, afterwards `tstate->frame = F` and `F.f_back` is the old
`tstate->frame`.  In both cases the shadow frame is flagged afterwards and `F`
is returned. -/
theorem materializePyFrame_links_new_frame (st : State) (prev : Option Nat) (sf : Nat)
    (s : _PyShadowFrame) (rt : CodeRuntime)
    (hs : st.shadows[sf]? = some s) (hflag : s.hasPyFrame = false)
    (hrt : getCodeRuntime st sf = .ok rt)
    (hprev : ∀ P, prev = some P → P < st.frames.length)
    (htop : ∀ t, st.tstate.frame = some t → t < st.frames.length) :
    ∃ F st', materializePyFrame st prev sf = .ok (some F, st') ∧
      st.frames[F]? = none ∧ (∃ f, st'.frames[F]? = some f) ∧
      st'.frames.length = st.frames.length + 1 ∧
      (∀ P, prev = some P →
        st'.fBack P = some (some F) ∧ st'.fBack F = st.fBack P ∧
          st'.tstate.frame = st.tstate.frame) ∧
      (prev = none → st'.tstate.frame = some F ∧ st'.fBack F = some st.tstate.frame) ∧
      st'.hasPyFrame sf = true := by
  obtain ⟨st', hm, hC⟩ := materializePyFrame_create hs hflag hrt hprev htop
  obtain ⟨f, hf, _⟩ := hC.new_frame
  refine ⟨st.frames.length, st', hm, by simp, ⟨f, hf⟩, hC.frames_length, ?_, ?_,
    hC.hasPyFrame_self hs⟩
  · intro P hP
    refine ⟨hC.fBack_prev P hP, ?_, ?_⟩
    · rw [hC.fBack_new, hP]; rfl
    · rw [hC.frame, hP]; rfl
  · intro hP
    refine ⟨?_, ?_⟩
    · rw [hC.frame, hP]; rfl
    · rw [hC.fBack_new, hP]; rfl

/-- The hypotheses of C3 (amended) hold at `exampleStack3` for the bottom shadow
frame, with the generator's frame as predecessor. -/
theorem materializePyFrame_links_new_frame_witness :
    ∃ F st', materializePyFrame exampleStack3 (some 0) 2 = .ok (some F, st') ∧
      exampleStack3.frames[F]? = none ∧ (∃ f, st'.frames[F]? = some f) ∧
      st'.frames.length = exampleStack3.frames.length + 1 ∧
      (∀ P, some 0 = some P →
        st'.fBack P = some (some F) ∧ st'.fBack F = exampleStack3.fBack P ∧
          st'.tstate.frame = exampleStack3.tstate.frame) ∧
      ((some 0 : Option Nat) = none →
        st'.tstate.frame = some F ∧ st'.fBack F = some exampleStack3.tstate.frame) ∧
      st'.hasPyFrame 2 = true :=
  materializePyFrame_links_new_frame exampleStack3 (some 0) 2
    { prev := none, ptr := .codeRt ⟨12, 22⟩, hasPyFrame := false, retAddr := 102 } ⟨12, 22⟩
    rfl rfl rfl (by intro P hP; cases hP; decide) (by intro t ht; cases ht; decide)

/-- C3 (as stated) fails: the shadow frame 0 of `interpStack1` is not flagged
as materialized, yet `materializePyFrame` allocates and links no frame for it:
its kind is `PYSF_CODE_OBJ` and `getCodeRuntime` aborts with
"Not a JIT-compiled function!". -/
theorem materializePyFrame_interp_aborts :
    interpStack1.hasPyFrame 0 = false ∧
    materializePyFrame interpStack1 none 0 = .error .notJitCompiledFunction :=
  ⟨rfl, rfl⟩

/-! ### C4 -/

/-- C4: when `materializePyFrame` creates a frame `F` for the shadow frame
`sf`, exactly one unlink owner is designated.  If the payload kind is
Generator, then `gen.gi_frame = F`, `F.f_gen = gen` and the return-address
slot of the activation is unchanged.  Otherwise the original return address
is stored in `F`'s first empty value-stack slot, the return-address slot holds
the unlink trampoline address, no generator is touched and `F.f_gen` is
null. -/
theorem materializePyFrame_unlink_owner (st st' : State) (prev r : Option Nat) (sf : Nat)
    (s : _PyShadowFrame)
    (hs : st.shadows[sf]? = some s) (hflag : s.hasPyFrame = false)
    (hprev : ∀ P, prev = some P → P < st.frames.length)
    (h : materializePyFrame st prev sf = .ok (r, st')) :
    r = some st.frames.length ∧
    (∀ gen, s.ptr = .gen gen →
      (st'.gens[gen]?).map (·.gi_frame) = some (some st.frames.length) ∧
      st'.fGen st.frames.length = some (some gen) ∧
      (st'.shadows[sf]?).map (·.retAddr) = some s.retAddr) ∧
    (s.ptr.gen? = none →
      (st'.frames[st.frames.length]?).map (·.stacktop) = some s.retAddr ∧
      (st'.shadows[sf]?).map (·.retAddr) = some st.pyFrameUnlinkTrampoline ∧
      st'.gens = st.gens ∧ st'.fGen st.frames.length = some none) := by
  obtain ⟨⟨rt, hrt⟩, htop⟩ := materializePyFrame_ok_inv hs hflag h
  obtain ⟨st₁, hm, hC⟩ := materializePyFrame_create hs hflag hrt hprev htop
  rw [hm] at h
  simp only [Except.ok.injEq, Prod.mk.injEq] at h
  obtain ⟨hr, hst⟩ := h
  subst hr hst
  have hsf := lt_of_getElem?_eq_some hs
  obtain ⟨f, hf, _, _, hgen, _, hstash⟩ := hC.new_frame
  refine ⟨rfl, ?_, ?_⟩
  · intro gen hp
    obtain ⟨o, ho⟩ : ∃ o, st.gens[gen]? = some o := by
      obtain ⟨s', hs', hptr⟩ := getCodeRuntime_ok hrt
      rw [hs] at hs'
      cases hs'
      rcases hptr with hp' | ⟨g', o, _, hp', ho, _⟩
      · rw [hp] at hp'; cases hp'
      · rw [hp] at hp'; cases hp'; exact ⟨o, ho⟩
    refine ⟨?_, ?_, ?_⟩
    · rw [hC.gens gen, ho]; simp [hp]
    · simp [State.fGen, hf, hgen, hp, ShadowPtr.gen?]
    · rw [hC.shadows, List.getElem?_set]; simp [hsf, hp, ShadowPtr.gen?]
  · intro hp
    refine ⟨?_, ?_, ?_, ?_⟩
    · simp [hf, hstash hp]
    · rw [hC.shadows, List.getElem?_set]; simp [hsf, hp]
    · apply List.ext_getElem?
      intro g
      rw [hC.gens g]
      have : s.ptr ≠ .gen g := by
        intro e
        rw [e] at hp
        simp [ShadowPtr.gen?] at hp
      simp [this]
    · simp [State.fGen, hf, hgen, hp]

/-- The hypotheses of C4 hold at `genStack` for the generator's shadow frame,
with frame 0 as predecessor. -/
theorem materializePyFrame_unlink_owner_witness :
    ∃ r st', materializePyFrame genStack (some 0) 1 = .ok (r, st') ∧
      r = some genStack.frames.length ∧
      (∀ gen, ShadowPtr.gen 0 = .gen gen →
        (st'.gens[gen]?).map (·.gi_frame) = some (some genStack.frames.length) ∧
        st'.fGen genStack.frames.length = some (some gen) ∧
        (st'.shadows[1]?).map (·.retAddr) = some 101) ∧
      ((ShadowPtr.gen 0).gen? = none →
        (st'.frames[genStack.frames.length]?).map (·.stacktop) = some 101 ∧
        (st'.shadows[1]?).map (·.retAddr) = some genStack.pyFrameUnlinkTrampoline ∧
        st'.gens = genStack.gens ∧ st'.fGen genStack.frames.length = some none) :=
  ⟨_, _, rfl,
    materializePyFrame_unlink_owner genStack _ (some 0) _ 1
      { prev := some 2, ptr := .gen 0, hasPyFrame := false, retAddr := 101 }
      rfl rfl (by intro P hP; cases hP; decide) rfl⟩

/-! ### C5 -/

/-- C5 (amended): starting from a state whose frame chain `fs` has one frame
per flagged shadow frame of the stack `ids`, in stack order, and in which
every unflagged shadow frame has a code runtime, `materializeShadowCallStack`
never re-materializes.  It allocates exactly as many new frames as there are
unflagged shadow frames; every pre-existing frame keeps its identity (same
object, same code, globals and generator), is still in the chain, at the
depth of its own shadow frame, and the old chain is a subsequence of the new
one, so the relative order is as before. -/
theorem materializeShadowCallStack_keeps_frames (st : State) (ids fs : List Nat)
    (hstack : ShadowStack st ids) (hchain : FrameChain st fs)
    (hlen : fs.length = (ids.filter st.hasPyFrame).length)
    (hjit : ∀ i ∈ ids, st.hasPyFrame i = false → ∃ rt, getCodeRuntime st i = .ok rt) :
    ∃ r st' fs', materializeShadowCallStack st = .ok (r, st') ∧
      st'.frames.length =
        st.frames.length + (ids.filter (fun i => !st.hasPyFrame i)).length ∧
      (∀ j, j < st.frames.length →
        (st'.frames[j]?).map PyFrameObject.body = (st.frames[j]?).map PyFrameObject.body) ∧
      FrameChain st' fs' ∧
      (∀ p ∈ (ids.filter st.hasPyFrame).zip fs, p ∈ ids.zip fs') ∧
      fs.Sublist fs' := by
  obtain ⟨st', hres, hc, hW, _⟩ := (materializeShadowCallStack_spec hstack hchain hjit).1 hlen
  exact ⟨_, st', _, hres, hW.frames_length, hW.body_old, hc,
    fun p hp => weave_old_pairs ids fs _ p hp, weave_sublist ids fs _ hlen.symm⟩

/-- The hypotheses of C5 (amended) hold at `exampleStack3`: the generator's
frame stays in the middle of the three-frame chain. -/
theorem materializeShadowCallStack_keeps_frames_witness :
    ShadowStack exampleStack3 [0, 1, 2] ∧ FrameChain exampleStack3 [0] ∧
    ∃ r st' fs', materializeShadowCallStack exampleStack3 = .ok (r, st') ∧
      st'.frames.length = exampleStack3.frames.length +
        ([0, 1, 2].filter (fun i => !exampleStack3.hasPyFrame i)).length ∧
      (∀ j, j < exampleStack3.frames.length →
        (st'.frames[j]?).map PyFrameObject.body =
          (exampleStack3.frames[j]?).map PyFrameObject.body) ∧
      FrameChain st' fs' ∧
      (∀ p ∈ ([0, 1, 2].filter exampleStack3.hasPyFrame).zip [0], p ∈ [0, 1, 2].zip fs') ∧
      [0].Sublist fs' :=
  ⟨⟨rfl, _, rfl, rfl, _, rfl, rfl, _, rfl, rfl⟩, ⟨rfl, _, rfl, rfl⟩,
    materializeShadowCallStack_keeps_frames exampleStack3 [0, 1, 2] [0]
      ⟨rfl, _, rfl, rfl, _, rfl, rfl, _, rfl, rfl⟩ ⟨rfl, _, rfl, rfl⟩ rfl
      (fun i hi _ => by
        simp only [List.mem_cons, List.mem_singleton, List.not_mem_nil, or_false] at hi
        rcases hi with rfl | rfl | rfl <;> exact ⟨_, rfl⟩)⟩

/-- C5 (as stated) fails: in `interpStack2` the frame chain is exactly the
frame of the one flagged shadow frame, and one shadow frame is not flagged,
but `materializeShadowCallStack` does not allocate a frame for it and return:
it aborts in `getCodeRuntime`, the unflagged shadow frame being of kind
`PYSF_CODE_OBJ`. -/
theorem materializeShadowCallStack_interp_below_aborts :
    ShadowStack interpStack2 [0, 1] ∧ FrameChain interpStack2 [0] ∧
    [0, 1].filter interpStack2.hasPyFrame = [0] ∧
    materializeShadowCallStack interpStack2 = .error .notJitCompiledFunction :=
  ⟨⟨rfl, _, rfl, rfl, _, rfl, rfl⟩, ⟨rfl, _, rfl, rfl⟩, rfl, rfl⟩

/-! ### C6 -/

/-- C6 (amended): on a shadow stack `ids` in which every unflagged shadow
frame has a code runtime and whose frame chain `fs` ends at null,
`materializeShadowCallStack` aborts with "stack walk didn't consume entire
python stack" if and only if the pre-existing chain is longer than the number
of flagged shadow frames, that is frames remain unconsumed after the walk.
When the chain has exactly one frame per flagged shadow frame the call
returns, and every frame of the old chain is in the new chain, once. -/
theorem materializeShadowCallStack_abort_iff (st : State) (ids fs : List Nat)
    (hstack : ShadowStack st ids) (hchain : FrameChain st fs)
    (hjit : ∀ i ∈ ids, st.hasPyFrame i = false → ∃ rt, getCodeRuntime st i = .ok rt) :
    ((∃ log, materializeShadowCallStack st = .error (.stackWalkNotConsumed log)) ↔
      (ids.filter st.hasPyFrame).length < fs.length) ∧
    (fs.length = (ids.filter st.hasPyFrame).length →
      ∃ r st' fs', materializeShadowCallStack st = .ok (r, st') ∧ FrameChain st' fs' ∧
        fs.Sublist fs' ∧ fs'.Nodup) := by
  obtain ⟨heq, hgt, hlt⟩ := materializeShadowCallStack_spec hstack hchain hjit
  refine ⟨⟨?_, hgt⟩, ?_⟩
  · rintro ⟨log, hlog⟩
    rcases Nat.lt_trichotomy (ids.filter st.hasPyFrame).length fs.length with h | h | h
    · exact h
    · obtain ⟨st', hres, _⟩ := heq h.symm
      rw [hres] at hlog
      cases hlog
    · rw [hlt h] at hlog
      cases hlog
  · intro hlen
    obtain ⟨st', hres, hc, _, _⟩ := heq hlen
    exact ⟨_, st', _, hres, hc, weave_sublist ids fs _ hlen.symm, LinkedList.nodup hc⟩

/-- The hypotheses of C6 (amended) hold at `danglingStack`, whose chain has one
frame more than flagged shadow frames. -/
theorem materializeShadowCallStack_abort_iff_witness :
    ShadowStack danglingStack [0] ∧ FrameChain danglingStack [0, 1] ∧
    (((∃ log, materializeShadowCallStack danglingStack = .error (.stackWalkNotConsumed log)) ↔
      ([0].filter danglingStack.hasPyFrame).length < [0, 1].length) ∧
    ([0, 1].length = ([0].filter danglingStack.hasPyFrame).length →
      ∃ r st' fs', materializeShadowCallStack danglingStack = .ok (r, st') ∧ FrameChain st' fs' ∧
        [0, 1].Sublist fs' ∧ fs'.Nodup)) :=
  ⟨⟨rfl, _, rfl, rfl⟩, ⟨rfl, _, rfl, rfl, _, rfl, rfl⟩,
    materializeShadowCallStack_abort_iff danglingStack [0] [0, 1]
      ⟨rfl, _, rfl, rfl⟩ ⟨rfl, _, rfl, rfl, _, rfl, rfl⟩
      (fun i hi hf => by
        simp only [List.mem_singleton] at hi
        subst hi
        exact absurd hf (by decide))⟩

/-- C6 (as stated) fails: in `interpStack2` the pre-existing chain has exactly
one frame per flagged shadow frame, yet `materializeShadowCallStack` aborts:
the walk meets an unflagged shadow frame of kind `PYSF_CODE_OBJ` and
`getCodeRuntime` stops it before the chain check is reached. -/
theorem materializeShadowCallStack_exact_chain_aborts :
    ShadowStack interpStack2 [0, 1] ∧ FrameChain interpStack2 [0] ∧
    [0].length = ([0, 1].filter interpStack2.hasPyFrame).length ∧
    ¬ ∃ r st', materializeShadowCallStack interpStack2 = .ok (r, st') :=
  ⟨⟨rfl, _, rfl, rfl, _, rfl, rfl⟩, ⟨rfl, _, rfl, rfl⟩, rfl, by
    rintro ⟨r, st', h⟩
    have he : materializeShadowCallStack interpStack2 = .error .notJitCompiledFunction := rfl
    rw [he] at h
    cases h⟩

/-! ### C7 -/

/-- C7 (amended): for every running generator whose frame is already
materialized (`gi_frame` is set), `materializePyFrameForGen` returns that
frame and leaves the whole state, hence the thread's shadow stack, frame
chain and flags, unchanged. -/
theorem materializePyFrameForGen_already_materialized (st : State) (gen f : Nat)
    (g : PyGenObject) (hg : st.gens[gen]? = some g) (hrun : g.gi_running = true)
    (hf : g.gi_frame = some f) : materializePyFrameForGen st gen = .ok (some f, st) := by
  simp [materializePyFrameForGen, State.genAt, hg, ok_bind, hrun, hf, pure, Except.pure]

/-- The hypotheses of C7 (amended) hold at `exampleStack3` for generator 0. -/
theorem materializePyFrameForGen_already_materialized_witness :
    materializePyFrameForGen exampleStack3 0 = .ok (some 0, exampleStack3) :=
  materializePyFrameForGen_already_materialized exampleStack3 0 0
    { gi_running := true, gi_frame := some 0, gi_jit_data := some { code_rt := ⟨11, 21⟩ } } rfl rfl rfl

/-- C7 (as stated) fails: generator 0 of `suspendedGenState` has its frame
materialized (`gi_frame` is frame 0) but is not running, and
`materializePyFrameForGen` does not return the frame: it aborts on
`JIT_CHECK(gen->gi_running, "gen must be running")`. -/
theorem materializePyFrameForGen_suspended_aborts :
    (suspendedGenState.gens[0]?).map (·.gi_frame) = some (some 0) ∧
    materializePyFrameForGen suspendedGenState 0 = .error .genMustBeRunning :=
  ⟨rfl, rfl⟩

/-! ### C8 -/

/-- C8: let a running JIT generator `gen` have no frame (`gi_frame` is null
and no frame of the chain names it), and let its shadow frame `k`, not yet
flagged, sit at any depth of the shadow stack, below the shadow frames `above`
(flagged or not, none of them with `gen` as payload) and above `below`; the
frame chain has one frame per flagged shadow frame.  Then
`materializePyFrameForGen` returns a frame `F` and allocates exactly that one
frame; `F.f_gen = gen`, `gen.gi_frame = F`, the shadow frame `k` is flagged
afterwards and no other shadow frame changes its flag. -/
theorem materializePyFrameForGen_materializes (st : State) (gen k : Nat) (g : PyGenObject)
    (above below fs : List Nat)
    (hg : st.gens[gen]? = some g) (hrun : g.gi_running = true) (hnof : g.gi_frame = none)
    (hjit : g.gi_jit_data.isSome)
    (hstack : ShadowStack st (above ++ k :: below)) (hchain : FrameChain st fs)
    (hlen : fs.length = ((above ++ k :: below).filter st.hasPyFrame).length)
    (hk : st.hasPyFrame k = false) (hkg : st.genOf k = some gen)
    (habove : ∀ i ∈ above, st.genOf i ≠ some gen)
    (hfs : ∀ x ∈ fs, st.fGen x ≠ some (some gen)) :
    ∃ st', materializePyFrameForGen st gen = .ok (some st.frames.length, st') ∧
      st'.frames.length = st.frames.length + 1 ∧
      st'.fGen st.frames.length = some (some gen) ∧
      (st'.gens[gen]?).map (·.gi_frame) = some (some st.frames.length) ∧
      st'.hasPyFrame k = true ∧
      ∀ i, i ≠ k → st'.hasPyFrame i = st.hasPyFrame i := by
  rcases forGen_spec hg hrun hnof hstack hchain (Nat.le_of_eq hlen.symm) with
    ⟨_, h1, _⟩ | ⟨x, _, h1, h2⟩ | ⟨above', j, below', s, hids, hs, hflag, hp, h3, _, hw, hprev⟩
  · exact absurd hkg (h1 k (by simp) hk)
  · exact absurd h2 (hfs x (List.mem_of_mem_take h1))
  · have hjg : st.genOf j = some gen := by rw [genOf_eq hs]; exact hp
    have hjf : st.hasPyFrame j = false := by rw [hasPyFrame_eq hs]; exact hflag
    obtain ⟨_, hkj, _⟩ := split_unique hids
      (fun hmem => h3 k hmem hk hkg) (fun hmem => habove j hmem hjg)
    subst hkj
    obtain ⟨rt, hrt⟩ := getCodeRuntime_gen hs hp hg hjit
    obtain ⟨st', hm, hC⟩ := materializePyFrame_create hs hflag hrt hprev (top_lt_frames hchain)
    refine ⟨st', by rw [hw, hm], hC.frames_length, ?_, ?_, hC.hasPyFrame_self hs,
      fun i hi => hC.hasPyFrame_other i hi⟩
    · obtain ⟨f, hf, _, _, hgen, _⟩ := hC.new_frame
      simp [State.fGen, hf, hgen, hp]
    · have hptr : s.ptr = .gen gen := by
        cases hptr : s.ptr with
        | codeRt rt => simp [hptr, ShadowPtr.gen?] at hp
        | codeObj c => simp [hptr, ShadowPtr.gen?] at hp
        | gen g' => simpa [hptr, ShadowPtr.gen?] using hp
      rw [hC.gens gen, hg]
      simp [hptr]

/-- The hypotheses of C8 hold at `genStack`: the generator's shadow frame sits at
depth 1, below a materialized activation and above an unmaterialized one. -/
theorem materializePyFrameForGen_materializes_witness :
    ShadowStack genStack ([0] ++ 1 :: [2]) ∧ FrameChain genStack [0] ∧
    ∃ st', materializePyFrameForGen genStack 0 = .ok (some genStack.frames.length, st') ∧
      st'.frames.length = genStack.frames.length + 1 ∧
      st'.fGen genStack.frames.length = some (some 0) ∧
      (st'.gens[0]?).map (·.gi_frame) = some (some genStack.frames.length) ∧
      st'.hasPyFrame 1 = true ∧
      ∀ i, i ≠ 1 → st'.hasPyFrame i = genStack.hasPyFrame i :=
  ⟨⟨rfl, _, rfl, rfl, _, rfl, rfl, _, rfl, rfl⟩, ⟨rfl, _, rfl, rfl⟩,
    materializePyFrameForGen_materializes genStack 0 1
      { gi_running := true, gi_frame := none, gi_jit_data := some { code_rt := ⟨11, 21⟩ } } [0] [2] [0]
      rfl rfl rfl rfl ⟨rfl, _, rfl, rfl, _, rfl, rfl, _, rfl, rfl⟩ ⟨rfl, _, rfl, rfl⟩ rfl rfl rfl
      (by decide) (by decide)⟩

/-! ### C9 -/

/-- C9: for a running JIT generator with no materialized frame, on a shadow
stack whose frame chain has one frame per flagged shadow frame,
`materializePyFrameForGen` aborts if and only if no shadow frame of the stack
identifies the generator: no unflagged shadow frame has it as its generator
payload and no frame of the chain has it as `f_gen`.  The abort is then
"failed to find frame for gen", and the function never returns null. -/
theorem materializePyFrameForGen_abort_iff (st : State) (gen : Nat) (g : PyGenObject)
    (ids fs : List Nat)
    (hg : st.gens[gen]? = some g) (hrun : g.gi_running = true) (hnof : g.gi_frame = none)
    (hjit : g.gi_jit_data.isSome)
    (hstack : ShadowStack st ids) (hchain : FrameChain st fs)
    (hlen : fs.length = (ids.filter st.hasPyFrame).length) :
    ((∃ e, materializePyFrameForGen st gen = .error e) ↔
      ((∀ i ∈ ids, st.hasPyFrame i = false → st.genOf i ≠ some gen) ∧
        ∀ x ∈ fs, st.fGen x ≠ some (some gen))) ∧
    (∀ e, materializePyFrameForGen st gen = .error e → e = .failedToFindFrameForGen) ∧
    ∀ st', materializePyFrameForGen st gen ≠ .ok (none, st') := by
  have htake : fs.take (ids.filter st.hasPyFrame).length = fs := by
    rw [← hlen, List.take_length]
  rcases forGen_spec hg hrun hnof hstack hchain (Nat.le_of_eq hlen.symm) with
    ⟨hw, h1, h2⟩ | ⟨x, hw, h1, h2⟩ | ⟨above', j, below', s, hids, hs, hflag, hp, _, _, hw, hprev⟩
  · rw [htake] at h2
    refine ⟨⟨fun _ => ⟨h1, h2⟩, fun _ => ⟨_, hw⟩⟩, ?_, ?_⟩
    · intro e he
      rw [hw] at he
      cases he
      rfl
    · intro st' he
      rw [hw] at he
      cases he
  · rw [htake] at h1
    refine ⟨⟨?_, fun h => absurd h2 (h.2 x h1)⟩, ?_, ?_⟩
    · rintro ⟨e, he⟩
      rw [hw] at he
      cases he
    · intro e he
      rw [hw] at he
      cases he
    · intro st' he
      rw [hw] at he
      cases he
  · obtain ⟨rt, hrt⟩ := getCodeRuntime_gen hs hp hg hjit
    obtain ⟨st', hm, _⟩ := materializePyFrame_create hs hflag hrt hprev (top_lt_frames hchain)
    rw [hm] at hw
    have hjf : st.hasPyFrame j = false := by rw [hasPyFrame_eq hs]; exact hflag
    have hjg : st.genOf j = some gen := by rw [genOf_eq hs]; exact hp
    refine ⟨⟨?_, fun h => absurd hjg (h.1 j (by rw [hids]; simp) hjf)⟩, ?_, ?_⟩
    · rintro ⟨e, he⟩
      rw [hw] at he
      cases he
    · intro e he
      rw [hw] at he
      cases he
    · intro st'' he
      rw [hw] at he
      cases he

/-- The hypotheses of C9 hold at `genStack` for generator 0. -/
theorem materializePyFrameForGen_abort_iff_witness :
    ShadowStack genStack [0, 1, 2] ∧ FrameChain genStack [0] ∧
    (((∃ e, materializePyFrameForGen genStack 0 = .error e) ↔
      ((∀ i ∈ [0, 1, 2], genStack.hasPyFrame i = false → genStack.genOf i ≠ some 0) ∧
        ∀ x ∈ [0], genStack.fGen x ≠ some (some 0))) ∧
    (∀ e, materializePyFrameForGen genStack 0 = .error e → e = .failedToFindFrameForGen) ∧
    ∀ st', materializePyFrameForGen genStack 0 ≠ .ok (none, st')) :=
  ⟨⟨rfl, _, rfl, rfl, _, rfl, rfl, _, rfl, rfl⟩, ⟨rfl, _, rfl, rfl⟩,
    materializePyFrameForGen_abort_iff genStack 0
      { gi_running := true, gi_frame := none, gi_jit_data := some { code_rt := ⟨11, 21⟩ } } [0, 1, 2] [0]
      rfl rfl rfl rfl ⟨rfl, _, rfl, rfl, _, rfl, rfl, _, rfl, rfl⟩ ⟨rfl, _, rfl, rfl⟩ rfl⟩

/-! ### C10 -/

/-- C10: the chain/shadow order invariant is kept by
`materializePyFrameForGen` and by `materializePyFrameForDeopt`.  If the frame
chain `fs` is exactly the sequence of frames of the flagged shadow frames of
the stack `ids`, in stack order, then after either call has returned the same
holds for a chain `fs'`, and every flagged shadow frame has kept its frame.
`materializePyFrameForGen` leaves the chain as it is or inserts the one new
frame behind the frames of the flagged shadow frames above the generator's
unflagged shadow frame `j`, that is after the nearest materialized frame above
it; `materializePyFrameForDeopt` leaves it as it is or inserts at the top. -/
theorem chain_order_invariant (st : State) (ids fs : List Nat)
    (hinv : ChainMatchesShadows st ids fs) :
    (∀ gen r st', materializePyFrameForGen st gen = .ok (r, st') →
      ∃ fs', ChainMatchesShadows st' ids fs' ∧
        (∀ p ∈ (ids.filter st.hasPyFrame).zip fs, p ∈ (ids.filter st'.hasPyFrame).zip fs') ∧
        (fs' = fs ∨ ∃ above j below, ids = above ++ j :: below ∧
          st.hasPyFrame j = false ∧ st.genOf j = some gen ∧
          fs' = fs.take (above.filter st.hasPyFrame).length ++
            st.frames.length :: fs.drop (above.filter st.hasPyFrame).length)) ∧
    (∀ base r st', materializePyFrameForDeopt st base = .ok (r, st') →
      ∃ fs', ChainMatchesShadows st' ids fs' ∧
        (∀ p ∈ (ids.filter st.hasPyFrame).zip fs, p ∈ (ids.filter st'.hasPyFrame).zip fs') ∧
        (fs' = fs ∨ fs' = st.frames.length :: fs)) := by
  obtain ⟨hstack, hchain, hlen⟩ := hinv
  refine ⟨?_, ?_⟩
  · intro gen r st' h
    cases hg : st.gens[gen]? with
    | none => simp [materializePyFrameForGen, State.genAt, hg, err_bind] at h
    | some g =>
      cases hrun : g.gi_running with
      | false =>
        simp [materializePyFrameForGen, State.genAt, hg, ok_bind, hrun, throw, throwThe,
          MonadExceptOf.throw, err_bind] at h
      | true =>
        cases hnof : g.gi_frame with
        | some f =>
          simp [materializePyFrameForGen, State.genAt, hg, ok_bind, hrun, hnof, pure,
            Except.pure] at h
          obtain ⟨_, hst⟩ := h
          subst hst
          exact ⟨fs, ⟨hstack, hchain, hlen⟩, fun p hp => hp, Or.inl rfl⟩
        | none =>
          rcases forGen_spec hg hrun hnof hstack hchain (Nat.le_of_eq hlen.symm) with
            ⟨hw, _, _⟩ | ⟨x, hw, _, _⟩ |
            ⟨above, j, below, s, hids, hs, hflag, hp, _, _, hw, hprev⟩
          · rw [hw] at h
            cases h
          · rw [hw] at h
            simp only [Except.ok.injEq, Prod.mk.injEq] at h
            obtain ⟨_, hst⟩ := h
            subst hst
            exact ⟨fs, ⟨hstack, hchain, hlen⟩, fun p hp => hp, Or.inl rfl⟩
          · rw [hw] at h
            obtain ⟨⟨rt, hrt⟩, htop⟩ := materializePyFrame_ok_inv hs hflag h
            obtain ⟨st₁, hm, hC⟩ := materializePyFrame_create hs hflag hrt hprev htop
            rw [hm] at h
            simp only [Except.ok.injEq, Prod.mk.injEq] at h
            obtain ⟨_, hst⟩ := h
            subst hst hids
            obtain ⟨h1, h2, h3, h4⟩ := created_keeps_order hstack hchain hlen hs hflag hC
            exact ⟨_, ⟨h1, h2, h3⟩, h4,
              Or.inr ⟨above, j, below, rfl, by rw [hasPyFrame_eq hs]; exact hflag,
                by rw [genOf_eq hs]; exact hp, rfl⟩⟩
  · intro base r st' h
    unfold materializePyFrameForDeopt at h
    cases htsf : st.tstate.shadow_frame with
    | none => simp [htsf, derefNonNull, err_bind] at h
    | some top =>
      cases ids with
      | nil =>
        have : st.tstate.shadow_frame = none := hstack
        rw [htsf] at this
        cases this
      | cons i rest =>
        have hi : st.tstate.shadow_frame = some i := hstack.1
        rw [htsf] at hi
        cases hi
        obtain ⟨q, hq⟩ := LinkedList.valid hstack top (List.mem_cons_self _ _)
        cases hs : st.shadows[top]? with
        | none => simp [State.sPrev, hs] at hq
        | some s =>
          cases hm : materializePyFrame st none top with
          | error e => simp [htsf, derefNonNull, ok_bind, hm, err_bind] at h
          | ok res =>
            obtain ⟨py, st₁⟩ := res
            simp only [htsf, derefNonNull, ok_bind, hm] at h
            cases hrm : JITFrame.removePyFrameUnlinkTrampoline ⟨base⟩ st₁ py with
            | error e => simp [hrm, err_bind] at h
            | ok st₂ =>
              simp only [hrm, ok_bind, pure, Except.pure, Except.ok.injEq, Prod.mk.injEq] at h
              obtain ⟨_, hst⟩ := h
              subst hst
              obtain ⟨hf, ht, hp, hh⟩ := removePyFrameUnlinkTrampoline_ok hrm
              cases hflag : s.hasPyFrame with
              | true =>
                rw [materializePyFrame_flagged hs hflag] at hm
                simp only [Except.ok.injEq, Prod.mk.injEq] at hm
                obtain ⟨_, hst⟩ := hm
                subst hst
                obtain ⟨hinv', hfilter⟩ := order_transfer hf ht hp hh ⟨hstack, hchain, hlen⟩
                exact ⟨fs, hinv', by rw [hfilter]; exact fun p hp => hp, Or.inl rfl⟩
              | false =>
                obtain ⟨⟨rt, hrt⟩, htop⟩ := materializePyFrame_ok_inv hs hflag hm
                obtain ⟨st₁', hm', hC⟩ := materializePyFrame_create hs hflag hrt
                  (fun Q (hQ : (none : Option Nat) = some Q) => by cases hQ) htop
                rw [hm'] at hm
                simp only [Except.ok.injEq, Prod.mk.injEq] at hm
                obtain ⟨_, hst⟩ := hm
                subst hst
                obtain ⟨h1, h2, h3, h4⟩ := @created_keeps_order st _ [] rest fs top s rt
                  hstack hchain hlen hs hflag (by simpa using hC)
                simp only [List.filter_nil, List.length_nil, List.take_zero, List.nil_append,
                  List.drop_zero] at h1 h2 h3 h4
                obtain ⟨hinv', hfilter⟩ := order_transfer hf ht hp hh ⟨h1, h2, h3⟩
                exact ⟨_, hinv', by rw [hfilter]; exact h4, Or.inr rfl⟩

/-- The invariant of C10 holds at `genStack`, where both calls return. -/
theorem chain_order_invariant_witness :
    ChainMatchesShadows genStack [0, 1, 2] [0] ∧
    (∃ st', materializePyFrameForGen genStack 0 = .ok (some 1, st')) ∧
    (∃ st', materializePyFrameForDeopt genStack 0 = .ok (some 0, st')) ∧
    ((∀ gen r st', materializePyFrameForGen genStack gen = .ok (r, st') →
      ∃ fs', ChainMatchesShadows st' [0, 1, 2] fs' ∧
        (∀ p ∈ ([0, 1, 2].filter genStack.hasPyFrame).zip [0],
          p ∈ ([0, 1, 2].filter st'.hasPyFrame).zip fs') ∧
        (fs' = [0] ∨ ∃ above j below, [0, 1, 2] = above ++ j :: below ∧
          genStack.hasPyFrame j = false ∧ genStack.genOf j = some gen ∧
          fs' = [0].take (above.filter genStack.hasPyFrame).length ++
            genStack.frames.length :: [0].drop (above.filter genStack.hasPyFrame).length)) ∧
    (∀ base r st', materializePyFrameForDeopt genStack base = .ok (r, st') →
      ∃ fs', ChainMatchesShadows st' [0, 1, 2] fs' ∧
        (∀ p ∈ ([0, 1, 2].filter genStack.hasPyFrame).zip [0],
          p ∈ ([0, 1, 2].filter st'.hasPyFrame).zip fs') ∧
        (fs' = [0] ∨ fs' = genStack.frames.length :: [0]))) :=
  ⟨⟨⟨rfl, _, rfl, rfl, _, rfl, rfl, _, rfl, rfl⟩, ⟨rfl, _, rfl, rfl⟩, rfl⟩,
    ⟨_, rfl⟩, ⟨_, rfl⟩,
    chain_order_invariant genStack [0, 1, 2] [0]
      ⟨⟨rfl, _, rfl, rfl, _, rfl, rfl, _, rfl, rfl⟩, ⟨rfl, _, rfl, rfl⟩, rfl⟩⟩

/-! ### C11 -/

/-- C11: `removePyFrameUnlinkTrampoline` on a valid frame: if the
return-address slot of the activation holds the trampoline address, the slot
is set to the word stashed in the frame's first empty value-stack slot and
nothing else changes; otherwise the state is unchanged, whatever the frame
pointer.  Consequently `insertPyFrameUnlinkTrampoline` followed by
`removePyFrameUnlinkTrampoline` on the same frame puts the trampoline into the
slot and takes it out again: the slot, and with it every shadow frame, is as
it was before the insert. -/
theorem removePyFrameUnlinkTrampoline_restores (jf : JITFrame) (st : State) (frame : Nat)
    (s : _PyShadowFrame) (f : PyFrameObject)
    (hs : st.shadows[jf.base]? = some s) (hf : st.frames[frame]? = some f) :
    (s.retAddr = st.pyFrameUnlinkTrampoline →
      jf.removePyFrameUnlinkTrampoline st (some frame) =
        .ok (st.setShadow jf.base { s with retAddr := f.stacktop })) ∧
    (s.retAddr ≠ st.pyFrameUnlinkTrampoline →
      ∀ py : Option Nat, jf.removePyFrameUnlinkTrampoline st py = .ok st) ∧
    ∃ st₁ st₂, jf.insertPyFrameUnlinkTrampoline st frame = .ok st₁ ∧
      jf.retAddr st₁ = .ok st.pyFrameUnlinkTrampoline ∧
      jf.removePyFrameUnlinkTrampoline st₁ (some frame) = .ok st₂ ∧
      jf.retAddr st₂ = .ok s.retAddr ∧ st₂.shadows = st.shadows := by
  have hb := lt_of_getElem?_eq_some hs
  have hfl := lt_of_getElem?_eq_some hf
  refine ⟨?_, ?_, ?_⟩
  · intro h
    simp [JITFrame.removePyFrameUnlinkTrampoline, JITFrame.retAddr, JITFrame.setRetAddr,
      State.shadowAt, hs, ok_bind, pure, Except.pure, h, derefNonNull, State.frameAt, hf]
  · intro h py
    simp [JITFrame.removePyFrameUnlinkTrampoline, JITFrame.retAddr, State.shadowAt, hs, ok_bind,
      pure, Except.pure, h]
  · have hins : jf.insertPyFrameUnlinkTrampoline st frame =
        .ok ((st.setFrame frame { f with stacktop := s.retAddr }).setShadow jf.base
          { s with retAddr := st.pyFrameUnlinkTrampoline }) := by
      simp [JITFrame.insertPyFrameUnlinkTrampoline, JITFrame.retAddr, JITFrame.setRetAddr,
        State.shadowAt, hs, ok_bind, pure, Except.pure, State.frameAt, hf, State.setFrame]
    refine ⟨_, (st.setFrame frame { f with stacktop := s.retAddr }).setShadow jf.base s,
      hins, ?_, ?_, ?_, ?_⟩
    · simp [JITFrame.retAddr, State.shadowAt, State.setShadow, State.setFrame, hb, ok_bind,
        pure, Except.pure]
    · simp [JITFrame.removePyFrameUnlinkTrampoline, JITFrame.retAddr, JITFrame.setRetAddr,
        State.shadowAt, State.setShadow, State.setFrame, hb, hfl, ok_bind, pure, Except.pure,
        derefNonNull, State.frameAt]
    · simp [JITFrame.retAddr, State.shadowAt, State.setShadow, State.setFrame, hb, ok_bind,
        pure, Except.pure]
    · simp [State.setShadow, State.setFrame, set_eq_self_of_getElem? hs]

/-- The hypotheses of C11 hold at `interpStack2` for shadow frame 0 and frame 0:
the slot holds the trampoline and the stash is 100. -/
theorem removePyFrameUnlinkTrampoline_restores_witness :
    (interpStack2.shadows[0]?).map (·.retAddr) = some interpStack2.pyFrameUnlinkTrampoline ∧
    (JITFrame.mk 0).removePyFrameUnlinkTrampoline interpStack2 (some 0) =
      .ok (interpStack2.setShadow 0
        { prev := some 1, ptr := .codeRt ⟨10, 20⟩, hasPyFrame := true, retAddr := 100 }) ∧
    ∃ st₁ st₂, (JITFrame.mk 0).insertPyFrameUnlinkTrampoline interpStack2 0 = .ok st₁ ∧
      (JITFrame.mk 0).retAddr st₁ = .ok interpStack2.pyFrameUnlinkTrampoline ∧
      (JITFrame.mk 0).removePyFrameUnlinkTrampoline st₁ (some 0) = .ok st₂ ∧
      (JITFrame.mk 0).retAddr st₂ = .ok 7777 ∧ st₂.shadows = interpStack2.shadows :=
  ⟨rfl,
    (removePyFrameUnlinkTrampoline_restores ⟨0⟩ interpStack2 0
      { prev := some 1, ptr := .codeRt ⟨10, 20⟩, hasPyFrame := true, retAddr := 7777 }
      { ob_refcnt := 1, f_back := none, f_code := 10, f_globals := 20, f_gen := none,
        f_executing := 1, stacktop := 100 } rfl rfl).1 rfl,
    (removePyFrameUnlinkTrampoline_restores ⟨0⟩ interpStack2 0
      { prev := some 1, ptr := .codeRt ⟨10, 20⟩, hasPyFrame := true, retAddr := 7777 }
      { ob_refcnt := 1, f_back := none, f_code := 10, f_globals := 20, f_gen := none,
        f_executing := 1, stacktop := 100 } rfl rfl).2.2⟩

/-! ### C12 -/

/-- C12: let the top shadow frame `top` belong to a JIT-compiled function
that is no generator, and let `a` be the original return address of its
activation, which is not the trampoline address.  Then
`materializePyFrameForDeopt(tstate, base)`, with `base` the JIT frame of
`top`, returns, and afterwards the return-address slot holds `a` and not the
trampoline: both when the call created the frame (then `a` is the word the
slot held at entry) and when the frame had been materialized earlier (then the
frame returned is `tstate->frame` and no frame has changed). -/
theorem materializePyFrameForDeopt_restores_retaddr (st : State) (top : Nat)
    (s : _PyShadowFrame) (rt : CodeRuntime) (a : Nat)
    (htop : st.tstate.shadow_frame = some top)
    (hs : st.shadows[top]? = some s)
    (hptr : s.ptr = .codeRt rt)
    (hvalid : ∀ t, st.tstate.frame = some t → t < st.frames.length)
    (horig : origRetAddr st top = some a)
    (ha : a ≠ st.pyFrameUnlinkTrampoline) :
    ∃ r st', materializePyFrameForDeopt st top = .ok (r, st') ∧
      (JITFrame.mk top).retAddr st' = .ok a ∧
      a ≠ st'.pyFrameUnlinkTrampoline ∧
      (s.hasPyFrame = false → r = some st.frames.length ∧ a = s.retAddr) ∧
      (s.hasPyFrame = true → r = st.tstate.frame ∧ st'.frames = st.frames) := by
  have hb := lt_of_getElem?_eq_some hs
  cases hflag : s.hasPyFrame with
  | false =>
    have hrt : getCodeRuntime st top = .ok rt := by
      simp [getCodeRuntime, _PyShadowFrame_GetPtrKind, _PyShadowFrame_GetPtr, State.shadowAt, hs,
        hptr, ok_bind, pure, Except.pure]
    obtain ⟨st₁, hm, hC⟩ := @materializePyFrame_create st none top s rt hs hflag hrt
      (fun P hP => by cases hP) hvalid
    have ha' : a = s.retAddr := by
      simp [origRetAddr, hs, hflag] at horig
      exact horig.symm
    obtain ⟨f, hf, _, _, _, _, hstash⟩ := hC.new_frame
    have hgen : s.ptr.gen? = none := by simp [hptr, ShadowPtr.gen?]
    obtain ⟨s₁, hs₁, hra₁⟩ : ∃ s₁, st₁.shadows[top]? = some s₁ ∧
        s₁.retAddr = st.pyFrameUnlinkTrampoline := by
      rw [hC.shadows, List.getElem?_set]
      simp [hb, hgen]
    have hb₁ := lt_of_getElem?_eq_some hs₁
    refine ⟨some st.frames.length, st₁.setShadow top { s₁ with retAddr := s.retAddr },
      ?_, ?_, ?_, ?_, ?_⟩
    · simp [materializePyFrameForDeopt, htop, derefNonNull, ok_bind, hm, pure, Except.pure,
        JITFrame.removePyFrameUnlinkTrampoline, JITFrame.retAddr, JITFrame.setRetAddr,
        State.shadowAt, hs₁, hra₁, hC.trampoline, State.frameAt, hf, hstash hgen]
    · simp [JITFrame.retAddr, State.shadowAt, State.setShadow, hb₁, ok_bind, pure, Except.pure,
        ha']
    · simpa [State.setShadow, hC.trampoline] using ha
    · intro _; exact ⟨rfl, ha'⟩
    · intro h; cases h
  | true =>
    have hm := @materializePyFrame_flagged st none top s hs hflag
    simp only at hm
    by_cases hra : s.retAddr = st.pyFrameUnlinkTrampoline
    · obtain ⟨F, f, hF, hf, hfa⟩ : ∃ F f, st.tstate.frame = some F ∧ st.frames[F]? = some f ∧
          f.stacktop = a := by
        cases hF : st.tstate.frame with
        | none => simp [origRetAddr, hs, hflag, hra, hF] at horig
        | some F =>
          cases hf : st.frames[F]? with
          | none => simp [origRetAddr, hs, hflag, hra, hF, hf] at horig
          | some f =>
            simp [origRetAddr, hs, hflag, hra, hF, hf] at horig
            exact ⟨F, f, rfl, hf, horig⟩
      have hfl := lt_of_getElem?_eq_some hf
      refine ⟨st.tstate.frame, st.setShadow top { s with retAddr := a }, ?_, ?_, ?_, ?_, ?_⟩
      · simp [materializePyFrameForDeopt, htop, derefNonNull, ok_bind, hm, pure, Except.pure,
          JITFrame.removePyFrameUnlinkTrampoline, JITFrame.retAddr, JITFrame.setRetAddr,
          State.shadowAt, hs, hra, hF, State.frameAt, hf, hfa]
      · simp [JITFrame.retAddr, State.shadowAt, State.setShadow, hb, ok_bind, pure, Except.pure]
      · simpa [State.setShadow] using ha
      · intro h; cases h
      · intro _; exact ⟨rfl, rfl⟩
    · have ha' : a = s.retAddr := by
        simp [origRetAddr, hs, hflag, hra] at horig
        exact horig.symm
      refine ⟨st.tstate.frame, st, ?_, ?_, ha, ?_, ?_⟩
      · simp [materializePyFrameForDeopt, htop, derefNonNull, ok_bind, hm, pure, Except.pure,
          JITFrame.removePyFrameUnlinkTrampoline, JITFrame.retAddr,
          State.shadowAt, hs, hra]
      · simp [JITFrame.retAddr, State.shadowAt, hs, ok_bind, pure, Except.pure, ha']
      · intro h; cases h
      · intro _; exact ⟨rfl, rfl⟩

/-- The hypotheses of C12 hold at `exampleStack3`, whose top shadow frame has
no frame yet, and at `interpStack2`, whose top shadow frame was materialized
earlier and has the trampoline in its slot; the original return address is
100 in both. -/
theorem materializePyFrameForDeopt_restores_retaddr_witness :
    origRetAddr exampleStack3 0 = some 100 ∧ origRetAddr interpStack2 0 = some 100 ∧
    (∃ r st', materializePyFrameForDeopt exampleStack3 0 = .ok (r, st') ∧
      (JITFrame.mk 0).retAddr st' = .ok 100 ∧ 100 ≠ st'.pyFrameUnlinkTrampoline ∧
      r = some 1) ∧
    (∃ r st', materializePyFrameForDeopt interpStack2 0 = .ok (r, st') ∧
      (JITFrame.mk 0).retAddr st' = .ok 100 ∧ 100 ≠ st'.pyFrameUnlinkTrampoline ∧
      r = some 0) :=
  ⟨rfl, rfl,
    (materializePyFrameForDeopt_restores_retaddr exampleStack3 0
      { prev := some 1, ptr := .codeRt ⟨10, 20⟩, hasPyFrame := false, retAddr := 100 }
      ⟨10, 20⟩ 100 rfl rfl rfl (by intro t ht; cases ht; decide) rfl (by decide)).imp
      fun _ h => h.imp fun _ h => ⟨h.1, h.2.1, h.2.2.1, (h.2.2.2.1 rfl).1⟩,
    (materializePyFrameForDeopt_restores_retaddr interpStack2 0
      { prev := some 1, ptr := .codeRt ⟨10, 20⟩, hasPyFrame := true, retAddr := 7777 }
      ⟨10, 20⟩ 100 rfl rfl rfl (by intro t ht; cases ht; decide) rfl (by decide)).imp
      fun _ h => h.imp fun _ h => ⟨h.1, h.2.1, h.2.2.1, (h.2.2.2.2 rfl).1⟩⟩

/-! ### C13 -/

/-- C13: when the worker threads of a pool of at least one worker run
`compile_worker_thread` on a queue whose units all have a preloader, under
any interleaving, every worker leaves its loop with the queue empty, and the
attempts `W` made meanwhile are one per unit of the queue: every unit popped
is attempted exactly once.  The retry counter has grown by exactly the number
of attempts that returned Retry, and the retry list holds, in addition to
what it held, exactly the units of the attempts that returned Retry, each as
often as it was retried: none dropped, none added. -/
theorem compile_worker_thread_counts_retries (env : CompileEnv) (schedule : List Nat)
    (js : JitState) (hW : 0 < js.batch_compile_workers)
    (hpre : ∀ u ∈ js.g_threaded_compile_context.work_queue,
      (unordered_map_find js.jit_preloaders u).isSome) :
    ∃ js' pcs W,
      multithread_compile_all.workers env schedule js = .ok (js', pcs) ∧
      (∀ pc ∈ pcs, pc = WorkerPc.finished) ∧
      js'.g_threaded_compile_context.work_queue = [] ∧
      js'.compile_log = js.compile_log ++ W ∧
      (W.map (·.unit)).Perm js.g_threaded_compile_context.work_queue ∧
      js'.g_compile_workers_retries =
        js.g_compile_workers_retries + (W.filter Attempt.isRetry).length ∧
      js'.g_threaded_compile_context.retry_list.Perm
        (js.g_threaded_compile_context.retry_list ++ (W.filter Attempt.isRetry).map (·.unit)) := by
  obtain ⟨r, a, n, W, pcs, hw, hpcs, hunits, hretry, hn, -⟩ :=
    workers_spec env schedule js hW hpre
  refine ⟨_, pcs, W, hw, ?_, rfl, rfl, hunits, hn, hretry⟩
  intro pc hpc
  rw [hpcs] at hpc
  exact List.eq_of_mem_replicate hpc

/-- The hypotheses of C13 hold for the two workers of `preloadedState` with
the three units in the queue; function 1 is retried. -/
theorem compile_worker_thread_counts_retries_witness :
    ∃ js' pcs W,
      multithread_compile_all.workers exampleEnv [0, 1, 1, 0]
        (preloadedState.started [.func 1, .code 2, .func 3]) = .ok (js', pcs) ∧
      (∀ pc ∈ pcs, pc = WorkerPc.finished) ∧
      js'.g_threaded_compile_context.work_queue = [] ∧
      js'.compile_log = [] ++ W ∧
      (W.map (·.unit)).Perm [.func 1, .code 2, .func 3] ∧
      js'.g_compile_workers_retries = 0 + (W.filter Attempt.isRetry).length ∧
      js'.g_threaded_compile_context.retry_list.Perm
        ([] ++ (W.filter Attempt.isRetry).map (·.unit)) :=
  compile_worker_thread_counts_retries exampleEnv [0, 1, 1, 0]
    (preloadedState.started [.func 1, .code 2, .func 3]) (by decide) (by decide)

/-! ### C14 -/

/-- C14: in a run of `multithread_compile_all` with at least one worker whose
preload loop has ended, the compile phase ends with every worker out of its
loop, in a state `js₁` whose log holds attempts of worker threads only; the
Drain phase then makes the attempts `D` on the calling thread, and the units
of `D` are exactly the retry list that `endCompile` returns, in list order:
each unit on the list is recompiled once per occurrence and no other unit is
recompiled. -/
theorem multithread_compile_all_drain (env : CompileEnv) (schedule : List Nat) (fuel : Nat)
    (js jsP : JitState) (units : List PyUnit)
    (hctx : js.jit_ctx = true)
    (hp : multithread_compile_all.preload env fuel [] js = .ok (units, jsP))
    (hW : 0 < js.batch_compile_workers)
    (hr : js.g_threaded_compile_context.retry_list = []) :
    ∃ js₁ pcs W D js',
      multithread_compile_all.workers env schedule (jsP.started units) = .ok (js₁, pcs) ∧
      (∀ pc ∈ pcs, pc = WorkerPc.finished) ∧
      js₁.compile_log = js.compile_log ++ W ∧
      (∀ a ∈ W, a.thread ≠ none) ∧
      multithread_compile_all env schedule fuel js = .ok js' ∧
      js'.compile_log = js₁.compile_log ++ D ∧
      (∀ a ∈ D, a.thread = none) ∧
      D.map (·.unit) = js₁.g_threaded_compile_context.endCompile.1 := by
  obtain ⟨r, a, n, W, D, hw, hm, -, -, -, hD, hlogW, hlogD, -, hframe⟩ :=
    multithread_compile_all_spec env schedule fuel js jsP units hctx hp hW hr
  obtain ⟨-, -, -, -, -, -, -, -, -, hlog⟩ := nonRegistry_fields hframe
  refine ⟨_, _, W, D, _, hw, ?_, ?_, ?_, hm, ?_, ?_, ?_⟩
  · intro pc hpc
    exact List.eq_of_mem_replicate hpc
  · simp [JitState.scheduled, JitState.started, hlog]
  · intro a ha
    obtain ⟨_, _, _, ht, -⟩ := hlogW.of_mem ha
    intro hnone
    rw [hnone] at ht
    cases ht
  · simp [JitState.scheduled, JitState.started, JitState.compiled, hlog]
  · intro a ha
    obtain ⟨_, _, _, ht, -⟩ := hlogD.of_mem ha
    cases hth : a.thread with
    | none => rfl
    | some t => rw [hth] at ht; cases ht
  · simpa [JitState.scheduled, ThreadedCompileContext.endCompile] using hD

/-- The hypotheses of C14 hold at `pendingState`. -/
theorem multithread_compile_all_drain_witness :
    ∃ js₁ pcs W D js',
      multithread_compile_all.workers exampleEnv [0, 1, 1, 0]
        (preloadedState.started [.func 1, .code 2, .func 3]) = .ok (js₁, pcs) ∧
      (∀ pc ∈ pcs, pc = WorkerPc.finished) ∧
      js₁.compile_log = pendingState.compile_log ++ W ∧
      (∀ a ∈ W, a.thread ≠ none) ∧
      multithread_compile_all exampleEnv [0, 1, 1, 0] 2 pendingState = .ok js' ∧
      js'.compile_log = js₁.compile_log ++ D ∧
      (∀ a ∈ D, a.thread = none) ∧
      D.map (·.unit) = js₁.g_threaded_compile_context.endCompile.1 :=
  multithread_compile_all_drain exampleEnv [0, 1, 1, 0] 2 pendingState preloadedState
    [.func 1, .code 2, .func 3] rfl rfl (by decide) rfl

/-! ### C15 -/

/-- C15 (amended): let the compile backend answer a worker thread with Ok,
Retry or CannotSpecialize only, and the calling thread in the Drain phase
with Ok or CannotSpecialize only.  Then a run of `multithread_compile_all`
with at least one worker whose preload loop ends with the units `units`
returns, under any interleaving of the workers, and the attempts `L` it made
that ended Done or Declined are one per unit: their units are a permutation
of `units`, so Done + Declined equals the number of units, and when the units
are distinct every unit ends Done or Declined exactly once. -/
theorem multithread_compile_all_done_or_declined (env : CompileEnv) (schedule : List Nat)
    (fuel : Nat) (js jsP : JitState) (units : List PyUnit)
    (hctx : js.jit_ctx = true)
    (hp : multithread_compile_all.preload env fuel [] js = .ok (units, jsP))
    (hW : 0 < js.batch_compile_workers)
    (hr : js.g_threaded_compile_context.retry_list = [])
    (hworker : ∀ log tid u p,
      env.compilePreloader log (some tid) u p = .PYJIT_RESULT_OK ∨
      env.compilePreloader log (some tid) u p = .PYJIT_RESULT_RETRY ∨
      env.compilePreloader log (some tid) u p = .PYJIT_RESULT_CANNOT_SPECIALIZE)
    (hdrain : ∀ log u p,
      env.compilePreloader log none u p = .PYJIT_RESULT_OK ∨
      env.compilePreloader log none u p = .PYJIT_RESULT_CANNOT_SPECIALIZE) :
    ∃ js' L,
      multithread_compile_all env schedule fuel js = .ok js' ∧
      js'.compile_log = js.compile_log ++ L ∧
      ((L.filter (fun a => a.isDone || a.isDeclined)).map (·.unit)).Perm units ∧
      (L.filter Attempt.isDone).length + (L.filter Attempt.isDeclined).length = units.length ∧
      (units.Nodup → ∀ u ∈ units,
        ((L.filter (fun a => a.isDone || a.isDeclined)).map (·.unit)).count u = 1) := by
  obtain ⟨r, a, n, W, D, -, hm, hunits, hretry, -, hD, hlogW, hlogD, -, hframe⟩ :=
    multithread_compile_all_spec env schedule fuel js jsP units hctx hp hW hr
  obtain ⟨-, -, -, -, -, -, -, -, -, hlog⟩ := nonRegistry_fields hframe
  have hWres : ∀ a ∈ W, a.result = .PYJIT_RESULT_OK ∨ a.result = .PYJIT_RESULT_RETRY ∨
      a.result = .PYJIT_RESULT_CANNOT_SPECIALIZE := by
    intro a ha
    obtain ⟨pre, _, _, ht, p, -, hres⟩ := hlogW.of_mem ha
    obtain ⟨tid, htid⟩ := Option.isSome_iff_exists.mp ht
    rw [hres, htid]
    exact hworker _ tid _ _
  have hDres : ∀ a ∈ D, a.result = .PYJIT_RESULT_OK ∨
      a.result = .PYJIT_RESULT_CANNOT_SPECIALIZE := by
    intro a ha
    obtain ⟨pre, _, _, ht, p, -, hres⟩ := hlogD.of_mem ha
    have hnone : a.thread = none := by
      cases hth : a.thread with
      | none => rfl
      | some t => rw [hth] at ht; cases ht
    rw [hres, hnone]
    exact hdrain _ _ _
  have hperm : (((W ++ D).filter (fun a => a.isDone || a.isDeclined)).map (·.unit)).Perm
      units := by
    rw [List.filter_append, filter_final_eq_self hDres, List.map_append, hD]
    refine List.Perm.trans ?_ hunits
    refine List.Perm.trans (List.Perm.append_left _ hretry) ?_
    rw [filter_isRetry_eq_not_final hWres, ← List.map_append]
    exact List.Perm.map _ (List.filter_append_perm _ W)
  refine ⟨_, W ++ D, hm, by simp [JitState.compiled, hlog], hperm, ?_, ?_⟩
  · rw [length_filter_done_add_declined, ← hperm.length_eq, List.length_map]
  · intro hnd u hu
    rw [hperm.count_eq]
    exact List.count_eq_one_of_mem hnd hu

/-- The hypotheses of C15 (amended) hold at `pendingState` with the
backend of `exampleEnv`. -/
theorem multithread_compile_all_done_or_declined_witness :
    ∃ js' L,
      multithread_compile_all exampleEnv [0, 1, 1, 0] 2 pendingState = .ok js' ∧
      js'.compile_log = pendingState.compile_log ++ L ∧
      ((L.filter (fun a => a.isDone || a.isDeclined)).map (·.unit)).Perm
        [.func 1, .code 2, .func 3] ∧
      (L.filter Attempt.isDone).length + (L.filter Attempt.isDeclined).length = 3 ∧
      ([PyUnit.func 1, .code 2, .func 3].Nodup → ∀ u ∈ [PyUnit.func 1, .code 2, .func 3],
        ((L.filter (fun a => a.isDone || a.isDeclined)).map (·.unit)).count u = 1) :=
  multithread_compile_all_done_or_declined exampleEnv [0, 1, 1, 0] 2 pendingState
    preloadedState [.func 1, .code 2, .func 3] rfl rfl (by decide) rfl
    (by
      intro log tid u p
      simp only [exampleEnv]
      split
      · exact Or.inr (Or.inl rfl)
      · split
        · exact Or.inr (Or.inr rfl)
        · exact Or.inl rfl)
    (by
      intro log u p
      simp only [exampleEnv]
      split
      · rename_i h; simp at h
      · split
        · exact Or.inr rfl
        · exact Or.inl rfl)

/-- C15 (as stated) fails for a backend that answers Retry to every call: the
run over the three units of `pendingState` returns, each unit has been
attempted by a worker and again in the Drain phase, and no attempt ended Done
or Declined, so Done + Declined is 0 and not 3. -/
theorem multithread_compile_all_retry_in_drain :
    ∃ js', multithread_compile_all retryEnv [] 2 pendingState = .ok js' ∧
      js'.compile_log.map (·.unit) =
        [.func 1, .code 2, .func 3, .func 1, .code 2, .func 3] ∧
      (js'.compile_log.filter Attempt.isDone).length +
        (js'.compile_log.filter Attempt.isDeclined).length = 0 ∧
      pendingState.jit_reg_units.length = 3 :=
  ⟨_, rfl, rfl, rfl, rfl⟩

/-! ### C16 -/

/-- C16: let the compile backend answer every call with Ok, or with Retry
when the unit has not been answered Retry before, and let it answer Retry to
the first attempt at each of the distinct units `flaky` among the units to
compile.  Then a run of `multithread_compile_all` with at least one worker
whose preload loop ends with the units `units` returns, under any
interleaving of the workers; the attempts that ended Done are one per unit,
so all units are Done, and the retry counter has grown by at least the number
of units of `flaky`. -/
theorem multithread_compile_all_retry_once (env : CompileEnv) (schedule : List Nat)
    (fuel : Nat) (js jsP : JitState) (units flaky : List PyUnit)
    (hctx : js.jit_ctx = true)
    (hp : multithread_compile_all.preload env fuel [] js = .ok (units, jsP))
    (hW : 0 < js.batch_compile_workers)
    (hr : js.g_threaded_compile_context.retry_list = [])
    (hbackend : ∀ log thread u p,
      env.compilePreloader log thread u p = .PYJIT_RESULT_OK ∨
      (env.compilePreloader log thread u p = .PYJIT_RESULT_RETRY ∧
        ∀ a ∈ log, a.unit = u → a.result ≠ .PYJIT_RESULT_RETRY))
    (hnd : flaky.Nodup) (hsub : ∀ u ∈ flaky, u ∈ units)
    (hfirst : ∀ u ∈ flaky, ∀ log thread p, (∀ a ∈ log, a.unit ≠ u) →
      env.compilePreloader log thread u p = .PYJIT_RESULT_RETRY)
    (hlog₀ : ∀ a ∈ js.compile_log, a.unit ∉ flaky) :
    ∃ js' L,
      multithread_compile_all env schedule fuel js = .ok js' ∧
      js'.compile_log = js.compile_log ++ L ∧
      ((L.filter Attempt.isDone).map (·.unit)).Perm units ∧
      (L.filter Attempt.isDone).length = units.length ∧
      js.g_compile_workers_retries + flaky.length ≤ js'.g_compile_workers_retries := by
  obtain ⟨r, a, n, W, D, -, hm, hunits, hretry, hn, hD, hlogW, hlogD, -, hframe⟩ :=
    multithread_compile_all_spec env schedule fuel js jsP units hctx hp hW hr
  obtain ⟨-, -, -, -, -, -, -, -, -, hlog⟩ := nonRegistry_fields hframe
  have hWres : ∀ a ∈ W, a.result = .PYJIT_RESULT_OK ∨ a.result = .PYJIT_RESULT_RETRY := by
    intro a ha
    obtain ⟨pre, _, _, -, p, -, hres⟩ := hlogW.of_mem ha
    rw [hres]
    rcases hbackend (js.compile_log ++ pre) a.thread a.unit p with h | h
    · exact Or.inl h
    · exact Or.inr h.1
  have hDres : ∀ a ∈ D, a.isDone = true := by
    intro a ha
    obtain ⟨pre, _, _, -, p, -, hres⟩ := hlogD.of_mem ha
    rcases hbackend (js.compile_log ++ W ++ pre) a.thread a.unit p with h | h
    · rw [← hres] at h
      simp [Attempt.isDone, h]
    · exfalso
      have hmem : a.unit ∈ (W.filter Attempt.isRetry).map (·.unit) := by
        apply hretry.subset
        rw [← hD]
        exact List.mem_map.mpr ⟨a, ha, rfl⟩
      obtain ⟨b, hb, hbu⟩ := List.mem_map.mp hmem
      obtain ⟨hbW, hbr⟩ := List.mem_filter.mp hb
      refine h.2 b ?_ hbu (by simpa [Attempt.isRetry] using hbr)
      simp [hbW]
  have hperm : (((W ++ D).filter Attempt.isDone).map (·.unit)).Perm units := by
    rw [List.filter_append, List.filter_eq_self.mpr hDres, List.map_append, hD]
    refine List.Perm.trans ?_ hunits
    refine List.Perm.trans (List.Perm.append_left _ hretry) ?_
    rw [filter_isRetry_eq_not_done hWres, ← List.map_append]
    exact List.Perm.map _ (List.filter_append_perm _ W)
  have hflaky : ∀ u ∈ flaky, u ∈ (W.filter Attempt.isRetry).map (·.unit) := by
    intro u hu
    have huW : u ∈ W.map (·.unit) := hunits.symm.subset (hsub u hu)
    obtain ⟨pre, b, post, hW', hbu, hpre⟩ := exists_first (fun b : Attempt => b.unit = u) W
      (by obtain ⟨b, hb, hbu⟩ := List.mem_map.mp huW; exact ⟨b, hb, hbu⟩)
    obtain ⟨-, p, -, hres⟩ := hlogW.mem pre b post hW'
    have hR : b.result = .PYJIT_RESULT_RETRY := by
      rw [hres, hbu]
      apply hfirst u hu
      intro c hc
      rcases List.mem_append.mp hc with hc | hc
      · intro hcu
        exact hlog₀ c hc (hcu ▸ hu)
      · exact hpre c hc
    refine List.mem_map.mpr ⟨b, List.mem_filter.mpr ⟨?_, by simp [Attempt.isRetry, hR]⟩, hbu⟩
    rw [hW']
    simp
  refine ⟨_, W ++ D, hm, by simp [JitState.compiled, hlog], hperm, ?_, ?_⟩
  · rw [← hperm.length_eq, List.length_map]
  · have hle := (List.Nodup.subperm hnd hflaky).length_le
    simp only [List.length_map] at hle
    simp only [JitState.compiled, hn]
    omega

/-- The hypotheses of C16 hold for 100 pending functions, 4 workers and a
backend that answers Retry to the first attempt at each of 10 of them: all
100 units are Done and the retry counter is at least 10. -/
theorem multithread_compile_all_retry_once_witness :
    ∃ js' L,
      multithread_compile_all (flakyEnv ((List.range 10).map PyUnit.func))
        [0, 1, 2, 3, 3, 2, 1, 0] 2 (manyPending 100 4) = .ok js' ∧
      js'.compile_log = (manyPending 100 4).compile_log ++ L ∧
      ((L.filter Attempt.isDone).map (·.unit)).Perm ((List.range 100).map PyUnit.func) ∧
      (L.filter Attempt.isDone).length = ((List.range 100).map PyUnit.func).length ∧
      (manyPending 100 4).g_compile_workers_retries +
        ((List.range 10).map PyUnit.func).length ≤ js'.g_compile_workers_retries :=
  multithread_compile_all_retry_once (flakyEnv ((List.range 10).map PyUnit.func))
    [0, 1, 2, 3, 3, 2, 1, 0] 2 (manyPending 100 4) (manyPreloaded 100 4)
    ((List.range 100).map PyUnit.func) ((List.range 10).map PyUnit.func)
    rfl manyPending_preload (by decide) rfl (flakyEnv_backend _) (by decide)
    (by
      intro u hu
      obtain ⟨i, hi, rfl⟩ := List.mem_map.mp hu
      exact List.mem_map.mpr ⟨i, List.mem_range.mpr (by
        have := List.mem_range.mp hi
        omega), rfl⟩)
    (flakyEnv_first _) (by intro a ha; cases ha)

/-! ### C17 -/

/-- C17 (amended): let every pending unit be a function or a code object
with its entry in `jit_code_data`, let `jit_preloaders` be empty, and let the
registrations that happen during preload enter only units of a finite list
`U` and no unit that has already been taken out of the pending set.  Then the
preload loop of `multithread_compile_all` ends, with `jit_reg_units` empty;
the units `units` handed on to `startCompile` are distinct and are exactly
the units a preloader was constructed for, in that order, and exactly the
keys of `jit_preloaders`; and every unit that was pending at the start or was
registered meanwhile is among them: it has been preloaded exactly once, has
exactly one entry in `jit_preloaders` and occurs exactly once in `units`. -/
theorem multithread_compile_all_preload_drains (env : CompileEnv) (schedule : List Nat)
    (js : JitState) (U : List PyUnit)
    (hpl : js.jit_preloaders = [])
    (hnodup : js.jit_reg_units.Nodup)
    (hdata : ∀ u ∈ js.jit_reg_units, Preloadable js u)
    (hU : ∀ u ∈ js.jit_reg_units, u ∈ U)
    (hfresh : ∀ drained u, ∀ reg ∈ env.preloadRegisters drained u, reg.unit ∉ drained)
    (huniv : ∀ drained u, ∀ reg ∈ env.preloadRegisters drained u, reg.unit ∈ U) :
    ∃ units js' R,
      multithread_compile_all.preload env (U.length + 1) [] js = .ok (units, js') ∧
      (js.jit_ctx = true → multithread_compile_all env schedule (U.length + 1) js =
        multithread_compile_all.compile env schedule units js') ∧
      js'.jit_reg_units = [] ∧
      units.Nodup ∧
      js'.preload_log = js.preload_log ++ units ∧
      js'.jit_preloaders.map Prod.fst = units ∧
      js'.register_log = js.register_log ++ R ∧
      ∀ u, u ∈ js.jit_reg_units ∨ u ∈ R →
        units.count u = 1 ∧ (js'.jit_preloaders.map Prod.fst).count u = 1 := by
  have h0 : PreInv U js.jit_reg_units js [] [] js :=
    ⟨by simpa using hnodup, by simp [hpl], by simp, by simpa using hdata,
      ⟨[], by simp, by simp⟩, by simpa using hU⟩
  obtain ⟨units, js', hp, hinv, hreg⟩ := preload_inv hfresh huniv (U.length + 1) [] js h0
    (by simp)
  obtain ⟨R, hR, hknown⟩ := hinv.known
  have hnd : units.Nodup := by
    have := hinv.nodup
    rw [hreg] at this
    simpa using this
  refine ⟨units, js', R, hp, ?_, hreg, hnd, hinv.plog, hinv.keys, hR, ?_⟩
  · intro hctx
    simp [multithread_compile_all, hctx, hp, ok_bind]
  · intro u hu
    have hmem : u ∈ units := by
      have := hknown u (List.mem_append.mpr hu)
      rw [hreg] at this
      simpa using this
    rw [hinv.keys]
    exact ⟨List.count_eq_one_of_mem hnd hmem, List.count_eq_one_of_mem hnd hmem⟩

/-- The hypotheses of C17 (amended) hold at `pendingState` when the
construction of the preloader of function 1 registers the new function 4. -/
theorem multithread_compile_all_preload_drains_witness :
    ∃ units js' R,
      multithread_compile_all.preload discoverEnv 5 [] pendingState = .ok (units, js') ∧
      (pendingState.jit_ctx = true → multithread_compile_all discoverEnv [0, 1] 5 pendingState =
        multithread_compile_all.compile discoverEnv [0, 1] units js') ∧
      js'.jit_reg_units = [] ∧
      units.Nodup ∧
      js'.preload_log = pendingState.preload_log ++ units ∧
      js'.jit_preloaders.map Prod.fst = units ∧
      js'.register_log = pendingState.register_log ++ R ∧
      ∀ u, u ∈ pendingState.jit_reg_units ∨ u ∈ R →
        units.count u = 1 ∧ (js'.jit_preloaders.map Prod.fst).count u = 1 :=
  multithread_compile_all_preload_drains discoverEnv [0, 1] pendingState
    [.func 1, .code 2, .func 3, .func 4] rfl (by decide)
    (by
      intro u hu
      simp only [pendingState, List.mem_cons, List.mem_singleton, List.not_mem_nil,
        or_false] at hu
      rcases hu with rfl | rfl | rfl
      · trivial
      · simp [Preloadable, pendingState]
      · trivial)
    (by decide)
    (by
      intro drained u reg hreg
      simp only [discoverEnv] at hreg
      split at hreg
      · rename_i h
        simp only [List.mem_singleton] at hreg
        subst hreg
        exact h.2
      · cases hreg)
    (by
      intro drained u reg hreg
      simp only [discoverEnv] at hreg
      split at hreg
      · simp only [List.mem_singleton] at hreg
        subst hreg
        decide
      · cases hreg)

/-- C17 (as stated) fails when a unit that has been taken out of the pending set
is registered again during preload: at `pendingState`, with the construction
of the preloader of function 3 registering code object 2 again, the preload
loop runs a second round; code object 2 is preloaded twice and occurs twice
in the units handed on to `startCompile`. -/
theorem multithread_compile_all_preloads_twice :
    ∃ js', multithread_compile_all.preload reregisterEnv 3 [] pendingState =
        .ok ([.func 1, .code 2, .func 3, .code 2], js') ∧
      js'.preload_log = [.func 1, .code 2, .func 3, .code 2] ∧
      js'.preload_log.count (.code 2) = 2 ∧
      (js'.started [.func 1, .code 2, .func 3, .code 2]).g_threaded_compile_context.work_queue
        = [.func 1, .code 2, .func 3, .code 2] ∧
      PyUnit.code 2 ∈ pendingState.jit_reg_units :=
  ⟨_, rfl, rfl, rfl, rfl, by decide⟩

/-! ### C18 -/

/-- C18 (amended): in a run of `multithread_compile_all` whose preload loop
has ended, `_PyGILState_check_enabled` is 0 in the state the worker threads
are created in and in the state they are joined in, and when the run returns
the flag has its value at entry again.  When no worker is configured, the run
is ended by `JIT_CHECK(jit_config.batch_compile_workers, ...)` after the flag
was cleared, and the flag is left 0; and so it is on every way out of the run
but the return: whenever the run is ended by a failed check, the flag is 0 in
the state it ends in. -/
theorem multithread_compile_all_gil_check (env : CompileEnv) (schedule : List Nat)
    (fuel : Nat) (js jsP : JitState) (units : List PyUnit)
    (hctx : js.jit_ctx = true)
    (hp : multithread_compile_all.preload env fuel [] js = .ok (units, jsP))
    (hr : js.g_threaded_compile_context.retry_list = []) :
    (0 < js.batch_compile_workers →
      ∃ js₁ pcs js',
        (jsP.started units)._PyGILState_check_enabled = 0 ∧
        multithread_compile_all.workers env schedule (jsP.started units) = .ok (js₁, pcs) ∧
        js₁._PyGILState_check_enabled = 0 ∧
        multithread_compile_all env schedule fuel js = .ok js' ∧
        js'._PyGILState_check_enabled = js._PyGILState_check_enabled) ∧
    (js.batch_compile_workers = 0 →
      multithread_compile_all env schedule fuel js = .error (.zeroWorkers, jsP.started units) ∧
      (jsP.started units)._PyGILState_check_enabled = 0) ∧
    (∀ e js', multithread_compile_all env schedule fuel js = .error (e, js') →
      js'._PyGILState_check_enabled = 0) := by
  obtain ⟨-, -, hframe, -⟩ := preload_ok hp
  obtain ⟨-, -, -, -, hgil, hworkers, -, -, -, -⟩ := nonRegistry_fields hframe
  refine ⟨?_, ?_, ?_⟩
  · intro hW
    obtain ⟨r, a, n, W, D, hw, hm, -⟩ :=
      multithread_compile_all_spec env schedule fuel js jsP units hctx hp hW hr
    exact ⟨_, _, _, rfl, hw, rfl, hm, hgil⟩
  · intro hW
    refine ⟨?_, rfl⟩
    have hW₀ : jsP.batch_compile_workers = 0 := by rw [hworkers, hW]
    simp only [multithread_compile_all, hctx, hp, ok_bind, multithread_compile_all.compile,
      hW₀, JitState.started, throw, throwThe, MonadExceptOf.throw]
    rfl
  · intro e js' h
    have h' : multithread_compile_all.compile env schedule units jsP = .error (e, js') := by
      simpa [multithread_compile_all, hctx, hp, ok_bind] using h
    exact compile_abort_gil env schedule units jsP e js' h'

/-- The hypotheses of C18 (amended) hold at `pendingState`, where the flag
is 1 at entry. -/
theorem multithread_compile_all_gil_check_witness :
    pendingState._PyGILState_check_enabled = 1 ∧
    ∃ js₁ pcs js',
      (preloadedState.started [.func 1, .code 2, .func 3])._PyGILState_check_enabled = 0 ∧
      multithread_compile_all.workers exampleEnv [1, 0]
        (preloadedState.started [.func 1, .code 2, .func 3]) = .ok (js₁, pcs) ∧
      js₁._PyGILState_check_enabled = 0 ∧
      multithread_compile_all exampleEnv [1, 0] 2 pendingState = .ok js' ∧
      js'._PyGILState_check_enabled = pendingState._PyGILState_check_enabled :=
  ⟨rfl, (multithread_compile_all_gil_check exampleEnv [1, 0] 2 pendingState preloadedState
    [.func 1, .code 2, .func 3] rfl rfl rfl).1 (by decide)⟩

/-- C18 (as stated) fails on the way out through `JIT_CHECK(
jit_config.batch_compile_workers, "Zero workers for compile")`: at
`zeroWorkersState` the flag is 1 at entry, the run is ended by the check
after the flag was cleared, and the flag is 0 then.  The state is reached
through `multithreaded_compile_test`, which calls `multithread_compile_all`
without a test of the number of workers. -/
theorem multithread_compile_all_abort_leaves_flag :
    zeroWorkersState._PyGILState_check_enabled = 1 ∧
    ∃ js', multithread_compile_all exampleEnv [] 2 zeroWorkersState =
        .error (.zeroWorkers, js') ∧
      js'._PyGILState_check_enabled = 0 ∧
      multithreaded_compile_test exampleEnv [] 2 zeroWorkersState =
        .error (.zeroWorkers, js') :=
  ⟨rfl, _, rfl, rfl, rfl⟩

/-! ### C19 -/

/-- C19 (amended): when a run of `multithread_compile_all` with at least
one worker whose preload loop has ended returns, `jit_reg_units` and
`jit_preloaders` are empty, and `jit_code_data` is as the preload loop left
it: the run does not clear it.  It is `disable_jit`, called with no argument
or with `True`, that clears `jit_code_data` after the run, so that all three
are empty when `disable_jit` returns. -/
theorem multithread_compile_all_clears (env : CompileEnv) (schedule : List Nat)
    (fuel : Nat) (js jsP : JitState) (units : List PyUnit)
    (hctx : js.jit_ctx = true)
    (hp : multithread_compile_all.preload env fuel [] js = .ok (units, jsP))
    (hW : 0 < js.batch_compile_workers)
    (hr : js.g_threaded_compile_context.retry_list = []) :
    (∃ js', multithread_compile_all env schedule fuel js = .ok js' ∧
      js'.jit_reg_units = [] ∧ js'.jit_preloaders = [] ∧
      js'.jit_code_data = jsP.jit_code_data ∧
      ∀ c ∈ js.jit_code_data.map Prod.fst, c ∈ js'.jit_code_data.map Prod.fst) ∧
    ∀ args, args = [] ∨ args = [PyArg.Py_True] →
      ∃ js'', disable_jit env schedule fuel js args = .ok (.Py_None, js'') ∧
        js''.jit_reg_units = [] ∧ js''.jit_code_data = [] ∧ js''.jit_preloaders = [] := by
  obtain ⟨r, a, n, W, D, -, hm, -, -, -, -, -, -, hreg, hframe⟩ :=
    multithread_compile_all_spec env schedule fuel js jsP units hctx hp hW hr
  have hdata : ∀ c ∈ js.jit_code_data.map Prod.fst, c ∈ jsP.jit_code_data.map Prod.fst := by
    have := preload_induction env
      (fun _ s => ∀ c ∈ js.jit_code_data.map Prod.fst, c ∈ s.jit_code_data.map Prod.fst)
      (by
        intro drained u cu s s' hP hs c hc
        obtain ⟨-, -, -, -, -, -, -, h7⟩ := preloadUnit_ok hs
        exact (h7 c).mpr (Or.inl (hP c hc)))
      (fun _ _ h => h) fuel [] js units jsP (fun _ hc => hc) hp
    exact this.1
  refine ⟨⟨_, hm, hreg, rfl, rfl, hdata⟩, ?_⟩
  intro args hargs
  have hW' : js.batch_compile_workers > 0 := hW
  rcases hargs with rfl | rfl
  · refine ⟨_, by simp [disable_jit, hW', hm, ok_bind, pure, Except.pure]; rfl, ?_, rfl, rfl⟩
    exact hreg
  · refine ⟨_, by simp [disable_jit, hW', hm, ok_bind, pure, Except.pure]; rfl, ?_, rfl, rfl⟩
    exact hreg

/-- The hypotheses of C19 (amended) hold at `pendingState`. -/
theorem multithread_compile_all_clears_witness :
    (∃ js', multithread_compile_all exampleEnv [0, 0, 1] 2 pendingState = .ok js' ∧
      js'.jit_reg_units = [] ∧ js'.jit_preloaders = [] ∧
      js'.jit_code_data = preloadedState.jit_code_data ∧
      ∀ c ∈ pendingState.jit_code_data.map Prod.fst, c ∈ js'.jit_code_data.map Prod.fst) ∧
    ∀ args, args = [] ∨ args = [PyArg.Py_True] →
      ∃ js'', disable_jit exampleEnv [0, 0, 1] 2 pendingState args = .ok (.Py_None, js'') ∧
        js''.jit_reg_units = [] ∧ js''.jit_code_data = [] ∧ js''.jit_preloaders = [] :=
  multithread_compile_all_clears exampleEnv [0, 0, 1] 2 pendingState preloadedState
    [.func 1, .code 2, .func 3] rfl rfl (by decide) rfl

/-- C19 (as stated) fails for `jit_code_data`: after the complete run of
`multithread_compile_all` at `pendingState` the entry of code object 2 is
still in `jit_code_data`. -/
theorem multithread_compile_all_keeps_code_data :
    ∃ js', multithread_compile_all exampleEnv [] 2 pendingState = .ok js' ∧
      js'.jit_reg_units = [] ∧ js'.jit_preloaders = [] ∧
      js'.jit_code_data = [(2, ⟨50, 60⟩)] :=
  ⟨_, rfl, rfl, rfl, rfl⟩

/-! ### C20 -/

/-- C22: let `_PyJIT_GenSend` be called on a generator that is not Completed
and has a yield point, with a null or valid frame and, when an exception is
injected, the argument `None`.  Then the resume entry is entered in a state
`st₁` in which the generator is Running, and when the resumed code returns
`result` and leaves the state `st₂`, the call returns `result`, in a state
`st'` such that: if `result` is null and the JIT data still exists, `st'` is
`st₂` with the state of the generator set to Completed; if `result` is null
and the JIT data is gone, `st'` is `st₂`, nothing has been written; and if
`result` is a value, `st'` is `st₂` again, so the generator is Running as at
entry unless the resumed code itself has changed its state. -/
theorem _PyJIT_GenSend_completes (env : GenEnv) (st : State) (gen : Nat) (g : PyGenObject)
    (footer : GenDataFooter) (arg : Option Nat) (exc : Int) (f : Option Nat)
    (finish_yield_from : Int)
    (hg : st.gens[gen]? = some g) (hjd : g.gi_jit_data = some footer)
    (hstate : footer.state ≠ ._PyJitGenState_Completed) (hyp : footer.yieldPoint ≠ none)
    (hexc : exc ≠ 0 → arg = some env.Py_None)
    (hf : ∀ fp, f = some fp → fp < st.frames.length) :
    ∃ (st₁ : State) (result : Option Nat) (st₂ st' : State),
      st₁.genState gen = some ._PyJitGenState_Running ∧
      env.resumeEntry footer.resumeEntry st₁ gen
        (if exc = 0 then (if arg = none then some env.Py_None else arg) else none)
        finish_yield_from = (result, st₂) ∧
      _PyJIT_GenSend env st gen arg exc f finish_yield_from = .ok (result, st') ∧
      (result = none → (st₂.gens[gen]?).bind (·.gi_jit_data) ≠ none →
        st' = st₂.setFooterState gen ._PyJitGenState_Completed ∧
        st'.genState gen = some ._PyJitGenState_Completed) ∧
      (result = none → (st₂.gens[gen]?).bind (·.gi_jit_data) = none → st' = st₂) ∧
      (result ≠ none → st' = st₂ ∧
        (st₂.genState gen = st₁.genState gen →
          st'.genState gen = some ._PyJitGenState_Running)) := by
  obtain ⟨st₁, hgens, h⟩ := _PyJIT_GenSend_enters env st gen g footer arg exc f
    finish_yield_from hg hjd hstate hyp hexc hf
  have hlt := lt_of_getElem?_eq_some hg
  have hrun : st₁.genState gen = some ._PyJitGenState_Running := by
    unfold State.genState
    rw [hgens]
    simp [State.setFooterState, hg, State.setGen, hlt, hjd]
  obtain ⟨result, st₂, hout⟩ : ∃ result st₂, env.resumeEntry footer.resumeEntry st₁ gen
      (if exc = 0 then (if arg = none then some env.Py_None else arg) else none)
      finish_yield_from = (result, st₂) := ⟨_, _, rfl⟩
  rw [hout] at h
  by_cases hres : result = none
  · by_cases hdata : (st₂.gens[gen]?).bind (·.gi_jit_data) = none
    · refine ⟨st₁, result, st₂, st₂, hrun, hout, ?_, ?_, ?_, ?_⟩
      · rw [h]
        simp [hres, hdata]
      · intro _ hne
        exact absurd hdata hne
      · intro _ _
        rfl
      · intro hne
        exact absurd hres hne
    · refine ⟨st₁, result, st₂, st₂.setFooterState gen ._PyJitGenState_Completed, hrun, hout,
        ?_, ?_, ?_, ?_⟩
      · rw [h]
        have : ((st₂.gens[gen]?).bind (·.gi_jit_data)).isSome = true :=
          Option.isSome_iff_ne_none.mpr hdata
        simp [hres, this]
      · intro _ _
        exact ⟨rfl, genState_setFooterState _ hdata⟩
      · intro _ he
        exact absurd he hdata
      · intro hne
        exact absurd hres hne
  · refine ⟨st₁, result, st₂, st₂, hrun, hout, ?_, ?_, ?_, ?_⟩
    · rw [h]
      simp [hres]
    · intro he
      exact absurd he hres
    · intro he
      exact absurd he hres
    · intro _
      exact ⟨rfl, fun h2 => h2.trans hrun⟩

/-- The hypotheses of C22 hold for generator 0 of `justStartedGenState` and
generated code that finishes at once. -/
theorem _PyJIT_GenSend_completes_witness :
    ∃ (st₁ : State) (result : Option Nat) (st₂ st' : State),
      st₁.genState 0 = some ._PyJitGenState_Running ∧
      finishingEnv.resumeEntry 900 st₁ 0 (some 7) 0 = (result, st₂) ∧
      _PyJIT_GenSend finishingEnv justStartedGenState 0 none 0 none 0 = .ok (result, st') ∧
      (result = none → (st₂.gens[0]?).bind (·.gi_jit_data) ≠ none →
        st' = st₂.setFooterState 0 ._PyJitGenState_Completed ∧
        st'.genState 0 = some ._PyJitGenState_Completed) ∧
      (result = none → (st₂.gens[0]?).bind (·.gi_jit_data) = none → st' = st₂) ∧
      (result ≠ none → st' = st₂ ∧
        (st₂.genState 0 = st₁.genState 0 →
          st'.genState 0 = some ._PyJitGenState_Running)) :=
  _PyJIT_GenSend_completes finishingEnv justStartedGenState 0 _ _ none 0 none 0 rfl rfl
    (by decide) (by decide) (by decide) (by intro fp h; cases h)

/-! ### C23 -/

/-- C23: let generator `gen` have JIT data.  If its state is Completed or it
has no yield point, then, whatever the methods of a yield point and
`JITRT_GenJitDataFree` do, `_PyJIT_GenVisitRefs` returns 0,
`_PyJIT_GenYieldFromValue` returns null, both without a call and with the
state as it was, and `_PyJIT_GenDealloc` makes the one call
`JITRT_GenJitDataFree(gen)` and no other.  If it is not Completed and has the
yield point `y`, the three operations call `visitRefs`, `yieldFromValue` and
`releaseRefs` on `y`, once each and on no other yield point, and
`_PyJIT_GenDealloc` frees the JIT data once, after the release. -/
theorem _PyJIT_Gen_teardown_current_yield_point (env : GenYieldPointEnv) (st : State)
    (gen visit arg : Nat) (g : PyGenObject) (footer : GenDataFooter)
    (hg : st.gens[gen]? = some g) (hjd : g.gi_jit_data = some footer) :
    (footer.state = ._PyJitGenState_Completed ∨ footer.yieldPoint = none →
      _PyJIT_GenVisitRefs env st gen visit arg = .ok (0, st, []) ∧
      _PyJIT_GenYieldFromValue env st gen = .ok (none, st, []) ∧
      _PyJIT_GenDealloc env st gen =
        .ok (env.JITRT_GenJitDataFree st gen, [.JITRT_GenJitDataFree gen])) ∧
    (∀ y, footer.state ≠ ._PyJitGenState_Completed → footer.yieldPoint = some y →
      _PyJIT_GenVisitRefs env st gen visit arg =
        .ok ((env.visitRefs y st gen visit arg).1, (env.visitRefs y st gen visit arg).2,
          [.visitRefs y gen visit arg]) ∧
      _PyJIT_GenYieldFromValue env st gen =
        .ok (env.yieldFromValue y st gen, st,
          .yieldFromValue y gen ::
            (match env.yieldFromValue y st gen with
              | some obj => [.Py_INCREF obj]
              | none => [])) ∧
      _PyJIT_GenDealloc env st gen =
        .ok (env.JITRT_GenJitDataFree (env.releaseRefs y st gen) gen,
          [.releaseRefs y gen, .JITRT_GenJitDataFree gen])) := by
  have hgen : st.genAt gen = .ok g := by simp [State.genAt, hg]
  constructor
  · intro h
    rcases h with h | h
    · simp [_PyJIT_GenVisitRefs, _PyJIT_GenYieldFromValue, _PyJIT_GenDealloc, hgen, withState,
        ok_bind, JIT_DCHECK, hjd, State.footerAt, hg, h, pure, Except.pure]
    · simp [_PyJIT_GenVisitRefs, _PyJIT_GenYieldFromValue, _PyJIT_GenDealloc, hgen, withState,
        ok_bind, JIT_DCHECK, hjd, State.footerAt, hg, h, pure, Except.pure]
  · intro y hs hy
    refine ⟨?_, ?_, ?_⟩
    · simp [_PyJIT_GenVisitRefs, hgen, withState, ok_bind, JIT_DCHECK, hjd, State.footerAt, hg,
        hs, hy, pure, Except.pure]
    · simp only [_PyJIT_GenYieldFromValue, hgen, withState, ok_bind, JIT_DCHECK, hjd,
        State.footerAt, hg, hs, hy, pure, Except.pure, ne_eq, not_false_eq_true, decide_True,
        if_true, reduceCtorEq]
      cases env.yieldFromValue y st gen <;> rfl
    · simp [_PyJIT_GenDealloc, hgen, withState, ok_bind, JIT_DCHECK, hjd, State.footerAt, hg,
        hs, hy, pure, Except.pure]

/-- The hypotheses of C23 hold for generator 0 of `completedGenState`, which
is Completed with a yield point left in its footer: no method of the yield
point is called, and the JIT data is freed once. -/
theorem _PyJIT_Gen_teardown_current_yield_point_witness :
    _PyJIT_GenVisitRefs tracingYieldPointEnv completedGenState 0 1 2 =
      .ok (0, completedGenState, []) ∧
    _PyJIT_GenYieldFromValue tracingYieldPointEnv completedGenState 0 =
      .ok (none, completedGenState, []) ∧
    _PyJIT_GenDealloc tracingYieldPointEnv completedGenState 0 =
      .ok (tracingYieldPointEnv.JITRT_GenJitDataFree completedGenState 0,
        [.JITRT_GenJitDataFree 0]) :=
  (_PyJIT_Gen_teardown_current_yield_point tracingYieldPointEnv completedGenState 0 1 2 _ _
    rfl rfl).1 (Or.inl rfl)

/-! ### C24 -/

/-- C24: with no JIT context, `_PyJIT_CompileFunction` returns
`PYJIT_NOT_INITIALIZED` and the state is as it was.  With a JIT context and
outside a batch run, on a function for which `_PyJIT_OnJitList` returns 0 it
returns `PYJIT_RESULT_CANNOT_SPECIALIZE`, whatever the compile backend would
answer, and the state is as it was: the pending set is unchanged and no call
of the backend has been recorded.  For a valid function, `_PyJIT_OnJitList`
returns 0 exactly when there is a JIT list, the code object is not a static
one that is compiled regardless, the lookup by code object does not return 1
and the lookup by module and qualified name returns 0. -/
theorem _PyJIT_CompileFunction_declines (env : CompileEnv) (je : JitEnv) (thread : Option Nat)
    (js : JitState) (func : Nat) :
    (js.jit_ctx = false →
      _PyJIT_CompileFunction env je thread js func = .ok (.PYJIT_NOT_INITIALIZED, js)) ∧
    (js.jit_ctx = true → js.g_threaded_compile_context.compileRunning = false →
      _PyJIT_OnJitList je func = .ok 0 →
      _PyJIT_CompileFunction env je thread js func =
        .ok (.PYJIT_RESULT_CANNOT_SPECIALIZE, js)) ∧
    (∀ fo co, je.funcs[func]? = some fo → je.codes[fo.func_code]? = some co →
      (_PyJIT_OnJitList je func = .ok 0 ↔
        ∃ jit_list, je.g_jit_list = some jit_list ∧
          ¬ (co.co_flags &&& je.CO_STATICALLY_COMPILED ≠ 0 ∧
              je.compile_all_static_functions ≠ 0) ∧
          jit_list.lookupCO fo.func_code ≠ 1 ∧
          jit_list.lookupFO fo.func_module fo.func_qualname = 0)) := by
  refine ⟨?_, ?_, ?_⟩
  · intro h
    simp [_PyJIT_CompileFunction, h, pure, Except.pure]
  · intro h1 h2 h3
    simp [_PyJIT_CompileFunction, h1, h2, h3, withJitState, ok_bind, pure, Except.pure]
  · intro fo co hfo hco
    rw [_PyJIT_OnJitList_eq hfo hco]
    cases hl : je.g_jit_list with
    | none => simp
    | some jit_list =>
      simp only [Except.ok.injEq, Option.some.injEq, exists_eq_left']
      constructor
      · intro h
        split at h
        · cases h
        · rename_i hs
          split at h
          · rename_i hc
            exact ⟨hs, hc, h⟩
          · cases h
      · rintro ⟨hs, hc, h⟩
        rw [if_neg hs, if_pos hc, h]

/-- The hypotheses of C24 hold at `pendingState` for function 1 of
`exampleJitEnv`, which is not on the JIT list. -/
theorem _PyJIT_CompileFunction_declines_witness :
    _PyJIT_OnJitList exampleJitEnv 1 = .ok 0 ∧
    _PyJIT_CompileFunction exampleEnv exampleJitEnv none pendingState 1 =
      .ok (.PYJIT_RESULT_CANNOT_SPECIALIZE, pendingState) :=
  ⟨rfl, (_PyJIT_CompileFunction_declines exampleEnv exampleJitEnv none pendingState 1).2.1
    rfl rfl rfl⟩

/-! ### C25 -/

/-- C25, as far as it holds: on a finite graph of constants
`findNestedCodes` returns, and its result holds every code object that is
eligible and is reached from the root tuple, at any depth, through eligible
code objects only, and no other: a code object is in the result if and only
if it is eligible and is among the root constants or among the constants of a
code object of the result. -/
theorem findNestedCodes_reaches_eligible (je : JitEnv) (module : Nat)
    (root_consts : List PyUnit) (hvalid : ValidConsts je root_consts) :
    ∃ result, findNestedCodes je module root_consts = .ok result ∧
      (∀ c, c ∈ result ↔ ∃ k, ReachIn je module root_consts k c) ∧
      (∀ c, c ∈ result ↔ eligible je module c = true ∧
        (PyUnit.code c ∈ root_consts ∨ ∃ p ∈ result, PyUnit.code c ∈ je.consts p)) := by
  obtain ⟨result, v', hres, hI⟩ := findNestedCodes_spec je module root_consts hvalid
  refine ⟨result, hres, ?_, ?_⟩
  · intro c
    constructor
    · intro hc
      exact hI.reach c (by simpa using hc)
    · rintro ⟨k, hk⟩
      induction hk with
      | root hc he => simpa using hI.closed he (Or.inl hc)
      | step _ hc he ih => simpa using hI.closed he (Or.inr ⟨_, ih, hc⟩)
  · intro c
    constructor
    · intro hc
      exact hI.parent (by simpa using hc)
    · rintro ⟨he, hc⟩
      simpa using hI.closed he hc

/-- The hypothesis of C25, as far as it holds, is met by the root tuple of
code object 0 of `nestedJitEnv`. -/
theorem findNestedCodes_reaches_eligible_witness :
    ∃ result, findNestedCodes nestedJitEnv 50 [.code 1, .object 9, .code 2] = .ok result ∧
      (∀ c, c ∈ result ↔ ∃ k, ReachIn nestedJitEnv 50 [.code 1, .object 9, .code 2] k c) ∧
      (∀ c, c ∈ result ↔ eligible nestedJitEnv 50 c = true ∧
        (PyUnit.code c ∈ [PyUnit.code 1, .object 9, .code 2] ∨
          ∃ p ∈ result, PyUnit.code c ∈ nestedJitEnv.consts p)) :=
  findNestedCodes_reaches_eligible nestedJitEnv 50 [.code 1, .object 9, .code 2]
    nestedJitEnv_valid

/-- C25 fails, against the comment of `findNestedCodes`, which promises any
nested code object that is on the JIT list: in `nestedJitEnv` code object 5 is
eligible and is reached from the root tuple by descending through the code
objects 1, 3 and 4, but code object 4 has no qualified name, its constants are
not searched, and code object 5 is not in the result; neither is the eligible
code object 7, which is nested in code object 6 that is not on the JIT
list. -/
theorem findNestedCodes_skips_nested :
    findNestedCodes nestedJitEnv 50 [.code 1, .object 9, .code 2] = .ok [1, 2, 3] ∧
    Nested nestedJitEnv [.code 1, .object 9, .code 2] 5 ∧
    eligible nestedJitEnv 50 5 = true ∧
    Nested nestedJitEnv [.code 1, .object 9, .code 2] 7 ∧
    eligible nestedJitEnv 50 7 = true :=
  ⟨rfl,
    .step (.step (.step (.root (by decide)) (show PyUnit.code 3 ∈ nestedJitEnv.consts 1 by
      decide)) (show PyUnit.code 4 ∈ nestedJitEnv.consts 3 by decide))
      (show PyUnit.code 5 ∈ nestedJitEnv.consts 4 by decide),
    rfl,
    .step (.step (.root (by decide)) (show PyUnit.code 6 ∈ nestedJitEnv.consts 2 by decide))
      (show PyUnit.code 7 ∈ nestedJitEnv.consts 6 by decide),
    rfl⟩

/-! ### C26 -/

/-- C26: on every finite graph of constants, also one in which a code
object is reached along several paths or lies on a cycle, `findNestedCodes`
returns.  Its result holds no code object twice and eligible code objects
only.  It is in the order of discovery: the result lists, each once and in the
order of their first occurrence, the eligible code objects among the
constants of the root tuple followed by the constants of the first code
object of the result, of the second, and so on.  And it is breadth first:
every code object of the result has a depth, the least number of steps through
eligible code objects it is reached in, and no code object of the result
stands before one of smaller depth. -/
theorem findNestedCodes_breadth_first (je : JitEnv) (module : Nat)
    (root_consts : List PyUnit) (hvalid : ValidConsts je root_consts) :
    ∃ result, findNestedCodes je module root_consts = .ok result ∧
      result.Nodup ∧
      (∀ c ∈ result, eligible je module c = true) ∧
      result = discover (eligible je module) (root_consts ++ result.flatMap je.consts) [] ∧
      (∀ c ∈ result, ∃ k, MinDepth je module root_consts c k) ∧
      result.Pairwise fun a b =>
        ∀ ka kb, MinDepth je module root_consts a ka → MinDepth je module root_consts b kb →
          ka ≤ kb := by
  obtain ⟨result, v', hres, hI⟩ := findNestedCodes_spec je module root_consts hvalid
  have horder := hI.order
  have hsorted := hI.sorted
  simp only [List.append_nil] at horder hsorted
  refine ⟨result, hres, ?_, ?_, horder, ?_, hsorted⟩
  · rw [horder]
    exact discover_nodup _ _
  · intro c hc
    exact (hI.parent (by simpa using hc)).1
  · intro c hc
    obtain ⟨k, hk⟩ := hI.reach c (by simpa using hc)
    obtain ⟨k₀, h, -⟩ := exists_minDepth k hk
    exact ⟨k₀, h⟩

/-- The hypothesis of C26 holds for the root tuple of code object 0 of
`nestedJitEnv`, in which code object 3 is nested both in code object 1 and
in code object 2, and code object 1 is nested in code object 2 again. -/
theorem findNestedCodes_breadth_first_witness :
    ∃ result, findNestedCodes nestedJitEnv 50 [.code 1, .object 9, .code 2] = .ok result ∧
      result.Nodup ∧
      (∀ c ∈ result, eligible nestedJitEnv 50 c = true) ∧
      result = discover (eligible nestedJitEnv 50)
        ([PyUnit.code 1, .object 9, .code 2] ++ result.flatMap nestedJitEnv.consts) [] ∧
      (∀ c ∈ result, ∃ k, MinDepth nestedJitEnv 50 [.code 1, .object 9, .code 2] c k) ∧
      result.Pairwise fun a b =>
        ∀ ka kb, MinDepth nestedJitEnv 50 [.code 1, .object 9, .code 2] a ka →
          MinDepth nestedJitEnv 50 [.code 1, .object 9, .code 2] b kb → ka ≤ kb :=
  findNestedCodes_breadth_first nestedJitEnv 50 [.code 1, .object 9, .code 2]
    nestedJitEnv_valid

/-! ### C27 -/

/-- C27, as far as it holds: while a batch run is in flight,
`_PyJIT_CompileFunction` on a valid function whose code object,
`func->func_code`, has a preloader compiles with that preloader and returns
what the backend answers; if that code object has none, it returns
`PYJIT_RESULT_CANNOT_SPECIALIZE` and the state is as it was.  In either case
the pending set is not modified. -/
theorem _PyJIT_CompileFunction_in_batch (env : CompileEnv) (je : JitEnv)
    (thread : Option Nat) (js : JitState) (func : Nat) (fo : PyFunctionObject)
    (hctx : js.jit_ctx = true)
    (hrun : js.g_threaded_compile_context.compileRunning = true)
    (hfo : je.funcs[func]? = some fo) :
    (∀ preloader,
      unordered_map_find js.jit_preloaders (.code fo.func_code) = some preloader →
      _PyJIT_CompileFunction env je thread js func =
        .ok (env.compilePreloader js.compile_log thread (.code fo.func_code) preloader,
          { js with compile_log := js.compile_log ++
              [⟨thread, .code fo.func_code,
                env.compilePreloader js.compile_log thread (.code fo.func_code) preloader⟩] })) ∧
    (unordered_map_find js.jit_preloaders (.code fo.func_code) = none →
      _PyJIT_CompileFunction env je thread js func =
        .ok (.PYJIT_RESULT_CANNOT_SPECIALIZE, js)) ∧
    (∀ r js', _PyJIT_CompileFunction env je thread js func = .ok (r, js') →
      js'.jit_reg_units = js.jit_reg_units) := by
  have h1 : ∀ preloader,
      unordered_map_find js.jit_preloaders (.code fo.func_code) = some preloader →
      _PyJIT_CompileFunction env je thread js func =
        .ok (env.compilePreloader js.compile_log thread (.code fo.func_code) preloader,
          { js with compile_log := js.compile_log ++
              [⟨thread, .code fo.func_code,
                env.compilePreloader js.compile_log thread (.code fo.func_code) preloader⟩] }) := by
    intro preloader hp
    simp [_PyJIT_CompileFunction, hctx, hrun, JitEnv.funcAt, hfo, withJitState, ok_bind, hp,
      pure, Except.pure]
  have h2 : unordered_map_find js.jit_preloaders (.code fo.func_code) = none →
      _PyJIT_CompileFunction env je thread js func =
        .ok (.PYJIT_RESULT_CANNOT_SPECIALIZE, js) := by
    intro hp
    simp [_PyJIT_CompileFunction, hctx, hrun, JitEnv.funcAt, hfo, withJitState, ok_bind, hp,
      pure, Except.pure]
  refine ⟨h1, h2, ?_⟩
  intro r js' h
  cases hp : unordered_map_find js.jit_preloaders (.code fo.func_code) with
  | none =>
    rw [h2 hp] at h
    cases h
    rfl
  | some preloader =>
    rw [h1 preloader hp] at h
    cases h
    rfl

/-- The hypotheses of C27, as far as it holds, are met at `inFlightState` by
function 0 of `exampleJitEnv`, which has not been preloaded itself: its code
object 2 is a unit of the run, and the function is compiled with the
preloader of that code object. -/
theorem _PyJIT_CompileFunction_in_batch_witness :
    _PyJIT_CompileFunction reregisterEnv exampleJitEnv (some 0) inFlightState 0 =
      .ok (.PYJIT_RESULT_OK,
        { inFlightState with compile_log := [⟨some 0, .code 2, .PYJIT_RESULT_OK⟩] }) ∧
    isPreloaded inFlightState 0 = false :=
  ⟨(_PyJIT_CompileFunction_in_batch reregisterEnv exampleJitEnv (some 0) inFlightState 0
      ⟨2, 50, 72, 60⟩ rfl rfl rfl).1 (.ofCode 2 60 50) rfl, rfl⟩

/-- C27 fails: function 1 has been preloaded for the run that is in flight
at `inFlightState`, under the function as every function unit is;
`isPreloaded` holds and `getPreloader` returns its preloader.  But
`_PyJIT_CompileFunction` looks under the code object of the function, code
object 1, which is no unit of the run, and returns
`PYJIT_RESULT_CANNOT_SPECIALIZE` without a call of the backend, which would
have answered `PYJIT_RESULT_OK`. -/
theorem _PyJIT_CompileFunction_misses_preloaded :
    isPreloaded inFlightState 1 = true ∧
    getPreloader exampleJitEnv inFlightState 1 = .ok (.ofFunction 1) ∧
    reregisterEnv.compilePreloader inFlightState.compile_log (some 0) (.func 1)
      (.ofFunction 1) = .PYJIT_RESULT_OK ∧
    _PyJIT_CompileFunction reregisterEnv exampleJitEnv (some 0) inFlightState 1 =
      .ok (.PYJIT_RESULT_CANNOT_SPECIALIZE, inFlightState) :=
  ⟨rfl, rfl, rfl, rfl⟩

/-! ### C28 -/

/-- C28: let every code object in the pending set have an entry in
`jit_code_data`.  Then the same holds in the state that
`_PyJIT_RegisterFunction`, `_PyJIT_CompileFunction`, `_PyJIT_FuncDestroyed`,
`_PyJIT_CodeDestroyed`, `multithread_compile_all` or `disable_jit` returns
in; and no strict lookup of `jit_code_data` fails: not in `compileUnit` on a
pending unit, not in the loop of `disable_jit` over the pending units, and not
in the preload loop of `multithread_compile_all`, whatever is registered
during preload. -/
theorem registry_invariant_preserved (env : CompileEnv) (je : JitEnv) (js : JitState)
    (hinv : RegistryInv js) :
    (∀ func r js', _PyJIT_RegisterFunction je js func = .ok (r, js') → RegistryInv js') ∧
    (∀ thread func r js',
      _PyJIT_CompileFunction env je thread js func = .ok (r, js') → RegistryInv js') ∧
    (∀ func, RegistryInv (_PyJIT_FuncDestroyed je js func)) ∧
    (∀ code, RegistryInv (_PyJIT_CodeDestroyed je js code)) ∧
    (∀ schedule fuel js',
      multithread_compile_all env schedule fuel js = .ok js' → RegistryInv js') ∧
    (∀ schedule fuel args r js',
      disable_jit env schedule fuel js args = .ok (r, js') → RegistryInv js') ∧
    (∀ unit ∈ js.jit_reg_units, ∀ js'',
      compileUnit env js unit ≠ .error (.mapGetMissingKey, js'')) ∧
    (∀ js'', disable_jit.compileUnits env js.jit_reg_units { js with jit_reg_units := [] } ≠
      .error (.mapGetMissingKey, js'')) ∧
    (∀ fuel js'', multithread_compile_all.preload env fuel [] js ≠
      .error (.mapGetMissingKey, js'')) := by
  have hmulti : ∀ schedule fuel js',
      multithread_compile_all env schedule fuel js = .ok js' → js'.jit_reg_units = [] := by
    intro schedule fuel js' h
    simp only [multithread_compile_all] at h
    by_cases hctx : js.jit_ctx = false
    · simp [hctx, throw, throwThe, MonadExceptOf.throw] at h
      cases h
    · simp only [hctx, if_false] at h
      cases hp : multithread_compile_all.preload env fuel [] js with
      | error e =>
        rw [hp] at h
        cases h
      | ok p =>
        obtain ⟨units, js₁⟩ := p
        rw [hp] at h
        have h1 := (preload_data env fuel [] js hinv).2 units js₁ hp
        have h2 := compile_keeps env schedule units js₁
        change multithread_compile_all.compile env schedule units js₁ = .ok js' at h
        rw [h] at h2
        exact h2.1.trans h1
  refine ⟨?_, ?_, ?_, ?_, ?_, ?_, ?_, ?_, ?_⟩
  · intro func r js' h
    simp only [_PyJIT_RegisterFunction] at h
    split at h
    · cases h
      exact hinv
    · split at h
      · cases h
        exact hinv
      · split at h
        · cases h
        · cases hon : _PyJIT_OnJitList je func with
          | error e =>
            rw [hon] at h
            cases h
          | ok on_list =>
            rw [hon] at h
            simp only [withJitState, ok_bind] at h
            have hinv₁ : RegistryInv
                (if on_list ≠ 0 then ((1 : Int), js.register (.func func)) else (0, js)).2 := by
              split
              · exact hinv.register _
              · exact hinv
            revert h
            generalize (if on_list ≠ 0 then ((1 : Int), js.register (.func func))
              else (0, js)) = p at hinv₁
            obtain ⟨res, js₁⟩ := p
            intro h
            simp only at h hinv₁
            cases hl : je.g_jit_list with
            | none =>
              rw [hl] at h
              cases h
              exact hinv₁
            | some l =>
              rw [hl] at h
              simp only at h
              cases hfo : je.funcAt func with
              | error e =>
                rw [hfo] at h
                cases h
              | ok fo =>
                rw [hfo] at h
                simp only [ok_bind] at h
                cases hco : je.codeAt fo.func_code with
                | error e =>
                  rw [hco] at h
                  cases h
                | ok co =>
                  rw [hco] at h
                  simp only [ok_bind] at h
                  cases hn : findNestedCodes je fo.func_module co.co_consts with
                  | error e =>
                    rw [hn] at h
                    cases h
                  | ok codes =>
                    rw [hn] at h
                    simp only [ok_bind, pure, Except.pure, Except.ok.injEq, Prod.mk.injEq] at h
                    obtain ⟨-, rfl⟩ := h
                    exact RegistryInv.foldl_register
                      (fun code => Registration.code code ⟨fo.func_module, fo.func_globals⟩)
                      codes hinv₁
  · intro thread func r js' h
    simp only [_PyJIT_CompileFunction] at h
    split at h
    · cases h
      exact hinv
    · split at h
      · cases hfo : je.funcAt func with
        | error e =>
          rw [hfo] at h
          cases h
        | ok fo =>
          rw [hfo] at h
          simp only [withJitState, ok_bind] at h
          split at h
          · cases h
            exact hinv
          · cases h
            exact hinv.of_eq rfl rfl
      · cases hon : _PyJIT_OnJitList je func with
        | error e =>
          rw [hon] at h
          cases h
        | ok on_list =>
          rw [hon] at h
          simp only [withJitState, ok_bind] at h
          split at h
          · cases h
            exact hinv
          · cases h
            intro c hc
            exact hinv c ((mem_unordered_set_erase.mp hc).1)
  · intro func
    unfold _PyJIT_FuncDestroyed
    split
    · intro c hc
      exact hinv c ((mem_unordered_set_erase.mp hc).1)
    · exact hinv
  · intro code
    unfold _PyJIT_CodeDestroyed
    split
    · intro c hc
      obtain ⟨hc1, hc2⟩ := mem_unordered_set_erase.mp hc
      have hne : c ≠ code := fun e => hc2 (by rw [e])
      simp only [unordered_map_find_erase hne]
      exact hinv c hc1
    · exact hinv
  · intro schedule fuel js' h
    exact RegistryInv.of_nil (hmulti schedule fuel js' h)
  · intro schedule fuel args r js' h
    simp only [disable_jit] at h
    split at h
    · cases h
      exact hinv
    · split at h
      · cases h
        exact hinv
      · split at h
        · split at h
          · cases hm : multithread_compile_all env schedule fuel js with
            | error e =>
              rw [hm] at h
              cases h
            | ok js₁ =>
              rw [hm] at h
              cases h
              exact RegistryInv.of_nil (hmulti schedule fuel js₁ hm)
          · have hk := compileUnits_keeps env js.jit_reg_units { js with jit_reg_units := [] }
            cases hm : disable_jit.compileUnits env js.jit_reg_units
                { js with jit_reg_units := [] } with
            | error e =>
              rw [hm] at h
              cases h
            | ok js₁ =>
              rw [hm] at h hk
              cases h
              exact RegistryInv.of_nil hk.1
        · cases h
          exact hinv.of_eq rfl rfl
  · intro unit hu js'' h
    cases unit with
    | func f => simp [compileUnit, pure, Except.pure] at h
    | code c =>
      obtain ⟨d, hd⟩ := Option.isSome_iff_exists.mp (hinv c hu)
      simp [compileUnit, map_get, hd, ok_bind, pure, Except.pure] at h
    | object o => simp [compileUnit, throw, throwThe, MonadExceptOf.throw] at h
  · exact compileUnits_data env js.jit_reg_units _ hinv
  · intro fuel
    exact (preload_data env fuel [] js hinv).1

/-- The hypothesis of C28 holds at `pendingState`, whose one pending code
object 2 has its entry in `jit_code_data`. -/
theorem registry_invariant_preserved_witness :
    RegistryInv pendingState ∧
    RegistryInv (_PyJIT_CodeDestroyed exampleJitEnv pendingState 2) ∧
    ∀ js'', multithread_compile_all.preload reregisterEnv 3 [] pendingState ≠
      .error (.mapGetMissingKey, js'') :=
  have hinv : RegistryInv pendingState := by
    intro c hc
    have : c = 2 := by simpa [pendingState] using hc
    subst this
    rfl
  ⟨hinv, (registry_invariant_preserved reregisterEnv exampleJitEnv pendingState hinv).2.2.2.1 2,
    (registry_invariant_preserved reregisterEnv exampleJitEnv pendingState
      hinv).2.2.2.2.2.2.2.2 3⟩

/-! ### C29 -/

/-- C29: let `materializePyFrame` be called for a shadow frame that has no
frame yet and has a code runtime, with a null or valid predecessor `prev`.
Then it returns a new frame `F`, and the reference counts balance with the
owning links it has created.  With a predecessor `P`, the back link of `P`
points to `F` and `F` has taken over the old back link of `P`; without one,
the back link of `F` is the old top frame.  For a generator, its `gi_frame`
points to `F`.  The count of `F` is one, for the unlinker, plus one with a
predecessor, plus one for a generator.  The count of every other frame is
unchanged, except that without a predecessor the count of the old top frame
has risen by exactly one; in particular the old successor of a predecessor
keeps its count. -/
theorem materializePyFrame_refcounts (st : State) (prev : Option Nat) (sf : Nat)
    (s : _PyShadowFrame) (rt : CodeRuntime)
    (hs : st.shadows[sf]? = some s) (hflag : s.hasPyFrame = false)
    (hrt : getCodeRuntime st sf = .ok rt)
    (hprev : ∀ P, prev = some P → P < st.frames.length)
    (htop : ∀ t, st.tstate.frame = some t → t < st.frames.length) :
    ∃ st', materializePyFrame st prev sf = .ok (some st.frames.length, st') ∧
      (∀ P, prev = some P →
        st'.fBack P = some (some st.frames.length) ∧ st'.fBack st.frames.length = st.fBack P) ∧
      (prev = none → st'.fBack st.frames.length = some st.tstate.frame) ∧
      (∀ gen, s.ptr = .gen gen →
        (st'.gens[gen]?).map (·.gi_frame) = some (some st.frames.length)) ∧
      st'.refcnt st.frames.length =
        some (1 + (if prev.isSome then 1 else 0) + (if s.ptr.gen?.isSome then 1 else 0)) ∧
      ∀ i, i ≠ st.frames.length →
        st'.refcnt i =
          (st.refcnt i).map fun n =>
            if prev = none ∧ st.tstate.frame = some i then n + 1 else n := by
  obtain ⟨st₁, hm, hC⟩ := materializePyFrame_create hs hflag hrt hprev htop
  obtain ⟨st', hm', hR⟩ := materializePyFrame_refcnt hs hflag hrt hprev htop
  rw [hm] at hm'
  simp only [Except.ok.injEq, Prod.mk.injEq, true_and] at hm'
  subst hm'
  refine ⟨st₁, hm, ?_, ?_, ?_, hR.1, hR.2⟩
  · intro P hP
    refine ⟨hC.fBack_prev P hP, ?_⟩
    rw [hC.fBack_new, hP]
    rfl
  · intro hP
    rw [hC.fBack_new, hP]
    rfl
  · intro gen hp
    obtain ⟨o, ho⟩ : ∃ o, st.gens[gen]? = some o := by
      obtain ⟨s', hs', hptr⟩ := getCodeRuntime_ok hrt
      rw [hs] at hs'
      cases hs'
      rcases hptr with hp' | ⟨g', o, _, hp', ho, _⟩
      · rw [hp] at hp'; cases hp'
      · rw [hp] at hp'; cases hp'; exact ⟨o, ho⟩
    rw [hC.gens gen, ho]
    simp [hp]

/-- The hypotheses of C29 hold at `genStack` for the generator's shadow
frame, with frame 0 as predecessor: the new frame 1 ends with three
references, and frame 0 keeps its one. -/
theorem materializePyFrame_refcounts_witness :
    ∃ st', materializePyFrame genStack (some 0) 1 = .ok (some 1, st') ∧
      (∀ P, some 0 = some P →
        st'.fBack P = some (some 1) ∧ st'.fBack 1 = genStack.fBack P) ∧
      ((some 0 : Option Nat) = none → st'.fBack 1 = some genStack.tstate.frame) ∧
      (∀ gen, ShadowPtr.gen 0 = .gen gen → (st'.gens[gen]?).map (·.gi_frame) = some (some 1)) ∧
      st'.refcnt 1 = some 3 ∧
      ∀ i, i ≠ 1 →
        st'.refcnt i =
          (genStack.refcnt i).map fun n =>
            if (some 0 : Option Nat) = none ∧ genStack.tstate.frame = some i then n + 1 else n :=
  materializePyFrame_refcounts genStack (some 0) 1
    { prev := some 2, ptr := .gen 0, hasPyFrame := false, retAddr := 101 } ⟨11, 21⟩
    rfl rfl rfl (by intro P hP; cases hP; decide) (by intro t ht; cases ht; decide)

/-! ### C30 -/

/-- C30, as far as it holds: `get_and_clear_runtime_stats` returns a stats
dictionary only if no call of the C-API it has made has failed, the line
lookups `PyCode_Addr2Line` and the insertions of the entry `guilty_type`
apart; the deopt stats of the runtime are cleared then.  It returns null only
if the last call it has made has failed and is neither of the two.  So a call
that returns null or a negative value makes `get_and_clear_runtime_stats`
return null, unless it is a line lookup or the insertion of `guilty_type`. -/
theorem get_and_clear_runtime_stats_reports (api : CAPI) (deoptStats : List DeoptStatEntry) :
    (∀ stats s', get_and_clear_runtime_stats api ⟨[], deoptStats⟩ = (some stats, s') →
      CheckedCalls api s'.calls ∧ s'.deoptStats = []) ∧
    (∀ s', get_and_clear_runtime_stats api ⟨[], deoptStats⟩ = (none, s') →
      FailedLast api s'.calls) ∧
    (∀ r s' pre c post, get_and_clear_runtime_stats api ⟨[], deoptStats⟩ = (r, s') →
      s'.calls = pre ++ c :: post → api.fails pre c → c.isLineLookup = false →
      c.isGuiltyTypeInsertion = false → r = none) := by
  have h := get_and_clear_runtime_stats_sat api ⟨[], deoptStats⟩ (CheckedCalls.nil api)
  have h1 : ∀ stats s', get_and_clear_runtime_stats api ⟨[], deoptStats⟩ = (some stats, s') →
      CheckedCalls api s'.calls ∧ s'.deoptStats = [] := by
    intro stats s' he
    rw [he] at h
    exact h
  refine ⟨h1, ?_, ?_⟩
  · intro s' he
    rw [he] at h
    exact h
  · intro r s' pre c post he hcalls hf hl hg
    cases r with
    | none => rfl
    | some stats =>
      exfalso
      rcases (h1 stats s' he).1 pre c post hcalls hf with h2 | h2
      · rw [hl] at h2
        cases h2
      · rw [hg] at h2
        cases h2

/-- The hypotheses of C30, as far as it holds, are met by a C-API in which
the insertion of the entry `count` fails: `get_and_clear_runtime_stats`
returns null. -/
theorem get_and_clear_runtime_stats_reports_witness :
    (get_and_clear_runtime_stats countFailsCAPI ⟨[], exampleDeoptStats⟩).1 = none ∧
    FailedLast countFailsCAPI
      (get_and_clear_runtime_stats countFailsCAPI ⟨[], exampleDeoptStats⟩).2.calls :=
  ⟨rfl, (get_and_clear_runtime_stats_reports countFailsCAPI exampleDeoptStats).2.1 _ rfl⟩

/-- C30 fails for the insertion of the entry `guilty_type`: with a C-API in
which that call of `PyDict_SetItem` returns -1 and every other call succeeds,
`get_and_clear_runtime_stats` makes the call, goes on to `PyList_Append` and
`PyDict_SetItemString`, and returns the stats dictionary, not null. -/
theorem get_and_clear_runtime_stats_swallows_guilty_type :
    (get_and_clear_runtime_stats guiltyTypeFailsCAPI ⟨[], exampleDeoptStats⟩).1 = some 1000 ∧
    (get_and_clear_runtime_stats guiltyTypeFailsCAPI ⟨[], exampleDeoptStats⟩).2.calls.drop 19 =
      [.PyDict_SetItem 1007 .s_str_guilty_type 1018, .PyList_Append 1001 1006,
       .PyDict_SetItemString 1000 "deopt" 1001] ∧
    guiltyTypeFailsCAPI.fails
      ((get_and_clear_runtime_stats guiltyTypeFailsCAPI ⟨[], exampleDeoptStats⟩).2.calls.take 19)
      (.PyDict_SetItem 1007 .s_str_guilty_type 1018) ∧
    (get_and_clear_runtime_stats countFailsCAPI ⟨[], exampleDeoptStats⟩).1 = none :=
  ⟨by decide!, by decide!, Or.inr ⟨rfl, by decide⟩, rfl⟩

end jit
